import Mathlib

/-! # Declaration-to-metadata extraction (`ASTVisitor`)

A shallow embedding of the entity store and of the walker operations of
`src/lib/AST/ASTVisitor.cpp`, with the properties proved about them.

References into the store (`Info*`, `InfoTy&`) are modelled by the identity
of the entity: a write through a reference is an update of the stored entity
found under that identity, which is the entity `find` returns.
Fatal assertions (`MRDOX_ASSERT`, `MRDOX_UNREACHABLE`) end a computation with
an `Except.error`.
-/

namespace Mrdox

/-! ## Identities -/

/-- A symbol identity: `value_type data_[20]` of `SymbolID`. -/
structure SymbolID where
  data : List (Fin 256)
  size_eq : data.length = 20
  deriving DecidableEq

namespace SymbolID

/-- The identity all of whose 20 bytes are `b`. -/
def fill (b : Fin 256) : SymbolID := ⟨List.replicate 20 b, by simp⟩

/-- The constant `SymbolID::invalid = SymbolID()`: every byte is zero. -/
def invalid : SymbolID := fill 0

/-- The constant `SymbolID::global`: twenty bytes `0xFF`. -/
def global : SymbolID := fill 255

/-- Modelled from the spec: the constant `SymbolID::zero`, which
`ASTVisitor.cpp` and `Info.hpp` use and which no file at hand declares. The
spec names two reserved constants, `invalid` and `global`, and no `zero`; by
its name the constant is given the bytes of the sentinel `invalid`. The
theorems about the walker use the constant by its name. -/
def zero : SymbolID := fill 0

end SymbolID

/-! ## Entities -/

/-- The variant discriminator `enum class InfoKind` of `Info.hpp`. -/
inductive InfoKind
  | Namespace
  | Record
  | Function
  | Enum
  | Typedef
  | Variable
  | Field
  | Specialization
  deriving DecidableEq, Repr

/-- The access of a declaration, `AccessKind`, as used by `Info::Access`. -/
inductive AccessKind
  | None
  | Public
  | Protected
  | Private
  deriving DecidableEq, Repr

/-- The extraction mode `ASTVisitor::ExtractMode`. -/
inductive ExtractMode
  | Normal
  | DirectDependency
  | IndirectDependency
  deriving DecidableEq, Repr

/-- The fatal contract violations of the walker. -/
inductive Fault
  -- `MRDOX_ASSERT(info->Kind == InfoTy::kind_id)` in `getOrCreateInfo`
  | kindMismatch
  -- `MRDOX_ASSERT(I.Namespace.empty())` in `getParentNamespaces`
  | namespaceNotEmpty
  -- `MRDOX_ASSERT(! qt.isNull())` in `buildTypeInfo` and `buildTemplateArg`
  | nullQualType
  -- `MRDOX_ASSERT(! NNS || ! T->getQualifier())` in `buildTypeInfo`
  | secondQualifier
  -- the assertion on the kind of the terminal node in `buildTypeInfo`
  | terminalKind
  -- `MRDOX_UNREACHABLE()` in the `Pack` case of `buildTemplateArg`
  | unreachablePack
  -- any other `MRDOX_ASSERT` or `MRDOX_UNREACHABLE`
  | other
  -- not a fault of the source: a reference `I` that is followed while no
  -- entity with its identity is stored
  | danglingReference
  deriving DecidableEq, Repr

/-- A source location, `Location`, as constructed by `addSourceLocation`:
`(line, file_.str(), isFileInRootDir_)`. -/
structure Location where
  LineNumber : Nat
  Filename : String
  IsFileInRootDir : Bool
  deriving DecidableEq, Repr


/-! ## Type descriptors and template arguments

The declarations of `TypeInfo`, `TArg` and `TParam` are not among the source
files; the nodes and their fields are those `buildTypeInfo`,
`buildTemplateArg` and `buildTemplateParam` construct and assign. -/

/-- A possibly null `Info*` (or the identity stored in its place): the
identity of the entity referred to, `none` for a null pointer. -/
abbrev InfoPtr := Option SymbolID

/-- Modelled from the spec: the result type of `convertToQualifierKind`, the
cv-qualifiers of a descriptor node. -/
structure QualifierKind where
  isConst : Bool
  isVolatile : Bool
  deriving DecidableEq, Repr

/-- Modelled from the spec: `convertToQualifierKind` of
`ASTVisitorHelpers.hpp`, which is not among the source files. The fast
qualifier bits of the front-end are const = 1, restrict = 2, volatile = 4;
the descriptor keeps const and volatile. -/
def convertToQualifierKind (quals : Nat) : QualifierKind :=
  ⟨quals.testBit 0, quals.testBit 2⟩

/-- The result of `convertToReferenceKind`. -/
inductive ReferenceKind
  | None
  | LValue
  | RValue
  deriving DecidableEq, Repr

/-- The result of `convertToNoexceptKind`, kept as the front-end gives it. -/
abbrev NoexceptKind := Nat

/-- An expression as written, `ExprInfo`, with the evaluated value of
`ConstantExprInfo` when there is one. -/
structure ConstantExprInfo where
  Written : String := ""
  Value : Option Int := none
  deriving DecidableEq, Repr

mutual
/-- Modelled from the spec: a type descriptor node. A link to another
descriptor is a `std::unique_ptr<TypeInfo>` and may be null. -/
inductive TypeInfo
  | Builtin (IsPackExpansion : Bool) (CVQualifiers : QualifierKind) (Name : String)
  | Tag (IsPackExpansion : Bool) (CVQualifiers : QualifierKind)
      (ParentType : Option TypeInfo) (Name : String) (id : InfoPtr)
  | Specialization (IsPackExpansion : Bool) (CVQualifiers : QualifierKind)
      (ParentType : Option TypeInfo) (Name : String) (id : InfoPtr)
      (TemplateArgs : List (Option TArg))
  | LValueReference (IsPackExpansion : Bool) (PointeeType : Option TypeInfo)
  | RValueReference (IsPackExpansion : Bool) (PointeeType : Option TypeInfo)
  | Pointer (IsPackExpansion : Bool) (CVQualifiers : QualifierKind)
      (PointeeType : Option TypeInfo)
  | MemberPointer (IsPackExpansion : Bool) (CVQualifiers : QualifierKind)
      (ParentType : Option TypeInfo) (PointeeType : Option TypeInfo)
  | Array (IsPackExpansion : Bool) (Bounds : ConstantExprInfo)
      (ElementType : Option TypeInfo)
  | Function (IsPackExpansion : Bool) (ReturnType : Option TypeInfo)
      (ParamTypes : List (Option TypeInfo)) (CVQualifiers : QualifierKind)
      (RefQualifier : ReferenceKind) (ExceptionSpec : NoexceptKind)
/-- Modelled from the spec: a template argument. There is no pack variant:
a pack is flattened into its elements. -/
inductive TArg
  | TypeTArg (IsPackExpansion : Bool) (Type_ : Option TypeInfo)
  | NonTypeTArg (IsPackExpansion : Bool) (Value : ConstantExprInfo)
  | TemplateTArg (IsPackExpansion : Bool) (Name : String) (Template : InfoPtr)
end

namespace TypeInfo

/-- The terminal kinds: `isBuiltin() || isTag() || isSpecialization()`. -/
def isTerminal : TypeInfo → Bool
  | Builtin .. => true
  | Tag .. => true
  | Specialization .. => true
  | _ => false

/-- The inner-type link of a structural wrapper (`PointeeType`,
`ElementType`, `ReturnType`); a terminal node has none. -/
def inner? : TypeInfo → Option (Option TypeInfo)
  | LValueReference _ p => some p
  | RValueReference _ p => some p
  | Pointer _ _ p => some p
  | MemberPointer _ _ _ p => some p
  | Array _ _ e => some e
  | Function _ r _ _ _ _ => some r
  | _ => none

/-- Assignment through the inner-type link of a wrapper node. -/
def setInner (x : Option TypeInfo) : TypeInfo → TypeInfo
  | LValueReference k _ => LValueReference k x
  | RValueReference k _ => RValueReference k x
  | Pointer k q _ => Pointer k q x
  | MemberPointer k q c _ => MemberPointer k q c x
  | Array k b _ => Array k b x
  | Function k _ ps q r e => Function k x ps q r e
  | t => t

/-- The flag `IsPackExpansion` of a node. -/
def IsPackExpansion : TypeInfo → Bool
  | Builtin k .. => k
  | Tag k .. => k
  | Specialization k .. => k
  | LValueReference k .. => k
  | RValueReference k .. => k
  | Pointer k .. => k
  | MemberPointer k .. => k
  | Array k .. => k
  | Function k .. => k

/-- Assignment to the flag `IsPackExpansion` of a node. -/
def setIsPackExpansion (b : Bool) : TypeInfo → TypeInfo
  | Builtin _ q n => Builtin b q n
  | Tag _ q p n i => Tag b q p n i
  | Specialization _ q p n i a => Specialization b q p n i a
  | LValueReference _ p => LValueReference b p
  | RValueReference _ p => RValueReference b p
  | Pointer _ q p => Pointer b q p
  | MemberPointer _ q c p => MemberPointer b q c p
  | Array _ n e => Array b n e
  | Function _ r ps q rq e => Function b r ps q rq e

/-- The test `requires { t.ParentType; }`: the node is of a class with the
member `ParentType`. -/
def hasParentType : TypeInfo → Bool
  | Tag .. => true
  | Specialization .. => true
  | MemberPointer .. => true
  | _ => false

/-- Assignment to `ParentType` of a terminal node that has the member
(`requires { t.ParentType; }`): tag and specialization nodes. -/
def setParentType (x : Option TypeInfo) : TypeInfo → TypeInfo
  | Tag k q _ n i => Tag k q x n i
  | Specialization k q _ n i a => Specialization k q x n i a
  | t => t

end TypeInfo

/-- Modelled from the spec: a template parameter (type, non-type or
template), with its name, pack flag and optional default argument. -/
inductive TParam
  | TypeTParam (Name : String) (IsParameterPack : Bool) (KeyKindTypename : Bool)
      (Default : Option TArg)
  | NonTypeTParam (Name : String) (IsParameterPack : Bool) (Type_ : Option TypeInfo)
      (Default : Option TArg)
  | TemplateTParam (Name : String) (IsParameterPack : Bool)
      (Params : List (Option TParam)) (Default : Option TArg)

/-- The template head of an entity, `TemplateInfo`: as written by
`parseTemplateParams` and `parseTemplateArgs`. -/
structure TemplateInfo where
  Params : List (Option TParam) := []
  Args : List (Option TArg) := []
  Primary : InfoPtr := none

/-- Primary and specialized members of `SpecializedMember`
(`Specialization.hpp`). -/
structure SpecializedMember where
  Primary : InfoPtr
  Specialized : InfoPtr
  deriving DecidableEq

/-- A base of a record: `(type, access, isVirtual)` as `buildRecord`
emplaces it into `Bases`. -/
structure BaseInfo where
  Type_ : Option TypeInfo
  Access : AccessKind
  IsVirtual : Bool

/-- A function parameter: `(type, name, default)` as `buildFunction`
emplaces it into `Params`. -/
structure Param where
  Type_ : Option TypeInfo
  Name : String
  Default : String

/-- An enumerator as `parseEnumerators` records it. -/
structure EnumValueInfo where
  Name : String
  Initializer : ConstantExprInfo := {}
  javadoc : Option String := none

/-- The locations of `SourceInfo`: at most one definition, and the
declarations. -/
structure SourceInfo where
  DefLoc : Option Location := none
  Loc : List Location := []

/-- Modelled from the spec: the default member initialiser of
`Info::Implicit`. The field is read and written by `getOrCreateInfo` but its
declaration is not in the `Info.hpp` at hand; the spec has an entity created
outside `Normal` mode marked implicit, which with `Implicit &= ...` needs the
flag to start out `true`. -/
def Info.implicitDefault : Bool := true

/-- An entity. One record holds the members of `Info` (`Info.hpp`), of
`SourceInfo` and of the eight derived classes that the walker reads or
writes; a member of a class other than the entity's own keeps its default.
Members named `Members` in several classes are told apart by their element
type. -/
structure Info extends SourceInfo where
  -- `Info`
  id : SymbolID := SymbolID.zero
  Kind : InfoKind
  Access : AccessKind := AccessKind.None
  Name : String := ""
  Namespace : List InfoPtr := []
  javadoc : Option String := none
  Implicit : Bool := Info.implicitDefault
  -- `NamespaceInfo`, `RecordInfo`
  Members : List InfoPtr := []
  Specializations : List InfoPtr := []
  isInline : Bool := false
  isAnonymous : Bool := false
  -- `RecordInfo`
  IsTypeDef : Bool := false
  KeyKind : Nat := 0
  isFinal : Bool := false
  isFinalDestructor : Bool := false
  Bases : List BaseInfo := []
  Friends : List InfoPtr := []
  -- `RecordInfo`, `FunctionInfo`, `TypedefInfo`, `VariableInfo`
  Template : Option TemplateInfo := none
  -- `FunctionInfo`: the raw bits of `specs0` and `specs1`, the class, the
  -- parameters and the return type
  specs0 : Nat := 0
  specs1 : Nat := 0
  Class : Nat := 0
  Params : List Param := []
  ReturnType : Option TypeInfo := none
  -- `EnumInfo`
  Scoped : Bool := false
  UnderlyingType : Option TypeInfo := none
  Enumerators : List EnumValueInfo := []
  -- `TypedefInfo`, `VariableInfo`, `FieldInfo`
  Type_ : Option TypeInfo := none
  IsUsing : Bool := false
  -- `VariableInfo`: the members of `specs`
  storageClass : Nat := 0
  isThreadLocal : Bool := false
  isConstinit : Bool := false
  constexprKind : Nat := 0
  -- `FieldInfo`: the members of `specs`
  hasNoUniqueAddress : Bool := false
  isDeprecated : Bool := false
  isMaybeUnused : Bool := false
  -- `FieldInfo`
  IsMutable : Bool := false
  IsBitfield : Bool := false
  BitfieldWidth : ConstantExprInfo := {}
  -- `SpecializationInfo`
  Args : List (Option TArg) := []
  Primary : InfoPtr := none
  SpecializedMembers : List SpecializedMember := []

/-- The object `std::make_unique<InfoTy>(id)`: the constructor
`IsInfo<K>(ID)` sets the identity and the kind, every other member has its
default. -/
def Info.create (K : InfoKind) (id : SymbolID) : Info :=
  { id := id, Kind := K }

/-! ## The entity store -/

/-- Modelled from the spec: `UnresolvedInfoSet`, whose declaration is not
among the source files: a set of owned entities addressed by identity, here
in insertion order. -/
abbrev InfoSet := List Info

namespace InfoSet

/-- Modelled from the spec: `info_.find(id)`, the entity stored under `id`,
if any. -/
def find (s : InfoSet) (id : SymbolID) : Option Info :=
  List.find? (fun i => i.id == id) s

/-- Modelled from the spec: `info_.emplace(ptr)`; insertion is idempotent,
an identity already present keeps its owner. -/
def emplace (s : InfoSet) (i : Info) : InfoSet :=
  match find s i.id with
  | some _ => s
  | none => s ++ [i]

/-- A write through the pointer `find` returned for `id`: `f` is applied to
the entity found. -/
def update : InfoSet → SymbolID → (Info → Info) → InfoSet
  | [], _, _ => []
  | i :: s, id, f => if i.id == id then f i :: s else i :: update s id f

/-- The store invariant: no two entities have the same identity. -/
def WF (s : InfoSet) : Prop := (s.map Info.id).Nodup

instance (s : InfoSet) : Decidable (WF s) := by unfold WF; infer_instance

end InfoSet

/-! ## The visitor -/

/-- The extraction policy `Config::ExtractOptions::Policy`. -/
inductive Policy
  | Always
  | Dependency
  | Never
  deriving DecidableEq

/-- The options `Config::ExtractOptions`, with their defaults. -/
structure ExtractOptions where
  referencedDeclarations : Policy := Policy.Dependency
  anonymousNamespaces : Policy := Policy.Always
  inaccessibleMembers : Policy := Policy.Always
  inaccessibleBases : Policy := Policy.Always

/-- The configuration the walker reads: the extraction options, and the
file filter `shouldExtractFromFile(file, prefix)` of `ConfigImpl`, which is
not among the source files and is taken as given: it returns whether the
file is extracted and the path that is cut off its name. -/
structure ConfigImpl where
  extract : ExtractOptions := {}
  shouldExtractFromFile : String → Bool × String := fun _ => (true, "")

/-- An entry of `fileFilter_`: `ASTVisitor::FileFilter`. -/
structure FileFilter where
  pathPrefix : String := ""
  include_ : Bool := true

/-- The mutable state of `ASTVisitor` that the walker operations read and
write. `firstBuilds` is a ghost member, not in the source: it logs the
identity of the entity each time the first-build part of a per-kind build
step (the part after `if(! created) return;`) starts. -/
structure ASTVisitor where
  config_ : ConfigImpl := {}
  info_ : InfoSet := []
  fileFilter_ : List (Nat × FileFilter) := []
  file_ : String := ""
  isFileInRootDir_ : Bool := false
  mode : ExtractMode := ExtractMode.Normal
  firstBuilds : List SymbolID := []

namespace ASTVisitor

/-- The accessor `currentMode()`. -/
def currentMode (v : ASTVisitor) : ExtractMode := v.mode

/-- The lookup `findInfo(const SymbolID&)`: `info_.find(id)`. -/
def findInfo (v : ASTVisitor) (id : SymbolID) : Option Info :=
  InfoSet.find v.info_ id

/-- The write `info->Implicit &= currentMode() != ExtractMode::Normal`. -/
def clearImplicit (m : ExtractMode) (i : Info) : Info :=
  { i with Implicit := i.Implicit && (m != ExtractMode.Normal) }

/-- The operation `getOrCreateInfo<InfoTy>(id)`, with `K = InfoTy::kind_id`.
Returns the new state, the entity referred to by the returned reference (as
it is after the call) and `created`. -/
def getOrCreateInfo (v : ASTVisitor) (K : InfoKind) (id : SymbolID) :
    Except Fault (ASTVisitor × Info × Bool) :=
  let found := v.findInfo id
  let (store, info, created) :=
    match found with
    | some i => (v.info_, i, false)
    | none => (InfoSet.emplace v.info_ (Info.create K id), Info.create K id, true)
  if info.Kind ≠ K then
    Except.error Fault.kindMismatch
  else
    Except.ok
      ({ v with info_ := InfoSet.update store id (clearImplicit v.currentMode) },
       clearImplicit v.currentMode info, created)

/-- The operation `addSourceLocation(I, line, definition)`. -/
def addSourceLocation (v : ASTVisitor) (I : SourceInfo) (line : Nat)
    (definition : Bool) : SourceInfo :=
  if definition then
    if I.DefLoc.isSome then I
    else { I with DefLoc := some ⟨line, v.file_, v.isFileInRootDir_⟩ }
  else
    match I.Loc.find? (fun l => l.LineNumber == line && l.Filename == v.file_) with
    | some _ => I
    | none => { I with Loc := I.Loc ++ [⟨line, v.file_, v.isFileInRootDir_⟩] }

end ASTVisitor

/-! ## The front-end's types (consumed)

The resolved types, nested-name-specifiers and template arguments that the
front-end hands to the walker, with the accessors `buildTypeInfo` and
`buildTemplateArg` call on them. -/

/-- A declaration named by a type or by a template name, as `makeTypeInfo`
and `buildTemplateArg` query it. The last four members describe the
declaration that `getInstantiatedFrom` and `lookupTypedefInPrimary` resolve
it to. -/
structure NamedDecl where
  -- `getIdentifier()`: the name, when the declaration has a plain identifier
  getIdentifier : Option String
  -- `isa<TemplateTemplateParmDecl>(N)`
  isTemplateTemplateParm : Bool := false
  -- `isa<BuiltinTemplateDecl>(N)`
  isBuiltinTemplate : Bool := false
  -- `N->isImplicit()`
  isImplicit : Bool := false
  -- the identity `extractSymbolID` computes (the hash of the USR), `none`
  -- when the front-end generates no USR
  usrHash : Option SymbolID := none

/-- An expression: its source text, whether it is value-dependent, and the
value `EvaluateKnownConstInt` gives when it is not. -/
structure Expr where
  getSourceCode : String
  isValueDependent : Bool
  EvaluateKnownConstInt : Int

/-- A template name: the template declaration it names, if any, and its
printed form. -/
structure TemplateName where
  getAsTemplateDecl : Option NamedDecl
  print : String

mutual
/-- A possibly null, locally qualified type (`QualType`): the fast
qualifier bits and the type node. -/
inductive QualType
  | null
  | mk (getLocalFastQualifiers : Nat) (getTypePtr : ClangType)
/-- A type node of the front-end (`clang::Type`), by type class.
`VariableArray` and `FunctionNoProto` are two classes without a case in the
switch of `buildTypeInfo`: they go to its `default:` case, with their
spelling; `Other` stands for every other class that goes there. -/
inductive ClangType
  | Paren (getInnerType : QualType)
  | MacroQualified (getUnderlyingType : QualType)
  | Attributed (getModifiedType : QualType)
  | Decayed (getOriginalType : QualType)
  | Adjusted (getOriginalType : QualType)
  | Using (getUnderlyingType : QualType)
  | SubstTemplateTypeParm (getReplacementType : QualType)
  | PackExpansion (getPattern : QualType)
  | Pointer (getPointeeType : QualType)
  | LValueReference (getPointeeType : QualType)
  | RValueReference (getPointeeType : QualType)
  | MemberPointer (getClass : ClangType) (getPointeeType : QualType)
  | FunctionProto (getParamTypes : List QualType) (getRefQualifier : ReferenceKind)
      (getMethodQuals : Nat) (getExceptionSpecType : NoexceptKind)
      (getReturnType : QualType)
  | IncompleteArray (getElementType : QualType)
  | ConstantArray (getSizeExpr : Option Expr) (getSize : Nat) (getElementType : QualType)
  | DependentSizedArray (getSizeExpr : Option Expr) (getElementType : QualType)
  | Auto (getDeducedType : QualType) (getTypeAsString : String)
  | DeducedTemplateSpecialization (getDeducedType : QualType)
      (getAsTemplateDecl : NamedDecl)
  | Elaborated (getQualifier : Option NestedNameSpecifier) (getNamedType : QualType)
  | DependentTemplateSpecialization (getIdentifier : Option String)
      (template_arguments : List TemplateArgument)
      (getQualifier : Option NestedNameSpecifier)
  | DependentName (getIdentifier : Option String)
      (getQualifier : Option NestedNameSpecifier)
  | TemplateSpecialization (nameIsNull : Bool) (getAsTemplateDecl : NamedDecl)
      (isTypeAlias : Bool) (canonicalDecl : Option NamedDecl)
      (template_arguments : List TemplateArgument)
  | Record (getDecl : NamedDecl) (getTemplateArgs : Option (List TemplateArgument))
  | InjectedClassName (getAsTagDecl : NamedDecl)
  | Enum (getAsTagDecl : NamedDecl)
  | Typedef (getDecl : NamedDecl)
  | TemplateTypeParm (getDecl : Option NamedDecl)
  | SubstTemplateTypeParmPack (getIdentifier : Option String)
  | VariableArray (getElementType : QualType) (getTypeAsString : String)
  | FunctionNoProto (getReturnType : QualType) (getTypeAsString : String)
  | Other (getTypeAsString : String)
/-- A nested-name-specifier: one naming a type (`getAsType()` is not null),
one naming an identifier (`getAsIdentifier()` is not null), or any other
(namespace, global, super). -/
inductive NestedNameSpecifier
  | TypeSpec (getPrefix : Option NestedNameSpecifier) (getAsType : ClangType)
  | Identifier (getPrefix : Option NestedNameSpecifier) (getAsIdentifier : String)
  | Other (getPrefix : Option NestedNameSpecifier)
/-- A template argument of the front-end, by the cases of the switch in
`buildTemplateArg`: `Template` stands for `Template` and
`TemplateExpansion`, `NonType` for `NullPtr`, `Declaration`, `Integral` and
`Expression` (with the printed form of the argument and of its expansion
pattern), `Unhandled` for a kind the switch sends to `default:`. -/
inductive TemplateArgument
  | Null
  | Pack (pack_elements : List TemplateArgument)
  | Type (getAsType : QualType)
  | Template (isPackExpansion : Bool) (getAsTemplateOrTemplatePattern : TemplateName)
  | NonType (isPackExpansion : Bool) (print : String) (printPattern : String)
  | Unhandled
end

namespace QualType

/-- The qualified type `withFastQualifiers(quals)`: the bits are or-ed
in; a null type stays null. -/
def withFastQualifiers (quals : Nat) : QualType → QualType
  | null => null
  | mk q t => mk (q ||| quals) t

end QualType

mutual
/-- The number of nodes of a qualified type. -/
def QualType.size : QualType → Nat
  | .null => 0
  | .mk _ t => t.size + 1
/-- The number of nodes of a type. -/
def ClangType.size : ClangType → Nat
  | .Paren t => t.size + 1
  | .MacroQualified t => t.size + 1
  | .Attributed t => t.size + 1
  | .Decayed t => t.size + 1
  | .Adjusted t => t.size + 1
  | .Using t => t.size + 1
  | .SubstTemplateTypeParm t => t.size + 1
  | .PackExpansion t => t.size + 1
  | .Pointer t => t.size + 1
  | .LValueReference t => t.size + 1
  | .RValueReference t => t.size + 1
  | .MemberPointer c t => c.size + t.size + 1
  | .FunctionProto ps _ _ _ r => QualType.listSize ps + r.size + 1
  | .IncompleteArray t => t.size + 1
  | .ConstantArray _ _ t => t.size + 1
  | .DependentSizedArray _ t => t.size + 1
  | .Auto d _ => d.size + 1
  | .DeducedTemplateSpecialization d _ => d.size + 1
  | .Elaborated q t => NestedNameSpecifier.optSize q + t.size + 1
  | .DependentTemplateSpecialization _ as q =>
      TemplateArgument.listSize as + NestedNameSpecifier.optSize q + 1
  | .DependentName _ q => NestedNameSpecifier.optSize q + 1
  | .TemplateSpecialization _ _ _ _ as => TemplateArgument.listSize as + 1
  | .Record _ none => 1
  | .Record _ (some as) => TemplateArgument.listSize as + 1
  | .InjectedClassName _ => 1
  | .Enum _ => 1
  | .Typedef _ => 1
  | .TemplateTypeParm _ => 1
  | .SubstTemplateTypeParmPack _ => 1
  | .VariableArray t _ => t.size + 1
  | .FunctionNoProto t _ => t.size + 1
  | .Other _ => 1
/-- The number of nodes of a list of qualified types. -/
def QualType.listSize : List QualType → Nat
  | [] => 0
  | t :: ts => t.size + QualType.listSize ts + 1
/-- The number of nodes of a nested-name-specifier. -/
def NestedNameSpecifier.size : NestedNameSpecifier → Nat
  | .TypeSpec p t => NestedNameSpecifier.optSize p + t.size + 1
  | .Identifier p _ => NestedNameSpecifier.optSize p + 1
  | .Other p => NestedNameSpecifier.optSize p + 1
/-- The number of nodes of a possibly null nested-name-specifier. -/
def NestedNameSpecifier.optSize : Option NestedNameSpecifier → Nat
  | none => 0
  | some n => n.size + 1
/-- The number of nodes of a template argument. -/
def TemplateArgument.size : TemplateArgument → Nat
  | .Null => 1
  | .Pack es => TemplateArgument.listSize es + 1
  | .Type t => t.size + 1
  | .Template _ _ => 1
  | .NonType _ _ _ => 1
  | .Unhandled => 1
/-- The number of nodes of a list of template arguments. -/
def TemplateArgument.listSize : List TemplateArgument → Nat
  | [] => 0
  | a :: as => a.size + TemplateArgument.listSize as + 1
end

namespace QualType

/-- The test `isNull()`. -/
def isNull : QualType → Bool
  | null => true
  | mk _ _ => false

end QualType

namespace TypeInfo

/-- The assignment `*inner = x`, where `inner` points to the null inner-type
link at the end of the chain of wrappers that starts at this node. -/
def assignInner (x : Option TypeInfo) : TypeInfo → TypeInfo
  | LValueReference k none => LValueReference k x
  | LValueReference k (some p) => LValueReference k (some (assignInner x p))
  | RValueReference k none => RValueReference k x
  | RValueReference k (some p) => RValueReference k (some (assignInner x p))
  | Pointer k q none => Pointer k q x
  | Pointer k q (some p) => Pointer k q (some (assignInner x p))
  | MemberPointer k q c none => MemberPointer k q c x
  | MemberPointer k q c (some p) => MemberPointer k q c (some (assignInner x p))
  | Array k b none => Array k b x
  | Array k b (some e) => Array k b (some (assignInner x e))
  | Function k none ps q r e => Function k x ps q r e
  | Function k (some t) ps q r e => Function k (some (assignInner x t)) ps q r e
  | t => t

/-- The member `ParentType` of a node that has one. -/
def ParentType : TypeInfo → Option TypeInfo
  | Tag _ _ p _ _ => p
  | Specialization _ _ p _ _ _ => p
  | MemberPointer _ _ p _ => p
  | _ => none

/-- The member `id` of a tag or specialization node. -/
def id : TypeInfo → InfoPtr
  | Tag _ _ _ _ i => i
  | Specialization _ _ _ _ i _ => i
  | _ => none

/-- Assignment to the member `id` of a tag or specialization node. -/
def setId (i : InfoPtr) : TypeInfo → TypeInfo
  | Tag k q p n _ => Tag k q p n i
  | Specialization k q p n _ a => Specialization k q p n i a
  | t => t

/-- Assignment to the member `TemplateArgs` of a specialization node. -/
def setTemplateArgs (a : List (Option TArg)) : TypeInfo → TypeInfo
  | Specialization k q p n i _ => Specialization k q p n i a
  | t => t

end TypeInfo

/-- The assignment `*inner = x` on the chain under construction `result`:
`inner` is `&result` while the chain is empty. -/
def assignInner (x : Option TypeInfo) : Option TypeInfo → Option TypeInfo
  | none => x
  | some r => some (r.assignInner x)

/-- The template argument `TypeInfoTy` of `makeTypeInfo`. -/
inductive TypeInfoTy
  | BuiltinTypeInfo
  | TagTypeInfo
  | SpecializationTypeInfo
  deriving DecidableEq

/-- The overload `buildExprInfo(ExprInfo&, const Expr*)` followed, for a
`ConstantExprInfo`, by the evaluation of an expression that is not
value-dependent. -/
def buildExprInfo (I : ConstantExprInfo) (E : Option Expr) : ConstantExprInfo :=
  match E with
  | none => I
  | some e =>
    let I := { I with Written := e.getSourceCode }
    if e.isValueDependent then I else { I with Value := some e.EvaluateKnownConstInt }

/-- The overload `buildExprInfo(ConstantExprInfo<T>&, const Expr*, const
llvm::APInt&)`: the value `V` is recorded last. -/
def buildExprInfoValue (I : ConstantExprInfo) (E : Option Expr) (V : Nat) :
    ConstantExprInfo :=
  { buildExprInfo I E with Value := some (V : Int) }

namespace ASTVisitor

/-- The guard `ExtractionScope`: `body` runs with the mode set to
`new_mode`, and the mode at entry is restored when it returns. -/
def extractionScope {α : Type} (v : ASTVisitor) (new_mode : ExtractMode)
    (body : ASTVisitor → Except Fault (α × ASTVisitor)) : Except Fault (α × ASTVisitor) :=
  match body { v with mode := new_mode } with
  | Except.ok (r, v') => Except.ok (r, { v' with mode := v.mode })
  | Except.error e => Except.error e

/-- The lookup `findInfo(const Decl* D, const Info*& I)`: nothing happens
when `D` has no identity. Modelled from the spec: the two-argument
`info_.find(id, I)`, taken to point `I` to the entity stored under `id` and
to leave `I` as it is when there is none. -/
def findInfoDecl (v : ASTVisitor) (D : NamedDecl) (I : InfoPtr) : InfoPtr :=
  match D.usrHash with
  | none => I
  | some id =>
    match v.findInfo id with
    | some e => some e.id
    | none => I

/-- The overload `makeTypeInfo<TypeInfoTy>(const IdentifierInfo* II,
unsigned quals)`. -/
def makeTypeInfo (T : TypeInfoTy) (II : Option String) (quals : Nat) : TypeInfo :=
  let cv := convertToQualifierKind quals
  let name := match II with
    | some n => n
    | none => ""
  match T with
  | TypeInfoTy.BuiltinTypeInfo => TypeInfo.Builtin false cv name
  | TypeInfoTy.TagTypeInfo => TypeInfo.Tag false cv none name none
  | TypeInfoTy.SpecializationTypeInfo => TypeInfo.Specialization false cv none name none []

/-- The overload `makeTypeInfo<TypeInfoTy>(NamedDecl* N, unsigned quals)`. -/
def makeTypeInfoDecl (v : ASTVisitor) (T : TypeInfoTy) (N : NamedDecl) (quals : Nat) :
    TypeInfo :=
  let I := makeTypeInfo T N.getIdentifier quals
  if !N.isTemplateTemplateParm && !N.isBuiltinTemplate then
    if !N.isImplicit then I.setId (v.findInfoDecl N I.id) else I
  else I

mutual
/-- The operation `buildTypeInfo(qt, extract_mode)`. -/
def buildTypeInfo (v : ASTVisitor) (qt : QualType) (extract_mode : ExtractMode) :
    Except Fault (Option TypeInfo × ASTVisitor) :=
  v.extractionScope extract_mode
    (fun v => buildTypeInfoLoop v extract_mode none none false qt)
termination_by 4 * qt.size + 2
decreasing_by
  all_goals simp_wf
  all_goals
    first
    | omega
    | (simp only [QualType.size, ClangType.size, NestedNameSpecifier.size,
        NestedNameSpecifier.optSize, QualType.listSize, TemplateArgument.size,
        TemplateArgument.listSize]
       omega)
    | (cases T <;>
       simp only [QualType.withFastQualifiers, QualType.size, ClangType.size,
        NestedNameSpecifier.size, NestedNameSpecifier.optSize] <;>
       omega)
/-- The `while(true)` loop of `buildTypeInfo`, from the state `result`
(with `inner` at its null inner-type link), `NNS`, `is_pack_expansion`,
`qt`. -/
def buildTypeInfoLoop (v : ASTVisitor) (extract_mode : ExtractMode)
    (result : Option TypeInfo) (NNS : Option NestedNameSpecifier)
    (is_pack_expansion : Bool) (qt : QualType) :
    Except Fault (Option TypeInfo × ASTVisitor) :=
  match qt with
  | QualType.null => Except.error Fault.nullQualType
  | QualType.mk quals type =>
    match type with
    | ClangType.Paren T =>
      buildTypeInfoLoop v extract_mode result NNS is_pack_expansion
        (T.withFastQualifiers quals)
    | ClangType.MacroQualified T =>
      buildTypeInfoLoop v extract_mode result NNS is_pack_expansion
        (T.withFastQualifiers quals)
    | ClangType.Attributed T =>
      buildTypeInfoLoop v extract_mode result NNS is_pack_expansion
        (T.withFastQualifiers quals)
    | ClangType.Decayed T =>
      buildTypeInfoLoop v extract_mode result NNS is_pack_expansion
        (T.withFastQualifiers quals)
    | ClangType.Adjusted T =>
      buildTypeInfoLoop v extract_mode result NNS is_pack_expansion
        (T.withFastQualifiers quals)
    | ClangType.Using T =>
      buildTypeInfoLoop v extract_mode result NNS is_pack_expansion
        (T.withFastQualifiers quals)
    | ClangType.SubstTemplateTypeParm T =>
      buildTypeInfoLoop v extract_mode result NNS is_pack_expansion
        (T.withFastQualifiers quals)
    | ClangType.PackExpansion T =>
      buildTypeInfoLoop v extract_mode result NNS true (T.withFastQualifiers quals)
    | ClangType.Pointer T =>
      let I := TypeInfo.Pointer false (convertToQualifierKind quals) none
      buildTypeInfoLoop v extract_mode (assignInner (some I) result) NNS
        is_pack_expansion T
    | ClangType.LValueReference T =>
      let I := TypeInfo.LValueReference false none
      buildTypeInfoLoop v extract_mode (assignInner (some I) result) NNS
        is_pack_expansion T
    | ClangType.RValueReference T =>
      let I := TypeInfo.RValueReference false none
      buildTypeInfoLoop v extract_mode (assignInner (some I) result) NNS
        is_pack_expansion T
    | ClangType.MemberPointer C T =>
      match buildTypeInfo v (QualType.mk 0 C) ExtractMode.IndirectDependency with
      | Except.error e => Except.error e
      | Except.ok (parent, v) =>
        let I := TypeInfo.MemberPointer false (convertToQualifierKind quals) parent none
        buildTypeInfoLoop v extract_mode (assignInner (some I) result) NNS
          is_pack_expansion T
    | ClangType.FunctionProto PTs refQualifier methodQuals exceptionSpec RT =>
      match buildTypeInfoList v PTs with
      | Except.error e => Except.error e
      | Except.ok (ParamTypes, v) =>
        let I := TypeInfo.Function false none ParamTypes
          (convertToQualifierKind methodQuals) refQualifier exceptionSpec
        buildTypeInfoLoop v extract_mode (assignInner (some I) result) NNS
          is_pack_expansion RT
    | ClangType.IncompleteArray T =>
      let I := TypeInfo.Array false {} none
      buildTypeInfoLoop v extract_mode (assignInner (some I) result) NNS
        is_pack_expansion T
    | ClangType.ConstantArray sizeExpr size T =>
      let I := TypeInfo.Array false (buildExprInfoValue {} sizeExpr size) none
      buildTypeInfoLoop v extract_mode (assignInner (some I) result) NNS
        is_pack_expansion T
    | ClangType.DependentSizedArray sizeExpr T =>
      let I := TypeInfo.Array false (buildExprInfo {} sizeExpr) none
      buildTypeInfoLoop v extract_mode (assignInner (some I) result) NNS
        is_pack_expansion T
    | ClangType.Auto deduced name =>
      if !deduced.isNull then
        buildTypeInfoLoop v extract_mode result NNS is_pack_expansion deduced
      else
        let I := TypeInfo.Builtin false (convertToQualifierKind quals) name
        buildTypeInfoTerminal v extract_mode result NNS is_pack_expansion I
    | ClangType.DeducedTemplateSpecialization deduced TD =>
      if !deduced.isNull then
        buildTypeInfoLoop v extract_mode result NNS is_pack_expansion deduced
      else
        buildTypeInfoTerminal v extract_mode result NNS is_pack_expansion
          (v.makeTypeInfoDecl TypeInfoTy.TagTypeInfo TD quals)
    | ClangType.Elaborated qualifier T =>
      if NNS.isSome && qualifier.isSome then Except.error Fault.secondQualifier
      else
        buildTypeInfoLoop v extract_mode result qualifier is_pack_expansion
          (T.withFastQualifiers quals)
    | ClangType.DependentTemplateSpecialization II targs qualifier =>
      match buildTemplateArgs v [] targs with
      | Except.error e => Except.error e
      | Except.ok (TemplateArgs, v) =>
        let I := (makeTypeInfo TypeInfoTy.SpecializationTypeInfo II quals).setTemplateArgs
          TemplateArgs
        if NNS.isSome && qualifier.isSome then Except.error Fault.secondQualifier
        else buildTypeInfoTerminal v extract_mode result qualifier is_pack_expansion I
    | ClangType.DependentName II qualifier =>
      let I := makeTypeInfo TypeInfoTy.TagTypeInfo II quals
      if NNS.isSome && qualifier.isSome then Except.error Fault.secondQualifier
      else buildTypeInfoTerminal v extract_mode result qualifier is_pack_expansion I
    | ClangType.TemplateSpecialization nameIsNull TD isTypeAlias canonicalDecl targs =>
      if nameIsNull then Except.error Fault.other
      else
        let ND :=
          if !isTypeAlias then
            match canonicalDecl with
            | some D => D
            | none => TD
          else TD
        match buildTemplateArgs v [] targs with
        | Except.error e => Except.error e
        | Except.ok (TemplateArgs, v') =>
          let I := (v.makeTypeInfoDecl TypeInfoTy.SpecializationTypeInfo ND
            quals).setTemplateArgs TemplateArgs
          buildTypeInfoTerminal v' extract_mode result NNS is_pack_expansion I
    | ClangType.Record RD (some targs) =>
      match buildTemplateArgs v [] targs with
      | Except.error e => Except.error e
      | Except.ok (TemplateArgs, v') =>
        let I := (v.makeTypeInfoDecl TypeInfoTy.SpecializationTypeInfo RD
          quals).setTemplateArgs TemplateArgs
        buildTypeInfoTerminal v' extract_mode result NNS is_pack_expansion I
    | ClangType.Record RD none =>
      buildTypeInfoTerminal v extract_mode result NNS is_pack_expansion
        (v.makeTypeInfoDecl TypeInfoTy.TagTypeInfo RD quals)
    | ClangType.InjectedClassName D =>
      buildTypeInfoTerminal v extract_mode result NNS is_pack_expansion
        (v.makeTypeInfoDecl TypeInfoTy.TagTypeInfo D quals)
    | ClangType.Enum D =>
      buildTypeInfoTerminal v extract_mode result NNS is_pack_expansion
        (v.makeTypeInfoDecl TypeInfoTy.TagTypeInfo D quals)
    | ClangType.Typedef D =>
      buildTypeInfoTerminal v extract_mode result NNS is_pack_expansion
        (v.makeTypeInfoDecl TypeInfoTy.TagTypeInfo D quals)
    | ClangType.TemplateTypeParm D =>
      let Name :=
        match D with
        | some D =>
          if D.isImplicit then "auto"
          else match D.getIdentifier with
            | some n => n
            | none => ""
        | none => ""
      let I := TypeInfo.Builtin false (convertToQualifierKind quals) Name
      buildTypeInfoTerminal v extract_mode result NNS is_pack_expansion I
    | ClangType.SubstTemplateTypeParmPack II =>
      buildTypeInfoTerminal v extract_mode result NNS is_pack_expansion
        (makeTypeInfo TypeInfoTy.BuiltinTypeInfo II quals)
    | ClangType.VariableArray _ name =>
      let I := TypeInfo.Builtin false (convertToQualifierKind quals) name
      buildTypeInfoTerminal v extract_mode result NNS is_pack_expansion I
    | ClangType.FunctionNoProto _ name =>
      let I := TypeInfo.Builtin false (convertToQualifierKind quals) name
      buildTypeInfoTerminal v extract_mode result NNS is_pack_expansion I
    | ClangType.Other name =>
      let I := TypeInfo.Builtin false (convertToQualifierKind quals) name
      buildTypeInfoTerminal v extract_mode result NNS is_pack_expansion I
termination_by 4 * (qt.size + NestedNameSpecifier.optSize NNS) + 1
decreasing_by
  all_goals simp_wf
  all_goals
    first
    | omega
    | (simp only [QualType.size, ClangType.size, NestedNameSpecifier.size,
        NestedNameSpecifier.optSize, QualType.listSize, TemplateArgument.size,
        TemplateArgument.listSize]
       omega)
    | (cases T <;>
       simp only [QualType.withFastQualifiers, QualType.size, ClangType.size,
        NestedNameSpecifier.size, NestedNameSpecifier.optSize] <;>
       omega)
/-- The end of `buildTypeInfo`, after the `switch`: the terminal node `I`
has been built; it is linked at `inner`, checked, the root gets the pack
flag, and, when there is a nested-name-specifier and the terminal node is of
a class with the member `ParentType`, the parent chain of the
nested-name-specifier is built into the terminal node. -/
def buildTypeInfoTerminal (v : ASTVisitor) (extract_mode : ExtractMode)
    (result : Option TypeInfo) (NNS : Option NestedNameSpecifier)
    (is_pack_expansion : Bool) (I : TypeInfo) :
    Except Fault (Option TypeInfo × ASTVisitor) :=
  if !I.isTerminal then Except.error Fault.terminalKind
  else
    match NNS with
    | none =>
      Except.ok
        ((assignInner (some I) result).map (TypeInfo.setIsPackExpansion is_pack_expansion), v)
    | some N =>
      if I.hasParentType then
        match buildParentTypeInfo v I.ParentType (some N) extract_mode with
        | Except.error e => Except.error e
        | Except.ok (Parent, v) =>
          Except.ok
            ((assignInner (some (I.setParentType Parent)) result).map
              (TypeInfo.setIsPackExpansion is_pack_expansion), v)
      else
        Except.ok
          ((assignInner (some I) result).map
            (TypeInfo.setIsPackExpansion is_pack_expansion), v)
termination_by 4 * NestedNameSpecifier.optSize NNS + 1
decreasing_by
  all_goals simp_wf
  all_goals
    first
    | omega
    | (simp only [QualType.size, ClangType.size, NestedNameSpecifier.size,
        NestedNameSpecifier.optSize, QualType.listSize, TemplateArgument.size,
        TemplateArgument.listSize]
       omega)
    | (cases T <;>
       simp only [QualType.withFastQualifiers, QualType.size, ClangType.size,
        NestedNameSpecifier.size, NestedNameSpecifier.optSize] <;>
       omega)
/-- The operation `buildParentTypeInfo(Parent, NNS, extract_mode)`; returns
the value of `Parent` after the call. -/
def buildParentTypeInfo (v : ASTVisitor) (Parent : Option TypeInfo)
    (NNS : Option NestedNameSpecifier) (extract_mode : ExtractMode) :
    Except Fault (Option TypeInfo × ASTVisitor) :=
  match NNS with
  | none => Except.ok (Parent, v)
  | some (NestedNameSpecifier.TypeSpec _ T) =>
    buildTypeInfo v (QualType.mk 0 T) extract_mode
  | some (NestedNameSpecifier.Identifier pre II) =>
    match buildParentTypeInfo v none pre extract_mode with
    | Except.error e => Except.error e
    | Except.ok (ParentType, v) =>
      Except.ok (some (TypeInfo.Tag false ⟨false, false⟩ ParentType II none), v)
  | some (NestedNameSpecifier.Other _) => Except.ok (Parent, v)
termination_by 4 * NestedNameSpecifier.optSize NNS
decreasing_by
  all_goals simp_wf
  all_goals
    first
    | omega
    | (simp only [QualType.size, ClangType.size, NestedNameSpecifier.size,
        NestedNameSpecifier.optSize, QualType.listSize, TemplateArgument.size,
        TemplateArgument.listSize]
       omega)
    | (cases T <;>
       simp only [QualType.withFastQualifiers, QualType.size, ClangType.size,
        NestedNameSpecifier.size, NestedNameSpecifier.optSize] <;>
       omega)
/-- The loop `for(QualType PT : T->getParamTypes())
I->ParamTypes.emplace_back(buildTypeInfo(PT))`. -/
def buildTypeInfoList (v : ASTVisitor) (PTs : List QualType) :
    Except Fault (List (Option TypeInfo) × ASTVisitor) :=
  match PTs with
  | [] => Except.ok ([], v)
  | PT :: rest =>
    match buildTypeInfo v PT ExtractMode.IndirectDependency with
    | Except.error e => Except.error e
    | Except.ok (t, v) =>
      match buildTypeInfoList v rest with
      | Except.error e => Except.error e
      | Except.ok (ts, v) => Except.ok (t :: ts, v)
termination_by 4 * QualType.listSize PTs + 3
decreasing_by
  all_goals simp_wf
  all_goals
    first
    | omega
    | (simp only [QualType.size, ClangType.size, NestedNameSpecifier.size,
        NestedNameSpecifier.optSize, QualType.listSize, TemplateArgument.size,
        TemplateArgument.listSize]
       omega)
    | (cases T <;>
       simp only [QualType.withFastQualifiers, QualType.size, ClangType.size,
        NestedNameSpecifier.size, NestedNameSpecifier.optSize] <;>
       omega)
/-- The operation `buildTemplateArg(A)`; the result may be null. -/
def buildTemplateArg (v : ASTVisitor) (A : TemplateArgument) :
    Except Fault (Option TArg × ASTVisitor) :=
  match A with
  | TemplateArgument.Null => Except.ok (none, v)
  | TemplateArgument.Pack _ => Except.error Fault.unreachablePack
  | TemplateArgument.Type QualType.null => Except.error Fault.nullQualType
  | TemplateArgument.Type (QualType.mk _ (ClangType.PackExpansion pattern)) =>
    match buildTypeInfo v pattern ExtractMode.IndirectDependency with
    | Except.error e => Except.error e
    | Except.ok (t, v) => Except.ok (some (TArg.TypeTArg true t), v)
  | TemplateArgument.Type (QualType.mk quals T) =>
    match buildTypeInfo v (QualType.mk quals T) ExtractMode.IndirectDependency with
    | Except.error e => Except.error e
    | Except.ok (t, v) => Except.ok (some (TArg.TypeTArg false t), v)
  | TemplateArgument.Template isPackExpansion TN =>
    match TN.getAsTemplateDecl with
    | some TD =>
      let Name := match TD.getIdentifier with
        | some n => n
        | none => ""
      let Template :=
        if !TD.isTemplateTemplateParm && !TD.isBuiltinTemplate then v.findInfoDecl TD none
        else none
      Except.ok (some (TArg.TemplateTArg isPackExpansion Name Template), v)
    | none => Except.ok (some (TArg.TemplateTArg isPackExpansion TN.print none), v)
  | TemplateArgument.NonType isPackExpansion written patternWritten =>
    let adjusted := if isPackExpansion then patternWritten else written
    Except.ok (some (TArg.NonTypeTArg isPackExpansion { Written := adjusted }), v)
  | TemplateArgument.Unhandled => Except.error Fault.other
termination_by 4 * A.size + 3
decreasing_by
  all_goals simp_wf
  all_goals
    first
    | omega
    | (simp only [QualType.size, ClangType.size, NestedNameSpecifier.size,
        NestedNameSpecifier.optSize, QualType.listSize, TemplateArgument.size,
        TemplateArgument.listSize]
       omega)
    | (cases T <;>
       simp only [QualType.withFastQualifiers, QualType.size, ClangType.size,
        NestedNameSpecifier.size, NestedNameSpecifier.optSize] <;>
       omega)
/-- The operation `buildTemplateArgs(result, range)`; returns `result` after
the call. -/
def buildTemplateArgs (v : ASTVisitor) (result : List (Option TArg))
    (range : List TemplateArgument) : Except Fault (List (Option TArg) × ASTVisitor) :=
  match range with
  | [] => Except.ok (result, v)
  | TemplateArgument.Pack pack_elements :: rest =>
    match buildTemplateArgs v result pack_elements with
    | Except.error e => Except.error e
    | Except.ok (result, v) => buildTemplateArgs v result rest
  | arg :: rest =>
    match buildTemplateArg v arg with
    | Except.error e => Except.error e
    | Except.ok (R, v) => buildTemplateArgs v (result ++ [R]) rest
termination_by 4 * TemplateArgument.listSize range + 3
decreasing_by
  all_goals simp_wf
  all_goals
    first
    | omega
    | (simp only [QualType.size, ClangType.size, NestedNameSpecifier.size,
        NestedNameSpecifier.optSize, QualType.listSize, TemplateArgument.size,
        TemplateArgument.listSize]
       omega)
    | (cases T <;>
       simp only [QualType.withFastQualifiers, QualType.size, ClangType.size,
        NestedNameSpecifier.size, NestedNameSpecifier.optSize] <;>
       omega)
end

end ASTVisitor

/-! ## Sugar, inner-type paths and flattened argument lists

The notions the properties of the type and template-argument builders are
stated with. -/

/-- The non-semantic sugar `buildTypeInfo` strips without a trace: the type
classes `Paren`, `MacroQualified`, `Attributed`, `Decayed`, `Adjusted`,
`Using` and `SubstTemplateTypeParm`. -/
inductive Sugar
  | Paren
  | MacroQualified
  | Attributed
  | Decayed
  | Adjusted
  | Using
  | SubstTemplateTypeParm
  deriving DecidableEq

/-- One layer of sugar, with local qualifiers `quals`, around `t`. -/
def Sugar.wrap (s : Sugar) (quals : Nat) (t : QualType) : QualType :=
  QualType.mk quals
    (match s with
     | Sugar.Paren => ClangType.Paren t
     | Sugar.MacroQualified => ClangType.MacroQualified t
     | Sugar.Attributed => ClangType.Attributed t
     | Sugar.Decayed => ClangType.Decayed t
     | Sugar.Adjusted => ClangType.Adjusted t
     | Sugar.Using => ClangType.Using t
     | Sugar.SubstTemplateTypeParm => ClangType.SubstTemplateTypeParm t)

/-- The type `t` wrapped in the layers `ls`, outermost first. -/
def wrapSugar : List (Sugar × Nat) → QualType → QualType
  | [], t => t
  | (s, q) :: ls, t => s.wrap q (wrapSugar ls t)

/-- The local qualifiers of the layers `ls`, or-ed together. -/
def sugarQuals : List (Sugar × Nat) → Nat
  | [] => 0
  | (_, q) :: ls => sugarQuals ls ||| q

/-- The nodes met from a node by following inner-type links, the node
itself first; the path ends at a node without inner-type link (a terminal
node) or at a wrapper whose link is null. -/
def TypeInfo.innerPath : TypeInfo → List TypeInfo
  | TypeInfo.LValueReference k (some p) => TypeInfo.LValueReference k (some p) :: p.innerPath
  | TypeInfo.RValueReference k (some p) => TypeInfo.RValueReference k (some p) :: p.innerPath
  | TypeInfo.Pointer k q (some p) => TypeInfo.Pointer k q (some p) :: p.innerPath
  | TypeInfo.MemberPointer k q c (some p) =>
    TypeInfo.MemberPointer k q c (some p) :: p.innerPath
  | TypeInfo.Array k b (some e) => TypeInfo.Array k b (some e) :: e.innerPath
  | TypeInfo.Function k (some r) ps q rq e =>
    TypeInfo.Function k (some r) ps q rq e :: r.innerPath
  | t => [t]

mutual
/-- The non-pack arguments of a template argument, left to right: a pack
stands for the arguments of its elements. -/
def TemplateArgument.flatten : TemplateArgument → List TemplateArgument
  | TemplateArgument.Pack pack_elements => TemplateArgument.flattenList pack_elements
  | TemplateArgument.Null => [TemplateArgument.Null]
  | TemplateArgument.Type t => [TemplateArgument.Type t]
  | TemplateArgument.Template e n => [TemplateArgument.Template e n]
  | TemplateArgument.NonType e w p => [TemplateArgument.NonType e w p]
  | TemplateArgument.Unhandled => [TemplateArgument.Unhandled]
/-- The non-pack arguments of a list of template arguments, left to right. -/
def TemplateArgument.flattenList : List TemplateArgument → List TemplateArgument
  | [] => []
  | a :: as => a.flatten ++ TemplateArgument.flattenList as
end

/-- Whether a template argument is a pack: `getKind() ==
TemplateArgument::Pack`. -/
def TemplateArgument.isPack : TemplateArgument → Bool
  | TemplateArgument.Pack _ => true
  | _ => false

/-- The images under `buildTemplateArg` of the arguments `as`, taken one
after the other and appended to `result`. -/
def appendTemplateArgs (v : ASTVisitor) (result : List (Option TArg)) :
    List TemplateArgument → Except Fault (List (Option TArg) × ASTVisitor)
  | [] => Except.ok (result, v)
  | a :: as =>
    match v.buildTemplateArg a with
    | Except.error e => Except.error e
    | Except.ok (R, v) => appendTemplateArgs v (result ++ [R]) as

/-! ## Sequences of calls -/

/-- One call `getOrCreateInfo<kind>(id)` made while the current mode is
`mode`. -/
structure Call where
  kind : InfoKind
  id : SymbolID
  mode : ExtractMode

/-- The state after the call `c` made in state `v`. -/
def runCall (v : ASTVisitor) (c : Call) : Except Fault ASTVisitor :=
  match ASTVisitor.getOrCreateInfo { v with mode := c.mode } c.kind c.id with
  | Except.ok r => Except.ok r.1
  | Except.error e => Except.error e

/-- The state after a sequence of calls; an error as soon as one call trips
the kind assertion. -/
def runCalls (v : ASTVisitor) : List Call → Except Fault ASTVisitor
  | [] => Except.ok v
  | c :: cs =>
    match runCall v c with
    | Except.ok v' => runCalls v' cs
    | Except.error e => Except.error e

/-- One call `addSourceLocation(I, line, definition)`, with the values of
`file_` and `isFileInRootDir_` at the time of the call. -/
structure LocCall where
  file : String
  inRoot : Bool
  line : Nat
  definition : Bool

/-- The locations of an entity after one call. -/
def runLocCall (I : SourceInfo) (c : LocCall) : SourceInfo :=
  ASTVisitor.addSourceLocation { file_ := c.file, isFileInRootDir_ := c.inRoot }
    I c.line c.definition

/-- The locations of an entity after a sequence of calls. -/
def runLocCalls (I : SourceInfo) (cs : List LocCall) : SourceInfo :=
  cs.foldl runLocCall I

/-- The kind requested by the call of the run that created the entity `id`
(the call for `id` that returned `created = true`), if the run has one. -/
def createdKind (v : ASTVisitor) : List Call → SymbolID → Option InfoKind
  | [], _ => none
  | c :: cs, id =>
    match ASTVisitor.getOrCreateInfo { v with mode := c.mode } c.kind c.id with
    | Except.ok (v', _, created) =>
      if created && c.id == id then some c.kind else createdKind v' cs id
    | Except.error _ => none

/-- The statement, for the calls of measure at most `n`, that none of the
builders ends with the fault `f`. -/
def NeverFault (f : Fault) (n : Nat) : Prop :=
  (∀ (v : ASTVisitor) qt m, 4 * QualType.size qt + 2 ≤ n →
    v.buildTypeInfo qt m ≠ Except.error f) ∧
  (∀ (v : ASTVisitor) m result NNS pack qt,
    4 * (QualType.size qt + NestedNameSpecifier.optSize NNS) + 1 ≤ n →
    v.buildTypeInfoLoop m result NNS pack qt ≠ Except.error f) ∧
  (∀ (v : ASTVisitor) m result NNS pack I, TypeInfo.isTerminal I = true →
    4 * NestedNameSpecifier.optSize NNS + 1 ≤ n →
    v.buildTypeInfoTerminal m result NNS pack I ≠ Except.error f) ∧
  (∀ (v : ASTVisitor) P NNS m, 4 * NestedNameSpecifier.optSize NNS ≤ n →
    v.buildParentTypeInfo P NNS m ≠ Except.error f) ∧
  (∀ (v : ASTVisitor) PTs, 4 * QualType.listSize PTs + 3 ≤ n →
    v.buildTypeInfoList PTs ≠ Except.error f) ∧
  (∀ (v : ASTVisitor) A, TemplateArgument.isPack A = false →
    4 * TemplateArgument.size A + 3 ≤ n →
    v.buildTemplateArg A ≠ Except.error f) ∧
  (∀ (v : ASTVisitor) result range, 4 * TemplateArgument.listSize range + 3 ≤ n →
    v.buildTemplateArgs result range ≠ Except.error f)

namespace TypeInfo

/-- A chain of wrappers whose last inner-type link is null: the shape of
`result` while `buildTypeInfo` is still descending. -/
def chainOpen : TypeInfo → Bool
  | LValueReference _ none => true
  | LValueReference _ (some p) => p.chainOpen
  | RValueReference _ none => true
  | RValueReference _ (some p) => p.chainOpen
  | Pointer _ _ none => true
  | Pointer _ _ (some p) => p.chainOpen
  | MemberPointer _ _ _ none => true
  | MemberPointer _ _ _ (some p) => p.chainOpen
  | Array _ _ none => true
  | Array _ _ (some e) => e.chainOpen
  | Function _ none _ _ _ _ => true
  | Function _ (some r) _ _ _ _ => r.chainOpen
  | _ => false

/-- A chain of wrappers that ends in a terminal node. -/
def chainClosed : TypeInfo → Bool
  | LValueReference _ none => false
  | LValueReference _ (some p) => p.chainClosed
  | RValueReference _ none => false
  | RValueReference _ (some p) => p.chainClosed
  | Pointer _ _ none => false
  | Pointer _ _ (some p) => p.chainClosed
  | MemberPointer _ _ _ none => false
  | MemberPointer _ _ _ (some p) => p.chainClosed
  | Array _ _ none => false
  | Array _ _ (some e) => e.chainClosed
  | Function _ none _ _ _ _ => false
  | Function _ (some r) _ _ _ _ => r.chainClosed
  | _ => true

end TypeInfo

/-- The chain under construction is empty or open. -/
def chainOpenOpt : Option TypeInfo → Bool
  | none => true
  | some t => t.chainOpen

/-- A parenthesized const pointer to volatile `int`. -/
def exampleType : QualType :=
  QualType.mk 1 (ClangType.Paren (QualType.mk 0 (ClangType.Pointer
    (QualType.mk 4 (ClangType.Other "int")))))

/-- The descriptor of `exampleType`. -/
def exampleTypeInfo : TypeInfo :=
  TypeInfo.Pointer false ⟨true, false⟩ (some (TypeInfo.Builtin false ⟨false, true⟩ "int"))

/-- A template argument list made of one pack of three elements: the
integral argument `1`, an empty pack, and the pack expansion `Ns...`. -/
def examplePack : List TemplateArgument :=
  [TemplateArgument.Pack
    [TemplateArgument.NonType false "1" "1", TemplateArgument.Pack [],
     TemplateArgument.NonType true "Ns..." "Ns"]]

/-! ## The front-end's declarations (consumed)

What the walker asks the front-end about the declarations it visits. A
declaration carries its semantic context (`getDeclContext()`), which is what
`getParentNamespaces` walks outward; the members of a context
(`decls()`) are what `traverseContext` visits. -/

/-- The queries common to the declarations the walker extracts. -/
structure DeclBase where
  isInvalidDecl : Bool := false
  isImplicit : Bool := false
  -- the identity `extractSymbolID` computes, `none` when no USR is generated
  usrHash : Option SymbolID := none
  -- the presumed location of `getBeginLoc()`: file name in posix style,
  -- raw encoding of the include location, line
  getFilename : String := ""
  isInSystemHeader : Bool := false
  getIncludeLoc : Nat := 0
  getLine : Nat := 0
  getRawComment : Option String := none
  -- `convertToAccessKind(D->getAccessUnsafe())`
  getAccessUnsafe : AccessKind := AccessKind.None
  -- the string `extractName(D)` returns
  extractName : String := ""

/-- A template parameter declaration, as `buildTemplateParam` queries it;
`getDefaultArgument` is the template argument the walker makes of the
default, when there is one. -/
inductive TemplateParmDecl
  | TemplateTypeParm (extractName : String) (isTemplateParameterPack : Bool)
      (wasDeclaredWithTypename : Bool) (getDefaultArgument : Option TemplateArgument)
  | NonTypeTemplateParm (extractName : String) (isTemplateParameterPack : Bool)
      (getType : QualType) (getDefaultArgument : Option TemplateArgument)
  | TemplateTemplateParm (extractName : String) (isTemplateParameterPack : Bool)
      (getTemplateParameters : List TemplateParmDecl)
      (getDefaultArgument : Option TemplateArgument)

/-- A template declaration passed along to `traverse` (the described or the
specialized template): its access and its parameter list. -/
structure TemplateDecl where
  getAccessUnsafe : AccessKind := AccessKind.None
  getTemplateParameters : List TemplateParmDecl := []

/-- What `parseTemplateArgs` reads from a specialization: the template it
resolves the specialized template to (if any) and the template arguments (if
the front-end has them). -/
structure SpecializationArgs where
  primary : Option NamedDecl := none
  args : Option (List TemplateArgument) := none

/-- A namespace declaration. -/
structure NamespaceDecl extends DeclBase where
  isAnonymousNamespace : Bool := false
  isInline : Bool := false

/-- An enumerator. -/
structure EnumConstantDecl where
  getNameAsString : String
  getInitExpr : Option Expr := none
  getInitVal : Nat := 0
  getRawComment : Option String := none

/-- An enumeration declaration. -/
structure EnumDecl extends DeclBase where
  isThisDeclarationADefinition : Bool := false
  isScoped : Bool := false
  isFixed : Bool := false
  getIntegerType : QualType := QualType.null
  enumerators : List EnumConstantDecl := []

/-- A non-static data member declaration. -/
structure FieldDecl extends DeclBase where
  getType : QualType := QualType.null
  isMutable : Bool := false
  isBitField : Bool := false
  getBitWidth : Option Expr := none
  hasNoUniqueAddressAttr : Bool := false
  hasDeprecatedAttr : Bool := false
  hasUnusedAttr : Bool := false

/-- A typedef or alias declaration. -/
structure TypedefNameDecl extends DeclBase where
  getUnderlyingType : QualType := QualType.null
  isTypeAliasDecl : Bool := false

/-- A variable declaration; `specialization` and `partialParameters` are
present when it is a variable template (partial) specialization. -/
structure VarDecl extends DeclBase where
  isThisDeclarationADefinition : Bool := false
  -- `convertToStorageClassKind(D->getStorageClass())`
  getStorageClass : Nat := 0
  -- `D->getTSCSpec() != TSCS_unspecified`
  isThreadLocal : Bool := false
  hasConstInitAttr : Bool := false
  isConstexpr : Bool := false
  getType : QualType := QualType.null
  specialization : Option SpecializationArgs := none
  partialParameters : Option (List TemplateParmDecl) := none
  -- `getSpecializedTemplate()`, for a variable template specialization
  getSpecializedTemplate : Option TemplateDecl := none

/-- A function parameter. -/
structure ParmVarDecl where
  getOriginalType : QualType
  getNameAsString : String := ""
  -- `getSourceCode(P->getDefaultArgRange())`
  getDefaultArg : String := ""

/-- A function declaration. `specs0` and `specs1` are the bits that
`buildFunction` or-s into `I.specs0` and `I.specs1` for this declaration. -/
structure FunctionDecl extends DeclBase where
  isThisDeclarationADefinition : Bool := false
  specs0 : Nat := 0
  specs1 : Nat := 0
  -- `convertToFunctionClass(D->getDeclKind())`
  getFunctionClass : Nat := 0
  parameters : List ParmVarDecl := []
  getReturnType : QualType := QualType.null
  -- the return type contains a placeholder deduced as an unnamed or local type
  hasUnnamedOrLocalAutoType : Bool := false
  getTemplateSpecializationInfo : Option SpecializationArgs := none
  getDependentSpecializationInfo : Option SpecializationArgs := none

/-- A base specifier. -/
structure CXXBaseSpecifier where
  getType : QualType
  getAccessSpecifier : AccessKind := AccessKind.Public
  isVirtual : Bool := false

/-- A class declaration; the members after `bases` are those of a class
template (partial) specialization, `specialization` being present when it is
one. -/
structure CXXRecordDecl extends DeclBase where
  isThisDeclarationADefinition : Bool := false
  -- `extractName` of `getTypedefNameForAnonDecl()`, when there is one
  getTypedefNameForAnonDecl : Option String := none
  -- `convertToRecordKeyKind(D->getTagKind())`
  getTagKind : Nat := 0
  hasFinalAttr : Bool := false
  -- whether the destructor, when there is one, has the final attribute
  getDestructorFinal : Option Bool := none
  hasDefinition : Bool := false
  bases : List CXXBaseSpecifier := []
  specialization : Option SpecializationArgs := none
  partialParameters : Option (List TemplateParmDecl) := none
  getSpecializedTemplate : Option TemplateDecl := none
  -- `getSpecializationKind() == TSK_ImplicitInstantiation`
  isImplicitInstantiation : Bool := false
  -- `D->getTemplateArgs().asArray()`
  getTemplateArgs : List TemplateArgument := []
  -- the declaration `getInstantiatedFrom(D)` and its `extractName`
  getInstantiatedFrom : NamedDecl := { getIdentifier := none }
  getInstantiatedFromName : String := ""

/-- A declaration context with its chain of enclosing contexts
(`getParent()`); the translation unit has none. -/
inductive DeclContext
  | TranslationUnit
  | Namespace (D : NamespaceDecl) (getParent : DeclContext)
  | ClassTemplateSpecialization (D : CXXRecordDecl) (getParent : DeclContext)
  | ClassTemplatePartialSpecialization (D : CXXRecordDecl) (getParent : DeclContext)
  | CXXRecord (D : CXXRecordDecl) (getParent : DeclContext)
  | Other (getParent : DeclContext)

/-- The number of contexts of a chain. -/
def DeclContext.size : DeclContext → Nat
  | TranslationUnit => 0
  | Namespace _ p => p.size + 1
  | ClassTemplateSpecialization _ p => p.size + 1
  | ClassTemplatePartialSpecialization _ p => p.size + 1
  | CXXRecord _ p => p.size + 1
  | Other p => p.size + 1

/-- What a friend declaration names. -/
inductive FriendTarget
  | Function (FD : FunctionDecl) (getDeclContext : DeclContext)
  | FunctionTemplate
  | ClassTemplate
  | OtherDecl
  | FriendType
  | Nothing

/-- A friend declaration: what it names, and the identity of the class that
is its context (`none` when the context is not a class). -/
structure FriendDecl extends DeclBase where
  target : FriendTarget := FriendTarget.Nothing
  getDeclContextRecord : Option (Option SymbolID) := none

/-- A declaration of the tree the walker traverses. `Other` stands for
every kind that reaches the catch-all `traverse`, with its members when it is
a declaration context. `getSpecialization` of a class-scope function
specialization is the method declaration as `traverse` hands it on, after
`setDependentTemplateSpecialization`. A class or variable declaration is
visited as a template specialization when its `specialization` is present. -/
inductive Decl
  | TranslationUnit (decls : List Decl)
  | Namespace (D : NamespaceDecl) (getDeclContext : DeclContext) (decls : List Decl)
  | Enum (D : EnumDecl) (getDeclContext : DeclContext)
  | Field (D : FieldDecl) (getDeclContext : DeclContext)
  | Friend (D : FriendDecl)
  | ClassScopeFunctionSpecialization (base : DeclBase) (getSpecialization : Decl)
  | CXXRecord (D : CXXRecordDecl) (getDeclContext : DeclContext) (decls : List Decl)
  | Var (D : VarDecl) (getDeclContext : DeclContext)
  | Function (D : FunctionDecl) (getDeclContext : DeclContext)
  | TypedefName (D : TypedefNameDecl) (getDeclContext : DeclContext)
  | RedeclarableTemplate (base : DeclBase) (T : TemplateDecl) (getTemplatedDecl : Decl)
  | Other (base : DeclBase) (decls : Option (List Decl))

mutual
/-- The number of nodes of a declaration. -/
def Decl.size : Decl → Nat
  | .TranslationUnit ds => Decl.listSize ds + 1
  | .Namespace _ _ ds => Decl.listSize ds + 1
  | .Enum _ _ => 1
  | .Field _ _ => 1
  | .Friend _ => 1
  | .ClassScopeFunctionSpecialization _ d => d.size + 1
  | .CXXRecord _ _ ds => Decl.listSize ds + 1
  | .Var _ _ => 1
  | .Function _ _ => 1
  | .TypedefName _ _ => 1
  | .RedeclarableTemplate _ _ d => d.size + 1
  | .Other _ none => 1
  | .Other _ (some ds) => Decl.listSize ds + 1
/-- The number of nodes of a list of declarations. -/
def Decl.listSize : List Decl → Nat
  | [] => 0
  | d :: ds => d.size + Decl.listSize ds + 1
end

/-! ## The walker -/

namespace ASTVisitor

/-- A write through the reference `I`: `f` is applied to the entity with
identity `id`. -/
def modifyInfo (v : ASTVisitor) (id : SymbolID) (f : Info → Info) : ASTVisitor :=
  { v with info_ := InfoSet.update v.info_ id f }

/-- The ghost step that logs the start of the first-build part for `id`. -/
def logFirstBuild (v : ASTVisitor) (id : SymbolID) : ASTVisitor :=
  { v with firstBuilds := v.firstBuilds ++ [id] }

/-- The one-argument `extractSymbolID(D)`: `SymbolID::zero` when identity
assignment fails. -/
def extractSymbolID (D : DeclBase) : SymbolID :=
  match D.usrHash with
  | some id => id
  | none => SymbolID.zero

/-- Modelled from the spec: `parseRawComment(javadoc, D)`, which hands the
raw comment of `D` to the documentation-comment parser (not among the source
files) and stores its result; without a comment the member stays as it is. -/
def parseRawComment (javadoc : Option String) (rawComment : Option String) :
    Option String :=
  match rawComment with
  | some c => some c
  | none => javadoc

/-- The path `file` with `pathPrefix` cut off its start
(`path::replace_path_prefix(file_, ff.prefix, "")`). -/
def replacePathStart (file pathPrefix : String) : String :=
  if file.startsWith pathPrefix then file.drop pathPrefix.length else file

/-- The operation `inExtractedFile(D)`, for a declaration whose presumed
location is valid. -/
def inExtractedFile (v : ASTVisitor) (D : DeclBase) : Bool × ASTVisitor :=
  let v := { v with file_ := D.getFilename }
  if D.isInSystemHeader then (false, v)
  else
    match v.fileFilter_.lookup D.getIncludeLoc with
    | some ff =>
      if !ff.include_ then (false, v)
      else (true, { v with file_ := replacePathStart v.file_ ff.pathPrefix,
                           isFileInRootDir_ := true })
    | none =>
      let r := v.config_.shouldExtractFromFile v.file_
      let ff : FileFilter := { pathPrefix := r.2, include_ := r.1 }
      let v := { v with fileFilter_ := v.fileFilter_ ++ [(D.getIncludeLoc, ff)] }
      if !ff.include_ then (false, v)
      else (true, { v with file_ := replacePathStart v.file_ ff.pathPrefix,
                           isFileInRootDir_ := true })

/-- The operation `shouldExtract(D)`. -/
def shouldExtract (v : ASTVisitor) (D : DeclBase) : Bool × ASTVisitor :=
  let r := v.inExtractedFile D
  let extract := r.1
  let v := if extract then { r.2 with mode := ExtractMode.Normal } else r.2
  (extract || v.currentMode != ExtractMode.Normal, v)

/-- The operation `emplaceChild(I, C)` for a parent `I` whose `Members` holds
`Info*`; `hasSpecializations` is `requires { I.Specializations; }` and `C`
the entity the child pointer refers to, if it is not null. -/
def emplaceChild (hasSpecializations : Bool) (C : Option Info) (I : Info) : Info :=
  let c : InfoPtr := C.map Info.id
  let I :=
    if hasSpecializations then
      match C with
      | some child =>
        if child.Kind = InfoKind.Specialization then
          if I.Members.contains c then I else { I with Members := I.Members ++ [c] }
        else I
      | none => I
    else I
  if I.Members.contains c then I else { I with Members := I.Members ++ [c] }

/-- The operation `emplaceChild(I, C)` for a `SpecializationInfo` parent,
whose `Members` holds `SpecializedMember`. -/
def emplaceSpecializedMember (C : SpecializedMember) (I : Info) : Info :=
  if I.SpecializedMembers.contains C then I
  else { I with SpecializedMembers := I.SpecializedMembers ++ [C] }

/-- The common shape of the per-kind build steps:
the statements before `if(! created) return;` (`augment`, writes to `I`),
the statements after it (`firstBuild`), and the final
`getParentNamespaces(I, D)` (`getParents`). -/
def buildWith (v : ASTVisitor) (I : SymbolID) (created : Bool) (augment : Info → Info)
    (firstBuild : ASTVisitor → Except Fault ASTVisitor)
    (getParents : ASTVisitor → Except Fault ASTVisitor) : Except Fault ASTVisitor :=
  let v := v.modifyInfo I augment
  if !created then Except.ok v
  else
    match firstBuild (v.logFirstBuild I) with
    | Except.error e => Except.error e
    | Except.ok v => getParents v

/-- The first-build statements of `buildSpecialization`. -/
def firstBuildSpecialization (I : SymbolID) (D : CXXRecordDecl) (v : ASTVisitor) :
    Except Fault ASTVisitor :=
  let Args := match v.findInfo I with
    | some i => i.Args
    | none => []
  match v.buildTemplateArgs Args D.getTemplateArgs with
  | Except.error e => Except.error e
  | Except.ok (Args, v) =>
    Except.ok (v.modifyInfo I (fun i =>
      { i with Args := Args
               Primary := v.findInfoDecl D.getInstantiatedFrom i.Primary
               Name := D.getInstantiatedFromName }))

/-- The first-build statements of `buildNamespace`. -/
def firstBuildNamespace (I : SymbolID) (D : NamespaceDecl) (v : ASTVisitor) :
    Except Fault ASTVisitor :=
  Except.ok (v.modifyInfo I (fun i =>
    let i := if D.isAnonymousNamespace then { i with isAnonymous := true }
      else { i with Name := D.extractName }
    { i with isInline := D.isInline }))

/-- The statements of `buildRecord` before `if(! created) return;`. -/
def augmentRecord (v : ASTVisitor) (D : CXXRecordDecl) (i : Info) : Info :=
  let i := { i with javadoc := parseRawComment i.javadoc D.getRawComment }
  { i with toSourceInfo :=
      v.addSourceLocation i.toSourceInfo D.getLine D.isThisDeclarationADefinition }

/-- The loop over `D->bases()` in `buildRecord`: the bases to emplace. -/
def buildBases (v : ASTVisitor) : List CXXBaseSpecifier →
    Except Fault (List BaseInfo × ASTVisitor)
  | [] => Except.ok ([], v)
  | B :: rest =>
    match v.buildTypeInfo B.getType ExtractMode.DirectDependency with
    | Except.error e => Except.error e
    | Except.ok (t, v) =>
      match buildBases v rest with
      | Except.error e => Except.error e
      | Except.ok (bs, v) => Except.ok (⟨t, B.getAccessSpecifier, B.isVirtual⟩ :: bs, v)

/-- The first-build statements of `buildRecord`. -/
def firstBuildRecord (I : SymbolID) (D : CXXRecordDecl) (v : ASTVisitor) :
    Except Fault ASTVisitor :=
  let v := v.modifyInfo I (fun i =>
    let i := match D.getTypedefNameForAnonDecl with
      | some TD => { i with IsTypeDef := true, Name := TD }
      | none => { i with Name := D.extractName }
    let i := { i with KeyKind := D.getTagKind, isFinal := D.hasFinalAttr }
    match D.getDestructorFinal with
    | some b => { i with isFinalDestructor := b }
    | none => i)
  if D.hasDefinition then
    match v.buildBases D.bases with
    | Except.error e => Except.error e
    | Except.ok (bases, v) =>
      Except.ok (v.modifyInfo I (fun i => { i with Bases := i.Bases ++ bases }))
  else Except.ok v

mutual
/-- The operation `buildSpecialization(I, created, D)`. -/
def buildSpecialization (v : ASTVisitor) (I : SymbolID) (created : Bool)
    (D : CXXRecordDecl) (getDeclContext : DeclContext) : Except Fault ASTVisitor :=
  v.buildWith I created (fun i => i) (firstBuildSpecialization I D)
    (fun v => getParentNamespaces v I getDeclContext)
termination_by 4 * getDeclContext.size + 3
decreasing_by all_goals (simp_wf; try omega)
/-- The operation `buildNamespace(I, created, D)`. -/
def buildNamespace (v : ASTVisitor) (I : SymbolID) (created : Bool)
    (D : NamespaceDecl) (getDeclContext : DeclContext) : Except Fault ASTVisitor :=
  v.buildWith I created (fun i => i) (firstBuildNamespace I D)
    (fun v => getParentNamespaces v I getDeclContext)
termination_by 4 * getDeclContext.size + 3
decreasing_by all_goals (simp_wf; try omega)
/-- The operation `buildRecord(I, created, D)`. -/
def buildRecord (v : ASTVisitor) (I : SymbolID) (created : Bool)
    (D : CXXRecordDecl) (getDeclContext : DeclContext) : Except Fault ASTVisitor :=
  v.buildWith I created (augmentRecord v D) (firstBuildRecord I D)
    (fun v => getParentNamespaces v I getDeclContext)
termination_by 4 * getDeclContext.size + 3
decreasing_by all_goals (simp_wf; try omega)
/-- The operation `getParentNamespaces(I, D)`, with `getDeclContext` the
context of `D`. -/
def getParentNamespaces (v : ASTVisitor) (I : SymbolID) (getDeclContext : DeclContext) :
    Except Fault ASTVisitor :=
  match v.findInfo I with
  | none => Except.error Fault.danglingReference
  | some i =>
    if !i.Namespace.isEmpty then Except.error Fault.namespaceNotEmpty
    else getParentNamespacesLoop v I I getDeclContext
termination_by 4 * getDeclContext.size + 2
decreasing_by all_goals (simp_wf; try omega)
/-- The `do ... while` loop of `getParentNamespaces`, at the context
`parent_context`, for the child `child_id`. -/
def getParentNamespacesLoop (v : ASTVisitor) (I : SymbolID) (child_id : SymbolID)
    (parent_context : DeclContext) : Except Fault ASTVisitor :=
  match parent_context with
  | DeclContext.TranslationUnit =>
    let parent_id := SymbolID.zero
    match v.getOrCreateInfo InfoKind.Namespace parent_id with
    | Except.error e => Except.error e
    | Except.ok (v, _, _) =>
      let v := v.modifyInfo parent_id (emplaceChild true (v.findInfo child_id))
      Except.ok
        (v.modifyInfo I (fun i =>
          { i with Namespace := i.Namespace ++ [(v.findInfo parent_id).map Info.id] }))
  | DeclContext.Namespace D getParent =>
    let parent_id := extractSymbolID D.toDeclBase
    match v.getOrCreateInfo InfoKind.Namespace parent_id with
    | Except.error e => Except.error e
    | Except.ok (v, _, created) =>
      match buildNamespace v parent_id created D getParent with
      | Except.error e => Except.error e
      | Except.ok v =>
        let v := v.modifyInfo parent_id (emplaceChild true (v.findInfo child_id))
        let v := v.modifyInfo I (fun i =>
          { i with Namespace := i.Namespace ++ [(v.findInfo parent_id).map Info.id] })
        getParentNamespacesLoop v I parent_id getParent
  | DeclContext.ClassTemplateSpecialization D getParent =>
    let parent_id := extractSymbolID D.toDeclBase
    if D.isImplicitInstantiation then
      match v.getOrCreateInfo InfoKind.Specialization parent_id with
      | Except.error e => Except.error e
      | Except.ok (v, _, created) =>
        match buildSpecialization v parent_id created D getParent with
        | Except.error e => Except.error e
        | Except.ok v =>
          let v := v.modifyInfo parent_id
            (emplaceSpecializedMember ⟨none, (v.findInfo child_id).map Info.id⟩)
          let v := v.modifyInfo I (fun i =>
            { i with Namespace := i.Namespace ++ [(v.findInfo parent_id).map Info.id] })
          getParentNamespacesLoop v I parent_id getParent
    else
      match v.getOrCreateInfo InfoKind.Record parent_id with
      | Except.error e => Except.error e
      | Except.ok (v, _, created) =>
        match buildRecord v parent_id created D getParent with
        | Except.error e => Except.error e
        | Except.ok v =>
          let v := v.modifyInfo parent_id (emplaceChild true (v.findInfo child_id))
          let v := v.modifyInfo I (fun i =>
            { i with Namespace := i.Namespace ++ [(v.findInfo parent_id).map Info.id] })
          getParentNamespacesLoop v I parent_id getParent
  | DeclContext.ClassTemplatePartialSpecialization D getParent =>
    let parent_id := extractSymbolID D.toDeclBase
    if D.isImplicitInstantiation then Except.error Fault.other
    else
      match v.getOrCreateInfo InfoKind.Record parent_id with
      | Except.error e => Except.error e
      | Except.ok (v, _, created) =>
        match buildRecord v parent_id created D getParent with
        | Except.error e => Except.error e
        | Except.ok v =>
          let v := v.modifyInfo parent_id (emplaceChild true (v.findInfo child_id))
          let v := v.modifyInfo I (fun i =>
            { i with Namespace := i.Namespace ++ [(v.findInfo parent_id).map Info.id] })
          getParentNamespacesLoop v I parent_id getParent
  | DeclContext.CXXRecord D getParent =>
    let parent_id := extractSymbolID D.toDeclBase
    match v.getOrCreateInfo InfoKind.Record parent_id with
    | Except.error e => Except.error e
    | Except.ok (v, _, created) =>
      match buildRecord v parent_id created D getParent with
      | Except.error e => Except.error e
      | Except.ok v =>
        let v := v.modifyInfo parent_id (emplaceChild true (v.findInfo child_id))
        let v := v.modifyInfo I (fun i =>
          { i with Namespace := i.Namespace ++ [(v.findInfo parent_id).map Info.id] })
        getParentNamespacesLoop v I parent_id getParent
  | DeclContext.Other getParent => getParentNamespacesLoop v I child_id getParent
termination_by 4 * parent_context.size + 1
decreasing_by all_goals (simp_wf; simp only [DeclContext.size]; omega)
end


/-- The statements of `buildEnum` before `if(! created) return;`. -/
def augmentEnum (v : ASTVisitor) (D : EnumDecl) (i : Info) : Info :=
  let i := { i with javadoc := parseRawComment i.javadoc D.getRawComment }
  { i with toSourceInfo :=
      v.addSourceLocation i.toSourceInfo D.getLine D.isThisDeclarationADefinition }

/-- The operation `parseEnumerators(I, D)`: the members to emplace. -/
def parseEnumerators (D : EnumDecl) : List EnumValueInfo :=
  D.enumerators.map (fun E =>
    { Name := E.getNameAsString
      Initializer := buildExprInfoValue {} E.getInitExpr E.getInitVal
      javadoc := parseRawComment none E.getRawComment })

/-- The first-build statements of `buildEnum`. -/
def firstBuildEnum (I : SymbolID) (D : EnumDecl) (v : ASTVisitor) :
    Except Fault ASTVisitor :=
  let v := v.modifyInfo I (fun i => { i with Name := D.extractName, Scoped := D.isScoped })
  match
    (if D.isFixed then
      match v.buildTypeInfo D.getIntegerType ExtractMode.IndirectDependency with
      | Except.error e => Except.error e
      | Except.ok (t, v) => Except.ok (v.modifyInfo I (fun i => { i with UnderlyingType := t }))
    else Except.ok v) with
  | Except.error e => Except.error e
  | Except.ok v =>
    Except.ok (v.modifyInfo I (fun i =>
      { i with Enumerators := i.Enumerators ++ parseEnumerators D }))

/-- The operation `buildEnum(I, created, D)`. -/
def buildEnum (v : ASTVisitor) (I : SymbolID) (created : Bool) (D : EnumDecl)
    (getDeclContext : DeclContext) : Except Fault ASTVisitor :=
  v.buildWith I created (augmentEnum v D) (firstBuildEnum I D)
    (fun v => getParentNamespaces v I getDeclContext)

/-- The statements of `buildTypedef` before `if(! created) return;`. -/
def augmentTypedef (v : ASTVisitor) (D : TypedefNameDecl) (i : Info) : Info :=
  let i := { i with javadoc := parseRawComment i.javadoc D.getRawComment }
  { i with toSourceInfo := v.addSourceLocation i.toSourceInfo D.getLine true }

/-- The first-build statements of `buildTypedef`. -/
def firstBuildTypedef (I : SymbolID) (D : TypedefNameDecl) (v : ASTVisitor) :
    Except Fault ASTVisitor :=
  let v := v.modifyInfo I (fun i => { i with Name := D.extractName })
  match v.buildTypeInfo D.getUnderlyingType ExtractMode.IndirectDependency with
  | Except.error e => Except.error e
  | Except.ok (t, v) => Except.ok (v.modifyInfo I (fun i => { i with Type_ := t }))

/-- The operation `buildTypedef(I, created, D)`. -/
def buildTypedef (v : ASTVisitor) (I : SymbolID) (created : Bool) (D : TypedefNameDecl)
    (getDeclContext : DeclContext) : Except Fault ASTVisitor :=
  v.buildWith I created (augmentTypedef v D) (firstBuildTypedef I D)
    (fun v => getParentNamespaces v I getDeclContext)

/-- The value `ConstexprKind::Constexpr`. -/
def ConstexprKind_Constexpr : Nat := 1

/-- The statements of `buildVariable` before `if(! created) return;`. -/
def augmentVariable (v : ASTVisitor) (D : VarDecl) (i : Info) : Info :=
  let i := { i with javadoc := parseRawComment i.javadoc D.getRawComment }
  let i := { i with toSourceInfo :=
    v.addSourceLocation i.toSourceInfo D.getLine D.isThisDeclarationADefinition }
  let i := { i with storageClass := i.storageClass ||| D.getStorageClass
                    isThreadLocal := i.isThreadLocal || D.isThreadLocal
                    isConstinit := i.isConstinit || D.hasConstInitAttr }
  if D.isConstexpr then { i with constexprKind := ConstexprKind_Constexpr } else i

/-- The first-build statements of `buildVariable`. -/
def firstBuildVariable (I : SymbolID) (D : VarDecl) (v : ASTVisitor) :
    Except Fault ASTVisitor :=
  let v := v.modifyInfo I (fun i => { i with Name := D.extractName })
  match v.buildTypeInfo D.getType ExtractMode.IndirectDependency with
  | Except.error e => Except.error e
  | Except.ok (t, v) => Except.ok (v.modifyInfo I (fun i => { i with Type_ := t }))

/-- The operation `buildVariable(I, created, D)`. -/
def buildVariable (v : ASTVisitor) (I : SymbolID) (created : Bool) (D : VarDecl)
    (getDeclContext : DeclContext) : Except Fault ASTVisitor :=
  v.buildWith I created (augmentVariable v D) (firstBuildVariable I D)
    (fun v => getParentNamespaces v I getDeclContext)

/-- The statements of `buildField` before `if(! created) return;`. -/
def augmentField (v : ASTVisitor) (D : FieldDecl) (i : Info) : Info :=
  let i := { i with javadoc := parseRawComment i.javadoc D.getRawComment }
  { i with toSourceInfo := v.addSourceLocation i.toSourceInfo D.getLine true }

/-- The first-build statements of `buildField`. -/
def firstBuildField (I : SymbolID) (D : FieldDecl) (v : ASTVisitor) :
    Except Fault ASTVisitor :=
  let v := v.modifyInfo I (fun i => { i with Name := D.extractName })
  match v.buildTypeInfo D.getType ExtractMode.IndirectDependency with
  | Except.error e => Except.error e
  | Except.ok (t, v) =>
    Except.ok (v.modifyInfo I (fun i =>
      let i := { i with Type_ := t, IsMutable := D.isMutable }
      let i :=
        if D.isBitField then
          { i with IsBitfield := true
                   BitfieldWidth := buildExprInfo i.BitfieldWidth D.getBitWidth }
        else i
      { i with hasNoUniqueAddress := D.hasNoUniqueAddressAttr
               isDeprecated := D.hasDeprecatedAttr
               isMaybeUnused := D.hasUnusedAttr }))

/-- The operation `buildField(I, created, D)`. -/
def buildField (v : ASTVisitor) (I : SymbolID) (created : Bool) (D : FieldDecl)
    (getDeclContext : DeclContext) : Except Fault ASTVisitor :=
  v.buildWith I created (augmentField v D) (firstBuildField I D)
    (fun v => getParentNamespaces v I getDeclContext)

/-- The statements of `buildFunction` before `if(! created) return;`. -/
def augmentFunction (v : ASTVisitor) (D : FunctionDecl) (i : Info) : Info :=
  let i := { i with javadoc := parseRawComment i.javadoc D.getRawComment }
  let i := { i with toSourceInfo :=
    v.addSourceLocation i.toSourceInfo D.getLine D.isThisDeclarationADefinition }
  { i with specs0 := i.specs0 ||| D.specs0, specs1 := i.specs1 ||| D.specs1 }

/-- The loop over `D->parameters()` in `buildFunction`: the parameters to
emplace. -/
def buildParams (v : ASTVisitor) : List ParmVarDecl → Except Fault (List Param × ASTVisitor)
  | [] => Except.ok ([], v)
  | P :: rest =>
    match v.buildTypeInfo P.getOriginalType ExtractMode.IndirectDependency with
    | Except.error e => Except.error e
    | Except.ok (t, v) =>
      match buildParams v rest with
      | Except.error e => Except.error e
      | Except.ok (ps, v) => Except.ok (⟨t, P.getNameAsString, P.getDefaultArg⟩ :: ps, v)

/-- The first-build statements of `buildFunction`. -/
def firstBuildFunction (I : SymbolID) (D : FunctionDecl) (v : ASTVisitor) :
    Except Fault ASTVisitor :=
  let v := v.modifyInfo I (fun i =>
    { i with Name := D.extractName, Class := D.getFunctionClass })
  match v.buildParams D.parameters with
  | Except.error e => Except.error e
  | Except.ok (Params, v) =>
    let v := v.modifyInfo I (fun i => { i with Params := i.Params ++ Params })
    let next_mode :=
      if D.hasUnnamedOrLocalAutoType then ExtractMode.DirectDependency
      else ExtractMode.IndirectDependency
    match v.buildTypeInfo D.getReturnType next_mode with
    | Except.error e => Except.error e
    | Except.ok (t, v) => Except.ok (v.modifyInfo I (fun i => { i with ReturnType := t }))

/-- The operation `buildFunction(I, created, D)`. -/
def buildFunction (v : ASTVisitor) (I : SymbolID) (created : Bool) (D : FunctionDecl)
    (getDeclContext : DeclContext) : Except Fault ASTVisitor :=
  v.buildWith I created (augmentFunction v D) (firstBuildFunction I D)
    (fun v => getParentNamespaces v I getDeclContext)

/-- The operation `buildFriend(D)`. -/
def buildFriend (v : ASTVisitor) (D : FriendDecl) : Except Fault ASTVisitor :=
  match D.target with
  | FriendTarget.Function FD getDeclContext =>
    let r := v.shouldExtract FD.toDeclBase
    if !r.1 then Except.ok r.2
    else
      match FD.usrHash with
      | none => Except.ok r.2
      | some id =>
        match r.2.getOrCreateInfo InfoKind.Function id with
        | Except.error e => Except.error e
        | Except.ok (v, _, created) =>
          match v.buildFunction id created FD getDeclContext with
          | Except.error e => Except.error e
          | Except.ok v =>
            match D.getDeclContextRecord with
            | none => Except.error Fault.other
            | some RD =>
              let parent_id := match RD with
                | some id => id
                | none => SymbolID.zero
              match v.findInfo parent_id with
              | some parent =>
                if parent.Kind ≠ InfoKind.Record then Except.error Fault.other
                else
                  Except.ok (v.modifyInfo parent_id (fun i =>
                    { clearImplicit v.currentMode i with
                      Friends := i.Friends ++ [some id] }))
              | none => Except.ok v
  | FriendTarget.FunctionTemplate => Except.ok v
  | FriendTarget.ClassTemplate => Except.ok v
  | FriendTarget.OtherDecl => Except.error Fault.other
  | FriendTarget.FriendType => Except.ok v
  | FriendTarget.Nothing => Except.error Fault.other

mutual
/-- The operation `buildTemplateParam(N)`. -/
def buildTemplateParam (v : ASTVisitor) (N : TemplateParmDecl) :
    Except Fault (Option TParam × ASTVisitor) :=
  match N with
  | TemplateParmDecl.TemplateTypeParm Name IsParameterPack typename Default =>
    match Default with
    | some A =>
      match v.buildTemplateArg A with
      | Except.error e => Except.error e
      | Except.ok (R, v) =>
        Except.ok (some (TParam.TypeTParam Name IsParameterPack typename R), v)
    | none => Except.ok (some (TParam.TypeTParam Name IsParameterPack typename none), v)
  | TemplateParmDecl.NonTypeTemplateParm Name IsParameterPack T Default =>
    match v.buildTypeInfo T ExtractMode.IndirectDependency with
    | Except.error e => Except.error e
    | Except.ok (t, v) =>
      match Default with
      | some A =>
        match v.buildTemplateArg A with
        | Except.error e => Except.error e
        | Except.ok (R, v) =>
          Except.ok (some (TParam.NonTypeTParam Name IsParameterPack t R), v)
      | none => Except.ok (some (TParam.NonTypeTParam Name IsParameterPack t none), v)
  | TemplateParmDecl.TemplateTemplateParm Name IsParameterPack TPL Default =>
    match buildTemplateParams v TPL with
    | Except.error e => Except.error e
    | Except.ok (Params, v) =>
      match Default with
      | some A =>
        match v.buildTemplateArg A with
        | Except.error e => Except.error e
        | Except.ok (R, v) =>
          Except.ok (some (TParam.TemplateTParam Name IsParameterPack Params R), v)
      | none => Except.ok (some (TParam.TemplateTParam Name IsParameterPack Params none), v)
/-- The loop `for(const NamedDecl* NP : ...) Params.emplace_back(
buildTemplateParam(NP))`: the parameters to emplace. -/
def buildTemplateParams (v : ASTVisitor) (TPL : List TemplateParmDecl) :
    Except Fault (List (Option TParam) × ASTVisitor) :=
  match TPL with
  | [] => Except.ok ([], v)
  | N :: rest =>
    match buildTemplateParam v N with
    | Except.error e => Except.error e
    | Except.ok (P, v) =>
      match buildTemplateParams v rest with
      | Except.error e => Except.error e
      | Except.ok (Ps, v) => Except.ok (P :: Ps, v)
end

/-- The operation `parseTemplateParams(I, TPL)`; returns `I` after the
call. -/
def parseTemplateParams (v : ASTVisitor) (I : TemplateInfo) (TPL : List TemplateParmDecl) :
    Except Fault (TemplateInfo × ASTVisitor) :=
  match v.buildTemplateParams TPL with
  | Except.error e => Except.error e
  | Except.ok (Ps, v) => Except.ok ({ I with Params := I.Params ++ Ps }, v)

/-- The operation `parseTemplateArgs(I, spec)`; returns `I` after the
call. -/
def parseTemplateArgs (v : ASTVisitor) (I : TemplateInfo) (spec : SpecializationArgs) :
    Except Fault (TemplateInfo × ASTVisitor) :=
  let I := match spec.primary with
    | some primary => { I with Primary := v.findInfoDecl primary I.Primary }
    | none => I
  match spec.args with
  | none => Except.ok (I, v)
  | some args =>
    match v.buildTemplateArgs I.Args args with
    | Except.error e => Except.error e
    | Except.ok (Args, v) => Except.ok ({ I with Args := Args }, v)


/-- The statements of a `traverse` overload that fill the fresh
`TemplateInfo` for a declaration visited with the template `T` (the described
or the specialized template): the template arguments are parsed for a
specialization `spec`, the parameters of the partial specialization `params`
or else of `T` after them. -/
def parseTemplateInfo (v : ASTVisitor) (T : TemplateDecl) (spec : Option SpecializationArgs)
    (params : Option (List TemplateParmDecl)) : Except Fault (TemplateInfo × ASTVisitor) :=
  match spec with
  | some s =>
    match v.parseTemplateArgs {} s with
    | Except.error e => Except.error e
    | Except.ok (Template, v) =>
      match params with
      | some ps => v.parseTemplateParams Template ps
      | none => Except.ok (Template, v)
  | none => v.parseTemplateParams {} T.getTemplateParameters

/-- The statements of a `traverse` overload that set `I.Template` and
`I.Access`, for a declaration visited with the template `TD`, if any. -/
def parseTemplateHead (v : ASTVisitor) (I : SymbolID) (access : AccessKind)
    (TD : Option TemplateDecl) (spec : Option SpecializationArgs)
    (params : Option (List TemplateParmDecl)) : Except Fault ASTVisitor :=
  match TD with
  | none => Except.ok (v.modifyInfo I (fun i => { i with Access := access }))
  | some T =>
    match v.parseTemplateInfo T spec params with
    | Except.error e => Except.error e
    | Except.ok (Template, v) =>
      Except.ok (v.modifyInfo I (fun i =>
        { i with Template := some Template, Access := T.getAccessUnsafe }))

/-- The overload `traverse(NamespaceDecl*)`; `traverseMembers` is the final
`traverseContext(D)`. -/
def traverseNamespace (v : ASTVisitor) (D : NamespaceDecl) (getDeclContext : DeclContext)
    (traverseMembers : ASTVisitor → Except Fault (Bool × ASTVisitor)) :
    Except Fault (Bool × ASTVisitor) :=
  let r := v.shouldExtract D.toDeclBase
  if !r.1 then Except.ok (true, r.2)
  else
    let v := r.2
    if D.isAnonymousNamespace && v.config_.extract.anonymousNamespaces != Policy.Always &&
        (v.config_.extract.anonymousNamespaces == Policy.Never ||
          v.currentMode == ExtractMode.Normal) then
      Except.ok (true, v)
    else
      match D.usrHash with
      | none => Except.ok (true, v)
      | some id =>
        match v.getOrCreateInfo InfoKind.Namespace id with
        | Except.error e => Except.error e
        | Except.ok (v, _, created) =>
          match v.buildNamespace id created D getDeclContext with
          | Except.error e => Except.error e
          | Except.ok v => traverseMembers v

/-- The overload `traverse(EnumDecl*)`. -/
def traverseEnum (v : ASTVisitor) (D : EnumDecl) (getDeclContext : DeclContext) :
    Except Fault (Bool × ASTVisitor) :=
  let r := v.shouldExtract D.toDeclBase
  if !r.1 then Except.ok (true, r.2)
  else
    match D.usrHash with
    | none => Except.ok (false, r.2)
    | some id =>
      match r.2.getOrCreateInfo InfoKind.Enum id with
      | Except.error e => Except.error e
      | Except.ok (v, _, created) =>
        let v := v.modifyInfo id (fun i => { i with Access := D.getAccessUnsafe })
        match v.buildEnum id created D getDeclContext with
        | Except.error e => Except.error e
        | Except.ok v => Except.ok (true, v)

/-- The overload `traverse(FieldDecl*)`. -/
def traverseField (v : ASTVisitor) (D : FieldDecl) (getDeclContext : DeclContext) :
    Except Fault (Bool × ASTVisitor) :=
  let r := v.shouldExtract D.toDeclBase
  if !r.1 then Except.ok (true, r.2)
  else
    match D.usrHash with
    | none => Except.ok (false, r.2)
    | some id =>
      match r.2.getOrCreateInfo InfoKind.Field id with
      | Except.error e => Except.error e
      | Except.ok (v, _, created) =>
        let v := v.modifyInfo id (fun i => { i with Access := D.getAccessUnsafe })
        match v.buildField id created D getDeclContext with
        | Except.error e => Except.error e
        | Except.ok v => Except.ok (true, v)

/-- The overload `traverse(FriendDecl*)`. -/
def traverseFriend (v : ASTVisitor) (D : FriendDecl) : Except Fault (Bool × ASTVisitor) :=
  match v.buildFriend D with
  | Except.error e => Except.error e
  | Except.ok v => Except.ok (true, v)

/-- The overload `traverse(CXXRecordTy*, ClassTemplateDecl*)`;
`traverseMembers` is the final `traverseContext(D)`. -/
def traverseRecord (v : ASTVisitor) (D : CXXRecordDecl) (CTD : Option TemplateDecl)
    (getDeclContext : DeclContext)
    (traverseMembers : ASTVisitor → Except Fault (Bool × ASTVisitor)) :
    Except Fault (Bool × ASTVisitor) :=
  let r := v.shouldExtract D.toDeclBase
  if !r.1 then Except.ok (true, r.2)
  else
    match D.usrHash with
    | none => Except.ok (false, r.2)
    | some id =>
      match r.2.getOrCreateInfo InfoKind.Record id with
      | Except.error e => Except.error e
      | Except.ok (v, _, created) =>
        match v.parseTemplateHead id D.getAccessUnsafe CTD D.specialization
            D.partialParameters with
        | Except.error e => Except.error e
        | Except.ok v =>
          match v.buildRecord id created D getDeclContext with
          | Except.error e => Except.error e
          | Except.ok v => traverseMembers v

/-- The overload `traverse(VarTy*, VarTemplateDecl*)`. -/
def traverseVar (v : ASTVisitor) (D : VarDecl) (VTD : Option TemplateDecl)
    (getDeclContext : DeclContext) : Except Fault (Bool × ASTVisitor) :=
  let r := v.shouldExtract D.toDeclBase
  if !r.1 then Except.ok (true, r.2)
  else
    match D.usrHash with
    | none => Except.ok (false, r.2)
    | some id =>
      match r.2.getOrCreateInfo InfoKind.Variable id with
      | Except.error e => Except.error e
      | Except.ok (v, _, created) =>
        match v.parseTemplateHead id D.getAccessUnsafe VTD D.specialization
            D.partialParameters with
        | Except.error e => Except.error e
        | Except.ok v =>
          match v.buildVariable id created D getDeclContext with
          | Except.error e => Except.error e
          | Except.ok v => Except.ok (true, v)

/-- The statements of `traverse(FunctionTy*, FunctionTemplateDecl*)` that
set `I.Template` and `I.Access`. -/
def parseFunctionTemplateHead (v : ASTVisitor) (I : SymbolID) (D : FunctionDecl)
    (FTD : Option TemplateDecl) : Except Fault ASTVisitor :=
  match FTD with
  | some T =>
    match v.parseTemplateParams {} T.getTemplateParameters with
    | Except.error e => Except.error e
    | Except.ok (Template, v) =>
      Except.ok (v.modifyInfo I (fun i =>
        { i with Template := some Template, Access := T.getAccessUnsafe }))
  | none =>
    match D.getTemplateSpecializationInfo with
    | some FTSI =>
      match v.parseTemplateArgs {} FTSI with
      | Except.error e => Except.error e
      | Except.ok (Template, v) =>
        Except.ok (v.modifyInfo I (fun i =>
          { i with Template := some Template, Access := D.getAccessUnsafe }))
    | none =>
      match D.getDependentSpecializationInfo with
      | some DFTSI =>
        match v.parseTemplateArgs {} DFTSI with
        | Except.error e => Except.error e
        | Except.ok (Template, v) =>
          Except.ok (v.modifyInfo I (fun i =>
            { i with Template := some Template, Access := D.getAccessUnsafe }))
      | none => Except.ok (v.modifyInfo I (fun i => { i with Access := D.getAccessUnsafe }))

/-- The overload `traverse(FunctionTy*, FunctionTemplateDecl*)`. -/
def traverseFunction (v : ASTVisitor) (D : FunctionDecl) (FTD : Option TemplateDecl)
    (getDeclContext : DeclContext) : Except Fault (Bool × ASTVisitor) :=
  let r := v.shouldExtract D.toDeclBase
  if !r.1 then Except.ok (true, r.2)
  else
    match D.usrHash with
    | none => Except.ok (false, r.2)
    | some id =>
      match r.2.getOrCreateInfo InfoKind.Function id with
      | Except.error e => Except.error e
      | Except.ok (v, _, created) =>
        match v.parseFunctionTemplateHead id D FTD with
        | Except.error e => Except.error e
        | Except.ok v =>
          match v.buildFunction id created D getDeclContext with
          | Except.error e => Except.error e
          | Except.ok v => Except.ok (true, v)

/-- The overload `traverse(TypedefNameTy*, TypeAliasTemplateDecl*)`. -/
def traverseTypedef (v : ASTVisitor) (D : TypedefNameDecl) (ATD : Option TemplateDecl)
    (getDeclContext : DeclContext) : Except Fault (Bool × ASTVisitor) :=
  let r := v.shouldExtract D.toDeclBase
  if !r.1 then Except.ok (true, r.2)
  else
    match D.usrHash with
    | none => Except.ok (false, r.2)
    | some id =>
      match r.2.getOrCreateInfo InfoKind.Typedef id with
      | Except.error e => Except.error e
      | Except.ok (v, _, created) =>
        let v := if D.isTypeAliasDecl then v.modifyInfo id (fun i => { i with IsUsing := true })
          else v
        match v.parseTemplateHead id D.getAccessUnsafe ATD none none with
        | Except.error e => Except.error e
        | Except.ok v =>
          match v.buildTypedef id created D getDeclContext with
          | Except.error e => Except.error e
          | Except.ok v => Except.ok (true, v)

/-- The result of `traverseDecl`: the value of the `traverse` overload is
dropped and `true` is returned. -/
def dropResult (r : Except Fault (Bool × ASTVisitor)) : Except Fault (Bool × ASTVisitor) :=
  match r with
  | Except.error e => Except.error e
  | Except.ok (_, v) => Except.ok (true, v)

mutual
/-- The operation `traverseDecl(D, args...)`: `TD` is the template argument
passed along, if any. The declaration a template describes is of the kind
of the template; for a class or variable template specialization the
specialized template is passed instead of `TD`. An overload that takes no
template is replaced by the catch-all `traverse` when one is passed. -/
def traverseDecl (v : ASTVisitor) (D : Decl) (TD : Option TemplateDecl) :
    Except Fault (Bool × ASTVisitor) :=
  match D with
  | Decl.TranslationUnit decls => dropResult (traverseContext v decls)
  | Decl.Namespace D getDeclContext decls =>
    if D.isInvalidDecl || D.isImplicit then Except.ok (true, v)
    else
      match TD with
      | none =>
        dropResult (v.traverseNamespace D getDeclContext (fun v => traverseContext v decls))
      | some _ => dropResult (traverseContext v decls)
  | Decl.Enum D getDeclContext =>
    if D.isInvalidDecl || D.isImplicit then Except.ok (true, v)
    else
      match TD with
      | none => dropResult (v.traverseEnum D getDeclContext)
      | some _ => Except.ok (true, v)
  | Decl.Field D getDeclContext =>
    if D.isInvalidDecl || D.isImplicit then Except.ok (true, v)
    else
      match TD with
      | none => dropResult (v.traverseField D getDeclContext)
      | some _ => Except.ok (true, v)
  | Decl.Friend D =>
    if D.isInvalidDecl || D.isImplicit then Except.ok (true, v)
    else
      match TD with
      | none => dropResult (v.traverseFriend D)
      | some _ => Except.ok (true, v)
  | Decl.ClassScopeFunctionSpecialization base MD =>
    if base.isInvalidDecl || base.isImplicit then Except.ok (true, v)
    else
      match TD with
      | none =>
        let r := v.shouldExtract base
        if !r.1 then Except.ok (true, r.2)
        else dropResult (traverseDecl r.2 MD none)
      | some _ => Except.ok (true, v)
  | Decl.CXXRecord D getDeclContext decls =>
    if D.isInvalidDecl || D.isImplicit then Except.ok (true, v)
    else
      let CTD := if D.specialization.isSome then D.getSpecializedTemplate else TD
      dropResult
        (v.traverseRecord D CTD getDeclContext (fun v => traverseContext v decls))
  | Decl.Var D getDeclContext =>
    if D.isInvalidDecl || D.isImplicit then Except.ok (true, v)
    else
      let VTD := if D.specialization.isSome then D.getSpecializedTemplate else TD
      dropResult (v.traverseVar D VTD getDeclContext)
  | Decl.Function D getDeclContext =>
    if D.isInvalidDecl || D.isImplicit then Except.ok (true, v)
    else dropResult (v.traverseFunction D TD getDeclContext)
  | Decl.TypedefName D getDeclContext =>
    if D.isInvalidDecl || D.isImplicit then Except.ok (true, v)
    else dropResult (v.traverseTypedef D TD getDeclContext)
  | Decl.RedeclarableTemplate base T templated =>
    if base.isInvalidDecl || base.isImplicit then Except.ok (true, v)
    else dropResult (traverseDecl v templated (some T))
  | Decl.Other base none =>
    if base.isInvalidDecl || base.isImplicit then Except.ok (true, v)
    else Except.ok (true, v)
  | Decl.Other base (some decls) =>
    if base.isInvalidDecl || base.isImplicit then Except.ok (true, v)
    else dropResult (traverseContext v decls)
termination_by 2 * D.size + 1
decreasing_by all_goals (simp_wf; simp only [Decl.size, Decl.listSize]; omega)
/-- The operation `traverseContext(D)`, with `decls` the members of `D`. -/
def traverseContext (v : ASTVisitor) (decls : List Decl) :
    Except Fault (Bool × ASTVisitor) :=
  match decls with
  | [] => Except.ok (true, v)
  | C :: rest =>
    match traverseDecl v C none with
    | Except.error e => Except.error e
    | Except.ok (r, v) =>
      if !r then Except.ok (false, v) else traverseContext v rest
termination_by 2 * Decl.listSize decls
decreasing_by all_goals (simp_wf; simp only [Decl.size, Decl.listSize]; omega)
end

end ASTVisitor

/-! ## Reading calls, first-build bookkeeping -/

/-- The faults of the parent-namespace chain: the assertion at entry to
`getParentNamespaces`, and a reference followed to no stored entity. -/
def Fault.ofChain : Fault → Bool
  | Fault.namespaceNotEmpty => true
  | Fault.danglingReference => true
  | _ => false

/-- A call that only reads the store: started in the state `v` it does not
end with a fault of the chain, and when it returns the state is `v`
again. -/
def ReadsOnly {α : Type} (v : ASTVisitor) (r : Except Fault (α × ASTVisitor)) : Prop :=
  (∀ e, r = Except.error e → e.ofChain = false) ∧ ∀ x w, r = Except.ok (x, w) → w = v

/-- The statement, for the calls of measure at most `n`, that the type and
template-argument builders only read the store. -/
def BuildersReadOnly (n : Nat) : Prop :=
  (∀ (v : ASTVisitor) qt m, 4 * QualType.size qt + 2 ≤ n →
    ReadsOnly v (v.buildTypeInfo qt m)) ∧
  (∀ (v : ASTVisitor) m result NNS pack qt,
    4 * (QualType.size qt + NestedNameSpecifier.optSize NNS) + 1 ≤ n →
    ReadsOnly v (v.buildTypeInfoLoop m result NNS pack qt)) ∧
  (∀ (v : ASTVisitor) m result NNS pack I,
    4 * NestedNameSpecifier.optSize NNS + 1 ≤ n →
    ReadsOnly v (v.buildTypeInfoTerminal m result NNS pack I)) ∧
  (∀ (v : ASTVisitor) P NNS m, 4 * NestedNameSpecifier.optSize NNS ≤ n →
    ReadsOnly v (v.buildParentTypeInfo P NNS m)) ∧
  (∀ (v : ASTVisitor) PTs, 4 * QualType.listSize PTs + 3 ≤ n →
    ReadsOnly v (v.buildTypeInfoList PTs)) ∧
  (∀ (v : ASTVisitor) A, 4 * TemplateArgument.size A + 3 ≤ n →
    ReadsOnly v (v.buildTemplateArg A)) ∧
  (∀ (v : ASTVisitor) result range, 4 * TemplateArgument.listSize range + 3 ≤ n →
    ReadsOnly v (v.buildTemplateArgs result range))

namespace ASTVisitor

/-- The state of a visitor as its constructor leaves it: the member
initializers, with the configuration it is given. -/
def init (config : ConfigImpl) : ASTVisitor := { config_ := config }

/-- The identities of the stored entities. -/
def ids (v : ASTVisitor) : List SymbolID := v.info_.map Info.id

/-- For each stored entity, its identity and its parent-namespace chain. -/
def chains (v : ASTVisitor) : List (SymbolID × List InfoPtr) :=
  v.info_.map (fun i => (i.id, i.Namespace))

end ASTVisitor

/-- What the first-build part of the build steps writes, and the augment
part is said to leave alone: the name, the type members and the
parent-namespace chain of an entity. -/
structure FirstBuilt where
  Name : String
  Type_ : Option TypeInfo
  UnderlyingType : Option TypeInfo
  ReturnType : Option TypeInfo
  Params : List Param
  Bases : List BaseInfo
  Args : List (Option TArg)
  Namespace : List InfoPtr

/-- The first-built members of an entity. -/
def Info.firstBuilt (i : Info) : FirstBuilt :=
  ⟨i.Name, i.Type_, i.UnderlyingType, i.ReturnType, i.Params, i.Bases, i.Args, i.Namespace⟩

/-- The call returned, and the first-built members of every stored entity
are as they were in `v`. -/
def KeepsFirstBuilt (v : ASTVisitor) (r : Except Fault ASTVisitor) : Prop :=
  ∃ w, r = Except.ok w ∧
    ∀ id, (w.findInfo id).map Info.firstBuilt = (v.findInfo id).map Info.firstBuilt

/-- A step from `v` to `w` that leaves identities, chains and the log of
first builds as they are. -/
def Quiet (v w : ASTVisitor) : Prop :=
  w.chains = v.chains ∧ w.firstBuilds = v.firstBuilds

/-- A call that does not end with a fault of the chain and is a quiet step
when it returns. -/
def QuietStep (v : ASTVisitor) (r : Except Fault ASTVisitor) : Prop :=
  (∀ e, r = Except.error e → e.ofChain = false) ∧ ∀ w, r = Except.ok w → Quiet v w

/-- The bookkeeping invariant of a walk: no identity is logged twice, every
logged identity is stored, and every stored identity other than
`SymbolID::zero` is logged. -/
def Logged (v : ASTVisitor) : Prop :=
  v.firstBuilds.Nodup ∧ (∀ x ∈ v.firstBuilds, x ∈ v.ids) ∧
  (∀ x ∈ v.ids, x ∈ v.firstBuilds ∨ x = SymbolID.zero)

/-- Every stored entity with the identity `I` has an empty chain. -/
def ChainEmpty (v : ASTVisitor) (I : SymbolID) : Prop :=
  ∀ i ∈ v.info_, i.id = I → i.Namespace = []

/-- The state between `getOrCreateInfo` for `I` and the build step for it:
the invariant, but for `I` when it was just created, which is stored with an
empty chain and not yet logged. -/
def PreBuild (v : ASTVisitor) (I : SymbolID) (created : Bool) : Prop :=
  v.firstBuilds.Nodup ∧ (∀ x ∈ v.firstBuilds, x ∈ v.ids) ∧
  (∀ x ∈ v.ids, x ∈ v.firstBuilds ∨ x = SymbolID.zero ∨ (created = true ∧ x = I)) ∧
  (created = true → I ∉ v.firstBuilds ∧ I ∈ v.ids ∧ ChainEmpty v I)

/-- A call that does not end with a fault of the chain and returns in a
state with the bookkeeping invariant. -/
def Good (r : Except Fault ASTVisitor) : Prop :=
  (∀ e, r = Except.error e → e.ofChain = false) ∧ ∀ w, r = Except.ok w → Logged w

/-- The same for a call that also returns a flag. -/
def GoodB (r : Except Fault (Bool × ASTVisitor)) : Prop :=
  (∀ e, r = Except.error e → e.ofChain = false) ∧
    ∀ b w, r = Except.ok (b, w) → Logged w

/-- The statement, for the calls of measure at most `n`, that the build
steps of the parents and `getParentNamespaces` keep the bookkeeping
invariant. -/
def ParentsGood (n : Nat) : Prop :=
  (∀ (v : ASTVisitor) I created D ctx, 4 * DeclContext.size ctx + 3 ≤ n →
    PreBuild v I created → Good (v.buildSpecialization I created D ctx)) ∧
  (∀ (v : ASTVisitor) I created D ctx, 4 * DeclContext.size ctx + 3 ≤ n →
    PreBuild v I created → Good (v.buildNamespace I created D ctx)) ∧
  (∀ (v : ASTVisitor) I created D ctx, 4 * DeclContext.size ctx + 3 ≤ n →
    PreBuild v I created → Good (v.buildRecord I created D ctx)) ∧
  (∀ (v : ASTVisitor) I ctx, 4 * DeclContext.size ctx + 2 ≤ n →
    Logged v → I ∈ v.ids → ChainEmpty v I → Good (v.getParentNamespaces I ctx)) ∧
  (∀ (v : ASTVisitor) I child ctx, 4 * DeclContext.size ctx + 1 ≤ n →
    Logged v → Good (v.getParentNamespacesLoop I child ctx))

/-- The statement, for the calls of measure at most `n`, that the traversal
keeps the bookkeeping invariant. -/
def TraverseGood (n : Nat) : Prop :=
  (∀ (v : ASTVisitor) D TD, 2 * Decl.size D + 1 ≤ n →
    Logged v → GoodB (v.traverseDecl D TD)) ∧
  (∀ (v : ASTVisitor) decls, 2 * Decl.listSize decls ≤ n →
    Logged v → GoodB (v.traverseContext decls))

/-- The declaration `enum E { };` at namespace scope of an extracted file. -/
def exampleEnum : EnumDecl :=
  { usrHash := some (SymbolID.fill 7), extractName := "E",
    isThisDeclarationADefinition := true, getLine := 1 }

/-- A translation unit that holds `exampleEnum` and nothing else. -/
def exampleUnit : Decl :=
  Decl.TranslationUnit [Decl.Enum exampleEnum DeclContext.TranslationUnit]

/-! ## Identity assignment from the USR -/

/-- A declaration as `extractSymbolID(D, id)` reads it: the types of its
parameters when it is a function declaration (`dyn_cast<FunctionDecl>(D)`
succeeds), and the rest of what the USR generator reads of it. -/
structure UsrDecl where
  parameters : Option (List QualType) := none
  rest : String := ""

/-- The services of the front-end and of the support library that
`extractSymbolID(D, id)` calls; they are taken as given. -/
structure UsrFrontEnd where
  -- `context_.getSignatureParameterType(T)`
  getSignatureParameterType : QualType → QualType
  -- `index::generateUSRForDecl(D, usr_)`: the USR it writes to `usr_`, or
  -- `none` when it returns `true` (no USR is generated)
  generateUSRForDecl : UsrDecl → Option String
  -- `llvm::SHA1::hash(...)`: the twenty bytes of the digest
  SHA1_hash : String → { l : List (Fin 256) // l.length = 20 }

namespace ASTVisitor

/-- The operation `applyDecayToParameters(D)`: every parameter gets its
signature parameter type. -/
def applyDecayToParameters (fe : UsrFrontEnd) (D : UsrDecl) : UsrDecl :=
  { D with parameters := D.parameters.map (List.map fe.getSignatureParameterType) }

/-- The two-argument overload `extractSymbolID(D, id)`: the value returned,
`id` after the call, and the declaration after the call. The member `usrHash`
of the declarations of the walker model stands for its outcome. -/
def extractSymbolIDInto (fe : UsrFrontEnd) (D : UsrDecl) (id : SymbolID) :
    Bool × SymbolID × UsrDecl :=
  let D := match D.parameters with
    | some _ => applyDecayToParameters fe D
    | none => D
  match fe.generateUSRForDecl D with
  | none => (false, id, D)
  | some usr => (true, ⟨(fe.SHA1_hash usr).1, (fe.SHA1_hash usr).2⟩, D)

/-- The outcome of `extractSymbolID(D, id)` in the form of the member
`usrHash`: the identity assigned, if one is. -/
def usrHashOf (fe : UsrFrontEnd) (D : UsrDecl) : Option SymbolID :=
  let r := extractSymbolIDInto fe D SymbolID.zero
  if r.1 then some r.2.1 else none

end ASTVisitor

/-! ## Extraction on demand -/

/-- The common queries of a declaration of the tree. The translation unit
has no entry of its own in the model: no identity is assigned to it. -/
def Decl.base? : Decl → Option DeclBase
  | Decl.TranslationUnit _ => none
  | Decl.Namespace D _ _ => some D.toDeclBase
  | Decl.Enum D _ => some D.toDeclBase
  | Decl.Field D _ => some D.toDeclBase
  | Decl.Friend D => some D.toDeclBase
  | Decl.ClassScopeFunctionSpecialization base _ => some base
  | Decl.CXXRecord D _ _ => some D.toDeclBase
  | Decl.Var D _ => some D.toDeclBase
  | Decl.Function D _ => some D.toDeclBase
  | Decl.TypedefName D _ => some D.toDeclBase
  | Decl.RedeclarableTemplate base _ _ => some base
  | Decl.Other base _ => some base

/-- The typedef-name declaration that `getOrBuildInfo` finds in `D`:
`dyn_cast<TypedefNameDecl>(D)`, or the templated declaration of `D` when `D`
is an alias template. -/
def Decl.asTypedefName : Decl → Option TypedefNameDecl
  | Decl.TypedefName D _ => some D
  | Decl.RedeclarableTemplate _ _ (Decl.TypedefName D _) => some D
  | _ => none

namespace ASTVisitor

/-- The one-argument `extractSymbolID(D)` for a declaration of the tree. -/
def extractSymbolIDDecl (D : Decl) : SymbolID :=
  match D.base? with
  | some base => extractSymbolID base
  | none => SymbolID.zero

/-- The statements of `getOrBuildInfo` under the comment on the underlying
type of a typedef: the type is built in direct dependency mode and stored in
`info` when that is a typedef entity. -/
def buildTypedefUnderlying (v : ASTVisitor) (D : Decl) (id : SymbolID)
    (info : Option Info) : Except Fault ASTVisitor :=
  match D.asTypedefName with
  | some TND =>
    match v.buildTypeInfo TND.getUnderlyingType ExtractMode.DirectDependency with
    | Except.error e => Except.error e
    | Except.ok (TI, v) =>
      match info with
      | some i =>
        if i.Kind = InfoKind.Typedef then
          Except.ok (v.modifyInfo id (fun i => { i with Type_ := TI }))
        else Except.ok v
      | none => Except.ok v
  | none => Except.ok v

/-- The operation `getOrBuildInfo(D)`: the entity the returned pointer
refers to (as it is at the return), if it is not null, and the state after
the call. -/
def getOrBuildInfo (v : ASTVisitor) (D : Decl) : Except Fault (Option Info × ASTVisitor) :=
  let id := extractSymbolIDDecl D
  let info := v.findInfo id
  if v.config_.extract.referencedDeclarations == Policy.Never then Except.ok (info, v)
  else if v.config_.extract.referencedDeclarations == Policy.Dependency &&
      v.currentMode != ExtractMode.DirectDependency then Except.ok (info, v)
  else
    match v.buildTypedefUnderlying D id info with
    | Except.error e => Except.error e
    | Except.ok v =>
      match info with
      | some _ => Except.ok (v.findInfo id, v)
      | none =>
        v.extractionScope v.currentMode (fun v =>
          match v.traverseDecl D none with
          | Except.error e => Except.error e
          | Except.ok (_, v) => Except.ok (v.findInfo id, v))

end ASTVisitor

/-- The declarations for which the walker assigns no identity: one of the
kinds with an entity of their own, or a friend function, for which no USR is
generated; a template, for the declaration it describes; a class-scope
function specialization, for the method it specializes. `TD` is the template
passed along to `traverseDecl`. -/
def Decl.identityFails : Option TemplateDecl → Decl → Bool
  | TD, Decl.Namespace D _ _ => TD.isNone && D.usrHash.isNone
  | _, Decl.Enum D _ => D.usrHash.isNone
  | _, Decl.Field D _ => D.usrHash.isNone
  | _, Decl.CXXRecord D _ _ => D.usrHash.isNone
  | _, Decl.Var D _ => D.usrHash.isNone
  | _, Decl.Function D _ => D.usrHash.isNone
  | _, Decl.TypedefName D _ => D.usrHash.isNone
  | _, Decl.Friend D =>
    match D.target with
    | FriendTarget.Function FD _ => FD.usrHash.isNone
    | _ => false
  | _, Decl.RedeclarableTemplate _ T d => Decl.identityFails (some T) d
  | TD, Decl.ClassScopeFunctionSpecialization _ d => TD.isNone && Decl.identityFails none d
  | _, _ => false

/-- The type `void (int)`. -/
def exampleFunctionType : QualType :=
  QualType.mk 0 (ClangType.FunctionProto [QualType.mk 0 (ClangType.Other "int")]
    ReferenceKind.None 0 0 (QualType.mk 0 (ClangType.Other "void")))

/-- A visitor in direct dependency mode whose configuration extracts
referenced declarations always. -/
def exampleDependencyVisitor : ASTVisitor :=
  { config_ := { extract := { referencedDeclarations := Policy.Always } }
    mode := ExtractMode.DirectDependency }

/-- A visitor in direct dependency mode whose configuration never extracts
referenced declarations, with the entity of `exampleEnum` stored. -/
def exampleNeverVisitor : ASTVisitor :=
  { config_ := { extract := { referencedDeclarations := Policy.Never } }
    info_ := [{ id := SymbolID.fill 7, Kind := InfoKind.Enum, Name := "E" }]
    mode := ExtractMode.DirectDependency }

/-- An enumeration for which the front-end generates no USR. -/
def exampleUnnamedEnum : EnumDecl :=
  { usrHash := none, isThisDeclarationADefinition := true, getLine := 1 }

/-- A front-end for `extractSymbolID`: the USR is the text of the
declaration, none for an empty text; every byte of the digest is the length
of the USR. -/
def exampleFrontEnd : UsrFrontEnd :=
  { getSignatureParameterType := fun t => t.withFastQualifiers 0
    generateUSRForDecl := fun D => if D.rest = "" then none else some D.rest
    SHA1_hash := fun s => ⟨List.replicate 20 (Fin.ofNat s.length), by simp⟩ }


/-- The anonymous namespace of `namespace { struct S { void g(); }; }`. -/
def exampleAnonymousNamespace : NamespaceDecl :=
  { usrHash := some (SymbolID.fill 1), isAnonymousNamespace := true }

/-- The class `S` of `namespace { struct S { void g(); }; }`. -/
def exampleHiddenRecord : CXXRecordDecl :=
  { usrHash := some (SymbolID.fill 2), extractName := "S",
    isThisDeclarationADefinition := true, hasDefinition := true }

/-- The context of the members of `exampleHiddenRecord`: the class, in the
anonymous namespace, in the translation unit. -/
def exampleHiddenContext : DeclContext :=
  DeclContext.CXXRecord exampleHiddenRecord
    (DeclContext.Namespace exampleAnonymousNamespace DeclContext.TranslationUnit)

/-- The member function `S::g`, as declared in the class or as defined
outside of it. -/
def exampleHiddenFunction (definition : Bool) : FunctionDecl :=
  { usrHash := some (SymbolID.fill 3), extractName := "g",
    isThisDeclarationADefinition := definition,
    getReturnType := QualType.mk 0 (ClangType.Other "void") }

/-- The translation unit
`namespace { struct S { void g(); }; } void S::g() { }`: the definition of
`S::g` is a member of the translation unit, and its context is `S`. -/
def exampleAnonymousUnit : Decl :=
  Decl.TranslationUnit
    [Decl.Namespace exampleAnonymousNamespace DeclContext.TranslationUnit
      [Decl.CXXRecord exampleHiddenRecord
        (DeclContext.Namespace exampleAnonymousNamespace DeclContext.TranslationUnit)
        [Decl.Function (exampleHiddenFunction false) exampleHiddenContext]],
     Decl.Function (exampleHiddenFunction true) exampleHiddenContext]

/-- The class `C` of `class C { int x; };`. -/
def examplePrivateRecord : CXXRecordDecl :=
  { usrHash := some (SymbolID.fill 2), extractName := "C",
    isThisDeclarationADefinition := true, hasDefinition := true }

/-- The private field `x` of `class C { int x; };`. -/
def examplePrivateField : FieldDecl :=
  { usrHash := some (SymbolID.fill 3), extractName := "x",
    getAccessUnsafe := AccessKind.Private,
    getType := QualType.mk 0 (ClangType.Other "int") }

/-- The translation unit `class C { int x; };`. -/
def examplePrivateUnit : Decl :=
  Decl.TranslationUnit
    [Decl.CXXRecord examplePrivateRecord DeclContext.TranslationUnit
      [Decl.Field examplePrivateField
        (DeclContext.CXXRecord examplePrivateRecord DeclContext.TranslationUnit)]]

/-- The class `A` of `template<class T> struct A { void f(); };`, as the
front-end names it. -/
def exampleTemplateName : NamedDecl :=
  { getIdentifier := some "A", usrHash := some (SymbolID.fill 2) }

/-- The class `A` of `template<class T> struct A { void f(); };`. -/
def exampleTemplatedRecord : CXXRecordDecl :=
  { usrHash := some (SymbolID.fill 2), extractName := "A",
    isThisDeclarationADefinition := true, hasDefinition := true }

/-- The member `f` of the class template `A`. -/
def examplePrimaryMember : FunctionDecl :=
  { usrHash := some (SymbolID.fill 4), extractName := "f",
    getReturnType := QualType.mk 0 (ClangType.Other "void") }

/-- The implicit instantiation `A<int>`. -/
def exampleInstantiation : CXXRecordDecl :=
  { usrHash := some (SymbolID.fill 6), extractName := "A",
    isImplicitInstantiation := true,
    specialization := some { primary := some exampleTemplateName },
    getTemplateArgs := [TemplateArgument.Type (QualType.mk 0 (ClangType.Other "int"))],
    getInstantiatedFrom := exampleTemplateName, getInstantiatedFromName := "A" }

/-- The explicit specialization `template<> void A<int>::f() { }`. -/
def exampleSpecializedMember : FunctionDecl :=
  { usrHash := some (SymbolID.fill 5), extractName := "f",
    isThisDeclarationADefinition := true,
    getReturnType := QualType.mk 0 (ClangType.Other "void") }

/-- The translation unit
`template<class T> struct A { void f(); }; template<> void A<int>::f() { }`. -/
def exampleSpecializationUnit : Decl :=
  Decl.TranslationUnit
    [Decl.RedeclarableTemplate { usrHash := some (SymbolID.fill 2), extractName := "A" }
      { getTemplateParameters := [TemplateParmDecl.TemplateTypeParm "T" false false none] }
      (Decl.CXXRecord exampleTemplatedRecord DeclContext.TranslationUnit
        [Decl.Function examplePrimaryMember
          (DeclContext.CXXRecord exampleTemplatedRecord DeclContext.TranslationUnit)]),
     Decl.Function exampleSpecializedMember
      (DeclContext.ClassTemplateSpecialization exampleInstantiation
        DeclContext.TranslationUnit)]

/-! ## The order of the parent chain -/

/-- The identities that the loop of `getParentNamespaces` meets on a chain of
contexts, in the order it meets them: the non-transparent contexts from the
innermost outward, the global namespace (`SymbolID::zero`) being the last. -/
def DeclContext.parentIds : DeclContext → List InfoPtr
  | DeclContext.TranslationUnit => [some SymbolID.zero]
  | DeclContext.Namespace D p =>
    some (ASTVisitor.extractSymbolID D.toDeclBase) :: DeclContext.parentIds p
  | DeclContext.ClassTemplateSpecialization D p =>
    some (ASTVisitor.extractSymbolID D.toDeclBase) :: DeclContext.parentIds p
  | DeclContext.ClassTemplatePartialSpecialization D p =>
    some (ASTVisitor.extractSymbolID D.toDeclBase) :: DeclContext.parentIds p
  | DeclContext.CXXRecord D p =>
    some (ASTVisitor.extractSymbolID D.toDeclBase) :: DeclContext.parentIds p
  | DeclContext.Other p => DeclContext.parentIds p

/-- The parent list `Namespace` of the entity stored under `id`, if there is
one. -/
def ASTVisitor.chainOf (v : ASTVisitor) (id : SymbolID) : Option (List InfoPtr) :=
  (v.findInfo id).map Info.Namespace

/-- A step from `v` to `w` that keeps every stored entity stored and the
parent list of each of them, but for the identities in `except`. -/
def KeepsChains (v w : ASTVisitor) (except : SymbolID → Prop) : Prop :=
  (∀ id ∈ v.ids, id ∈ w.ids) ∧
  ∀ id ∈ v.ids, ¬ except id → w.chainOf id = v.chainOf id

/-- The statement, for the calls of measure at most `n`, of what the build
steps of the parents and `getParentNamespaces` do to the parent lists. -/
def ParentsChain (n : Nat) : Prop :=
  (∀ (v w : ASTVisitor) P created D ctx, 4 * DeclContext.size ctx + 3 ≤ n →
    v.buildSpecialization P created D ctx = Except.ok w →
    KeepsChains v w (fun id => created = true ∧ id = P)) ∧
  (∀ (v w : ASTVisitor) P created D ctx, 4 * DeclContext.size ctx + 3 ≤ n →
    v.buildNamespace P created D ctx = Except.ok w →
    KeepsChains v w (fun id => created = true ∧ id = P)) ∧
  (∀ (v w : ASTVisitor) P created D ctx, 4 * DeclContext.size ctx + 3 ≤ n →
    v.buildRecord P created D ctx = Except.ok w →
    KeepsChains v w (fun id => created = true ∧ id = P)) ∧
  (∀ (v w : ASTVisitor) I ctx, 4 * DeclContext.size ctx + 2 ≤ n →
    v.getParentNamespaces I ctx = Except.ok w →
    KeepsChains v w (fun id => id = I) ∧
    w.chainOf I = some (DeclContext.parentIds ctx)) ∧
  (∀ (v w : ASTVisitor) I child ctx, 4 * DeclContext.size ctx + 1 ≤ n →
    v.getParentNamespacesLoop I child ctx = Except.ok w →
    KeepsChains v w (fun id => id = I) ∧
    ∀ ns, v.chainOf I = some ns → w.chainOf I = some (ns ++ DeclContext.parentIds ctx))

/-- The namespace `N` of `namespace N { enum E { }; }`. -/
def exampleNamespace : NamespaceDecl :=
  { usrHash := some (SymbolID.fill 1), extractName := "N" }

/-- The translation unit `namespace N { enum E { }; }`. -/
def exampleNestedUnit : Decl :=
  Decl.TranslationUnit
    [Decl.Namespace exampleNamespace DeclContext.TranslationUnit
      [Decl.Enum exampleEnum
        (DeclContext.Namespace exampleNamespace DeclContext.TranslationUnit)]]

/-- A visitor that has just created the entity of `exampleEnum`. -/
def exampleCreatedVisitor : ASTVisitor :=
  { info_ := [Info.create InfoKind.Enum (SymbolID.fill 7)] }

/-- The member `id` of the terminal node of a descriptor: the node at the
end of its chain of inner-type links; null when the chain ends in a null
link or in a node without the member. -/
def TypeInfo.terminalId : TypeInfo → InfoPtr
  | TypeInfo.LValueReference _ (some p) => p.terminalId
  | TypeInfo.RValueReference _ (some p) => p.terminalId
  | TypeInfo.Pointer _ _ (some p) => p.terminalId
  | TypeInfo.MemberPointer _ _ _ (some p) => p.terminalId
  | TypeInfo.Array _ _ (some e) => e.terminalId
  | TypeInfo.Function _ (some r) _ _ _ _ => r.terminalId
  | t => t.id

/-- The reference `p` is null or refers to an entity the store of `v`
holds. -/
def ASTVisitor.Stored (v : ASTVisitor) (p : InfoPtr) : Prop :=
  ∀ i, p = some i → ∃ e, v.findInfo i = some e ∧ e.id = i

/-- The enumeration `exampleEnum` as a type names it. -/
def exampleEnumName : NamedDecl :=
  { getIdentifier := some "E", usrHash := some (SymbolID.fill 7) }

/-- The type `E` of `exampleEnum`. -/
def exampleEnumType : QualType := QualType.mk 0 (ClangType.Enum exampleEnumName)


/-! ## The operations of an identity -/

namespace SymbolID

/-- The member `size()`. -/
def size (_ : SymbolID) : Nat := 20

/-- The defaulted `operator==`: the arrays `data_` are compared element by
element. -/
def eq (a b : SymbolID) : Bool := a.data == b.data

/-- The conversion `explicit operator bool()`: `*this != SymbolID::invalid`. -/
def toBool (s : SymbolID) : Bool := !(eq s invalid)

/-- The conversion of an element of a buffer to `value_type`
(`std::uint8_t`): the value modulo 256. -/
def toByte (e : Int) : Fin 256 :=
  ⟨(e % 256).toNat, by
    have h1 : 0 ≤ e % 256 := Int.emod_nonneg e (by decide)
    have h2 : e % 256 < 256 := Int.emod_lt_of_pos e (by decide)
    omega⟩

/-- The constructor `SymbolID(const Elem* src)`, for a buffer `src` that
holds at least twenty elements: `for(auto& c : data_) c = *src++;`. -/
def ofBuffer (src : List Int) (h : 20 ≤ src.length) : SymbolID :=
  ⟨(src.take 20).map toByte, by simp [List.length_take]; omega⟩

end SymbolID

/-- The one-argument overload `extractSymbolID(D)` in terms of the
two-argument one: `SymbolID id = SymbolID::zero; extractSymbolID(D, id);
return id;`. -/
def ASTVisitor.extractSymbolIDOf (fe : UsrFrontEnd) (D : UsrDecl) : SymbolID :=
  (ASTVisitor.extractSymbolIDInto fe D SymbolID.zero).2.1

/-- A visitor whose configuration never extracts referenced declarations,
with the root namespace stored. -/
def exampleRootVisitor : ASTVisitor :=
  { config_ := { extract := { referencedDeclarations := Policy.Never } }
    info_ := [Info.create InfoKind.Namespace SymbolID.zero] }

/-- The type of `x` in `const auto x = 0;`: the placeholder `auto` with the
local qualifier `const`, deduced as `int`. -/
def exampleConstAuto : QualType :=
  QualType.mk 1 (ClangType.Auto (QualType.mk 0 (ClangType.Other "int")) "auto")

/-- The type `const int`. -/
def exampleConstInt : QualType := QualType.mk 1 (ClangType.Other "int")

/-- The template argument `3` of `A<3>`, for a parameter of type `int`. -/
def exampleIntegralArgument : TemplateArgument := TemplateArgument.NonType false "3" "3"

/-! ## The structural layers of a type -/

/-- The kinds of structural wrapper nodes of a descriptor. -/
inductive WrapperKind
  | LValueReference
  | RValueReference
  | Pointer
  | MemberPointer
  | Array
  | Function
  deriving DecidableEq, Repr

/-- The kind of a node that is a structural wrapper; a terminal node has
none. -/
def TypeInfo.wrapperKind? : TypeInfo → Option WrapperKind
  | TypeInfo.LValueReference .. => some WrapperKind.LValueReference
  | TypeInfo.RValueReference .. => some WrapperKind.RValueReference
  | TypeInfo.Pointer .. => some WrapperKind.Pointer
  | TypeInfo.MemberPointer .. => some WrapperKind.MemberPointer
  | TypeInfo.Array .. => some WrapperKind.Array
  | TypeInfo.Function .. => some WrapperKind.Function
  | _ => none

/-- The kinds of the wrapper nodes met from a node by following inner-type
links, the node itself first. -/
def TypeInfo.wrappers : TypeInfo → List WrapperKind
  | TypeInfo.LValueReference _ none => [WrapperKind.LValueReference]
  | TypeInfo.LValueReference _ (some p) => WrapperKind.LValueReference :: p.wrappers
  | TypeInfo.RValueReference _ none => [WrapperKind.RValueReference]
  | TypeInfo.RValueReference _ (some p) => WrapperKind.RValueReference :: p.wrappers
  | TypeInfo.Pointer _ _ none => [WrapperKind.Pointer]
  | TypeInfo.Pointer _ _ (some p) => WrapperKind.Pointer :: p.wrappers
  | TypeInfo.MemberPointer _ _ _ none => [WrapperKind.MemberPointer]
  | TypeInfo.MemberPointer _ _ _ (some p) => WrapperKind.MemberPointer :: p.wrappers
  | TypeInfo.Array _ _ none => [WrapperKind.Array]
  | TypeInfo.Array _ _ (some e) => WrapperKind.Array :: e.wrappers
  | TypeInfo.Function _ none _ _ _ _ => [WrapperKind.Function]
  | TypeInfo.Function _ (some r) _ _ _ _ => WrapperKind.Function :: r.wrappers
  | _ => []

/-- The kinds of the wrapper nodes of the chain under construction. -/
def wrappersOpt : Option TypeInfo → List WrapperKind
  | none => []
  | some t => t.wrappers

mutual
/-- The structural layers of a qualified type, outermost first, of the
classes the switch of `buildTypeInfo` has a case for: the layers met on the
way from the type to its terminal through pointee, element and return types,
looking through sugar, pack expansions, elaborated types and deduced
placeholders. The way ends at a type of any other class, a variable-length
array or a function without prototype included. -/
def QualType.layers : QualType → List WrapperKind
  | .null => []
  | .mk _ t => t.layers
/-- The structural layers of a type, outermost first. -/
def ClangType.layers : ClangType → List WrapperKind
  | .Paren t => t.layers
  | .MacroQualified t => t.layers
  | .Attributed t => t.layers
  | .Decayed t => t.layers
  | .Adjusted t => t.layers
  | .Using t => t.layers
  | .SubstTemplateTypeParm t => t.layers
  | .PackExpansion t => t.layers
  | .Pointer t => WrapperKind.Pointer :: t.layers
  | .LValueReference t => WrapperKind.LValueReference :: t.layers
  | .RValueReference t => WrapperKind.RValueReference :: t.layers
  | .MemberPointer _ t => WrapperKind.MemberPointer :: t.layers
  | .FunctionProto _ _ _ _ r => WrapperKind.Function :: r.layers
  | .IncompleteArray t => WrapperKind.Array :: t.layers
  | .ConstantArray _ _ t => WrapperKind.Array :: t.layers
  | .DependentSizedArray _ t => WrapperKind.Array :: t.layers
  | .Auto d _ => d.layers
  | .DeducedTemplateSpecialization d _ => d.layers
  | .Elaborated _ t => t.layers
  | .DependentTemplateSpecialization _ _ _ => []
  | .DependentName _ _ => []
  | .TemplateSpecialization _ _ _ _ _ => []
  | .Record _ _ => []
  | .InjectedClassName _ => []
  | .Enum _ => []
  | .Typedef _ => []
  | .TemplateTypeParm _ => []
  | .SubstTemplateTypeParmPack _ => []
  | .VariableArray _ _ => []
  | .FunctionNoProto _ _ => []
  | .Other _ => []
end

/-- A structural layer of a type of the front-end (pointer, reference,
member pointer, array, function), by type class, with what it holds besides
the type it is made from. -/
inductive Layer
  | Pointer
  | LValueReference
  | RValueReference
  | MemberPointer (getClass : ClangType)
  | IncompleteArray
  | ConstantArray (getSizeExpr : Option Expr) (getSize : Nat)
  | DependentSizedArray (getSizeExpr : Option Expr)
  | FunctionProto (getParamTypes : List QualType) (getRefQualifier : ReferenceKind)
      (getMethodQuals : Nat) (getExceptionSpecType : NoexceptKind)
  | VariableArray (getTypeAsString : String)
  | FunctionNoProto (getTypeAsString : String)

/-- The kind of wrapper node that stands for a layer. -/
def Layer.kind : Layer → WrapperKind
  | Layer.Pointer => WrapperKind.Pointer
  | Layer.LValueReference => WrapperKind.LValueReference
  | Layer.RValueReference => WrapperKind.RValueReference
  | Layer.MemberPointer _ => WrapperKind.MemberPointer
  | Layer.IncompleteArray => WrapperKind.Array
  | Layer.ConstantArray _ _ => WrapperKind.Array
  | Layer.DependentSizedArray _ => WrapperKind.Array
  | Layer.FunctionProto _ _ _ _ => WrapperKind.Function
  | Layer.VariableArray _ => WrapperKind.Array
  | Layer.FunctionNoProto _ => WrapperKind.Function

/-- The switch of `buildTypeInfo` has a case for the class of the layer. -/
def Layer.hasCase : Layer → Bool
  | Layer.VariableArray _ => false
  | Layer.FunctionNoProto _ => false
  | _ => true

/-- The layer `l`, with local qualifiers `quals`, around `t`. -/
def Layer.wrap (l : Layer) (quals : Nat) (t : QualType) : QualType :=
  QualType.mk quals
    (match l with
     | Layer.Pointer => ClangType.Pointer t
     | Layer.LValueReference => ClangType.LValueReference t
     | Layer.RValueReference => ClangType.RValueReference t
     | Layer.MemberPointer C => ClangType.MemberPointer C t
     | Layer.IncompleteArray => ClangType.IncompleteArray t
     | Layer.ConstantArray E S => ClangType.ConstantArray E S t
     | Layer.DependentSizedArray E => ClangType.DependentSizedArray E t
     | Layer.FunctionProto PTs rq mq es => ClangType.FunctionProto PTs rq mq es t
     | Layer.VariableArray name => ClangType.VariableArray t name
     | Layer.FunctionNoProto name => ClangType.FunctionNoProto t name)

/-- The type `t` under the structural layers `ls`, outermost first, each
with its local qualifiers and under any number of layers of sugar. -/
def wrapLayers : List (List (Sugar × Nat) × Layer × Nat) → QualType → QualType
  | [], t => t
  | (sugar, l, q) :: ls, t => wrapSugar sugar (l.wrap q (wrapLayers ls t))

/-- The type classes for which `buildTypeInfo` makes the terminal node,
a placeholder with a deduced type apart. -/
def ClangType.isTerminalClass : ClangType → Bool
  | .Auto d _ => d.isNull
  | .DeducedTemplateSpecialization d _ => d.isNull
  | .DependentTemplateSpecialization _ _ _ => true
  | .DependentName _ _ => true
  | .TemplateSpecialization _ _ _ _ _ => true
  | .Record _ _ => true
  | .InjectedClassName _ => true
  | .Enum _ => true
  | .Typedef _ => true
  | .TemplateTypeParm _ => true
  | .SubstTemplateTypeParmPack _ => true
  | .VariableArray _ _ => true
  | .FunctionNoProto _ _ => true
  | .Other _ => true
  | _ => false

mutual
/-- The qualified type is a terminal under sugar: a type of a class for
which `buildTypeInfo` makes the terminal node, under any number of layers of
sugar and of elaborated types. -/
def QualType.namesTerminal : QualType → Bool
  | .null => false
  | .mk _ t => t.namesTerminal
/-- The type is a terminal under sugar. -/
def ClangType.namesTerminal : ClangType → Bool
  | .Paren t => t.namesTerminal
  | .MacroQualified t => t.namesTerminal
  | .Attributed t => t.namesTerminal
  | .Decayed t => t.namesTerminal
  | .Adjusted t => t.namesTerminal
  | .Using t => t.namesTerminal
  | .SubstTemplateTypeParm t => t.namesTerminal
  | .Elaborated _ t => t.namesTerminal
  | .Auto d _ => d.isNull
  | .DeducedTemplateSpecialization d _ => d.isNull
  | .DependentTemplateSpecialization _ _ _ => true
  | .DependentName _ _ => true
  | .TemplateSpecialization _ _ _ _ _ => true
  | .Record _ _ => true
  | .InjectedClassName _ => true
  | .Enum _ => true
  | .Typedef _ => true
  | .TemplateTypeParm _ => true
  | .SubstTemplateTypeParmPack _ => true
  | .VariableArray _ _ => true
  | .FunctionNoProto _ _ => true
  | .Other _ => true
  | _ => false
end

/-- The type `int (*)[n]`: a pointer to a variable-length array of `int`. -/
def exampleVariableArrayPointer : QualType :=
  QualType.mk 0 (ClangType.Pointer (QualType.mk 0
    (ClangType.VariableArray (QualType.mk 0 (ClangType.Other "int")) "int[n]")))

/-- The type `int (*)()` of C: a pointer to a function without prototype
that returns `int`. -/
def exampleNoProtoPointer : QualType :=
  QualType.mk 0 (ClangType.Pointer (QualType.mk 0
    (ClangType.FunctionNoProto (QualType.mk 0 (ClangType.Other "int")) "int ()")))

/-- The class `A` of `namespace N { class A { }; }`, as the front-end names
it. -/
def exampleMemberClassName : NamedDecl :=
  { getIdentifier := some "A", usrHash := some (SymbolID.fill 2) }

/-- The type `N::A (*const (&))[3]`: an lvalue reference to a parenthesized
const pointer to an array of three `N::A`, where `A` is a class of the
namespace `N`. -/
def exampleLayeredType : QualType :=
  QualType.mk 0 (ClangType.LValueReference
    (QualType.mk 0 (ClangType.Paren
      (QualType.mk 1 (ClangType.Pointer
        (QualType.mk 0 (ClangType.ConstantArray none 3
          (QualType.mk 0 (ClangType.Elaborated (some (NestedNameSpecifier.Other none))
            (QualType.mk 0 (ClangType.Record exampleMemberClassName none)))))))))))

/-! ## The pack-expansion marker of a type -/

mutual
/-- A pack-expansion marker is met on the way from the type to its terminal
(through sugar, structural layers, elaborated types and deduced
placeholders). -/
def QualType.hasPackExpansion : QualType → Bool
  | .null => false
  | .mk _ t => t.hasPackExpansion
/-- A pack-expansion marker is met on the way from the type to its
terminal. -/
def ClangType.hasPackExpansion : ClangType → Bool
  | .PackExpansion _ => true
  | .Paren t => t.hasPackExpansion
  | .MacroQualified t => t.hasPackExpansion
  | .Attributed t => t.hasPackExpansion
  | .Decayed t => t.hasPackExpansion
  | .Adjusted t => t.hasPackExpansion
  | .Using t => t.hasPackExpansion
  | .SubstTemplateTypeParm t => t.hasPackExpansion
  | .Pointer t => t.hasPackExpansion
  | .LValueReference t => t.hasPackExpansion
  | .RValueReference t => t.hasPackExpansion
  | .MemberPointer _ t => t.hasPackExpansion
  | .FunctionProto _ _ _ _ r => r.hasPackExpansion
  | .IncompleteArray t => t.hasPackExpansion
  | .ConstantArray _ _ t => t.hasPackExpansion
  | .DependentSizedArray _ t => t.hasPackExpansion
  | .Auto d _ => d.hasPackExpansion
  | .DeducedTemplateSpecialization d _ => d.hasPackExpansion
  | .Elaborated _ t => t.hasPackExpansion
  | .DependentTemplateSpecialization _ _ _ => false
  | .DependentName _ _ => false
  | .TemplateSpecialization _ _ _ _ _ => false
  | .Record _ _ => false
  | .InjectedClassName _ => false
  | .Enum _ => false
  | .Typedef _ => false
  | .TemplateTypeParm _ => false
  | .SubstTemplateTypeParmPack _ => false
  | .VariableArray _ _ => false
  | .FunctionNoProto _ _ => false
  | .Other _ => false
end

mutual
/-- The type with the pack-expansion markers on the way to its terminal
removed: a marker is replaced by its pattern, with the local qualifiers of
the marker added. -/
def QualType.withoutPackExpansion : QualType → QualType
  | .null => .null
  | .mk q t => t.withoutPackExpansion q
/-- The type with local qualifiers `q`, with the pack-expansion markers on
the way to its terminal removed. -/
def ClangType.withoutPackExpansion : ClangType → Nat → QualType
  | .PackExpansion t, q => t.withoutPackExpansion.withFastQualifiers q
  | .Paren t, q => .mk q (.Paren t.withoutPackExpansion)
  | .MacroQualified t, q => .mk q (.MacroQualified t.withoutPackExpansion)
  | .Attributed t, q => .mk q (.Attributed t.withoutPackExpansion)
  | .Decayed t, q => .mk q (.Decayed t.withoutPackExpansion)
  | .Adjusted t, q => .mk q (.Adjusted t.withoutPackExpansion)
  | .Using t, q => .mk q (.Using t.withoutPackExpansion)
  | .SubstTemplateTypeParm t, q => .mk q (.SubstTemplateTypeParm t.withoutPackExpansion)
  | .Pointer t, q => .mk q (.Pointer t.withoutPackExpansion)
  | .LValueReference t, q => .mk q (.LValueReference t.withoutPackExpansion)
  | .RValueReference t, q => .mk q (.RValueReference t.withoutPackExpansion)
  | .MemberPointer c t, q => .mk q (.MemberPointer c t.withoutPackExpansion)
  | .FunctionProto ps rq mq es r, q => .mk q (.FunctionProto ps rq mq es r.withoutPackExpansion)
  | .IncompleteArray t, q => .mk q (.IncompleteArray t.withoutPackExpansion)
  | .ConstantArray e s t, q => .mk q (.ConstantArray e s t.withoutPackExpansion)
  | .DependentSizedArray e t, q => .mk q (.DependentSizedArray e t.withoutPackExpansion)
  | .Auto d n, q => .mk q (.Auto d.withoutPackExpansion n)
  | .DeducedTemplateSpecialization d n, q =>
    .mk q (.DeducedTemplateSpecialization d.withoutPackExpansion n)
  | .Elaborated n t, q => .mk q (.Elaborated n t.withoutPackExpansion)
  | .DependentTemplateSpecialization i a n, q => .mk q (.DependentTemplateSpecialization i a n)
  | .DependentName i n, q => .mk q (.DependentName i n)
  | .TemplateSpecialization a b c d e, q => .mk q (.TemplateSpecialization a b c d e)
  | .Record d a, q => .mk q (.Record d a)
  | .InjectedClassName d, q => .mk q (.InjectedClassName d)
  | .Enum d, q => .mk q (.Enum d)
  | .Typedef d, q => .mk q (.Typedef d)
  | .TemplateTypeParm d, q => .mk q (.TemplateTypeParm d)
  | .SubstTemplateTypeParmPack i, q => .mk q (.SubstTemplateTypeParmPack i)
  | .VariableArray t n, q => .mk q (.VariableArray t n)
  | .FunctionNoProto t n, q => .mk q (.FunctionNoProto t n)
  | .Other n, q => .mk q (.Other n)
end

/-- No node met from this node by following inner-type links, the node
itself included, has its pack-expansion flag set. -/
def TypeInfo.pathClear : TypeInfo → Bool
  | TypeInfo.LValueReference k none => !k
  | TypeInfo.LValueReference k (some p) => !k && p.pathClear
  | TypeInfo.RValueReference k none => !k
  | TypeInfo.RValueReference k (some p) => !k && p.pathClear
  | TypeInfo.Pointer k _ none => !k
  | TypeInfo.Pointer k _ (some p) => !k && p.pathClear
  | TypeInfo.MemberPointer k _ _ none => !k
  | TypeInfo.MemberPointer k _ _ (some p) => !k && p.pathClear
  | TypeInfo.Array k _ none => !k
  | TypeInfo.Array k _ (some e) => !k && e.pathClear
  | TypeInfo.Function k none _ _ _ _ => !k
  | TypeInfo.Function k (some r) _ _ _ _ => !k && r.pathClear
  | TypeInfo.Builtin k _ _ => !k
  | TypeInfo.Tag k _ _ _ _ => !k
  | TypeInfo.Specialization k _ _ _ _ _ => !k

/-- The chain under construction has no pack-expansion flag set. -/
def pathClearOpt : Option TypeInfo → Bool
  | none => true
  | some t => t.pathClear

/-- The type `Ts...`, a pack expansion whose pattern is `Ts`. -/
def examplePackExpansion : QualType :=
  QualType.mk 0 (ClangType.PackExpansion (QualType.mk 0 (ClangType.Other "Ts")))

/-- The type `Ts*...`: a pointer to a pack expansion pattern. -/
def examplePointerPack : QualType :=
  QualType.mk 0 (ClangType.PackExpansion
    (QualType.mk 0 (ClangType.Pointer (QualType.mk 0 (ClangType.Other "Ts")))))


/-! ## The member lists of the parents -/

/-- The member lists of an entity: `Members` of a namespace or record, the
pairs in `Members` of a specialization, and `Specializations`. -/
def Info.lists (i : Info) : List InfoPtr × List SpecializedMember × List InfoPtr :=
  (i.Members, i.SpecializedMembers, i.Specializations)

/-- The member lists of an entity hold no element twice, and its
`Specializations` list is empty. -/
def Info.Tidy (i : Info) : Prop :=
  i.Specializations = [] ∧ i.Members.Nodup ∧ i.SpecializedMembers.Nodup

/-- Every stored entity has tidy member lists. -/
def ASTVisitor.Tidy (v : ASTVisitor) : Prop := ∀ i ∈ v.info_, i.Tidy

/-- From `v` to `w` every stored entity stays stored and its member lists
lose no element. -/
def Grows (v w : ASTVisitor) : Prop :=
  ∀ id e, v.findInfo id = some e →
    ∃ e', w.findInfo id = some e' ∧ (∀ x ∈ e.Members, x ∈ e'.Members) ∧
      (∀ x ∈ e.SpecializedMembers, x ∈ e'.SpecializedMembers)

/-- A step from `v` to `w` that keeps the member lists tidy and loses no
member. -/
def Steady (v w : ASTVisitor) : Prop := (v.Tidy → w.Tidy) ∧ Grows v w

/-- A call that is a steady step when it returns. -/
def SteadyStep (v : ASTVisitor) (r : Except Fault ASTVisitor) : Prop :=
  ∀ w, r = Except.ok w → Steady v w

/-- The same for a call that also returns a flag. -/
def SteadyB (v : ASTVisitor) (r : Except Fault (Bool × ASTVisitor)) : Prop :=
  ∀ b w, r = Except.ok (b, w) → Steady v w

/-- The links that `getParentNamespaces` makes for the entity `child` in the
context given: for each non-transparent context, innermost first, the child,
the parent, and whether the parent is the specialization entity of an
implicit instantiation (the child is then linked in a pair). -/
def DeclContext.parentLinks : DeclContext → SymbolID → List (SymbolID × SymbolID × Bool)
  | DeclContext.TranslationUnit, c => [(c, SymbolID.zero, false)]
  | DeclContext.Namespace D p, c =>
    (c, ASTVisitor.extractSymbolID D.toDeclBase, false) ::
      p.parentLinks (ASTVisitor.extractSymbolID D.toDeclBase)
  | DeclContext.ClassTemplateSpecialization D p, c =>
    (c, ASTVisitor.extractSymbolID D.toDeclBase, D.isImplicitInstantiation) ::
      p.parentLinks (ASTVisitor.extractSymbolID D.toDeclBase)
  | DeclContext.ClassTemplatePartialSpecialization D p, c =>
    (c, ASTVisitor.extractSymbolID D.toDeclBase, false) ::
      p.parentLinks (ASTVisitor.extractSymbolID D.toDeclBase)
  | DeclContext.CXXRecord D p, c =>
    (c, ASTVisitor.extractSymbolID D.toDeclBase, false) ::
      p.parentLinks (ASTVisitor.extractSymbolID D.toDeclBase)
  | DeclContext.Other p, c => p.parentLinks c

/-- The child of the link appears exactly once in the member list of the
parent: in `Members`, or as the specialized member of a pair. -/
def Linked (w : ASTVisitor) (l : SymbolID × SymbolID × Bool) : Prop :=
  ∃ e, w.findInfo l.2.1 = some e ∧
    if l.2.2 then e.SpecializedMembers.count ⟨none, some l.1⟩ = 1
    else e.Members.count (some l.1) = 1

/-- The statement, for the calls of measure at most `n`, that the build
steps of the parents and `getParentNamespaces` are steady steps, and that
the loop of `getParentNamespaces` makes the links of the context. -/
def ParentsSteady (n : Nat) : Prop :=
  (∀ (v : ASTVisitor) I created D ctx, 4 * DeclContext.size ctx + 3 ≤ n →
    SteadyStep v (v.buildSpecialization I created D ctx)) ∧
  (∀ (v : ASTVisitor) I created D ctx, 4 * DeclContext.size ctx + 3 ≤ n →
    SteadyStep v (v.buildNamespace I created D ctx)) ∧
  (∀ (v : ASTVisitor) I created D ctx, 4 * DeclContext.size ctx + 3 ≤ n →
    SteadyStep v (v.buildRecord I created D ctx)) ∧
  (∀ (v w : ASTVisitor) I ctx, 4 * DeclContext.size ctx + 2 ≤ n →
    v.getParentNamespaces I ctx = Except.ok w →
    Steady v w ∧ (v.Tidy → ∀ l ∈ ctx.parentLinks I, Linked w l)) ∧
  (∀ (v w : ASTVisitor) I child ctx, 4 * DeclContext.size ctx + 1 ≤ n →
    v.getParentNamespacesLoop I child ctx = Except.ok w →
    Steady v w ∧ (v.Tidy → child ∈ v.ids → ∀ l ∈ ctx.parentLinks child, Linked w l))

/-- The statement, for the calls of measure at most `n`, that the traversal
is a steady step. -/
def TraverseSteady (n : Nat) : Prop :=
  (∀ (v : ASTVisitor) D TD, 2 * Decl.size D + 1 ≤ n → SteadyB v (v.traverseDecl D TD)) ∧
  (∀ (v : ASTVisitor) decls, 2 * Decl.listSize decls ≤ n →
    SteadyB v (v.traverseContext decls))

/-- The spelling of a parameter type in the USR of `exampleDecayFrontEnd`:
the name of a type without layers, with `const` when it has a local
qualifier, and the class of any other type. -/
def exampleParameterSpelling : QualType → String
  | QualType.mk 0 (ClangType.Other name) => name
  | QualType.mk _ (ClangType.Other name) => "const " ++ name
  | QualType.mk _ (ClangType.Pointer _) => "*"
  | QualType.mk _ (ClangType.ConstantArray _ _ _) => "[]"
  | _ => "?"

/-- A front-end for `extractSymbolID` whose USR reads the parameter types:
the signature type of a parameter is its type with an array decayed to a
pointer and without local qualifiers; the USR is the text of the declaration
followed by the spelling of each parameter type, none for an empty text;
every byte of the digest is the length of the USR. -/
def exampleDecayFrontEnd : UsrFrontEnd :=
  { getSignatureParameterType := fun t =>
      match t with
      | QualType.null => QualType.null
      | QualType.mk _ (ClangType.ConstantArray _ _ e) => QualType.mk 0 (ClangType.Pointer e)
      | QualType.mk _ (ClangType.IncompleteArray e) => QualType.mk 0 (ClangType.Pointer e)
      | QualType.mk _ T => QualType.mk 0 T
    generateUSRForDecl := fun D =>
      if D.rest = "" then none
      else some (D.rest ++ String.join
        ((D.parameters.getD []).map (fun t => "#" ++ exampleParameterSpelling t)))
    SHA1_hash := fun s => ⟨List.replicate 20 (Fin.ofNat s.length), by simp⟩ }

/-- The declaration `void f(const int)`. -/
def exampleConstParameterFunction : UsrDecl :=
  { parameters := some [QualType.mk 1 (ClangType.Other "int")], rest := "f" }

/-- The declaration `void f(int)`. -/
def exampleParameterFunction : UsrDecl :=
  { parameters := some [QualType.mk 0 (ClangType.Other "int")], rest := "f" }

/-- A visitor as its constructor leaves it, whose configuration extracts
referenced declarations always. -/
def exampleAlwaysVisitor : ASTVisitor :=
  ASTVisitor.init { extract := { referencedDeclarations := Policy.Always } }

/-- The descriptor of `exampleLayeredType`. -/
def exampleLayeredTypeInfo : TypeInfo :=
  TypeInfo.LValueReference false (some
    (TypeInfo.Pointer false ⟨true, false⟩ (some
      (TypeInfo.Array false { Value := some 3 } (some
        (TypeInfo.Tag false ⟨false, false⟩ none "A" none))))))

/-! ## Example data -/

/-- A run of three calls: a namespace met in `Normal` mode, a record met as
a direct dependency, and the namespace met again as an indirect dependency. -/
def exampleCalls : List Call :=
  [⟨InfoKind.Namespace, SymbolID.fill 1, ExtractMode.Normal⟩,
   ⟨InfoKind.Record, SymbolID.fill 2, ExtractMode.DirectDependency⟩,
   ⟨InfoKind.Namespace, SymbolID.fill 1, ExtractMode.IndirectDependency⟩]

/-- The record of `exampleCalls` after the run. -/
def exampleRecord : Info :=
  { id := SymbolID.fill 2, Kind := InfoKind.Record, Implicit := true }

/-- The state after `exampleCalls`. -/
def exampleVisitor : ASTVisitor :=
  { info_ :=
      [{ id := SymbolID.fill 1, Kind := InfoKind.Namespace, Implicit := false },
       exampleRecord]
    mode := ExtractMode.IndirectDependency }

/-! # Theorems -/

/-! ## The entity store -/

namespace InfoSet

theorem find_none_iff (s : InfoSet) (id : SymbolID) :
    find s id = none ↔ ∀ e ∈ s, e.id ≠ id := by
  simp [find, List.find?_eq_none]

theorem find_some_mem {s : InfoSet} {id : SymbolID} {e : Info}
    (h : find s id = some e) : e ∈ s ∧ e.id = id := by
  unfold find at h
  have h1 := List.mem_of_find?_eq_some h
  have h2 := List.find?_some h
  exact ⟨h1, by simpa using h2⟩

theorem find_of_mem_wf {s : InfoSet} (hwf : WF s) {e : Info} (he : e ∈ s) :
    find s e.id = some e := by
  induction s with
  | nil => cases he
  | cons a s ih =>
    unfold WF at hwf
    simp only [List.map_cons, List.nodup_cons] at hwf
    rcases List.mem_cons.1 he with rfl | h
    · simp [find]
    · have hne : a.id ≠ e.id := by
        intro heq
        exact hwf.1 (heq ▸ List.mem_map_of_mem Info.id h)
      have := ih hwf.2 h
      simp only [find] at this ⊢
      rw [List.find?_cons_of_neg]
      · exact this
      · simpa using hne

theorem update_append_of_absent (s : InfoSet) (n : Info) (f : Info → Info)
    (h : ∀ e ∈ s, e.id ≠ n.id) : update (s ++ [n]) n.id f = s ++ [f n] := by
  induction s with
  | nil => simp [update]
  | cons a s ih =>
    have ha : a.id ≠ n.id := h a (List.mem_cons_self _ _)
    have := ih (fun e he => h e (List.mem_cons_of_mem _ he))
    simp [update, ha, this]

theorem length_update (s : InfoSet) (id : SymbolID) (f : Info → Info) :
    (update s id f).length = s.length := by
  induction s with
  | nil => rfl
  | cons a s ih =>
    unfold update
    split <;> simp [ih]

theorem map_id_update (s : InfoSet) (id : SymbolID) (f : Info → Info)
    (hf : ∀ i, (f i).id = i.id) : (update s id f).map Info.id = s.map Info.id := by
  induction s with
  | nil => rfl
  | cons a s ih =>
    unfold update
    split <;> simp [ih, hf]

theorem mem_update {s : InfoSet} {id : SymbolID} {f : Info → Info} {e : Info}
    (h : e ∈ update s id f) : e ∈ s ∨ ∃ e0 ∈ s, e0.id = id ∧ e = f e0 := by
  induction s with
  | nil => cases h
  | cons a s ih =>
    unfold update at h
    split at h
    · rename_i ha
      rcases List.mem_cons.1 h with rfl | h
      · exact Or.inr ⟨a, List.mem_cons_self _ _, by simpa using ha, rfl⟩
      · exact Or.inl (List.mem_cons_of_mem _ h)
    · rcases List.mem_cons.1 h with rfl | h
      · exact Or.inl (List.mem_cons_self _ _)
      · rcases ih h with h | ⟨e0, h0, h1, h2⟩
        · exact Or.inl (List.mem_cons_of_mem _ h)
        · exact Or.inr ⟨e0, List.mem_cons_of_mem _ h0, h1, h2⟩

theorem mem_update_of_ne {s : InfoSet} {id : SymbolID} {f : Info → Info} {e : Info}
    (he : e ∈ s) (hne : e.id ≠ id) : e ∈ update s id f := by
  induction s with
  | nil => cases he
  | cons a s ih =>
    unfold update
    split
    · rename_i ha
      rcases List.mem_cons.1 he with rfl | h
      · exact absurd (by simpa using ha) hne
      · exact List.mem_cons_of_mem _ h
    · rcases List.mem_cons.1 he with rfl | h
      · exact List.mem_cons_self _ _
      · exact List.mem_cons_of_mem _ (ih h)

theorem mem_update_of_find {s : InfoSet} {id : SymbolID} {f : Info → Info} {i : Info}
    (h : find s id = some i) : f i ∈ update s id f := by
  induction s with
  | nil => simp [find] at h
  | cons a s ih =>
    unfold update
    simp only [find, List.find?_cons] at h
    split
    · rename_i ha
      simp only [ha, Option.some.injEq] at h
      subst h
      exact List.mem_cons_self _ _
    · rename_i ha
      have ha' : (a.id == id) = false := by simpa using ha
      simp only [ha'] at h
      exact List.mem_cons_of_mem _ (ih h)

theorem update_persist (s : InfoSet) (id : SymbolID) (f : Info → Info)
    (hid : ∀ i, (f i).id = i.id) (hk : ∀ i, (f i).Kind = i.Kind) {e0 : Info} (he0 : e0 ∈ s) :
    ∃ e1 ∈ update s id f, e1.id = e0.id ∧ e1.Kind = e0.Kind := by
  induction s with
  | nil => cases he0
  | cons a s ih =>
    unfold update
    split
    · rcases List.mem_cons.1 he0 with rfl | h
      · exact ⟨_, List.mem_cons_self _ _, hid _, hk _⟩
      · exact ⟨e0, List.mem_cons_of_mem _ h, rfl, rfl⟩
    · rcases List.mem_cons.1 he0 with rfl | h
      · exact ⟨_, List.mem_cons_self _ _, rfl, rfl⟩
      · obtain ⟨e1, h1, h2⟩ := ih h
        exact ⟨e1, List.mem_cons_of_mem _ h1, h2⟩

end InfoSet

namespace ASTVisitor

theorem getOrCreateInfo_absent (v : ASTVisitor) (K : InfoKind) (id : SymbolID)
    (h : v.findInfo id = none) :
    getOrCreateInfo v K id =
      Except.ok ({ v with info_ := v.info_ ++ [clearImplicit v.mode (Info.create K id)] },
        clearImplicit v.mode (Info.create K id), true) := by
  have habs : ∀ e ∈ v.info_, e.id ≠ (Info.create K id).id :=
    (InfoSet.find_none_iff _ _).1 h
  have hfind : InfoSet.find v.info_ (Info.create K id).id = none := h
  have hupd := InfoSet.update_append_of_absent v.info_ (Info.create K id)
    (clearImplicit v.mode) habs
  have hid : (Info.create K id).id = id := rfl
  rw [hid] at hupd
  have hk : (Info.create K id).Kind = K := rfl
  unfold getOrCreateInfo
  simp only [h, InfoSet.emplace, hfind, hk, ne_eq, not_true_eq_false, if_false, currentMode,
    hupd]

theorem getOrCreateInfo_present (v : ASTVisitor) (K : InfoKind) (id : SymbolID)
    (i : Info) (h : v.findInfo id = some i) (hk : i.Kind = K) :
    getOrCreateInfo v K id =
      Except.ok ({ v with info_ := InfoSet.update v.info_ id (clearImplicit v.mode) },
        clearImplicit v.mode i, false) := by
  subst hk
  unfold getOrCreateInfo
  simp only [h, ne_eq, not_true_eq_false, if_false, currentMode]

theorem getOrCreateInfo_mismatch (v : ASTVisitor) (K : InfoKind) (id : SymbolID)
    (i : Info) (h : v.findInfo id = some i) (hk : i.Kind ≠ K) :
    getOrCreateInfo v K id = Except.error Fault.kindMismatch := by
  unfold getOrCreateInfo
  simp [h, hk]

/-- The three outcomes of `getOrCreateInfo`. -/
theorem getOrCreateInfo_cases (v : ASTVisitor) (K : InfoKind) (id : SymbolID) :
    (v.findInfo id = none ∧
      getOrCreateInfo v K id =
        Except.ok ({ v with info_ := v.info_ ++ [clearImplicit v.mode (Info.create K id)] },
          clearImplicit v.mode (Info.create K id), true)) ∨
    (∃ i, v.findInfo id = some i ∧ i.Kind = K ∧
      getOrCreateInfo v K id =
        Except.ok ({ v with info_ := InfoSet.update v.info_ id (clearImplicit v.mode) },
          clearImplicit v.mode i, false)) ∨
    (∃ i, v.findInfo id = some i ∧ i.Kind ≠ K ∧
      getOrCreateInfo v K id = Except.error Fault.kindMismatch) := by
  cases h : v.findInfo id with
  | none => exact Or.inl ⟨rfl, getOrCreateInfo_absent v K id h⟩
  | some i =>
    by_cases hk : i.Kind = K
    · exact Or.inr (Or.inl ⟨i, rfl, hk, getOrCreateInfo_present v K id i h hk⟩)
    · exact Or.inr (Or.inr ⟨i, rfl, hk, getOrCreateInfo_mismatch v K id i h hk⟩)

end ASTVisitor

/-! ## Runs of `getOrCreateInfo` -/

theorem clearImplicit_id (m : ExtractMode) (i : Info) :
    (ASTVisitor.clearImplicit m i).id = i.id := rfl

theorem clearImplicit_Kind (m : ExtractMode) (i : Info) :
    (ASTVisitor.clearImplicit m i).Kind = i.Kind := rfl

/-- A successful call either appends the new entity or updates the one
found. -/
theorem runCall_ok {v v1 : ASTVisitor} {c : Call} (h : runCall v c = Except.ok v1) :
    (InfoSet.find v.info_ c.id = none ∧
      v1.info_ = v.info_ ++ [ASTVisitor.clearImplicit c.mode (Info.create c.kind c.id)] ∧
      ∃ e, ASTVisitor.getOrCreateInfo { v with mode := c.mode } c.kind c.id
        = Except.ok (v1, e, true)) ∨
    (∃ i, InfoSet.find v.info_ c.id = some i ∧ i.Kind = c.kind ∧
      v1.info_ = InfoSet.update v.info_ c.id (ASTVisitor.clearImplicit c.mode) ∧
      ∃ e, ASTVisitor.getOrCreateInfo { v with mode := c.mode } c.kind c.id
        = Except.ok (v1, e, false)) := by
  unfold runCall at h
  rcases ASTVisitor.getOrCreateInfo_cases { v with mode := c.mode } c.kind c.id with
    ⟨hf, hr⟩ | ⟨i, hf, hk, hr⟩ | ⟨i, hf, hk, hr⟩
  · rw [hr] at h
    simp only [Except.ok.injEq] at h
    subst h
    exact Or.inl ⟨hf, rfl, _, hr⟩
  · rw [hr] at h
    simp only [Except.ok.injEq] at h
    subst h
    exact Or.inr ⟨i, hf, hk, rfl, _, hr⟩
  · rw [hr] at h
    cases h

theorem runCall_wf {v v1 : ASTVisitor} {c : Call} (h : runCall v c = Except.ok v1)
    (hwf : InfoSet.WF v.info_) : InfoSet.WF v1.info_ := by
  rcases runCall_ok h with ⟨hf, hs, _⟩ | ⟨i, _, _, hs, _⟩
  · unfold InfoSet.WF at hwf ⊢
    rw [hs, List.map_append, List.nodup_append]
    refine ⟨hwf, by simp, ?_⟩
    intro a ha hb
    simp only [List.map_cons, List.map_nil, List.mem_singleton] at hb
    rcases List.mem_map.1 ha with ⟨e, he, rfl⟩
    exact (InfoSet.find_none_iff _ _).1 hf e he hb
  · unfold InfoSet.WF at hwf ⊢
    rw [hs, InfoSet.map_id_update _ _ _ (clearImplicit_id c.mode)]
    exact hwf

/-- Every entity of the store before a call is still there afterwards with
the same identity and kind. -/
theorem runCall_persist {v v1 : ASTVisitor} {c : Call} (h : runCall v c = Except.ok v1)
    {e0 : Info} (he0 : e0 ∈ v.info_) :
    ∃ e1 ∈ v1.info_, e1.id = e0.id ∧ e1.Kind = e0.Kind := by
  rcases runCall_ok h with ⟨_, hs, _⟩ | ⟨i, _, _, hs, _⟩
  · exact ⟨e0, by rw [hs]; exact List.mem_append_left _ he0, rfl, rfl⟩
  · rw [hs]
    exact InfoSet.update_persist _ _ _ (clearImplicit_id c.mode) (clearImplicit_Kind c.mode) he0

/-- Every entity of the store after a call was there before, up to its
implicit flag, or is the entity the call created. -/
theorem runCall_origin {v v1 : ASTVisitor} {c : Call} (h : runCall v c = Except.ok v1)
    {e1 : Info} (he1 : e1 ∈ v1.info_) :
    e1 ∈ v.info_ ∨
    (∃ e0 ∈ v.info_, e0.id = c.id ∧ e1 = ASTVisitor.clearImplicit c.mode e0) ∨
    (InfoSet.find v.info_ c.id = none ∧
      e1 = ASTVisitor.clearImplicit c.mode (Info.create c.kind c.id)) := by
  rcases runCall_ok h with ⟨hf, hs, _⟩ | ⟨i, _, _, hs, _⟩
  · rw [hs] at he1
    rcases List.mem_append.1 he1 with h1 | h1
    · exact Or.inl h1
    · exact Or.inr (Or.inr ⟨hf, by simpa using h1⟩)
  · rw [hs] at he1
    rcases InfoSet.mem_update he1 with h1 | ⟨e0, h0, h1, h2⟩
    · exact Or.inl h1
    · exact Or.inr (Or.inl ⟨e0, h0, h1, h2⟩)

theorem createdKind_cons (v v1 : ASTVisitor) (c : Call) (cs : List Call) (id : SymbolID)
    (e : Info) (created : Bool)
    (h : ASTVisitor.getOrCreateInfo { v with mode := c.mode } c.kind c.id
      = Except.ok (v1, e, created)) :
    createdKind v (c :: cs) id =
      if created && c.id == id then some c.kind else createdKind v1 cs id := by
  simp only [createdKind, h]

/-- The invariant of a run, from any well-formed start store. -/
theorem runCalls_invariant (calls : List Call) :
    ∀ (v0 v : ASTVisitor), InfoSet.WF v0.info_ → runCalls v0 calls = Except.ok v →
      InfoSet.WF v.info_ ∧
      ∀ e ∈ v.info_,
        ((∃ e0 ∈ v0.info_, e0.id = e.id ∧ e0.Kind = e.Kind) ∧
          createdKind v0 calls e.id = none) ∨
        ((∀ e0 ∈ v0.info_, e0.id ≠ e.id) ∧ createdKind v0 calls e.id = some e.Kind) := by
  induction calls with
  | nil =>
    intro v0 v hwf h
    simp only [runCalls, Except.ok.injEq] at h
    subst h
    exact ⟨hwf, fun e he => Or.inl ⟨⟨e, he, rfl, rfl⟩, rfl⟩⟩
  | cons c cs ih =>
    intro v0 v hwf h
    simp only [runCalls] at h
    cases h1 : runCall v0 c with
    | error f => rw [h1] at h; cases h
    | ok v1 =>
      rw [h1] at h
      have hwf1 := runCall_wf h1 hwf
      obtain ⟨hwfv, hall⟩ := ih v1 v hwf1 h
      refine ⟨hwfv, ?_⟩
      intro e he
      rcases runCall_ok h1 with ⟨hf, hs, e', hr⟩ | ⟨i, hf, hk, hs, e', hr⟩
      · -- the call created `c.id`
        have habs := (InfoSet.find_none_iff _ _).1 hf
        rw [createdKind_cons v0 v1 c cs e.id e' true hr]
        rcases hall e he with ⟨⟨e1, he1, hid, hkd⟩, hck⟩ | ⟨hno, hck⟩
        · rw [hs] at he1
          rcases List.mem_append.1 he1 with h0 | h0
          · left
            have hne : c.id ≠ e.id := by
              intro heq
              exact habs e1 h0 (by rw [hid, heq])
            refine ⟨⟨e1, h0, hid, hkd⟩, ?_⟩
            simp [hne, hck]
          · right
            have he1' : e1 = ASTVisitor.clearImplicit c.mode (Info.create c.kind c.id) := by
              simpa using h0
            have hid1 : e1.id = c.id := by rw [he1']; rfl
            have hk1 : e1.Kind = c.kind := by rw [he1']; rfl
            refine ⟨?_, ?_⟩
            · intro e0 h0' heq
              exact habs e0 h0' (by rw [heq, ← hid, hid1])
            · have : c.id = e.id := by rw [← hid1, hid]
              simp [this, ← hkd, hk1]
        · right
          have hne : c.id ≠ e.id := by
            intro heq
            refine hno (ASTVisitor.clearImplicit c.mode (Info.create c.kind c.id)) ?_ ?_
            · rw [hs]; simp
            · rw [← heq]; rfl
          refine ⟨?_, ?_⟩
          · intro e0 h0 heq
            exact hno e0 (by rw [hs]; exact List.mem_append_left _ h0) heq
          · simp [hne, hck]
      · -- the call found `c.id`
        rw [createdKind_cons v0 v1 c cs e.id e' false hr]
        simp only [Bool.false_and, Bool.false_eq_true, if_false]
        rcases hall e he with ⟨⟨e1, he1, hid, hkd⟩, hck⟩ | ⟨hno, hck⟩
        · left
          refine ⟨?_, hck⟩
          rcases runCall_origin h1 he1 with h0 | ⟨e0, h0, _, h2⟩ | ⟨hnone, _⟩
          · exact ⟨e1, h0, hid, hkd⟩
          · refine ⟨e0, h0, ?_, ?_⟩
            · rw [← hid, h2]; rfl
            · rw [← hkd, h2]; rfl
          · rw [hnone] at hf; cases hf
        · right
          refine ⟨?_, hck⟩
          intro e0 h0 heq
          obtain ⟨e1, h1', h2, _⟩ := runCall_persist h1 h0
          exact hno e1 h1' (by rw [h2, heq])

theorem InfoSet.mem_update_wf {s : InfoSet} (hwf : InfoSet.WF s) {id : SymbolID}
    {f : Info → Info} (hf : ∀ i, (f i).id = i.id) {e : Info}
    (he : e ∈ InfoSet.update s id f) (hid : e.id = id) :
    ∃ e0 ∈ s, e0.id = id ∧ e = f e0 := by
  induction s with
  | nil => cases he
  | cons a s ih =>
    unfold InfoSet.WF at hwf
    simp only [List.map_cons, List.nodup_cons] at hwf
    unfold InfoSet.update at he
    split at he
    · rename_i ha
      have ha' : a.id = id := by simpa using ha
      rcases List.mem_cons.1 he with rfl | h
      · exact ⟨a, List.mem_cons_self _ _, ha', rfl⟩
      · exact absurd (List.mem_map_of_mem Info.id h) (by rw [hid, ← ha']; exact hwf.1)
    · rename_i ha
      have ha' : a.id ≠ id := by simpa using ha
      rcases List.mem_cons.1 he with rfl | h
      · exact absurd hid ha'
      · obtain ⟨e0, h0, h1, h2⟩ := ih hwf.2 h
        exact ⟨e0, List.mem_cons_of_mem _ h0, h1, h2⟩

theorem runCalls_wf (calls : List Call) :
    ∀ (v0 v : ASTVisitor), InfoSet.WF v0.info_ → runCalls v0 calls = Except.ok v →
      InfoSet.WF v.info_ :=
  fun v0 v hwf h => (runCalls_invariant calls v0 v hwf h).1

theorem runCalls_append (pre post : List Call) :
    ∀ (v0 v : ASTVisitor), runCalls v0 (pre ++ post) = Except.ok v →
      ∃ v1, runCalls v0 pre = Except.ok v1 ∧ runCalls v1 post = Except.ok v := by
  induction pre with
  | nil => intro v0 v h; exact ⟨v0, rfl, h⟩
  | cons c cs ih =>
    intro v0 v h
    simp only [List.cons_append, runCalls] at h ⊢
    cases h1 : runCall v0 c with
    | error f => rw [h1] at h; cases h
    | ok v1 =>
      rw [h1] at h
      exact ih v1 v h

/-- An entity that exists with its flag cleared keeps it cleared. -/
theorem runCall_keeps_cleared {v v1 : ASTVisitor} {c : Call} (id : SymbolID)
    (h : runCall v c = Except.ok v1)
    (hq : (∃ e ∈ v.info_, e.id = id) ∧ ∀ e ∈ v.info_, e.id = id → e.Implicit = false) :
    (∃ e ∈ v1.info_, e.id = id) ∧ ∀ e ∈ v1.info_, e.id = id → e.Implicit = false := by
  obtain ⟨⟨e0, he0, hid0⟩, hall⟩ := hq
  refine ⟨?_, ?_⟩
  · obtain ⟨e1, h1, h2, _⟩ := runCall_persist h he0
    exact ⟨e1, h1, by rw [h2, hid0]⟩
  · intro e1 he1 hid1
    rcases runCall_origin h he1 with h0 | ⟨e0', h0, _, h2⟩ | ⟨hnone, h2⟩
    · exact hall e1 h0 hid1
    · have : e0'.Implicit = false := hall e0' h0 (by rw [← hid1, h2]; rfl)
      rw [h2]
      simp [ASTVisitor.clearImplicit, this]
    · exfalso
      have hcid : c.id = id := by rw [← hid1, h2]; rfl
      exact (InfoSet.find_none_iff _ _).1 hnone e0 he0 (by rw [hid0, hcid])

theorem runCalls_keeps_cleared (calls : List Call) (id : SymbolID) :
    ∀ (v0 v : ASTVisitor), runCalls v0 calls = Except.ok v →
      ((∃ e ∈ v0.info_, e.id = id) ∧ ∀ e ∈ v0.info_, e.id = id → e.Implicit = false) →
      (∃ e ∈ v.info_, e.id = id) ∧ ∀ e ∈ v.info_, e.id = id → e.Implicit = false := by
  induction calls with
  | nil =>
    intro v0 v h hq
    simp only [runCalls, Except.ok.injEq] at h
    subst h
    exact hq
  | cons c cs ih =>
    intro v0 v h hq
    simp only [runCalls] at h
    cases h1 : runCall v0 c with
    | error f => rw [h1] at h; cases h
    | ok v1 =>
      rw [h1] at h
      exact ih v1 v h (runCall_keeps_cleared id h1 hq)

/-- A call in `Normal` mode leaves the entity it names with its flag
cleared. -/
theorem runCall_normal_clears {v v1 : ASTVisitor} {c : Call}
    (hwf : InfoSet.WF v.info_) (hc : c.mode = ExtractMode.Normal)
    (h : runCall v c = Except.ok v1) :
    (∃ e ∈ v1.info_, e.id = c.id) ∧ ∀ e ∈ v1.info_, e.id = c.id → e.Implicit = false := by
  rcases runCall_ok h with ⟨hf, hs, _⟩ | ⟨i, hf, _, hs, _⟩
  · refine ⟨⟨_, by rw [hs]; exact List.mem_append_right _ (List.mem_singleton_self _), rfl⟩, ?_⟩
    intro e he hid
    rw [hs] at he
    rcases List.mem_append.1 he with h0 | h0
    · exact absurd hid ((InfoSet.find_none_iff _ _).1 hf e h0)
    · have : e = ASTVisitor.clearImplicit c.mode (Info.create c.kind c.id) := by simpa using h0
      rw [this, hc]
      simp [ASTVisitor.clearImplicit]
  · refine ⟨⟨_, by rw [hs]; exact InfoSet.mem_update_of_find hf, ?_⟩, ?_⟩
    · rw [clearImplicit_id]; exact (InfoSet.find_some_mem hf).2
    · intro e he hid
      rw [hs] at he
      obtain ⟨e0, _, _, h2⟩ := InfoSet.mem_update_wf hwf (clearImplicit_id c.mode) he hid
      rw [h2, hc]
      simp [ASTVisitor.clearImplicit]

theorem runCalls_keeps_implicit (calls : List Call) (id : SymbolID) :
    ∀ (v0 v : ASTVisitor), runCalls v0 calls = Except.ok v →
      (∀ c ∈ calls, c.id = id → c.mode ≠ ExtractMode.Normal) →
      (∀ e ∈ v0.info_, e.id = id → e.Implicit = true) →
      ∀ e ∈ v.info_, e.id = id → e.Implicit = true := by
  induction calls with
  | nil =>
    intro v0 v h _ hq
    simp only [runCalls, Except.ok.injEq] at h
    subst h
    exact hq
  | cons c cs ih =>
    intro v0 v h hdep hq
    simp only [runCalls] at h
    cases h1 : runCall v0 c with
    | error f => rw [h1] at h; cases h
    | ok v1 =>
      rw [h1] at h
      refine ih v1 v h (fun c' hc' => hdep c' (List.mem_cons_of_mem _ hc')) ?_
      intro e1 he1 hid1
      rcases runCall_origin h1 he1 with h0 | ⟨e0, h0, h0id, h2⟩ | ⟨_, h2⟩
      · exact hq e1 h0 hid1
      · have hid0 : e0.id = id := by rw [← hid1, h2]; rfl
        have hm : c.mode ≠ ExtractMode.Normal :=
          hdep c (List.mem_cons_self _ _) (by rw [← h0id, hid0])
        have := hq e0 h0 hid0
        rw [h2]
        simp [ASTVisitor.clearImplicit, this, hm]
      · have hcid : c.id = id := by rw [← hid1, h2]; rfl
        have hm : c.mode ≠ ExtractMode.Normal := hdep c (List.mem_cons_self _ _) hcid
        rw [h2]
        simp [ASTVisitor.clearImplicit, Info.create, Info.implicitDefault, hm]

/-! ## Claims about `getOrCreateInfo` -/

/-- C1: in every store reached from the empty store by a sequence of
`getOrCreateInfo` calls (any identities, kinds and modes) none of which trips
the kind assertion, no two entities have the same identity, and the kind of
every entity is the kind requested by the call that created it. -/
theorem store_unique_identity_and_fixed_kind (calls : List Call) (v : ASTVisitor)
    (h : runCalls {} calls = Except.ok v) :
    (v.info_.map Info.id).Nodup ∧
    ∀ e ∈ v.info_, createdKind {} calls e.id = some e.Kind := by
  have hwf0 : InfoSet.WF ({} : ASTVisitor).info_ := List.nodup_nil
  obtain ⟨hwf, hall⟩ := runCalls_invariant calls {} v hwf0 h
  refine ⟨hwf, ?_⟩
  intro e he
  rcases hall e he with ⟨⟨e0, h0, _⟩, _⟩ | ⟨_, hck⟩
  · cases h0
  · exact hck

/-- Witness for C1: the run `exampleCalls`. -/
theorem store_unique_identity_and_fixed_kind_witness :
    runCalls {} exampleCalls = Except.ok exampleVisitor ∧
    (exampleVisitor.info_.map Info.id).Nodup ∧
    ∀ e ∈ exampleVisitor.info_, createdKind {} exampleCalls e.id = some e.Kind :=
  ⟨rfl, store_unique_identity_and_fixed_kind exampleCalls exampleVisitor rfl⟩

/-- C2: in a store with one entity per identity, `getOrCreateInfo<K>(id)`
for an absent `id` returns `created = true` and a new entity of kind `K` and
identity `id`, appended to the store as its only new entity; for an `id`
stored with kind `K` it returns `created = false` and the stored entity
(equal to it in every member but the implicit flag), the store keeping its
size; in both cases the entities with another identity are the same before
and after. -/
theorem getOrCreateInfo_contract (v : ASTVisitor) (K : InfoKind) (id : SymbolID)
    (hwf : InfoSet.WF v.info_) :
    ((∀ i ∈ v.info_, i.id ≠ id) →
      ∃ v' e, v.getOrCreateInfo K id = Except.ok (v', e, true) ∧
        e.Kind = K ∧ e.id = id ∧ e ∉ v.info_ ∧ v'.info_ = v.info_ ++ [e]) ∧
    (∀ i ∈ v.info_, i.id = id → i.Kind = K →
      ∃ v' e, v.getOrCreateInfo K id = Except.ok (v', e, false) ∧
        e ∈ v'.info_ ∧ e.id = id ∧ e.Kind = K ∧ { e with Implicit := i.Implicit } = i ∧
        v'.info_.length = v.info_.length) ∧
    (∀ v' e created, v.getOrCreateInfo K id = Except.ok (v', e, created) →
      ∀ j, j.id ≠ id → (j ∈ v'.info_ ↔ j ∈ v.info_)) := by
  refine ⟨?_, ?_, ?_⟩
  · intro habs
    have hf : v.findInfo id = none := (InfoSet.find_none_iff _ _).2 habs
    refine ⟨_, _, ASTVisitor.getOrCreateInfo_absent v K id hf, rfl, rfl, ?_, rfl⟩
    intro hmem
    exact habs _ hmem rfl
  · intro i hi hid hk
    have hf : v.findInfo id = some i := by
      have := InfoSet.find_of_mem_wf hwf hi
      rw [hid] at this
      exact this
    refine ⟨_, _, ASTVisitor.getOrCreateInfo_present v K id i hf hk, ?_, ?_, ?_, rfl, ?_⟩
    · exact InfoSet.mem_update_of_find hf
    · exact hid
    · exact hk
    · exact InfoSet.length_update _ _ _
  · intro v' e created hr j hj
    rcases ASTVisitor.getOrCreateInfo_cases v K id with ⟨_, hr'⟩ | ⟨i, _, _, hr'⟩ | ⟨i, _, _, hr'⟩
    · rw [hr'] at hr
      simp only [Except.ok.injEq, Prod.mk.injEq] at hr
      obtain ⟨rfl, rfl, rfl⟩ := hr
      constructor
      · intro h
        rcases List.mem_append.1 h with h | h
        · exact h
        · have : j = ASTVisitor.clearImplicit v.mode (Info.create K id) := by simpa using h
          exact absurd (by rw [this]; rfl) hj
      · exact fun h => List.mem_append_left _ h
    · rw [hr'] at hr
      simp only [Except.ok.injEq, Prod.mk.injEq] at hr
      obtain ⟨rfl, rfl, rfl⟩ := hr
      constructor
      · intro h
        rcases InfoSet.mem_update h with h | ⟨e0, _, h1, h2⟩
        · exact h
        · exact absurd (by rw [h2]; exact h1) hj
      · exact fun h => InfoSet.mem_update_of_ne h hj
    · rw [hr'] at hr
      cases hr

/-- Witness for C2: the store of `exampleVisitor`, asked for its
namespace. -/
theorem getOrCreateInfo_contract_witness :
    InfoSet.WF exampleVisitor.info_ ∧
    ((∀ i ∈ exampleVisitor.info_, i.id ≠ SymbolID.fill 1) →
      ∃ v' e, exampleVisitor.getOrCreateInfo InfoKind.Namespace (SymbolID.fill 1)
          = Except.ok (v', e, true) ∧
        e.Kind = InfoKind.Namespace ∧ e.id = SymbolID.fill 1 ∧ e ∉ exampleVisitor.info_ ∧
        v'.info_ = exampleVisitor.info_ ++ [e]) ∧
    (∀ i ∈ exampleVisitor.info_, i.id = SymbolID.fill 1 → i.Kind = InfoKind.Namespace →
      ∃ v' e, exampleVisitor.getOrCreateInfo InfoKind.Namespace (SymbolID.fill 1)
          = Except.ok (v', e, false) ∧
        e ∈ v'.info_ ∧ e.id = SymbolID.fill 1 ∧ e.Kind = InfoKind.Namespace ∧
        { e with Implicit := i.Implicit } = i ∧
        v'.info_.length = exampleVisitor.info_.length) ∧
    (∀ v' e created, exampleVisitor.getOrCreateInfo InfoKind.Namespace (SymbolID.fill 1)
        = Except.ok (v', e, created) →
      ∀ j, j.id ≠ SymbolID.fill 1 → (j ∈ v'.info_ ↔ j ∈ exampleVisitor.info_)) :=
  ⟨by decide,
    getOrCreateInfo_contract exampleVisitor InfoKind.Namespace (SymbolID.fill 1) (by decide)⟩

/-- C3: in a store with one entity per identity, `getOrCreateInfo<K>(id)`
ends in a fatal contract violation if and only if the store holds an entity
with identity `id` whose kind is not `K`, and the violation is then the kind
assertion; a call for an absent identity, or for one stored with kind `K`,
does not fail. -/
theorem getOrCreateInfo_fails_iff_kind_mismatch (v : ASTVisitor) (K : InfoKind)
    (id : SymbolID) (hwf : InfoSet.WF v.info_) :
    ((∃ f, v.getOrCreateInfo K id = Except.error f) ↔
      ∃ i ∈ v.info_, i.id = id ∧ i.Kind ≠ K) ∧
    (∀ f, v.getOrCreateInfo K id = Except.error f → f = Fault.kindMismatch) := by
  refine ⟨⟨?_, ?_⟩, ?_⟩
  · rintro ⟨f, hf⟩
    rcases ASTVisitor.getOrCreateInfo_cases v K id with ⟨_, hr⟩ | ⟨i, _, _, hr⟩ | ⟨i, hi, hk, _⟩
    · rw [hr] at hf; cases hf
    · rw [hr] at hf; cases hf
    · exact ⟨i, (InfoSet.find_some_mem hi).1, (InfoSet.find_some_mem hi).2, hk⟩
  · rintro ⟨i, hi, hid, hk⟩
    have hf : v.findInfo id = some i := by
      have := InfoSet.find_of_mem_wf hwf hi
      rw [hid] at this
      exact this
    exact ⟨_, ASTVisitor.getOrCreateInfo_mismatch v K id i hf hk⟩
  · intro f hf
    rcases ASTVisitor.getOrCreateInfo_cases v K id with ⟨_, hr⟩ | ⟨i, _, _, hr⟩ | ⟨i, _, _, hr⟩
    · rw [hr] at hf; cases hf
    · rw [hr] at hf; cases hf
    · rw [hr] at hf
      simp only [Except.error.injEq] at hf
      exact hf.symm

/-- Witness for C3: the store of `exampleVisitor`, asked for its namespace
as a record. -/
theorem getOrCreateInfo_fails_iff_kind_mismatch_witness :
    InfoSet.WF exampleVisitor.info_ ∧
    ((∃ f, exampleVisitor.getOrCreateInfo InfoKind.Record (SymbolID.fill 1) = Except.error f) ↔
      ∃ i ∈ exampleVisitor.info_, i.id = SymbolID.fill 1 ∧ i.Kind ≠ InfoKind.Record) ∧
    (∀ f, exampleVisitor.getOrCreateInfo InfoKind.Record (SymbolID.fill 1) = Except.error f →
      f = Fault.kindMismatch) :=
  ⟨by decide,
    getOrCreateInfo_fails_iff_kind_mismatch exampleVisitor InfoKind.Record (SymbolID.fill 1)
      (by decide)⟩

/-- C4: after a run of `getOrCreateInfo` calls from the empty store, an
entity all of whose encounters (the creating one included) were made in
`DirectDependency` or `IndirectDependency` mode has its implicit flag set. -/
theorem implicit_of_dependency_encounters_only (calls : List Call) (v : ASTVisitor)
    (h : runCalls {} calls = Except.ok v) (e : Info) (he : e ∈ v.info_)
    (hdep : ∀ c ∈ calls, c.id = e.id →
      c.mode = ExtractMode.DirectDependency ∨ c.mode = ExtractMode.IndirectDependency) :
    e.Implicit = true := by
  refine runCalls_keeps_implicit calls e.id {} v h ?_ ?_ e he rfl
  · intro c hc hid hn
    rcases hdep c hc hid with h1 | h1 <;> rw [h1] at hn <;> cases hn
  · intro e0 h0
    cases h0

/-- Witness for C4: the record of `exampleCalls`, met once, as a direct
dependency. -/
theorem implicit_of_dependency_encounters_only_witness :
    runCalls {} exampleCalls = Except.ok exampleVisitor ∧
    exampleRecord ∈ exampleVisitor.info_ ∧
    (∀ c ∈ exampleCalls, c.id = exampleRecord.id →
      c.mode = ExtractMode.DirectDependency ∨ c.mode = ExtractMode.IndirectDependency) ∧
    exampleRecord.Implicit = true :=
  ⟨rfl, by simp [exampleVisitor, exampleRecord], by decide,
    implicit_of_dependency_encounters_only exampleCalls exampleVisitor rfl exampleRecord
      (by simp [exampleVisitor, exampleRecord]) (by decide)⟩

/-- C5: from any store with one entity per identity, once a call of a run
reaches an entity in `Normal` mode, the entity exists and its implicit flag
is false at the end of the run, whatever calls (for it or for others, in any
mode) come before and after. -/
theorem not_implicit_after_normal_encounter (v0 v : ASTVisitor) (before after : List Call)
    (c : Call) (hwf : InfoSet.WF v0.info_) (hc : c.mode = ExtractMode.Normal)
    (h : runCalls v0 (before ++ c :: after) = Except.ok v) :
    (∃ e ∈ v.info_, e.id = c.id) ∧ ∀ e ∈ v.info_, e.id = c.id → e.Implicit = false := by
  obtain ⟨v1, h1, h2⟩ := runCalls_append before (c :: after) v0 v h
  have hwf1 := runCalls_wf before v0 v1 hwf h1
  simp only [runCalls] at h2
  cases h3 : runCall v1 c with
  | error f => rw [h3] at h2; cases h2
  | ok v2 =>
    rw [h3] at h2
    exact runCalls_keeps_cleared after c.id v2 v h2 (runCall_normal_clears hwf1 hc h3)

/-- Witness for C5: the namespace of `exampleCalls`, met in `Normal` mode
first and as an indirect dependency later. -/
theorem not_implicit_after_normal_encounter_witness :
    InfoSet.WF ({} : ASTVisitor).info_ ∧
    runCalls {} ([] ++ ⟨InfoKind.Namespace, SymbolID.fill 1, ExtractMode.Normal⟩ ::
      [⟨InfoKind.Record, SymbolID.fill 2, ExtractMode.DirectDependency⟩,
       ⟨InfoKind.Namespace, SymbolID.fill 1, ExtractMode.IndirectDependency⟩])
      = Except.ok exampleVisitor ∧
    (∃ e ∈ exampleVisitor.info_, e.id = SymbolID.fill 1) ∧
    ∀ e ∈ exampleVisitor.info_, e.id = SymbolID.fill 1 → e.Implicit = false :=
  ⟨by decide, rfl,
    not_implicit_after_normal_encounter {} exampleVisitor []
      [⟨InfoKind.Record, SymbolID.fill 2, ExtractMode.DirectDependency⟩,
       ⟨InfoKind.Namespace, SymbolID.fill 1, ExtractMode.IndirectDependency⟩]
      ⟨InfoKind.Namespace, SymbolID.fill 1, ExtractMode.Normal⟩
      (by decide) rfl rfl⟩

/-! ## Source locations -/

/-- The key under which `addSourceLocation` deduplicates declaration
locations. -/
theorem addSourceLocation_Loc_nodup (v : ASTVisitor) (I : SourceInfo) (line : Nat)
    (definition : Bool)
    (h : (I.Loc.map (fun l => (l.LineNumber, l.Filename))).Nodup) :
    ((v.addSourceLocation I line definition).Loc.map
      (fun l => (l.LineNumber, l.Filename))).Nodup := by
  unfold ASTVisitor.addSourceLocation
  cases definition with
  | true =>
    simp only [if_true]
    split <;> exact h
  | false =>
    simp only [Bool.false_eq_true, if_false]
    split
    · exact h
    · rename_i hnone
      simp only [List.map_append, List.map_cons, List.map_nil]
      rw [List.nodup_append]
      refine ⟨h, by simp, ?_⟩
      intro a ha hb
      simp only [List.mem_singleton] at hb
      rcases List.mem_map.1 ha with ⟨l, hl, rfl⟩
      have := List.find?_eq_none.1 hnone l hl
      simp only [Prod.mk.injEq] at hb
      apply this
      simp [hb.1, hb.2]

theorem runLocCalls_Loc_nodup (cs : List LocCall) :
    ∀ I : SourceInfo, (I.Loc.map (fun l => (l.LineNumber, l.Filename))).Nodup →
      ((runLocCalls I cs).Loc.map (fun l => (l.LineNumber, l.Filename))).Nodup := by
  induction cs with
  | nil => intro I h; exact h
  | cons c cs ih =>
    intro I h
    simp only [runLocCalls, List.foldl_cons]
    exact ih _ (addSourceLocation_Loc_nodup _ I c.line c.definition h)

theorem runLocCall_DefLoc (I : SourceInfo) (c : LocCall) :
    (runLocCall I c).DefLoc =
      match I.DefLoc with
      | some d => some d
      | none => if c.definition then some ⟨c.line, c.file, c.inRoot⟩ else none := by
  unfold runLocCall ASTVisitor.addSourceLocation
  cases hd : c.definition with
  | true => cases hI : I.DefLoc <;> simp [hI]
  | false =>
    simp only [Bool.false_eq_true, if_false]
    split <;> (cases hI : I.DefLoc <;> simp [hI])

theorem runLocCalls_DefLoc (cs : List LocCall) :
    ∀ I : SourceInfo, (runLocCalls I cs).DefLoc =
      match I.DefLoc with
      | some d => some d
      | none => (cs.find? (fun c => c.definition)).map
          (fun c => (⟨c.line, c.file, c.inRoot⟩ : Location)) := by
  induction cs with
  | nil => intro I; cases h : I.DefLoc <;> simp [runLocCalls, h]
  | cons c cs ih =>
    intro I
    have hstep : runLocCalls I (c :: cs) = runLocCalls (runLocCall I c) cs := rfl
    rw [hstep, ih (runLocCall I c), runLocCall_DefLoc]
    cases hI : I.DefLoc with
    | some d => rfl
    | none =>
      cases hd : c.definition with
      | true => simp [List.find?_cons, hd]
      | false => simp [List.find?_cons, hd]

/-- C9: after any sequence of `addSourceLocation` calls on an entity that
starts without locations, no two declaration locations have the same
(line, file) pair; the definition location is the one recorded by the first
call with `definition = true` (none if there is no such call); a definition
call on an entity that has a definition location changes nothing; a
definition call never changes the declaration list and a declaration call
never changes the definition location. -/
theorem addSourceLocation_dedup_and_single_definition (cs : List LocCall)
    (v : ASTVisitor) (I : SourceInfo) (d : Location) (line : Nat) :
    ((runLocCalls {} cs).Loc.map (fun l => (l.LineNumber, l.Filename))).Nodup ∧
    (runLocCalls {} cs).DefLoc =
      (cs.find? (fun c => c.definition)).map
        (fun c => (⟨c.line, c.file, c.inRoot⟩ : Location)) ∧
    v.addSourceLocation { I with DefLoc := some d } line true = { I with DefLoc := some d } ∧
    (v.addSourceLocation I line true).Loc = I.Loc ∧
    (v.addSourceLocation I line false).DefLoc = I.DefLoc := by
  refine ⟨runLocCalls_Loc_nodup cs {} List.nodup_nil, ?_, ?_, ?_, ?_⟩
  · rw [runLocCalls_DefLoc]
  · simp [ASTVisitor.addSourceLocation]
  · unfold ASTVisitor.addSourceLocation
    simp only [if_true]
    split <;> rfl
  · unfold ASTVisitor.addSourceLocation
    simp only [Bool.false_eq_true, if_false]
    split <;> rfl

/-! ## Type descriptors -/

theorem withFastQualifiers_zero (t : QualType) : t.withFastQualifiers 0 = t := by
  cases t <;> simp [QualType.withFastQualifiers]

theorem withFastQualifiers_twice (t : QualType) (a b : Nat) :
    (t.withFastQualifiers a).withFastQualifiers b = t.withFastQualifiers (a ||| b) := by
  cases t <;> simp [QualType.withFastQualifiers, Nat.lor_assoc]

/-- One layer of sugar is stripped by one round of the loop. -/
theorem buildTypeInfoLoop_sugar (v : ASTVisitor) (m : ExtractMode)
    (result : Option TypeInfo) (NNS : Option NestedNameSpecifier) (pack : Bool)
    (s : Sugar) (q : Nat) (t : QualType) :
    ASTVisitor.buildTypeInfoLoop v m result NNS pack (s.wrap q t) =
      ASTVisitor.buildTypeInfoLoop v m result NNS pack (t.withFastQualifiers q) := by
  cases s <;> simp only [Sugar.wrap] <;> rw [ASTVisitor.buildTypeInfoLoop]

theorem buildTypeInfoLoop_wrapSugar (v : ASTVisitor) (m : ExtractMode)
    (result : Option TypeInfo) (NNS : Option NestedNameSpecifier) (pack : Bool)
    (t : QualType) (ls : List (Sugar × Nat)) :
    ∀ e : Nat,
      ASTVisitor.buildTypeInfoLoop v m result NNS pack
          ((wrapSugar ls t).withFastQualifiers e) =
        ASTVisitor.buildTypeInfoLoop v m result NNS pack
          (t.withFastQualifiers (sugarQuals ls ||| e)) := by
  induction ls with
  | nil => intro e; simp [wrapSugar, sugarQuals]
  | cons l ls ih =>
    intro e
    obtain ⟨s, q⟩ := l
    have hw : (wrapSugar ((s, q) :: ls) t).withFastQualifiers e
        = s.wrap (q ||| e) (wrapSugar ls t) := by
      cases s <;> simp [wrapSugar, Sugar.wrap, QualType.withFastQualifiers]
    rw [hw, buildTypeInfoLoop_sugar, ih (q ||| e)]
    simp [sugarQuals, Nat.lor_assoc]

/-- C6: for every type `t` wrapped in any number of layers of sugar (using,
attribute, parenthesization, macro qualification, decay or adjustment,
substituted template parameter), `buildTypeInfo` returns what it returns for
`t` with the local qualifiers of the layers added. -/
theorem buildTypeInfo_strips_sugar (v : ASTVisitor) (m : ExtractMode) (t : QualType)
    (ls : List (Sugar × Nat)) :
    v.buildTypeInfo (wrapSugar ls t) m =
      v.buildTypeInfo (t.withFastQualifiers (sugarQuals ls)) m := by
  rw [ASTVisitor.buildTypeInfo, ASTVisitor.buildTypeInfo]
  have h := fun v' => buildTypeInfoLoop_wrapSugar v' m none none false t ls 0
  simp only [withFastQualifiers_zero, Nat.or_zero] at h
  simp only [h]

theorem size_withFastQualifiers (t : QualType) (q : Nat) :
    (t.withFastQualifiers q).size = t.size := by
  cases t <;> simp [QualType.withFastQualifiers, QualType.size]

/-- The faults the type and template-argument builders never raise on their
own account are not among the ones they do raise. -/
theorem raised_ne {α : Type} (f e : Fault)
    (hf : f = Fault.terminalKind ∨ f = Fault.unreachablePack)
    (he : e = Fault.nullQualType ∨ e = Fault.secondQualifier ∨ e = Fault.other) :
    (Except.error e : Except Fault α) ≠ Except.error f := by
  intro h
  simp only [Except.error.injEq] at h
  subst h
  rcases hf with rfl | rfl <;> rcases he with h | h | h <;> cases h

theorem extractionScope_ne {α : Type} (v : ASTVisitor) (m : ExtractMode)
    (body : ASTVisitor → Except Fault (α × ASTVisitor)) (f : Fault)
    (h : body { v with mode := m } ≠ Except.error f) :
    v.extractionScope m body ≠ Except.error f := by
  unfold ASTVisitor.extractionScope
  split
  · intro h'; cases h'
  · rename_i e he
    intro h'
    simp only [Except.error.injEq] at h'
    subst h'
    exact h he

theorem isTerminal_makeTypeInfo (T : TypeInfoTy) (II : Option String) (q : Nat) :
    (ASTVisitor.makeTypeInfo T II q).isTerminal = true := by
  cases T <;> rfl

theorem isTerminal_setId (i : InfoPtr) (t : TypeInfo) :
    (t.setId i).isTerminal = t.isTerminal := by
  cases t <;> rfl

theorem isTerminal_setTemplateArgs (a : List (Option TArg)) (t : TypeInfo) :
    (t.setTemplateArgs a).isTerminal = t.isTerminal := by
  cases t <;> rfl

theorem isTerminal_makeTypeInfoDecl (v : ASTVisitor) (T : TypeInfoTy) (N : NamedDecl)
    (q : Nat) : (v.makeTypeInfoDecl T N q).isTerminal = true := by
  unfold ASTVisitor.makeTypeInfoDecl
  simp only []
  split
  · split
    · rw [isTerminal_setId]; exact isTerminal_makeTypeInfo _ _ _
    · exact isTerminal_makeTypeInfo _ _ _
  · exact isTerminal_makeTypeInfo _ _ _

theorem neverFault_loop (f : Fault)
    (hf : f = Fault.terminalKind ∨ f = Fault.unreachablePack) (n : Nat)
    (ih : NeverFault f n) :
    ∀ (v : ASTVisitor) m result NNS pack qt,
      4 * (QualType.size qt + NestedNameSpecifier.optSize NNS) + 1 ≤ n + 1 →
      v.buildTypeInfoLoop m result NNS pack qt ≠ Except.error f := by
  obtain ⟨ihB, ihL, ihT, ihP, ihPL, ihA, ihAs⟩ := ih
  intro v m result NNS pack qt hle
  cases qt with
  | null => rw [ASTVisitor.buildTypeInfoLoop]; exact raised_ne f _ hf (Or.inl rfl)
  | mk quals type =>
    cases type with
    | Paren T | MacroQualified T | Attributed T | Decayed T | Adjusted T | Using T
    | SubstTemplateTypeParm T | PackExpansion T =>
      rw [ASTVisitor.buildTypeInfoLoop]
      refine ihL _ _ _ _ _ _ ?_
      simp only [QualType.size, ClangType.size, size_withFastQualifiers] at hle ⊢
      omega
    | Pointer T | LValueReference T | RValueReference T | IncompleteArray T =>
      rw [ASTVisitor.buildTypeInfoLoop]
      refine ihL _ _ _ _ _ _ ?_
      simp only [QualType.size, ClangType.size] at hle ⊢
      omega
    | ConstantArray E S T =>
      rw [ASTVisitor.buildTypeInfoLoop]
      refine ihL _ _ _ _ _ _ ?_
      simp only [QualType.size, ClangType.size] at hle ⊢
      omega
    | DependentSizedArray E T =>
      rw [ASTVisitor.buildTypeInfoLoop]
      refine ihL _ _ _ _ _ _ ?_
      simp only [QualType.size, ClangType.size] at hle ⊢
      omega
    | MemberPointer C T =>
      rw [ASTVisitor.buildTypeInfoLoop]
      simp only [QualType.size, ClangType.size] at hle
      split
      · rename_i e hX
        intro h
        simp only [Except.error.injEq] at h
        subst h
        exact ihB _ _ _ (by simp only [QualType.size]; omega) hX
      · exact ihL _ _ _ _ _ _ (by omega)
    | FunctionProto PTs rq mq es RT =>
      rw [ASTVisitor.buildTypeInfoLoop]
      simp only [QualType.size, ClangType.size] at hle
      split
      · rename_i e hX
        intro h
        simp only [Except.error.injEq] at h
        subst h
        exact ihPL _ _ (by omega) hX
      · exact ihL _ _ _ _ _ _ (by omega)
    | Auto D name =>
      rw [ASTVisitor.buildTypeInfoLoop]
      simp only [QualType.size, ClangType.size] at hle
      split
      · exact ihL _ _ _ _ _ _ (by omega)
      · exact ihT _ _ _ _ _ _ rfl (by omega)
    | DeducedTemplateSpecialization D TD =>
      rw [ASTVisitor.buildTypeInfoLoop]
      simp only [QualType.size, ClangType.size] at hle
      split
      · exact ihL _ _ _ _ _ _ (by omega)
      · exact ihT _ _ _ _ _ _ (isTerminal_makeTypeInfoDecl _ _ _ _) (by omega)
    | Elaborated Q T =>
      rw [ASTVisitor.buildTypeInfoLoop]
      simp only [QualType.size, ClangType.size] at hle
      split
      · exact raised_ne f _ hf (Or.inr (Or.inl rfl))
      · refine ihL _ _ _ _ _ _ ?_
        simp only [size_withFastQualifiers]
        omega
    | DependentTemplateSpecialization II targs Q =>
      rw [ASTVisitor.buildTypeInfoLoop]
      simp only [QualType.size, ClangType.size] at hle
      split
      · rename_i e hX
        intro h
        simp only [Except.error.injEq] at h
        subst h
        exact ihAs _ _ _ (by omega) hX
      · simp only []
        split
        · exact raised_ne f _ hf (Or.inr (Or.inl rfl))
        · refine ihT _ _ _ _ _ _ ?_ (by omega)
          rw [isTerminal_setTemplateArgs]; exact isTerminal_makeTypeInfo _ _ _
    | DependentName II Q =>
      rw [ASTVisitor.buildTypeInfoLoop]
      simp only [QualType.size, ClangType.size] at hle
      split
      · exact raised_ne f _ hf (Or.inr (Or.inl rfl))
      · exact ihT _ _ _ _ _ _ (isTerminal_makeTypeInfo _ _ _) (by omega)
    | TemplateSpecialization nn TD al cd targs =>
      rw [ASTVisitor.buildTypeInfoLoop.eq_def]
      simp only [QualType.size, ClangType.size] at hle
      simp only []
      split
      · exact raised_ne f _ hf (Or.inr (Or.inr rfl))
      · split
        · rename_i e hX
          intro h
          simp only [Except.error.injEq] at h
          subst h
          exact ihAs _ _ _ (by omega) hX
        · refine ihT _ _ _ _ _ _ ?_ (by omega)
          rw [isTerminal_setTemplateArgs]; exact isTerminal_makeTypeInfoDecl _ _ _ _
    | Record RD targs =>
      cases targs with
      | none =>
        rw [ASTVisitor.buildTypeInfoLoop]
        simp only [QualType.size, ClangType.size] at hle
        exact ihT _ _ _ _ _ _ (isTerminal_makeTypeInfoDecl _ _ _ _) (by omega)
      | some targs =>
        rw [ASTVisitor.buildTypeInfoLoop]
        simp only [QualType.size, ClangType.size] at hle
        split
        · rename_i e hX
          intro h
          simp only [Except.error.injEq] at h
          subst h
          exact ihAs _ _ _ (by omega) hX
        · refine ihT _ _ _ _ _ _ ?_ (by omega)
          rw [isTerminal_setTemplateArgs]; exact isTerminal_makeTypeInfoDecl _ _ _ _
    | InjectedClassName D | Enum D | Typedef D =>
      rw [ASTVisitor.buildTypeInfoLoop]
      simp only [QualType.size, ClangType.size] at hle
      exact ihT _ _ _ _ _ _ (isTerminal_makeTypeInfoDecl _ _ _ _) (by omega)
    | TemplateTypeParm D =>
      rw [ASTVisitor.buildTypeInfoLoop.eq_def]
      simp only [QualType.size, ClangType.size] at hle
      simp only []
      exact ihT _ _ _ _ _ _ rfl (by omega)
    | SubstTemplateTypeParmPack II =>
      rw [ASTVisitor.buildTypeInfoLoop]
      simp only [QualType.size, ClangType.size] at hle
      exact ihT _ _ _ _ _ _ (isTerminal_makeTypeInfo _ _ _) (by omega)
    | VariableArray elem name =>
      rw [ASTVisitor.buildTypeInfoLoop]
      simp only [QualType.size, ClangType.size] at hle
      exact ihT _ _ _ _ _ _ rfl (by omega)
    | FunctionNoProto ret name =>
      rw [ASTVisitor.buildTypeInfoLoop]
      simp only [QualType.size, ClangType.size] at hle
      exact ihT _ _ _ _ _ _ rfl (by omega)
    | Other name =>
      rw [ASTVisitor.buildTypeInfoLoop]
      simp only [QualType.size, ClangType.size] at hle
      exact ihT _ _ _ _ _ _ rfl (by omega)
theorem neverFault_buildTypeInfo (f : Fault) (n : Nat) (ih : NeverFault f n) :
    ∀ (v : ASTVisitor) qt m, 4 * QualType.size qt + 2 ≤ n + 1 →
      v.buildTypeInfo qt m ≠ Except.error f := by
  intro v qt m hle
  rw [ASTVisitor.buildTypeInfo]
  apply extractionScope_ne
  exact ih.2.1 _ _ _ _ _ _ (by simp only [NestedNameSpecifier.optSize]; omega)

theorem neverFault_terminal (f : Fault) (n : Nat) (ih : NeverFault f n) :
    ∀ (v : ASTVisitor) m result NNS pack I, TypeInfo.isTerminal I = true →
      4 * NestedNameSpecifier.optSize NNS + 1 ≤ n + 1 →
      v.buildTypeInfoTerminal m result NNS pack I ≠ Except.error f := by
  intro v m result NNS pack I hI hle
  rw [ASTVisitor.buildTypeInfoTerminal.eq_def]
  simp only [hI, Bool.not_true, Bool.false_eq_true, if_false]
  split
  · intro h; cases h
  · split
    · split
      · rename_i e hX
        intro h
        simp only [Except.error.injEq] at h
        subst h
        exact ih.2.2.2.1 _ _ _ _ (by omega) hX
      · intro h; cases h
    · intro h; cases h

theorem neverFault_parent (f : Fault) (n : Nat) (ih : NeverFault f n) :
    ∀ (v : ASTVisitor) P NNS m, 4 * NestedNameSpecifier.optSize NNS ≤ n + 1 →
      v.buildParentTypeInfo P NNS m ≠ Except.error f := by
  intro v P NNS m hle
  cases NNS with
  | none => rw [ASTVisitor.buildParentTypeInfo]; intro h; cases h
  | some N =>
    cases N with
    | TypeSpec p T =>
      rw [ASTVisitor.buildParentTypeInfo]
      simp only [NestedNameSpecifier.optSize, NestedNameSpecifier.size] at hle
      exact ih.1 _ _ _ (by simp only [QualType.size]; omega)
    | Identifier p II =>
      rw [ASTVisitor.buildParentTypeInfo]
      simp only [NestedNameSpecifier.optSize, NestedNameSpecifier.size] at hle
      split
      · rename_i e hX
        intro h
        simp only [Except.error.injEq] at h
        subst h
        exact ih.2.2.2.1 _ _ _ _ (by omega) hX
      · intro h; cases h
    | Other p => rw [ASTVisitor.buildParentTypeInfo]; intro h; cases h

theorem neverFault_list (f : Fault) (n : Nat) (ih : NeverFault f n) :
    ∀ (v : ASTVisitor) PTs, 4 * QualType.listSize PTs + 3 ≤ n + 1 →
      v.buildTypeInfoList PTs ≠ Except.error f := by
  intro v PTs hle
  cases PTs with
  | nil => rw [ASTVisitor.buildTypeInfoList]; intro h; cases h
  | cons PT rest =>
    rw [ASTVisitor.buildTypeInfoList]
    simp only [QualType.listSize] at hle
    split
    · rename_i e hX
      intro h
      simp only [Except.error.injEq] at h
      subst h
      exact ih.1 _ _ _ (by omega) hX
    · split
      · rename_i e hX
        intro h
        simp only [Except.error.injEq] at h
        subst h
        exact ih.2.2.2.2.1 _ _ (by omega) hX
      · intro h; cases h

theorem neverFault_arg (f : Fault)
    (hf : f = Fault.terminalKind ∨ f = Fault.unreachablePack) (n : Nat)
    (ih : NeverFault f n) :
    ∀ (v : ASTVisitor) A, TemplateArgument.isPack A = false →
      4 * TemplateArgument.size A + 3 ≤ n + 1 →
      v.buildTemplateArg A ≠ Except.error f := by
  intro v A hA hle
  rw [ASTVisitor.buildTemplateArg.eq_def]
  split
  · intro h; cases h
  · simp [TemplateArgument.isPack] at hA
  · exact raised_ne f _ hf (Or.inl rfl)
  · simp only [TemplateArgument.size, QualType.size, ClangType.size] at hle
    split
    · rename_i e hX
      intro h
      simp only [Except.error.injEq] at h
      subst h
      exact ih.1 _ _ _ (by omega) hX
    · intro h; cases h
  · simp only [TemplateArgument.size, QualType.size] at hle
    split
    · rename_i e hX
      intro h
      simp only [Except.error.injEq] at h
      subst h
      exact ih.1 _ _ _ (by simp only [QualType.size]; omega) hX
    · intro h; cases h
  · split <;> (intro h; cases h)
  · intro h; cases h
  · exact raised_ne f _ hf (Or.inr (Or.inr rfl))

theorem neverFault_args (f : Fault) (n : Nat) (ih : NeverFault f n) :
    ∀ (v : ASTVisitor) result range, 4 * TemplateArgument.listSize range + 3 ≤ n + 1 →
      v.buildTemplateArgs result range ≠ Except.error f := by
  intro v result range hle
  rw [ASTVisitor.buildTemplateArgs.eq_def]
  split
  · intro h; cases h
  · simp only [TemplateArgument.listSize, TemplateArgument.size] at hle
    split
    · rename_i e hX
      intro h
      simp only [Except.error.injEq] at h
      subst h
      exact ih.2.2.2.2.2.2 _ _ _ (by omega) hX
    · exact ih.2.2.2.2.2.2 _ _ _ (by omega)
  · rename_i arg rest hnp
    simp only [TemplateArgument.listSize] at hle
    have harg : TemplateArgument.isPack arg = false := by
      cases arg <;> first | rfl | exact absurd rfl (hnp _)
    split
    · rename_i e hX
      intro h
      simp only [Except.error.injEq] at h
      subst h
      exact ih.2.2.2.2.2.1 _ _ harg (by omega) hX
    · exact ih.2.2.2.2.2.2 _ _ _ (by omega)

/-- None of the builders ends with the assertion on the terminal kind or in
the unreachable `Pack` case, whatever the input. -/
theorem neverFault_all (f : Fault)
    (hf : f = Fault.terminalKind ∨ f = Fault.unreachablePack) :
    ∀ n, NeverFault f n := by
  intro n
  induction n with
  | zero =>
    refine ⟨?_, ?_, ?_, ?_, ?_, ?_, ?_⟩
    · intro v qt m h; omega
    · intro v m result NNS pack qt h; omega
    · intro v m result NNS pack I _ h; omega
    · intro v P NNS m h
      cases NNS with
      | none => rw [ASTVisitor.buildParentTypeInfo]; intro h; cases h
      | some N => simp only [NestedNameSpecifier.optSize] at h; omega
    · intro v PTs h; omega
    · intro v A _ h; omega
    · intro v result range h; omega
  | succ n ih =>
    exact ⟨neverFault_buildTypeInfo f n ih, neverFault_loop f hf n ih,
      neverFault_terminal f n ih, neverFault_parent f n ih, neverFault_list f n ih,
      neverFault_arg f hf n ih, neverFault_args f n ih⟩

theorem chainOpen_assignInner : ∀ (t I : TypeInfo), t.chainOpen = true → I.chainOpen = true →
    (t.assignInner (some I)).chainOpen = true
  | .LValueReference _ none, I, _, hI => by simpa [TypeInfo.assignInner, TypeInfo.chainOpen] using hI
  | .LValueReference _ (some p), I, h, hI => by
    simp only [TypeInfo.assignInner, TypeInfo.chainOpen] at h ⊢
    exact chainOpen_assignInner p I h hI
  | .RValueReference _ none, I, _, hI => by simpa [TypeInfo.assignInner, TypeInfo.chainOpen] using hI
  | .RValueReference _ (some p), I, h, hI => by
    simp only [TypeInfo.assignInner, TypeInfo.chainOpen] at h ⊢
    exact chainOpen_assignInner p I h hI
  | .Pointer _ _ none, I, _, hI => by simpa [TypeInfo.assignInner, TypeInfo.chainOpen] using hI
  | .Pointer _ _ (some p), I, h, hI => by
    simp only [TypeInfo.assignInner, TypeInfo.chainOpen] at h ⊢
    exact chainOpen_assignInner p I h hI
  | .MemberPointer _ _ _ none, I, _, hI => by
    simpa [TypeInfo.assignInner, TypeInfo.chainOpen] using hI
  | .MemberPointer _ _ _ (some p), I, h, hI => by
    simp only [TypeInfo.assignInner, TypeInfo.chainOpen] at h ⊢
    exact chainOpen_assignInner p I h hI
  | .Array _ _ none, I, _, hI => by simpa [TypeInfo.assignInner, TypeInfo.chainOpen] using hI
  | .Array _ _ (some p), I, h, hI => by
    simp only [TypeInfo.assignInner, TypeInfo.chainOpen] at h ⊢
    exact chainOpen_assignInner p I h hI
  | .Function _ none _ _ _ _, I, _, hI => by
    simpa [TypeInfo.assignInner, TypeInfo.chainOpen] using hI
  | .Function _ (some p) _ _ _ _, I, h, hI => by
    simp only [TypeInfo.assignInner, TypeInfo.chainOpen] at h ⊢
    exact chainOpen_assignInner p I h hI
  | .Builtin _ _ _, _, h, _ => by simp [TypeInfo.chainOpen] at h
  | .Tag _ _ _ _ _, _, h, _ => by simp [TypeInfo.chainOpen] at h
  | .Specialization _ _ _ _ _ _, _, h, _ => by simp [TypeInfo.chainOpen] at h

theorem chainClosed_assignInner : ∀ (t I : TypeInfo), t.chainOpen = true →
    I.chainClosed = true → (t.assignInner (some I)).chainClosed = true
  | .LValueReference _ none, I, _, hI => by
    simpa [TypeInfo.assignInner, TypeInfo.chainClosed] using hI
  | .LValueReference _ (some p), I, h, hI => by
    simp only [TypeInfo.assignInner, TypeInfo.chainOpen, TypeInfo.chainClosed] at h ⊢
    exact chainClosed_assignInner p I h hI
  | .RValueReference _ none, I, _, hI => by
    simpa [TypeInfo.assignInner, TypeInfo.chainClosed] using hI
  | .RValueReference _ (some p), I, h, hI => by
    simp only [TypeInfo.assignInner, TypeInfo.chainOpen, TypeInfo.chainClosed] at h ⊢
    exact chainClosed_assignInner p I h hI
  | .Pointer _ _ none, I, _, hI => by
    simpa [TypeInfo.assignInner, TypeInfo.chainClosed] using hI
  | .Pointer _ _ (some p), I, h, hI => by
    simp only [TypeInfo.assignInner, TypeInfo.chainOpen, TypeInfo.chainClosed] at h ⊢
    exact chainClosed_assignInner p I h hI
  | .MemberPointer _ _ _ none, I, _, hI => by
    simpa [TypeInfo.assignInner, TypeInfo.chainClosed] using hI
  | .MemberPointer _ _ _ (some p), I, h, hI => by
    simp only [TypeInfo.assignInner, TypeInfo.chainOpen, TypeInfo.chainClosed] at h ⊢
    exact chainClosed_assignInner p I h hI
  | .Array _ _ none, I, _, hI => by
    simpa [TypeInfo.assignInner, TypeInfo.chainClosed] using hI
  | .Array _ _ (some p), I, h, hI => by
    simp only [TypeInfo.assignInner, TypeInfo.chainOpen, TypeInfo.chainClosed] at h ⊢
    exact chainClosed_assignInner p I h hI
  | .Function _ none _ _ _ _, I, _, hI => by
    simpa [TypeInfo.assignInner, TypeInfo.chainClosed] using hI
  | .Function _ (some p) _ _ _ _, I, h, hI => by
    simp only [TypeInfo.assignInner, TypeInfo.chainOpen, TypeInfo.chainClosed] at h ⊢
    exact chainClosed_assignInner p I h hI
  | .Builtin _ _ _, _, h, _ => by simp [TypeInfo.chainOpen] at h
  | .Tag _ _ _ _ _, _, h, _ => by simp [TypeInfo.chainOpen] at h
  | .Specialization _ _ _ _ _ _, _, h, _ => by simp [TypeInfo.chainOpen] at h

theorem chainOpenOpt_assignInner (result : Option TypeInfo) (I : TypeInfo)
    (h : chainOpenOpt result = true) (hI : I.chainOpen = true) :
    chainOpenOpt (assignInner (some I) result) = true := by
  cases result with
  | none => simpa [assignInner, chainOpenOpt] using hI
  | some t => simpa [assignInner, chainOpenOpt] using chainOpen_assignInner t I h hI

theorem chainClosed_of_isTerminal (I : TypeInfo) (h : I.isTerminal = true) :
    I.chainClosed = true := by
  cases I <;> first | rfl | simp [TypeInfo.isTerminal] at h

theorem chainClosed_setIsPackExpansion (b : Bool) (t : TypeInfo) :
    (t.setIsPackExpansion b).chainClosed = t.chainClosed := by
  cases t with
  | LValueReference k p => cases p <;> rfl
  | RValueReference k p => cases p <;> rfl
  | Pointer k q p => cases p <;> rfl
  | MemberPointer k q c p => cases p <;> rfl
  | Array k b p => cases p <;> rfl
  | Function k r ps q rq e => cases r <;> rfl
  | Builtin k q n => rfl
  | Tag k q p n i => rfl
  | Specialization k q p n i a => rfl

theorem isTerminal_setParentType (x : Option TypeInfo) (t : TypeInfo) :
    (t.setParentType x).isTerminal = t.isTerminal := by
  cases t <;> rfl

/-- Linking a terminal node at the end of an open chain and flagging the
root gives a closed chain. -/
theorem closed_of_link (result : Option TypeInfo) (I : TypeInfo) (b : Bool)
    (h : chainOpenOpt result = true) (hI : I.isTerminal = true) :
    ∃ t, (assignInner (some I) result).map (TypeInfo.setIsPackExpansion b) = some t ∧
      t.chainClosed = true := by
  cases result with
  | none =>
    refine ⟨I.setIsPackExpansion b, rfl, ?_⟩
    rw [chainClosed_setIsPackExpansion]
    exact chainClosed_of_isTerminal I hI
  | some r =>
    refine ⟨(r.assignInner (some I)).setIsPackExpansion b, rfl, ?_⟩
    rw [chainClosed_setIsPackExpansion]
    exact chainClosed_assignInner r I h (chainClosed_of_isTerminal I hI)

theorem buildTypeInfoTerminal_closed (v v' : ASTVisitor) (m : ExtractMode)
    (result : Option TypeInfo) (NNS : Option NestedNameSpecifier) (pack : Bool)
    (I : TypeInfo) (r : Option TypeInfo) (h : chainOpenOpt result = true)
    (hI : I.isTerminal = true)
    (hr : v.buildTypeInfoTerminal m result NNS pack I = Except.ok (r, v')) :
    ∃ t, r = some t ∧ t.chainClosed = true := by
  rw [ASTVisitor.buildTypeInfoTerminal.eq_def] at hr
  simp only [hI, Bool.not_true, Bool.false_eq_true, if_false] at hr
  split at hr
  · simp only [Except.ok.injEq, Prod.mk.injEq] at hr
    obtain ⟨t, ht, hc⟩ := closed_of_link result I pack h hI
    exact ⟨t, by rw [← hr.1, ht], hc⟩
  · split at hr
    · split at hr
      · cases hr
      · rename_i P v1 _
        simp only [Except.ok.injEq, Prod.mk.injEq] at hr
        obtain ⟨t, ht, hc⟩ := closed_of_link result (I.setParentType P) pack h
          (by rw [isTerminal_setParentType]; exact hI)
        exact ⟨t, by rw [← hr.1, ht], hc⟩
    · simp only [Except.ok.injEq, Prod.mk.injEq] at hr
      obtain ⟨t, ht, hc⟩ := closed_of_link result I pack h hI
      exact ⟨t, by rw [← hr.1, ht], hc⟩
/-- Every result of the loop, started on an empty or open chain, is a
closed chain. -/
theorem buildTypeInfoLoop_closed (n : Nat) :
    ∀ (v v' : ASTVisitor) (m : ExtractMode) (result : Option TypeInfo)
      (NNS : Option NestedNameSpecifier) (pack : Bool) (qt : QualType) (r : Option TypeInfo),
      4 * (QualType.size qt + NestedNameSpecifier.optSize NNS) + 1 ≤ n →
      chainOpenOpt result = true →
      v.buildTypeInfoLoop m result NNS pack qt = Except.ok (r, v') →
      ∃ t, r = some t ∧ t.chainClosed = true := by
  induction n with
  | zero => intro v v' m result NNS pack qt r h; omega
  | succ n ih =>
    intro v v' m result NNS pack qt r hle ho hr
    cases qt with
    | null => rw [ASTVisitor.buildTypeInfoLoop] at hr; cases hr
    | mk quals type =>
      cases type with
      | Paren T | MacroQualified T | Attributed T | Decayed T | Adjusted T | Using T
      | SubstTemplateTypeParm T | PackExpansion T =>
        rw [ASTVisitor.buildTypeInfoLoop] at hr
        refine ih _ _ _ _ _ _ _ _ ?_ ho hr
        simp only [QualType.size, ClangType.size, size_withFastQualifiers] at hle ⊢
        omega
      | Pointer T | LValueReference T | RValueReference T | IncompleteArray T =>
        rw [ASTVisitor.buildTypeInfoLoop] at hr
        refine ih _ _ _ _ _ _ _ _ ?_ ?_ hr
        · simp only [QualType.size, ClangType.size] at hle ⊢
          omega
        · exact chainOpenOpt_assignInner _ _ ho rfl
      | ConstantArray E S T =>
        rw [ASTVisitor.buildTypeInfoLoop] at hr
        refine ih _ _ _ _ _ _ _ _ ?_ ?_ hr
        · simp only [QualType.size, ClangType.size] at hle ⊢
          omega
        · exact chainOpenOpt_assignInner _ _ ho rfl
      | DependentSizedArray E T =>
        rw [ASTVisitor.buildTypeInfoLoop] at hr
        refine ih _ _ _ _ _ _ _ _ ?_ ?_ hr
        · simp only [QualType.size, ClangType.size] at hle ⊢
          omega
        · exact chainOpenOpt_assignInner _ _ ho rfl
      | MemberPointer C T =>
        rw [ASTVisitor.buildTypeInfoLoop] at hr
        simp only [QualType.size, ClangType.size] at hle
        split at hr
        · cases hr
        · refine ih _ _ _ _ _ _ _ _ (by omega) ?_ hr
          exact chainOpenOpt_assignInner _ _ ho rfl
      | FunctionProto PTs rq mq es RT =>
        rw [ASTVisitor.buildTypeInfoLoop] at hr
        simp only [QualType.size, ClangType.size] at hle
        split at hr
        · cases hr
        · refine ih _ _ _ _ _ _ _ _ (by omega) ?_ hr
          exact chainOpenOpt_assignInner _ _ ho rfl
      | Auto D name =>
        rw [ASTVisitor.buildTypeInfoLoop] at hr
        simp only [QualType.size, ClangType.size] at hle
        split at hr
        · exact ih _ _ _ _ _ _ _ _ (by omega) ho hr
        · exact buildTypeInfoTerminal_closed _ _ _ _ _ _ _ _ ho (by rfl) hr
      | DeducedTemplateSpecialization D TD =>
        rw [ASTVisitor.buildTypeInfoLoop] at hr
        simp only [QualType.size, ClangType.size] at hle
        split at hr
        · exact ih _ _ _ _ _ _ _ _ (by omega) ho hr
        · exact buildTypeInfoTerminal_closed _ _ _ _ _ _ _ _ ho
            (isTerminal_makeTypeInfoDecl _ _ _ _) hr
      | Elaborated Q T =>
        rw [ASTVisitor.buildTypeInfoLoop] at hr
        simp only [QualType.size, ClangType.size] at hle
        split at hr
        · cases hr
        · refine ih _ _ _ _ _ _ _ _ ?_ ho hr
          simp only [size_withFastQualifiers]
          omega
      | DependentTemplateSpecialization II targs Q =>
        rw [ASTVisitor.buildTypeInfoLoop] at hr
        split at hr
        · cases hr
        · simp only [] at hr
          split at hr
          · cases hr
          · refine buildTypeInfoTerminal_closed _ _ _ _ _ _ _ _ ho ?_ hr
            rw [isTerminal_setTemplateArgs]; exact isTerminal_makeTypeInfo _ _ _
      | DependentName II Q =>
        rw [ASTVisitor.buildTypeInfoLoop] at hr
        split at hr
        · cases hr
        · exact buildTypeInfoTerminal_closed _ _ _ _ _ _ _ _ ho
            (isTerminal_makeTypeInfo _ _ _) hr
      | TemplateSpecialization nn TD al cd targs =>
        rw [ASTVisitor.buildTypeInfoLoop.eq_def] at hr
        simp only [] at hr
        split at hr
        · cases hr
        · split at hr
          · cases hr
          · refine buildTypeInfoTerminal_closed _ _ _ _ _ _ _ _ ho ?_ hr
            rw [isTerminal_setTemplateArgs]; exact isTerminal_makeTypeInfoDecl _ _ _ _
      | Record RD targs =>
        cases targs with
        | none =>
          rw [ASTVisitor.buildTypeInfoLoop] at hr
          exact buildTypeInfoTerminal_closed _ _ _ _ _ _ _ _ ho
            (isTerminal_makeTypeInfoDecl _ _ _ _) hr
        | some targs =>
          rw [ASTVisitor.buildTypeInfoLoop] at hr
          split at hr
          · cases hr
          · refine buildTypeInfoTerminal_closed _ _ _ _ _ _ _ _ ho ?_ hr
            rw [isTerminal_setTemplateArgs]; exact isTerminal_makeTypeInfoDecl _ _ _ _
      | InjectedClassName D | Enum D | Typedef D =>
        rw [ASTVisitor.buildTypeInfoLoop] at hr
        exact buildTypeInfoTerminal_closed _ _ _ _ _ _ _ _ ho
          (isTerminal_makeTypeInfoDecl _ _ _ _) hr
      | TemplateTypeParm D =>
        rw [ASTVisitor.buildTypeInfoLoop.eq_def] at hr
        simp only [] at hr
        exact buildTypeInfoTerminal_closed _ _ _ _ _ _ _ _ ho (by rfl) hr
      | SubstTemplateTypeParmPack II =>
        rw [ASTVisitor.buildTypeInfoLoop] at hr
        exact buildTypeInfoTerminal_closed _ _ _ _ _ _ _ _ ho
          (isTerminal_makeTypeInfo _ _ _) hr
      | VariableArray elem name =>
        rw [ASTVisitor.buildTypeInfoLoop] at hr
        exact buildTypeInfoTerminal_closed _ _ _ _ _ _ _ _ ho (by rfl) hr
      | FunctionNoProto ret name =>
        rw [ASTVisitor.buildTypeInfoLoop] at hr
        exact buildTypeInfoTerminal_closed _ _ _ _ _ _ _ _ ho (by rfl) hr
      | Other name =>
        rw [ASTVisitor.buildTypeInfoLoop] at hr
        exact buildTypeInfoTerminal_closed _ _ _ _ _ _ _ _ ho (by rfl) hr

/-- The inner-type path of a closed chain: wrappers, then one terminal
node. -/
theorem innerPath_of_chainClosed : ∀ (t : TypeInfo), t.chainClosed = true →
    ∃ ws T, t.innerPath = ws ++ [T] ∧ T.isTerminal = true ∧ ∀ w ∈ ws, w.isTerminal = false
  | .LValueReference k none, h => by simp [TypeInfo.chainClosed] at h
  | .LValueReference k (some p), h => by
    obtain ⟨ws, T, h1, h2, h3⟩ := innerPath_of_chainClosed p (by simpa [TypeInfo.chainClosed] using h)
    refine ⟨.LValueReference k (some p) :: ws, T, by simp [TypeInfo.innerPath, h1], h2, ?_⟩
    intro w hw
    rcases List.mem_cons.1 hw with rfl | hw
    · rfl
    · exact h3 w hw
  | .RValueReference k none, h => by simp [TypeInfo.chainClosed] at h
  | .RValueReference k (some p), h => by
    obtain ⟨ws, T, h1, h2, h3⟩ := innerPath_of_chainClosed p (by simpa [TypeInfo.chainClosed] using h)
    refine ⟨.RValueReference k (some p) :: ws, T, by simp [TypeInfo.innerPath, h1], h2, ?_⟩
    intro w hw
    rcases List.mem_cons.1 hw with rfl | hw
    · rfl
    · exact h3 w hw
  | .Pointer k q none, h => by simp [TypeInfo.chainClosed] at h
  | .Pointer k q (some p), h => by
    obtain ⟨ws, T, h1, h2, h3⟩ := innerPath_of_chainClosed p (by simpa [TypeInfo.chainClosed] using h)
    refine ⟨.Pointer k q (some p) :: ws, T, by simp [TypeInfo.innerPath, h1], h2, ?_⟩
    intro w hw
    rcases List.mem_cons.1 hw with rfl | hw
    · rfl
    · exact h3 w hw
  | .MemberPointer k q c none, h => by simp [TypeInfo.chainClosed] at h
  | .MemberPointer k q c (some p), h => by
    obtain ⟨ws, T, h1, h2, h3⟩ := innerPath_of_chainClosed p (by simpa [TypeInfo.chainClosed] using h)
    refine ⟨.MemberPointer k q c (some p) :: ws, T, by simp [TypeInfo.innerPath, h1], h2, ?_⟩
    intro w hw
    rcases List.mem_cons.1 hw with rfl | hw
    · rfl
    · exact h3 w hw
  | .Array k b none, h => by simp [TypeInfo.chainClosed] at h
  | .Array k b (some p), h => by
    obtain ⟨ws, T, h1, h2, h3⟩ := innerPath_of_chainClosed p (by simpa [TypeInfo.chainClosed] using h)
    refine ⟨.Array k b (some p) :: ws, T, by simp [TypeInfo.innerPath, h1], h2, ?_⟩
    intro w hw
    rcases List.mem_cons.1 hw with rfl | hw
    · rfl
    · exact h3 w hw
  | .Function k none _ _ _ _, h => by simp [TypeInfo.chainClosed] at h
  | .Function k (some p) ps q rq e, h => by
    obtain ⟨ws, T, h1, h2, h3⟩ := innerPath_of_chainClosed p (by simpa [TypeInfo.chainClosed] using h)
    refine ⟨.Function k (some p) ps q rq e :: ws, T, by simp [TypeInfo.innerPath, h1], h2, ?_⟩
    intro w hw
    rcases List.mem_cons.1 hw with rfl | hw
    · rfl
    · exact h3 w hw
  | .Builtin k q n, _ => ⟨[], .Builtin k q n, by simp [TypeInfo.innerPath], rfl, by simp⟩
  | .Tag k q p n i, _ => ⟨[], .Tag k q p n i, by simp [TypeInfo.innerPath], rfl, by simp⟩
  | .Specialization k q p n i a, _ =>
    ⟨[], .Specialization k q p n i a, by simp [TypeInfo.innerPath], rfl, by simp⟩

/-- C7: when `buildTypeInfo` returns, the descriptor is not null and its
inner-type path (pointee, element and return-type links from the root) is a
sequence of structural wrappers followed by exactly one terminal node
(builtin, tag or specialization); and `buildTypeInfo` never ends with the
assertion on the kind of the terminal node, whatever the input. -/
theorem buildTypeInfo_single_terminal (v v' : ASTVisitor) (qt : QualType)
    (m : ExtractMode) (r : Option TypeInfo)
    (h : v.buildTypeInfo qt m = Except.ok (r, v')) :
    (∃ root ws T, r = some root ∧ root.innerPath = ws ++ [T] ∧ T.isTerminal = true ∧
      ∀ w ∈ ws, w.isTerminal = false) ∧
    ∀ (v0 : ASTVisitor) (qt0 : QualType) (m0 : ExtractMode),
      v0.buildTypeInfo qt0 m0 ≠ Except.error Fault.terminalKind := by
  constructor
  · rw [ASTVisitor.buildTypeInfo] at h
    unfold ASTVisitor.extractionScope at h
    split at h
    · rename_i r1 v1 hl
      simp only [Except.ok.injEq, Prod.mk.injEq] at h
      obtain ⟨t, ht, hc⟩ := buildTypeInfoLoop_closed _ _ _ _ _ _ _ _ _ (le_refl _) (by rfl) hl
      obtain ⟨ws, T, h1, h2, h3⟩ := innerPath_of_chainClosed t hc
      exact ⟨t, ws, T, by rw [← h.1, ht], h1, h2, h3⟩
    · cases h
  · intro v0 qt0 m0
    exact (neverFault_all Fault.terminalKind (Or.inl rfl) _).1 v0 qt0 m0 (le_refl _)

theorem exampleType_descriptor :
    ASTVisitor.buildTypeInfo {} exampleType ExtractMode.DirectDependency
      = Except.ok (some exampleTypeInfo, {}) := by
  simp [exampleType, exampleTypeInfo, ASTVisitor.buildTypeInfo, ASTVisitor.buildTypeInfoLoop,
    ASTVisitor.buildTypeInfoTerminal, ASTVisitor.extractionScope, QualType.withFastQualifiers,
    assignInner, TypeInfo.assignInner, TypeInfo.isTerminal, TypeInfo.setIsPackExpansion,
    convertToQualifierKind]
  decide

/-- Witness for C7: the descriptor of a parenthesized const pointer to
volatile `int`. -/
theorem buildTypeInfo_single_terminal_witness :
    ASTVisitor.buildTypeInfo {} exampleType ExtractMode.DirectDependency
      = Except.ok (some exampleTypeInfo, {}) ∧
    (∃ root ws T, some exampleTypeInfo = some root ∧ root.innerPath = ws ++ [T] ∧
      T.isTerminal = true ∧ ∀ w ∈ ws, w.isTerminal = false) ∧
    ∀ (v0 : ASTVisitor) (qt0 : QualType) (m0 : ExtractMode),
      v0.buildTypeInfo qt0 m0 ≠ Except.error Fault.terminalKind :=
  ⟨exampleType_descriptor,
    buildTypeInfo_single_terminal {} {} exampleType ExtractMode.DirectDependency
      (some exampleTypeInfo) exampleType_descriptor⟩

theorem appendTemplateArgs_append (as bs : List TemplateArgument) :
    ∀ (v : ASTVisitor) (result : List (Option TArg)),
      appendTemplateArgs v result (as ++ bs) =
        match appendTemplateArgs v result as with
        | Except.error e => Except.error e
        | Except.ok (r, v) => appendTemplateArgs v r bs := by
  induction as with
  | nil => intro v result; rfl
  | cons a as ih =>
    intro v result
    simp only [List.cons_append, appendTemplateArgs]
    cases v.buildTemplateArg a with
    | error e => rfl
    | ok x => exact ih _ _

theorem appendTemplateArgs_extends (as : List TemplateArgument) :
    ∀ (v v' : ASTVisitor) (result result' : List (Option TArg)),
      appendTemplateArgs v result as = Except.ok (result', v') →
      ∃ appended, result' = result ++ appended ∧ appended.length = as.length := by
  induction as with
  | nil =>
    intro v v' result result' h
    simp only [appendTemplateArgs, Except.ok.injEq, Prod.mk.injEq] at h
    exact ⟨[], by simp [h.1], rfl⟩
  | cons a as ih =>
    intro v v' result result' h
    simp only [appendTemplateArgs] at h
    split at h
    · cases h
    · rename_i R v1 _
      obtain ⟨app, h1, h2⟩ := ih _ _ _ _ h
      exact ⟨R :: app, by simp [h1], by simp [h2]⟩

theorem flattenList_cons (a : TemplateArgument) (as : List TemplateArgument) :
    TemplateArgument.flattenList (a :: as) = a.flatten ++ TemplateArgument.flattenList as := by
  rw [TemplateArgument.flattenList]

theorem flatten_of_not_pack (a : TemplateArgument) (h : a.isPack = false) :
    a.flatten = [a] := by
  cases a with
  | Pack es => simp [TemplateArgument.isPack] at h
  | _ => rw [TemplateArgument.flatten]

theorem flatten_pack (es : List TemplateArgument) :
    (TemplateArgument.Pack es).flatten = TemplateArgument.flattenList es := by
  rw [TemplateArgument.flatten]

/-- The flattened list holds no pack. -/
theorem flattenList_no_pack (n : Nat) :
    ∀ range : List TemplateArgument, TemplateArgument.listSize range ≤ n →
      ∀ a ∈ TemplateArgument.flattenList range, a.isPack = false := by
  induction n with
  | zero =>
    intro range h a ha
    cases range with
    | nil => simp [TemplateArgument.flattenList] at ha
    | cons x xs => simp only [TemplateArgument.listSize] at h; omega
  | succ n ih =>
    intro range h a ha
    cases range with
    | nil => simp [TemplateArgument.flattenList] at ha
    | cons x xs =>
      simp only [TemplateArgument.listSize] at h
      rw [flattenList_cons] at ha
      rcases List.mem_append.1 ha with h1 | h1
      · cases hx : x.isPack with
        | false =>
          rw [flatten_of_not_pack x hx] at h1
          simp only [List.mem_singleton] at h1
          rw [h1]; exact hx
        | true =>
          cases x with
          | Pack es =>
            rw [flatten_pack] at h1
            simp only [TemplateArgument.size] at h
            exact ih es (by omega) a h1
          | _ => simp [TemplateArgument.isPack] at hx
      · exact ih xs (by omega) a h1

/-- On a list of arguments, `buildTemplateArgs` is `buildTemplateArg` on each
argument of the flattened list. -/
theorem buildTemplateArgs_eq (n : Nat) :
    ∀ (v : ASTVisitor) (result : List (Option TArg)) (range : List TemplateArgument),
      TemplateArgument.listSize range ≤ n →
      v.buildTemplateArgs result range =
        appendTemplateArgs v result (TemplateArgument.flattenList range) := by
  induction n with
  | zero =>
    intro v result range h
    cases range with
    | nil => rw [ASTVisitor.buildTemplateArgs]; rfl
    | cons x xs => simp only [TemplateArgument.listSize] at h; omega
  | succ n ih =>
    intro v result range h
    rw [ASTVisitor.buildTemplateArgs.eq_def]
    split
    · rfl
    · rename_i es rest
      simp only [TemplateArgument.listSize, TemplateArgument.size] at h
      rw [flattenList_cons, flatten_pack, appendTemplateArgs_append, ih v result es (by omega)]
      cases appendTemplateArgs v result (TemplateArgument.flattenList es) with
      | error e => rfl
      | ok x => exact ih _ _ _ (by omega)
    · rename_i arg rest hnp
      simp only [TemplateArgument.listSize] at h
      have harg : TemplateArgument.isPack arg = false := by
        cases arg <;> first | rfl | exact absurd rfl (hnp _)
      rw [flattenList_cons, flatten_of_not_pack arg harg]
      simp only [List.singleton_append, appendTemplateArgs]
      cases v.buildTemplateArg arg with
      | error e => rfl
      | ok x => exact ih _ _ _ (by omega)

/-- C8: for every template argument list, with packs nested to any depth,
`buildTemplateArgs` does what `buildTemplateArg` does on the non-pack
arguments taken left to right, each image being appended to the result
vector: the flattened list holds no pack, the elements already in the
vector stay in place and one element is appended per non-pack argument, and
the unreachable `Pack` case of `buildTemplateArg` is never entered. -/
theorem buildTemplateArgs_flattens_packs (v : ASTVisitor) (result : List (Option TArg))
    (range : List TemplateArgument) :
    v.buildTemplateArgs result range =
      appendTemplateArgs v result (TemplateArgument.flattenList range) ∧
    (∀ a ∈ TemplateArgument.flattenList range, a.isPack = false) ∧
    (∀ result' v', v.buildTemplateArgs result range = Except.ok (result', v') →
      ∃ appended, result' = result ++ appended ∧
        appended.length = (TemplateArgument.flattenList range).length) ∧
    v.buildTemplateArgs result range ≠ Except.error Fault.unreachablePack := by
  refine ⟨buildTemplateArgs_eq _ v result range (le_refl _),
    flattenList_no_pack _ range (le_refl _), ?_, ?_⟩
  · intro result' v' h
    rw [buildTemplateArgs_eq _ v result range (le_refl _)] at h
    exact appendTemplateArgs_extends _ _ _ _ _ h
  · exact (neverFault_all Fault.unreachablePack (Or.inr rfl) _).2.2.2.2.2.2 v result range
      (le_refl _)

/-- Witness for C8: a pack of three elements, one of which is an empty
pack, yields the two other elements in order, after the element the vector
held already. -/
theorem buildTemplateArgs_flattens_packs_witness :
    ASTVisitor.buildTemplateArgs {} [none] examplePack
      = Except.ok ([none, some (TArg.NonTypeTArg false { Written := "1" }),
          some (TArg.NonTypeTArg true { Written := "Ns" })], {}) := by
  rw [(buildTemplateArgs_flattens_packs {} [none] examplePack).1]
  simp [examplePack, TemplateArgument.flattenList, TemplateArgument.flatten,
    appendTemplateArgs, ASTVisitor.buildTemplateArg]

/-! ## The builders only read the store -/

theorem readsOnly_ok {α : Type} (v : ASTVisitor) (x : α) :
    ReadsOnly v (Except.ok (x, v)) := by
  refine ⟨?_, ?_⟩
  · intro e h; cases h
  · intro y w h
    simp only [Except.ok.injEq, Prod.mk.injEq] at h
    exact h.2.symm

theorem readsOnly_error {α : Type} (v : ASTVisitor) (e : Fault)
    (h : e.ofChain = false) :
    ReadsOnly v (Except.error e : Except Fault (α × ASTVisitor)) := by
  refine ⟨?_, ?_⟩
  · intro e' h'
    simp only [Except.error.injEq] at h'
    subst h'
    exact h
  · intro y w h'; cases h'

theorem readsOnly_pass {α β : Type} {v u : ASTVisitor} {X : Except Fault (α × ASTVisitor)}
    (h : ReadsOnly u X) {e : Fault} (hX : X = Except.error e) :
    ReadsOnly v (Except.error e : Except Fault (β × ASTVisitor)) := by
  exact readsOnly_error _ _ (h.1 e hX)

theorem readsOnly_state {α : Type} {v : ASTVisitor} {X : Except Fault (α × ASTVisitor)}
    (h : ReadsOnly v X) {x : α} {w : ASTVisitor} (hX : X = Except.ok (x, w)) : w = v :=
  h.2 x w hX

theorem readsOnly_scope {α : Type} (v : ASTVisitor) (m : ExtractMode)
    (body : ASTVisitor → Except Fault (α × ASTVisitor))
    (h : ReadsOnly { v with mode := m } (body { v with mode := m })) :
    ReadsOnly v (v.extractionScope m body) := by
  unfold ASTVisitor.extractionScope
  split
  · rename_i r w hX
    have hw := readsOnly_state h hX
    subst hw
    exact readsOnly_ok v r
  · rename_i e hX
    exact readsOnly_pass h hX

theorem readsOnly_loop (n : Nat) (ih : BuildersReadOnly n) :
    ∀ (v : ASTVisitor) m result NNS pack qt,
      4 * (QualType.size qt + NestedNameSpecifier.optSize NNS) + 1 ≤ n + 1 →
      ReadsOnly v (v.buildTypeInfoLoop m result NNS pack qt) := by
  obtain ⟨ihB, ihL, ihT, ihP, ihPL, ihA, ihAs⟩ := ih
  intro v m result NNS pack qt hle
  cases qt with
  | null => rw [ASTVisitor.buildTypeInfoLoop]; exact readsOnly_error _ _ (by decide)
  | mk quals type =>
    cases type with
    | Paren T | MacroQualified T | Attributed T | Decayed T | Adjusted T | Using T
    | SubstTemplateTypeParm T | PackExpansion T =>
      rw [ASTVisitor.buildTypeInfoLoop]
      refine ihL _ _ _ _ _ _ ?_
      simp only [QualType.size, ClangType.size, size_withFastQualifiers] at hle ⊢
      omega
    | Pointer T | LValueReference T | RValueReference T | IncompleteArray T =>
      rw [ASTVisitor.buildTypeInfoLoop]
      refine ihL _ _ _ _ _ _ ?_
      simp only [QualType.size, ClangType.size] at hle ⊢
      omega
    | ConstantArray E S T =>
      rw [ASTVisitor.buildTypeInfoLoop]
      refine ihL _ _ _ _ _ _ ?_
      simp only [QualType.size, ClangType.size] at hle ⊢
      omega
    | DependentSizedArray E T =>
      rw [ASTVisitor.buildTypeInfoLoop]
      refine ihL _ _ _ _ _ _ ?_
      simp only [QualType.size, ClangType.size] at hle ⊢
      omega
    | MemberPointer C T =>
      rw [ASTVisitor.buildTypeInfoLoop]
      simp only [QualType.size, ClangType.size] at hle
      have hB := ihB v (QualType.mk 0 C) ExtractMode.IndirectDependency (by simp only [QualType.size]; omega)
      split
      · rename_i e hX
        exact readsOnly_pass hB hX
      · rename_i t w hX
        have hw := readsOnly_state hB hX
        subst hw
        exact ihL _ _ _ _ _ _ (by omega)
    | FunctionProto PTs rq mq es RT =>
      rw [ASTVisitor.buildTypeInfoLoop]
      simp only [QualType.size, ClangType.size] at hle
      have hB := ihPL v PTs (by omega)
      split
      · rename_i e hX
        exact readsOnly_pass hB hX
      · rename_i t w hX
        have hw := readsOnly_state hB hX
        subst hw
        exact ihL _ _ _ _ _ _ (by omega)
    | Auto D name =>
      rw [ASTVisitor.buildTypeInfoLoop]
      simp only [QualType.size, ClangType.size] at hle
      split
      · exact ihL _ _ _ _ _ _ (by omega)
      · exact ihT _ _ _ _ _ _ (by omega)
    | DeducedTemplateSpecialization D TD =>
      rw [ASTVisitor.buildTypeInfoLoop]
      simp only [QualType.size, ClangType.size] at hle
      split
      · exact ihL _ _ _ _ _ _ (by omega)
      · exact ihT _ _ _ _ _ _ (by omega)
    | Elaborated Q T =>
      rw [ASTVisitor.buildTypeInfoLoop]
      simp only [QualType.size, ClangType.size] at hle
      split
      · exact readsOnly_error _ _ (by decide)
      · refine ihL _ _ _ _ _ _ ?_
        simp only [size_withFastQualifiers]
        omega
    | DependentTemplateSpecialization II targs Q =>
      rw [ASTVisitor.buildTypeInfoLoop]
      simp only [QualType.size, ClangType.size] at hle
      have hB := ihAs v [] targs (by omega)
      split
      · rename_i e hX
        exact readsOnly_pass hB hX
      · rename_i t w hX
        have hw := readsOnly_state hB hX
        subst hw
        simp only []
        split
        · exact readsOnly_error _ _ (by decide)
        · exact ihT _ _ _ _ _ _ (by omega)
    | DependentName II Q =>
      rw [ASTVisitor.buildTypeInfoLoop]
      simp only [QualType.size, ClangType.size] at hle
      split
      · exact readsOnly_error _ _ (by decide)
      · exact ihT _ _ _ _ _ _ (by omega)
    | TemplateSpecialization nn TD al cd targs =>
      rw [ASTVisitor.buildTypeInfoLoop.eq_def]
      simp only [QualType.size, ClangType.size] at hle
      simp only []
      split
      · exact readsOnly_error _ _ (by decide)
      · have hB := ihAs v [] targs (by omega)
        split
        · rename_i e hX
          exact readsOnly_pass hB hX
        · rename_i t w hX
          have hw := readsOnly_state hB hX
          subst hw
          exact ihT _ _ _ _ _ _ (by omega)
    | Record RD targs =>
      cases targs with
      | none =>
        rw [ASTVisitor.buildTypeInfoLoop]
        simp only [QualType.size, ClangType.size] at hle
        exact ihT _ _ _ _ _ _ (by omega)
      | some targs =>
        rw [ASTVisitor.buildTypeInfoLoop]
        simp only [QualType.size, ClangType.size] at hle
        have hB := ihAs v [] targs (by omega)
        split
        · rename_i e hX
          exact readsOnly_pass hB hX
        · rename_i t w hX
          have hw := readsOnly_state hB hX
          subst hw
          exact ihT _ _ _ _ _ _ (by omega)
    | InjectedClassName D | Enum D | Typedef D =>
      rw [ASTVisitor.buildTypeInfoLoop]
      simp only [QualType.size, ClangType.size] at hle
      exact ihT _ _ _ _ _ _ (by omega)
    | TemplateTypeParm D =>
      rw [ASTVisitor.buildTypeInfoLoop.eq_def]
      simp only [QualType.size, ClangType.size] at hle
      simp only []
      exact ihT _ _ _ _ _ _ (by omega)
    | SubstTemplateTypeParmPack II =>
      rw [ASTVisitor.buildTypeInfoLoop]
      simp only [QualType.size, ClangType.size] at hle
      exact ihT _ _ _ _ _ _ (by omega)
    | VariableArray elem name =>
      rw [ASTVisitor.buildTypeInfoLoop]
      simp only [QualType.size, ClangType.size] at hle
      exact ihT _ _ _ _ _ _ (by omega)
    | FunctionNoProto ret name =>
      rw [ASTVisitor.buildTypeInfoLoop]
      simp only [QualType.size, ClangType.size] at hle
      exact ihT _ _ _ _ _ _ (by omega)
    | Other name =>
      rw [ASTVisitor.buildTypeInfoLoop]
      simp only [QualType.size, ClangType.size] at hle
      exact ihT _ _ _ _ _ _ (by omega)

theorem readsOnly_buildTypeInfo (n : Nat) (ih : BuildersReadOnly n) :
    ∀ (v : ASTVisitor) qt m, 4 * QualType.size qt + 2 ≤ n + 1 →
      ReadsOnly v (v.buildTypeInfo qt m) := by
  intro v qt m hle
  rw [ASTVisitor.buildTypeInfo]
  apply readsOnly_scope
  exact ih.2.1 _ _ _ _ _ _ (by simp only [NestedNameSpecifier.optSize]; omega)

theorem readsOnly_terminal (n : Nat) (ih : BuildersReadOnly n) :
    ∀ (v : ASTVisitor) m result NNS pack I,
      4 * NestedNameSpecifier.optSize NNS + 1 ≤ n + 1 →
      ReadsOnly v (v.buildTypeInfoTerminal m result NNS pack I) := by
  intro v m result NNS pack I hle
  rw [ASTVisitor.buildTypeInfoTerminal.eq_def]
  split
  · exact readsOnly_error _ _ (by decide)
  · split
    · exact readsOnly_ok _ _
    · rename_i N
      have hB := ih.2.2.2.1 v I.ParentType (some N) m (by omega)
      split
      · split
        · rename_i e hX
          exact readsOnly_pass hB hX
        · rename_i t w hX
          have hw := readsOnly_state hB hX
          subst hw
          exact readsOnly_ok _ _
      · exact readsOnly_ok _ _

theorem readsOnly_parent (n : Nat) (ih : BuildersReadOnly n) :
    ∀ (v : ASTVisitor) P NNS m, 4 * NestedNameSpecifier.optSize NNS ≤ n + 1 →
      ReadsOnly v (v.buildParentTypeInfo P NNS m) := by
  intro v P NNS m hle
  cases NNS with
  | none => rw [ASTVisitor.buildParentTypeInfo]; exact readsOnly_ok _ _
  | some N =>
    cases N with
    | TypeSpec p T =>
      rw [ASTVisitor.buildParentTypeInfo]
      simp only [NestedNameSpecifier.optSize, NestedNameSpecifier.size] at hle
      exact ih.1 _ _ _ (by simp only [QualType.size]; omega)
    | Identifier p II =>
      rw [ASTVisitor.buildParentTypeInfo]
      simp only [NestedNameSpecifier.optSize, NestedNameSpecifier.size] at hle
      have hB := ih.2.2.2.1 v none p m (by omega)
      split
      · rename_i e hX
        exact readsOnly_pass hB hX
      · rename_i t w hX
        have hw := readsOnly_state hB hX
        subst hw
        exact readsOnly_ok _ _
    | Other p => rw [ASTVisitor.buildParentTypeInfo]; exact readsOnly_ok _ _

theorem readsOnly_list (n : Nat) (ih : BuildersReadOnly n) :
    ∀ (v : ASTVisitor) PTs, 4 * QualType.listSize PTs + 3 ≤ n + 1 →
      ReadsOnly v (v.buildTypeInfoList PTs) := by
  intro v PTs hle
  cases PTs with
  | nil => rw [ASTVisitor.buildTypeInfoList]; exact readsOnly_ok _ _
  | cons PT rest =>
    rw [ASTVisitor.buildTypeInfoList]
    simp only [QualType.listSize] at hle
    have hB := ih.1 v PT ExtractMode.IndirectDependency (by omega)
    split
    · rename_i e hX
      exact readsOnly_pass hB hX
    · rename_i t w hX
      have hw := readsOnly_state hB hX
      subst hw
      have hC := ih.2.2.2.2.1 w rest (by omega)
      split
      · rename_i e hY
        exact readsOnly_pass hC hY
      · rename_i ts u hY
        have hu := readsOnly_state hC hY
        subst hu
        exact readsOnly_ok _ _

theorem readsOnly_arg (n : Nat) (ih : BuildersReadOnly n) :
    ∀ (v : ASTVisitor) A, 4 * TemplateArgument.size A + 3 ≤ n + 1 →
      ReadsOnly v (v.buildTemplateArg A) := by
  intro v A hle
  rw [ASTVisitor.buildTemplateArg.eq_def]
  split
  · exact readsOnly_ok _ _
  · exact readsOnly_error _ _ (by decide)
  · exact readsOnly_error _ _ (by decide)
  · rename_i q pattern
    simp only [TemplateArgument.size, QualType.size, ClangType.size] at hle
    have hB := ih.1 v pattern ExtractMode.IndirectDependency (by omega)
    split
    · rename_i e hX
      exact readsOnly_pass hB hX
    · rename_i t w hX
      have hw := readsOnly_state hB hX
      subst hw
      exact readsOnly_ok _ _
  · rename_i quals T hnp
    simp only [TemplateArgument.size, QualType.size] at hle
    have hB := ih.1 v (QualType.mk quals T) ExtractMode.IndirectDependency
      (by simp only [QualType.size]; omega)
    split
    · rename_i e hX
      exact readsOnly_pass hB hX
    · rename_i t w hX
      have hw := readsOnly_state hB hX
      subst hw
      exact readsOnly_ok _ _
  · split <;> exact readsOnly_ok _ _
  · exact readsOnly_ok _ _
  · exact readsOnly_error _ _ (by decide)

theorem readsOnly_args (n : Nat) (ih : BuildersReadOnly n) :
    ∀ (v : ASTVisitor) result range, 4 * TemplateArgument.listSize range + 3 ≤ n + 1 →
      ReadsOnly v (v.buildTemplateArgs result range) := by
  intro v result range hle
  rw [ASTVisitor.buildTemplateArgs.eq_def]
  split
  · exact readsOnly_ok _ _
  · rename_i pack_elements rest
    simp only [TemplateArgument.listSize, TemplateArgument.size] at hle
    have hB := ih.2.2.2.2.2.2 v result pack_elements (by omega)
    split
    · rename_i e hX
      exact readsOnly_pass hB hX
    · rename_i t w hX
      have hw := readsOnly_state hB hX
      subst hw
      exact ih.2.2.2.2.2.2 _ _ _ (by omega)
  · rename_i arg rest hnp
    simp only [TemplateArgument.listSize] at hle
    have hB := ih.2.2.2.2.2.1 v arg (by omega)
    split
    · rename_i e hX
      exact readsOnly_pass hB hX
    · rename_i t w hX
      have hw := readsOnly_state hB hX
      subst hw
      exact ih.2.2.2.2.2.2 _ _ _ (by omega)

/-- The type and template-argument builders only read the store, whatever
the input. -/
theorem buildersReadOnly_all : ∀ n, BuildersReadOnly n := by
  intro n
  induction n with
  | zero =>
    refine ⟨?_, ?_, ?_, ?_, ?_, ?_, ?_⟩
    · intro v qt m h; omega
    · intro v m result NNS pack qt h; omega
    · intro v m result NNS pack I h; omega
    · intro v P NNS m h
      cases NNS with
      | none => rw [ASTVisitor.buildParentTypeInfo]; exact readsOnly_ok _ _
      | some N => simp only [NestedNameSpecifier.optSize] at h; omega
    · intro v PTs h; omega
    · intro v A h; omega
    · intro v result range h; omega
  | succ n ih =>
    exact ⟨readsOnly_buildTypeInfo n ih, readsOnly_loop n ih,
      readsOnly_terminal n ih, readsOnly_parent n ih, readsOnly_list n ih,
      readsOnly_arg n ih, readsOnly_args n ih⟩

theorem buildTypeInfo_readsOnly (v : ASTVisitor) (qt : QualType) (m : ExtractMode) :
    ReadsOnly v (v.buildTypeInfo qt m) :=
  (buildersReadOnly_all _).1 v qt m (Nat.le_refl _)

theorem buildTemplateArg_readsOnly (v : ASTVisitor) (A : TemplateArgument) :
    ReadsOnly v (v.buildTemplateArg A) :=
  (buildersReadOnly_all _).2.2.2.2.2.1 v A (Nat.le_refl _)

theorem buildTemplateArgs_readsOnly (v : ASTVisitor) (result : List (Option TArg))
    (range : List TemplateArgument) : ReadsOnly v (v.buildTemplateArgs result range) :=
  (buildersReadOnly_all _).2.2.2.2.2.2 v result range (Nat.le_refl _)

theorem buildBases_readsOnly : ∀ (bs : List CXXBaseSpecifier) (v : ASTVisitor),
    ReadsOnly v (v.buildBases bs)
  | [], v => by rw [ASTVisitor.buildBases]; exact readsOnly_ok _ _
  | B :: rest, v => by
    rw [ASTVisitor.buildBases]
    have hB := buildTypeInfo_readsOnly v B.getType ExtractMode.DirectDependency
    split
    · rename_i e hX
      exact readsOnly_pass hB hX
    · rename_i t w hX
      have hw := readsOnly_state hB hX
      subst hw
      have hC := buildBases_readsOnly rest w
      split
      · rename_i e hY
        exact readsOnly_pass hC hY
      · rename_i ts u hY
        have hu := readsOnly_state hC hY
        subst hu
        exact readsOnly_ok _ _

theorem buildParams_readsOnly : ∀ (ps : List ParmVarDecl) (v : ASTVisitor),
    ReadsOnly v (v.buildParams ps)
  | [], v => by rw [ASTVisitor.buildParams]; exact readsOnly_ok _ _
  | P :: rest, v => by
    rw [ASTVisitor.buildParams]
    have hB := buildTypeInfo_readsOnly v P.getOriginalType ExtractMode.IndirectDependency
    split
    · rename_i e hX
      exact readsOnly_pass hB hX
    · rename_i t w hX
      have hw := readsOnly_state hB hX
      subst hw
      have hC := buildParams_readsOnly rest w
      split
      · rename_i e hY
        exact readsOnly_pass hC hY
      · rename_i ts u hY
        have hu := readsOnly_state hC hY
        subst hu
        exact readsOnly_ok _ _

theorem readsOnly_default {β : Type} (v : ASTVisitor) (Default : Option TemplateArgument)
    (k : Option TArg → β) :
    ReadsOnly v
      (match Default with
       | some A =>
         match v.buildTemplateArg A with
         | Except.error e => Except.error e
         | Except.ok (R, v) => Except.ok (some (k R), v)
       | none => Except.ok (some (k none), v)) := by
  cases Default with
  | none => exact readsOnly_ok _ _
  | some A =>
    simp only []
    have hB := buildTemplateArg_readsOnly v A
    split
    · rename_i e hX
      exact readsOnly_pass hB hX
    · rename_i t w hX
      have hw := readsOnly_state hB hX
      subst hw
      exact readsOnly_ok _ _

mutual
theorem buildTemplateParam_readsOnly : ∀ (N : TemplateParmDecl) (v : ASTVisitor),
    ReadsOnly v (v.buildTemplateParam N)
  | TemplateParmDecl.TemplateTypeParm Name pack typename Default, v => by
    rw [ASTVisitor.buildTemplateParam.eq_def]
    exact readsOnly_default v Default (TParam.TypeTParam Name pack typename)
  | TemplateParmDecl.NonTypeTemplateParm Name pack T Default, v => by
    rw [ASTVisitor.buildTemplateParam]
    have hB := buildTypeInfo_readsOnly v T ExtractMode.IndirectDependency
    split
    · rename_i e hX
      exact readsOnly_pass hB hX
    · rename_i t w hX
      have hw := readsOnly_state hB hX
      subst hw
      exact readsOnly_default w Default (TParam.NonTypeTParam Name pack t)
  | TemplateParmDecl.TemplateTemplateParm Name pack TPL Default, v => by
    rw [ASTVisitor.buildTemplateParam]
    have hB := buildTemplateParams_readsOnly TPL v
    split
    · rename_i e hX
      exact readsOnly_pass hB hX
    · rename_i t w hX
      have hw := readsOnly_state hB hX
      subst hw
      exact readsOnly_default w Default (TParam.TemplateTParam Name pack t)
theorem buildTemplateParams_readsOnly : ∀ (TPL : List TemplateParmDecl) (v : ASTVisitor),
    ReadsOnly v (v.buildTemplateParams TPL)
  | [], v => by rw [ASTVisitor.buildTemplateParams]; exact readsOnly_ok _ _
  | N :: rest, v => by
    rw [ASTVisitor.buildTemplateParams]
    have hB := buildTemplateParam_readsOnly N v
    split
    · rename_i e hX
      exact readsOnly_pass hB hX
    · rename_i t w hX
      have hw := readsOnly_state hB hX
      subst hw
      have hC := buildTemplateParams_readsOnly rest w
      split
      · rename_i e hY
        exact readsOnly_pass hC hY
      · rename_i ts u hY
        have hu := readsOnly_state hC hY
        subst hu
        exact readsOnly_ok _ _
end

theorem parseTemplateParams_readsOnly (v : ASTVisitor) (I : TemplateInfo)
    (TPL : List TemplateParmDecl) : ReadsOnly v (v.parseTemplateParams I TPL) := by
  unfold ASTVisitor.parseTemplateParams
  have hB := buildTemplateParams_readsOnly TPL v
  split
  · rename_i e hX
    exact readsOnly_pass hB hX
  · rename_i t w hX
    have hw := readsOnly_state hB hX
    subst hw
    exact readsOnly_ok _ _

theorem parseTemplateArgs_readsOnly (v : ASTVisitor) (I : TemplateInfo)
    (spec : SpecializationArgs) : ReadsOnly v (v.parseTemplateArgs I spec) := by
  unfold ASTVisitor.parseTemplateArgs
  simp only []
  split
  · exact readsOnly_ok _ _
  · rename_i args hargs
    split
    · rename_i e hX
      exact readsOnly_pass (buildTemplateArgs_readsOnly v _ args) hX
    · rename_i t w hX
      have hw := readsOnly_state (buildTemplateArgs_readsOnly v _ args) hX
      subst hw
      exact readsOnly_ok _ _

/-! ## Bookkeeping of first builds -/

theorem InfoSet.map_update {β : Type} (g : Info → β) (s : InfoSet) (id : SymbolID)
    (f : Info → Info) (hg : ∀ i, g (f i) = g i) :
    (InfoSet.update s id f).map g = s.map g := by
  induction s with
  | nil => rfl
  | cons a s ih =>
    unfold InfoSet.update
    split <;> simp [ih, hg]

theorem InfoSet.find_update_map {β : Type} (g : Info → β) (s : InfoSet) (I id : SymbolID)
    (f : Info → Info) (hid : ∀ i, (f i).id = i.id) (hg : ∀ i, g (f i) = g i) :
    (InfoSet.find (InfoSet.update s I f) id).map g = (InfoSet.find s id).map g := by
  induction s with
  | nil => rfl
  | cons a s ih =>
    unfold InfoSet.update
    split
    · simp only [InfoSet.find, List.find?_cons, hid]
      split <;> simp [hg]
    · simp only [InfoSet.find, List.find?_cons] at ih ⊢
      split
      · rfl
      · exact ih

namespace ASTVisitor

theorem ids_of_chains (v : ASTVisitor) : v.chains.map Prod.fst = v.ids := by
  simp [chains, ids]

theorem ids_modifyInfo (v : ASTVisitor) (I : SymbolID) (f : Info → Info)
    (hf : ∀ i, (f i).id = i.id) : (v.modifyInfo I f).ids = v.ids :=
  InfoSet.map_id_update v.info_ I f hf

theorem chains_modifyInfo (v : ASTVisitor) (I : SymbolID) (f : Info → Info)
    (hid : ∀ i, (f i).id = i.id) (hns : ∀ i, (f i).Namespace = i.Namespace) :
    (v.modifyInfo I f).chains = v.chains :=
  InfoSet.map_update _ v.info_ I f (fun i => by rw [hid, hns])

end ASTVisitor

theorem quiet_refl (v : ASTVisitor) : Quiet v v := ⟨rfl, rfl⟩

theorem quiet_trans {u v w : ASTVisitor} (h1 : Quiet u v) (h2 : Quiet v w) : Quiet u w :=
  ⟨h2.1.trans h1.1, h2.2.trans h1.2⟩

theorem quiet_ids {v w : ASTVisitor} (h : Quiet v w) : w.ids = v.ids := by
  rw [← ASTVisitor.ids_of_chains, ← ASTVisitor.ids_of_chains, h.1]

theorem quiet_modifyInfo (v : ASTVisitor) (I : SymbolID) (f : Info → Info)
    (hid : ∀ i, (f i).id = i.id) (hns : ∀ i, (f i).Namespace = i.Namespace) :
    Quiet v (v.modifyInfo I f) :=
  ⟨ASTVisitor.chains_modifyInfo v I f hid hns, rfl⟩

theorem quiet_shouldExtract (v : ASTVisitor) (D : DeclBase) :
    Quiet v (v.shouldExtract D).2 := by
  unfold ASTVisitor.shouldExtract ASTVisitor.inExtractedFile
  simp only []
  repeat' split
  all_goals exact ⟨rfl, rfl⟩

theorem chainEmpty_quiet {v w : ASTVisitor} {I : SymbolID} (h : ChainEmpty v I)
    (hq : Quiet v w) : ChainEmpty w I := by
  intro i hi hI
  have hm : (i.id, i.Namespace) ∈ w.chains :=
    List.mem_map_of_mem (fun i => (i.id, i.Namespace)) hi
  rw [hq.1] at hm
  obtain ⟨j, hj, hje⟩ := List.mem_map.1 hm
  simp only [Prod.mk.injEq] at hje
  rw [← hje.2]
  exact h j hj (hje.1.trans hI)

theorem logged_of_same {v w : ASTVisitor} (h : Logged v) (hi : w.ids = v.ids)
    (hf : w.firstBuilds = v.firstBuilds) : Logged w := by
  unfold Logged at h ⊢
  rw [hi, hf]
  exact h

theorem logged_quiet {v w : ASTVisitor} (h : Logged v) (hq : Quiet v w) : Logged w :=
  logged_of_same h (quiet_ids hq) hq.2

theorem logged_modifyInfo {v : ASTVisitor} (h : Logged v) (I : SymbolID) (f : Info → Info)
    (hid : ∀ i, (f i).id = i.id) : Logged (v.modifyInfo I f) :=
  logged_of_same h (ASTVisitor.ids_modifyInfo v I f hid) rfl

theorem preBuild_quiet {v w : ASTVisitor} {I : SymbolID} {c : Bool} (h : PreBuild v I c)
    (hq : Quiet v w) : PreBuild w I c := by
  unfold PreBuild at h ⊢
  rw [quiet_ids hq, hq.2]
  exact ⟨h.1, h.2.1, h.2.2.1, fun hc => ⟨(h.2.2.2 hc).1, (h.2.2.2 hc).2.1,
    chainEmpty_quiet (h.2.2.2 hc).2.2 hq⟩⟩

theorem preBuild_of_logged {v : ASTVisitor} (h : Logged v) (I : SymbolID) :
    PreBuild v I false :=
  ⟨h.1, h.2.1, fun x hx => (h.2.2 x hx).elim Or.inl (fun h => Or.inr (Or.inl h)),
    fun hc => by cases hc⟩

theorem logged_of_preBuild_false {v : ASTVisitor} {I : SymbolID}
    (h : PreBuild v I false) : Logged v :=
  ⟨h.1, h.2.1, fun x hx => by
    rcases h.2.2.1 x hx with h1 | h1 | h1
    · exact Or.inl h1
    · exact Or.inr h1
    · cases h1.1⟩

theorem logged_of_preBuild_zero {v : ASTVisitor} {c : Bool}
    (h : PreBuild v SymbolID.zero c) : Logged v :=
  ⟨h.1, h.2.1, fun x hx => by
    rcases h.2.2.1 x hx with h1 | h1 | h1
    · exact Or.inl h1
    · exact Or.inr h1
    · exact Or.inr h1.2⟩

theorem getOrCreateInfo_error {v : ASTVisitor} {K : InfoKind} {id : SymbolID} {e : Fault}
    (h : v.getOrCreateInfo K id = Except.error e) : e.ofChain = false := by
  rcases ASTVisitor.getOrCreateInfo_cases v K id with ⟨_, h1⟩ | ⟨i, _, _, h1⟩ | ⟨i, _, _, h1⟩
  · rw [h1] at h; cases h
  · rw [h1] at h; cases h
  · rw [h1] at h
    simp only [Except.error.injEq] at h
    subst h
    rfl

theorem getOrCreateInfo_preBuild {v w : ASTVisitor} {K : InfoKind} {id : SymbolID}
    {e : Info} {c : Bool} (hL : Logged v)
    (h : v.getOrCreateInfo K id = Except.ok (w, e, c)) : PreBuild w id c := by
  rcases ASTVisitor.getOrCreateInfo_cases v K id with ⟨h0, h1⟩ | ⟨i, _, _, h1⟩ | ⟨i, _, _, h1⟩
  · rw [h1] at h
    simp only [Except.ok.injEq, Prod.mk.injEq] at h
    obtain ⟨hw, -, hc⟩ := h
    subst hw; subst hc
    have habs : id ∉ v.ids := by
      intro hm
      obtain ⟨j, hj, hje⟩ := List.mem_map.1 hm
      exact (InfoSet.find_none_iff _ _).1 h0 j hj hje
    have hids : ASTVisitor.ids
        { v with info_ := v.info_ ++ [ASTVisitor.clearImplicit v.mode (Info.create K id)] } =
        v.ids ++ [id] := by
      simp [ASTVisitor.ids, ASTVisitor.clearImplicit, Info.create]
    refine ⟨hL.1, ?_, ?_, ?_⟩
    · intro x hx
      rw [hids]
      exact List.mem_append_left _ (hL.2.1 x hx)
    · intro x hx
      rw [hids] at hx
      rcases List.mem_append.1 hx with hx | hx
      · exact (hL.2.2 x hx).elim Or.inl (fun h => Or.inr (Or.inl h))
      · exact Or.inr (Or.inr ⟨rfl, by simpa using hx⟩)
    · intro _
      refine ⟨fun hm => habs (hL.2.1 id hm), ?_, ?_⟩
      · rw [hids]; simp
      · intro j hj hje
        rcases List.mem_append.1 hj with hj | hj
        · exact absurd (List.mem_map_of_mem Info.id hj) (hje ▸ habs)
        · simp only [List.mem_singleton] at hj
          subst hj
          rfl
  · rw [h1] at h
    simp only [Except.ok.injEq, Prod.mk.injEq] at h
    obtain ⟨hw, -, hc⟩ := h
    subst hw; subst hc
    have hq : Quiet v
        { v with info_ := InfoSet.update v.info_ id (ASTVisitor.clearImplicit v.mode) } :=
      quiet_modifyInfo v id _ (fun _ => rfl) (fun _ => rfl)
    exact preBuild_quiet (preBuild_of_logged hL id) hq
  · rw [h1] at h; cases h

theorem quietStep_ok {v w : ASTVisitor} (h : Quiet v w) : QuietStep v (Except.ok w) := by
  refine ⟨?_, ?_⟩
  · intro e h'; cases h'
  · intro u hu
    simp only [Except.ok.injEq] at hu
    subst hu
    exact h

theorem quietStep_pass {α : Type} {v u : ASTVisitor} {X : Except Fault (α × ASTVisitor)}
    (h : ReadsOnly u X) {e : Fault} (hX : X = Except.error e) :
    QuietStep v (Except.error e) := by
  refine ⟨?_, ?_⟩
  · intro e' h'
    simp only [Except.error.injEq] at h'
    subst h'
    exact h.1 e hX
  · intro w hw; cases hw

theorem good_ok {w : ASTVisitor} (h : Logged w) : Good (Except.ok w) := by
  refine ⟨?_, ?_⟩
  · intro e h'; cases h'
  · intro u hu
    simp only [Except.ok.injEq] at hu
    subst hu
    exact h

theorem good_error {e : Fault} (h : e.ofChain = false) :
    Good (Except.error e) := by
  refine ⟨?_, ?_⟩
  · intro e' h'
    simp only [Except.error.injEq] at h'
    subst h'
    exact h
  · intro w hw; cases hw

theorem good_pass {X : Except Fault ASTVisitor} (h : Good X) {e : Fault}
    (hX : X = Except.error e) : Good (Except.error e) :=
  good_error (h.1 e hX)

theorem good_of_quietStep {v : ASTVisitor} {X : Except Fault ASTVisitor}
    (hL : Logged v) (h : QuietStep v X) : Good X :=
  ⟨h.1, fun w hw => logged_quiet hL (h.2 w hw)⟩

theorem goodB_ok {b : Bool} {w : ASTVisitor} (h : Logged w) : GoodB (Except.ok (b, w)) := by
  refine ⟨?_, ?_⟩
  · intro e h'; cases h'
  · intro b u hu
    simp only [Except.ok.injEq, Prod.mk.injEq] at hu
    obtain ⟨-, hu⟩ := hu
    subst hu
    exact h

theorem goodB_error {e : Fault} (h : e.ofChain = false) :
    GoodB (Except.error e) := by
  refine ⟨?_, ?_⟩
  · intro e' h'
    simp only [Except.error.injEq] at h'
    subst h'
    exact h
  · intro b w hw; cases hw

theorem goodB_dropResult {r : Except Fault (Bool × ASTVisitor)} (h : GoodB r) :
    GoodB (ASTVisitor.dropResult r) := by
  unfold ASTVisitor.dropResult
  split
  · rename_i e
    exact goodB_error (h.1 e rfl)
  · rename_i b w
    exact goodB_ok (h.2 b w rfl)

/-! ### The build steps -/

theorem buildWith_false (v : ASTVisitor) (I : SymbolID) (augment : Info → Info)
    (firstBuild getParents : ASTVisitor → Except Fault ASTVisitor) :
    v.buildWith I false augment firstBuild getParents =
      Except.ok (v.modifyInfo I augment) := by
  simp [ASTVisitor.buildWith]

theorem keepsFirstBuilt_modifyInfo (v : ASTVisitor) (I : SymbolID) (f : Info → Info)
    (hid : ∀ i, (f i).id = i.id) (hf : ∀ i, (f i).firstBuilt = i.firstBuilt) :
    KeepsFirstBuilt v (Except.ok (v.modifyInfo I f)) :=
  ⟨_, rfl, fun id => InfoSet.find_update_map Info.firstBuilt v.info_ I id f hid hf⟩

theorem buildWith_good (v : ASTVisitor) (I : SymbolID) (created : Bool)
    (augment : Info → Info) (firstBuild getParents : ASTVisitor → Except Fault ASTVisitor)
    (hid : ∀ i, (augment i).id = i.id) (hns : ∀ i, (augment i).Namespace = i.Namespace)
    (hfb : ∀ u, QuietStep u (firstBuild u))
    (hgp : ∀ u, Logged u → I ∈ u.ids → ChainEmpty u I → Good (getParents u))
    (pre : PreBuild v I created) :
    Good (v.buildWith I created augment firstBuild getParents) := by
  have hq : Quiet v (v.modifyInfo I augment) := quiet_modifyInfo v I augment hid hns
  cases created with
  | false =>
    rw [buildWith_false]
    exact good_ok (logged_quiet (logged_of_preBuild_false pre) hq)
  | true =>
    have pre1 := preBuild_quiet pre hq
    obtain ⟨hnd, hsub, hall, hI⟩ := pre1
    obtain ⟨hnot, hmem, hemp⟩ := hI rfl
    have hL : Logged ((v.modifyInfo I augment).logFirstBuild I) := by
      refine ⟨?_, ?_, ?_⟩
      · show (_ ++ [I]).Nodup
        rw [List.nodup_append]
        refine ⟨hnd, List.nodup_singleton _, ?_⟩
        intro a ha hb
        simp only [List.mem_singleton] at hb
        subst hb
        exact hnot ha
      · intro x hx
        rcases List.mem_append.1 hx with hx | hx
        · exact hsub x hx
        · simp only [List.mem_singleton] at hx
          subst hx
          exact hmem
      · intro x hx
        rcases hall x hx with h | h | h
        · exact Or.inl (List.mem_append_left _ h)
        · exact Or.inr h
        · exact Or.inl (List.mem_append_right _ (by simp [h.2]))
    have hE : ChainEmpty ((v.modifyInfo I augment).logFirstBuild I) I := hemp
    unfold ASTVisitor.buildWith
    simp only [Bool.not_true, Bool.false_eq_true, if_false]
    split
    · rename_i e hX
      exact good_error ((hfb _).1 e hX)
    · rename_i w hX
      have hqw := (hfb _).2 w hX
      have hI : I ∈ w.ids := by
        rw [quiet_ids hqw]
        exact hmem
      exact hgp w (logged_quiet hL hqw) hI (chainEmpty_quiet hE hqw)

theorem augmentRecord_keeps (v : ASTVisitor) (D : CXXRecordDecl) (i : Info) :
    (v.augmentRecord D i).id = i.id ∧ (v.augmentRecord D i).firstBuilt = i.firstBuilt :=
  ⟨rfl, rfl⟩

theorem augmentEnum_keeps (v : ASTVisitor) (D : EnumDecl) (i : Info) :
    (v.augmentEnum D i).id = i.id ∧ (v.augmentEnum D i).firstBuilt = i.firstBuilt :=
  ⟨rfl, rfl⟩

theorem augmentTypedef_keeps (v : ASTVisitor) (D : TypedefNameDecl) (i : Info) :
    (v.augmentTypedef D i).id = i.id ∧ (v.augmentTypedef D i).firstBuilt = i.firstBuilt :=
  ⟨rfl, rfl⟩

theorem augmentVariable_keeps (v : ASTVisitor) (D : VarDecl) (i : Info) :
    (v.augmentVariable D i).id = i.id ∧
      (v.augmentVariable D i).firstBuilt = i.firstBuilt := by
  unfold ASTVisitor.augmentVariable
  simp only []
  split <;> exact ⟨rfl, rfl⟩

theorem augmentField_keeps (v : ASTVisitor) (D : FieldDecl) (i : Info) :
    (v.augmentField D i).id = i.id ∧ (v.augmentField D i).firstBuilt = i.firstBuilt :=
  ⟨rfl, rfl⟩

theorem augmentFunction_keeps (v : ASTVisitor) (D : FunctionDecl) (i : Info) :
    (v.augmentFunction D i).id = i.id ∧
      (v.augmentFunction D i).firstBuilt = i.firstBuilt :=
  ⟨rfl, rfl⟩

theorem namespace_of_firstBuilt {i j : Info} (h : i.firstBuilt = j.firstBuilt) :
    i.Namespace = j.Namespace :=
  congrArg FirstBuilt.Namespace h

theorem emplaceChild_keeps (hs : Bool) (C : Option Info) (i : Info) :
    (ASTVisitor.emplaceChild hs C i).id = i.id ∧
      (ASTVisitor.emplaceChild hs C i).Namespace = i.Namespace := by
  unfold ASTVisitor.emplaceChild
  simp only []
  repeat' split
  all_goals exact ⟨rfl, rfl⟩

theorem emplaceSpecializedMember_keeps (C : SpecializedMember) (i : Info) :
    (ASTVisitor.emplaceSpecializedMember C i).id = i.id ∧
      (ASTVisitor.emplaceSpecializedMember C i).Namespace = i.Namespace := by
  unfold ASTVisitor.emplaceSpecializedMember
  split <;> exact ⟨rfl, rfl⟩

theorem firstBuildSpecialization_quiet (I : SymbolID) (D : CXXRecordDecl) (v : ASTVisitor) :
    QuietStep v (ASTVisitor.firstBuildSpecialization I D v) := by
  unfold ASTVisitor.firstBuildSpecialization
  simp only []
  split
  · rename_i e hX
    exact quietStep_pass (buildTemplateArgs_readsOnly _ _ _) hX
  · rename_i t w hX
    have hw := readsOnly_state (buildTemplateArgs_readsOnly _ _ _) hX
    subst hw
    exact quietStep_ok (quiet_modifyInfo _ _ _ (fun _ => rfl) (fun _ => rfl))

theorem firstBuildNamespace_quiet (I : SymbolID) (D : NamespaceDecl) (v : ASTVisitor) :
    QuietStep v (ASTVisitor.firstBuildNamespace I D v) := by
  unfold ASTVisitor.firstBuildNamespace
  refine quietStep_ok (quiet_modifyInfo _ _ _ ?_ ?_)
  · intro i
    simp only []
    split <;> rfl
  · intro i
    simp only []
    split <;> rfl

theorem firstBuildRecord_quiet (I : SymbolID) (D : CXXRecordDecl) (v : ASTVisitor) :
    QuietStep v (ASTVisitor.firstBuildRecord I D v) := by
  unfold ASTVisitor.firstBuildRecord
  simp only []
  have h1 : ∀ f : Info → Info, (∀ i, (f i).id = i.id) → (∀ i, (f i).Namespace = i.Namespace) →
      Quiet v (v.modifyInfo I f) := fun f h h' => quiet_modifyInfo v I f h h'
  have hq := h1 (fun i =>
    match D.getDestructorFinal with
    | some b =>
      { (match D.getTypedefNameForAnonDecl with
          | some TD => { i with IsTypeDef := true, Name := TD }
          | none => { i with Name := D.extractName }) with
        KeyKind := D.getTagKind, isFinal := D.hasFinalAttr, isFinalDestructor := b }
    | none =>
      { (match D.getTypedefNameForAnonDecl with
          | some TD => { i with IsTypeDef := true, Name := TD }
          | none => { i with Name := D.extractName }) with
        KeyKind := D.getTagKind, isFinal := D.hasFinalAttr })
    (by intro i; simp only []; repeat' split
        all_goals rfl)
    (by intro i; simp only []; repeat' split
        all_goals rfl)
  split
  · split
    · rename_i e hX
      exact quietStep_pass (buildBases_readsOnly _ _) hX
    · rename_i t w hX
      have hw := readsOnly_state (buildBases_readsOnly _ _) hX
      subst hw
      exact quietStep_ok (quiet_trans hq (quiet_modifyInfo _ _ _ (fun _ => rfl) (fun _ => rfl)))
  · exact quietStep_ok hq

theorem quiet_step {v u : ASTVisitor} (h : Quiet v u) (I : SymbolID) (f : Info → Info)
    (hid : ∀ i, (f i).id = i.id) (hns : ∀ i, (f i).Namespace = i.Namespace) :
    Quiet v (u.modifyInfo I f) :=
  quiet_trans h (quiet_modifyInfo u I f hid hns)

theorem quietStep_modify {v u : ASTVisitor} (h : Quiet v u) (I : SymbolID) (f : Info → Info)
    (hid : ∀ i, (f i).id = i.id) (hns : ∀ i, (f i).Namespace = i.Namespace) :
    QuietStep v (Except.ok (u.modifyInfo I f)) :=
  quietStep_ok (quiet_step h I f hid hns)

theorem firstBuildEnum_quiet (I : SymbolID) (D : EnumDecl) (v : ASTVisitor) :
    QuietStep v (ASTVisitor.firstBuildEnum I D v) := by
  unfold ASTVisitor.firstBuildEnum
  simp only []
  have hq : Quiet v (v.modifyInfo I
      (fun i => { i with Name := D.extractName, Scoped := D.isScoped })) :=
    quiet_modifyInfo _ _ _ (fun _ => rfl) (fun _ => rfl)
  split
  · rename_i e hX
    split at hX
    · split at hX
      · rename_i e1 hY
        simp only [Except.error.injEq] at hX
        subst hX
        exact quietStep_pass (buildTypeInfo_readsOnly _ _ _) hY
      · cases hX
    · cases hX
  · rename_i w hX
    split at hX
    · split at hX
      · cases hX
      · rename_i t u hY
        have hu := readsOnly_state (buildTypeInfo_readsOnly _ _ _) hY
        subst hu
        simp only [Except.ok.injEq] at hX
        subst hX
        refine quietStep_modify ?_ _ _ (fun _ => rfl) (fun _ => rfl)
        exact quiet_step hq _ _ (fun _ => rfl) (fun _ => rfl)
    · simp only [Except.ok.injEq] at hX
      subst hX
      exact quietStep_modify hq _ _ (fun _ => rfl) (fun _ => rfl)

theorem firstBuildTypedef_quiet (I : SymbolID) (D : TypedefNameDecl) (v : ASTVisitor) :
    QuietStep v (ASTVisitor.firstBuildTypedef I D v) := by
  unfold ASTVisitor.firstBuildTypedef
  simp only []
  have hq : Quiet v (v.modifyInfo I (fun i => { i with Name := D.extractName })) :=
    quiet_modifyInfo _ _ _ (fun _ => rfl) (fun _ => rfl)
  split
  · rename_i e hX
    exact quietStep_pass (buildTypeInfo_readsOnly _ _ _) hX
  · rename_i t w hX
    have hw := readsOnly_state (buildTypeInfo_readsOnly _ _ _) hX
    subst hw
    exact quietStep_modify hq _ _ (fun _ => rfl) (fun _ => rfl)

theorem firstBuildVariable_quiet (I : SymbolID) (D : VarDecl) (v : ASTVisitor) :
    QuietStep v (ASTVisitor.firstBuildVariable I D v) := by
  unfold ASTVisitor.firstBuildVariable
  simp only []
  have hq : Quiet v (v.modifyInfo I (fun i => { i with Name := D.extractName })) :=
    quiet_modifyInfo _ _ _ (fun _ => rfl) (fun _ => rfl)
  split
  · rename_i e hX
    exact quietStep_pass (buildTypeInfo_readsOnly _ _ _) hX
  · rename_i t w hX
    have hw := readsOnly_state (buildTypeInfo_readsOnly _ _ _) hX
    subst hw
    exact quietStep_modify hq _ _ (fun _ => rfl) (fun _ => rfl)

theorem firstBuildField_quiet (I : SymbolID) (D : FieldDecl) (v : ASTVisitor) :
    QuietStep v (ASTVisitor.firstBuildField I D v) := by
  unfold ASTVisitor.firstBuildField
  simp only []
  have hq : Quiet v (v.modifyInfo I (fun i => { i with Name := D.extractName })) :=
    quiet_modifyInfo _ _ _ (fun _ => rfl) (fun _ => rfl)
  split
  · rename_i e hX
    exact quietStep_pass (buildTypeInfo_readsOnly _ _ _) hX
  · rename_i t w hX
    have hw := readsOnly_state (buildTypeInfo_readsOnly _ _ _) hX
    subst hw
    refine quietStep_modify hq _ _ ?_ ?_
    · intro i
      simp only []
      split <;> rfl
    · intro i
      simp only []
      split <;> rfl

theorem firstBuildFunction_quiet (I : SymbolID) (D : FunctionDecl) (v : ASTVisitor) :
    QuietStep v (ASTVisitor.firstBuildFunction I D v) := by
  unfold ASTVisitor.firstBuildFunction
  simp only []
  have hq : Quiet v (v.modifyInfo I
      (fun i => { i with Name := D.extractName, Class := D.getFunctionClass })) :=
    quiet_modifyInfo _ _ _ (fun _ => rfl) (fun _ => rfl)
  split
  · rename_i e hX
    exact quietStep_pass (buildParams_readsOnly _ _) hX
  · rename_i ps w hX
    have hw := readsOnly_state (buildParams_readsOnly _ _) hX
    subst hw
    split
    · rename_i e hY
      exact quietStep_pass (buildTypeInfo_readsOnly _ _ _) hY
    · rename_i t u hY
      have hu := readsOnly_state (buildTypeInfo_readsOnly _ _ _) hY
      subst hu
      refine quietStep_modify ?_ _ _ (fun _ => rfl) (fun _ => rfl)
      exact quiet_step hq _ _ (fun _ => rfl) (fun _ => rfl)

/-! ### Parent chains -/

theorem good_link (v : ASTVisitor) (a b : SymbolID) (f g : Info → Info)
    (rest : ASTVisitor → Except Fault ASTVisitor)
    (hL : Logged v) (hf : ∀ i, (f i).id = i.id) (hg : ∀ i, (g i).id = i.id)
    (hrest : ∀ u, Logged u → Good (rest u)) :
    Good (rest ((v.modifyInfo a f).modifyInfo b g)) :=
  hrest _ (logged_modifyInfo (logged_modifyInfo hL a f hf) b g hg)

theorem parentsGood_loop (n : Nat) (ih : ParentsGood n) :
    ∀ (v : ASTVisitor) I child ctx, 4 * DeclContext.size ctx + 1 ≤ n + 1 →
      Logged v → Good (v.getParentNamespacesLoop I child ctx) := by
  obtain ⟨ihS, ihN, ihR, ihG, ihL⟩ := ih
  intro v I child ctx hle hL
  cases ctx with
  | TranslationUnit =>
    rw [ASTVisitor.getParentNamespacesLoop]
    simp only []
    split
    · rename_i e hX
      exact good_error (getOrCreateInfo_error hX)
    · rename_i w i c hX
      have hw := logged_of_preBuild_zero (getOrCreateInfo_preBuild hL hX)
      exact good_ok (logged_modifyInfo
        (logged_modifyInfo hw _ _ (fun i => (emplaceChild_keeps _ _ i).1)) _ _ (fun _ => rfl))
  | Namespace D p =>
    rw [ASTVisitor.getParentNamespacesLoop]
    simp only [DeclContext.size] at hle
    simp only []
    split
    · rename_i e hX
      exact good_error (getOrCreateInfo_error hX)
    · rename_i w i c hX
      have hB := ihN w (ASTVisitor.extractSymbolID D.toDeclBase) c D p (by omega)
        (getOrCreateInfo_preBuild hL hX)
      split
      · rename_i e hY
        exact good_pass hB hY
      · rename_i u hY
        exact good_link u _ _ _ _ (fun x => x.getParentNamespacesLoop I _ p) (hB.2 u hY)
          (fun i => (emplaceChild_keeps _ _ i).1) (fun _ => rfl)
          (fun x hx => ihL x I _ p (by omega) hx)
  | ClassTemplateSpecialization D p =>
    rw [ASTVisitor.getParentNamespacesLoop]
    simp only [DeclContext.size] at hle
    simp only []
    split
    · split
      · rename_i e hX
        exact good_error (getOrCreateInfo_error hX)
      · rename_i w i c hX
        have hB := ihS w (ASTVisitor.extractSymbolID D.toDeclBase) c D p (by omega)
          (getOrCreateInfo_preBuild hL hX)
        split
        · rename_i e hY
          exact good_pass hB hY
        · rename_i u hY
          exact good_link u _ _ _ _ (fun x => x.getParentNamespacesLoop I _ p) (hB.2 u hY)
            (fun i => (emplaceSpecializedMember_keeps _ i).1) (fun _ => rfl)
            (fun x hx => ihL x I _ p (by omega) hx)
    · split
      · rename_i e hX
        exact good_error (getOrCreateInfo_error hX)
      · rename_i w i c hX
        have hB := ihR w (ASTVisitor.extractSymbolID D.toDeclBase) c D p (by omega)
          (getOrCreateInfo_preBuild hL hX)
        split
        · rename_i e hY
          exact good_pass hB hY
        · rename_i u hY
          exact good_link u _ _ _ _ (fun x => x.getParentNamespacesLoop I _ p) (hB.2 u hY)
            (fun i => (emplaceChild_keeps _ _ i).1) (fun _ => rfl)
            (fun x hx => ihL x I _ p (by omega) hx)
  | ClassTemplatePartialSpecialization D p =>
    rw [ASTVisitor.getParentNamespacesLoop]
    simp only [DeclContext.size] at hle
    simp only []
    split
    · exact good_error (by decide)
    · split
      · rename_i e hX
        exact good_error (getOrCreateInfo_error hX)
      · rename_i w i c hX
        have hB := ihR w (ASTVisitor.extractSymbolID D.toDeclBase) c D p (by omega)
          (getOrCreateInfo_preBuild hL hX)
        split
        · rename_i e hY
          exact good_pass hB hY
        · rename_i u hY
          exact good_link u _ _ _ _ (fun x => x.getParentNamespacesLoop I _ p) (hB.2 u hY)
            (fun i => (emplaceChild_keeps _ _ i).1) (fun _ => rfl)
            (fun x hx => ihL x I _ p (by omega) hx)
  | CXXRecord D p =>
    rw [ASTVisitor.getParentNamespacesLoop]
    simp only [DeclContext.size] at hle
    simp only []
    split
    · rename_i e hX
      exact good_error (getOrCreateInfo_error hX)
    · rename_i w i c hX
      have hB := ihR w (ASTVisitor.extractSymbolID D.toDeclBase) c D p (by omega)
        (getOrCreateInfo_preBuild hL hX)
      split
      · rename_i e hY
        exact good_pass hB hY
      · rename_i u hY
        exact good_link u _ _ _ _ (fun x => x.getParentNamespacesLoop I _ p) (hB.2 u hY)
          (fun i => (emplaceChild_keeps _ _ i).1) (fun _ => rfl)
          (fun x hx => ihL x I _ p (by omega) hx)
  | Other p =>
    rw [ASTVisitor.getParentNamespacesLoop]
    simp only [DeclContext.size] at hle
    exact ihL v I child p (by omega) hL

theorem parentsGood_getParentNamespaces (n : Nat) (ih : ParentsGood n) :
    ∀ (v : ASTVisitor) I ctx, 4 * DeclContext.size ctx + 2 ≤ n + 1 →
      Logged v → I ∈ v.ids → ChainEmpty v I → Good (v.getParentNamespaces I ctx) := by
  intro v I ctx hle hL hI hE
  rw [ASTVisitor.getParentNamespaces]
  split
  · rename_i hnone
    obtain ⟨j, hj, hje⟩ := List.mem_map.1 hI
    exact absurd hje ((InfoSet.find_none_iff _ _).1 hnone j hj)
  · rename_i i hi
    have hm := InfoSet.find_some_mem hi
    have hns : i.Namespace = [] := hE i hm.1 hm.2
    simp only [hns, List.isEmpty_nil, Bool.not_true, Bool.false_eq_true, if_false]
    exact ih.2.2.2.2 v I I ctx (by omega) hL

theorem parentsGood_buildSpecialization (n : Nat) (ih : ParentsGood n) :
    ∀ (v : ASTVisitor) I created D ctx, 4 * DeclContext.size ctx + 3 ≤ n + 1 →
      PreBuild v I created → Good (v.buildSpecialization I created D ctx) := by
  intro v I created D ctx hle pre
  rw [ASTVisitor.buildSpecialization]
  exact buildWith_good v I created _ _ _ (fun _ => rfl) (fun _ => rfl)
    (firstBuildSpecialization_quiet I D)
    (fun u hu hi he => ih.2.2.2.1 u I ctx (by omega) hu hi he) pre

theorem parentsGood_buildNamespace (n : Nat) (ih : ParentsGood n) :
    ∀ (v : ASTVisitor) I created D ctx, 4 * DeclContext.size ctx + 3 ≤ n + 1 →
      PreBuild v I created → Good (v.buildNamespace I created D ctx) := by
  intro v I created D ctx hle pre
  rw [ASTVisitor.buildNamespace]
  exact buildWith_good v I created _ _ _ (fun _ => rfl) (fun _ => rfl)
    (firstBuildNamespace_quiet I D)
    (fun u hu hi he => ih.2.2.2.1 u I ctx (by omega) hu hi he) pre

theorem parentsGood_buildRecord (n : Nat) (ih : ParentsGood n) :
    ∀ (v : ASTVisitor) I created D ctx, 4 * DeclContext.size ctx + 3 ≤ n + 1 →
      PreBuild v I created → Good (v.buildRecord I created D ctx) := by
  intro v I created D ctx hle pre
  rw [ASTVisitor.buildRecord]
  exact buildWith_good v I created _ _ _ (fun _ => rfl) (fun _ => rfl)
    (firstBuildRecord_quiet I D)
    (fun u hu hi he => ih.2.2.2.1 u I ctx (by omega) hu hi he) pre

/-- The build steps of the parents and `getParentNamespaces` keep the
bookkeeping invariant and never end with the fault of the chain assertion,
whatever the input. -/
theorem parentsGood_all : ∀ n, ParentsGood n := by
  intro n
  induction n with
  | zero =>
    refine ⟨?_, ?_, ?_, ?_, ?_⟩
    · intro v I created D ctx h; omega
    · intro v I created D ctx h; omega
    · intro v I created D ctx h; omega
    · intro v I ctx h; omega
    · intro v I child ctx h; omega
  | succ n ih =>
    exact ⟨parentsGood_buildSpecialization n ih, parentsGood_buildNamespace n ih,
      parentsGood_buildRecord n ih, parentsGood_getParentNamespaces n ih,
      parentsGood_loop n ih⟩

theorem getParentNamespaces_good (v : ASTVisitor) (I : SymbolID) (ctx : DeclContext)
    (hL : Logged v) (hI : I ∈ v.ids) (hE : ChainEmpty v I) :
    Good (v.getParentNamespaces I ctx) :=
  (parentsGood_all _).2.2.2.1 v I ctx (Nat.le_refl _) hL hI hE

theorem buildNamespace_good (v : ASTVisitor) (I : SymbolID) (created : Bool)
    (D : NamespaceDecl) (ctx : DeclContext) (pre : PreBuild v I created) :
    Good (v.buildNamespace I created D ctx) :=
  (parentsGood_all _).2.1 v I created D ctx (Nat.le_refl _) pre

theorem buildRecord_good (v : ASTVisitor) (I : SymbolID) (created : Bool)
    (D : CXXRecordDecl) (ctx : DeclContext) (pre : PreBuild v I created) :
    Good (v.buildRecord I created D ctx) :=
  (parentsGood_all _).2.2.1 v I created D ctx (Nat.le_refl _) pre

/-! ### The traversal -/

theorem buildEnum_good (v : ASTVisitor) (I : SymbolID) (created : Bool) (D : EnumDecl)
    (ctx : DeclContext) (pre : PreBuild v I created) :
    Good (v.buildEnum I created D ctx) := by
  unfold ASTVisitor.buildEnum
  exact buildWith_good v I created _ _ _ (fun i => (augmentEnum_keeps v D i).1)
    (fun i => namespace_of_firstBuilt (augmentEnum_keeps v D i).2)
    (firstBuildEnum_quiet I D) (fun u hu hi he => getParentNamespaces_good u I ctx hu hi he) pre

theorem buildTypedef_good (v : ASTVisitor) (I : SymbolID) (created : Bool)
    (D : TypedefNameDecl) (ctx : DeclContext) (pre : PreBuild v I created) :
    Good (v.buildTypedef I created D ctx) := by
  unfold ASTVisitor.buildTypedef
  exact buildWith_good v I created _ _ _ (fun i => (augmentTypedef_keeps v D i).1)
    (fun i => namespace_of_firstBuilt (augmentTypedef_keeps v D i).2)
    (firstBuildTypedef_quiet I D) (fun u hu hi he => getParentNamespaces_good u I ctx hu hi he) pre

theorem buildVariable_good (v : ASTVisitor) (I : SymbolID) (created : Bool) (D : VarDecl)
    (ctx : DeclContext) (pre : PreBuild v I created) :
    Good (v.buildVariable I created D ctx) := by
  unfold ASTVisitor.buildVariable
  exact buildWith_good v I created _ _ _ (fun i => (augmentVariable_keeps v D i).1)
    (fun i => namespace_of_firstBuilt (augmentVariable_keeps v D i).2)
    (firstBuildVariable_quiet I D) (fun u hu hi he => getParentNamespaces_good u I ctx hu hi he) pre

theorem buildField_good (v : ASTVisitor) (I : SymbolID) (created : Bool) (D : FieldDecl)
    (ctx : DeclContext) (pre : PreBuild v I created) :
    Good (v.buildField I created D ctx) := by
  unfold ASTVisitor.buildField
  exact buildWith_good v I created _ _ _ (fun i => (augmentField_keeps v D i).1)
    (fun i => namespace_of_firstBuilt (augmentField_keeps v D i).2)
    (firstBuildField_quiet I D) (fun u hu hi he => getParentNamespaces_good u I ctx hu hi he) pre

theorem buildFunction_good (v : ASTVisitor) (I : SymbolID) (created : Bool)
    (D : FunctionDecl) (ctx : DeclContext) (pre : PreBuild v I created) :
    Good (v.buildFunction I created D ctx) := by
  unfold ASTVisitor.buildFunction
  exact buildWith_good v I created _ _ _ (fun i => (augmentFunction_keeps v D i).1)
    (fun i => namespace_of_firstBuilt (augmentFunction_keeps v D i).2)
    (firstBuildFunction_quiet I D) (fun u hu hi he => getParentNamespaces_good u I ctx hu hi he) pre

theorem goodB_of_good {X : Except Fault ASTVisitor} (h : Good X) {e : Fault}
    (hX : X = Except.error e) : GoodB (Except.error e) :=
  goodB_error (h.1 e hX)

theorem buildFriend_good (v : ASTVisitor) (D : FriendDecl) (hL : Logged v) :
    Good (v.buildFriend D) := by
  unfold ASTVisitor.buildFriend
  split
  · rename_i FD ctx htarget
    simp only []
    have hL1 := logged_quiet hL (quiet_shouldExtract v FD.toDeclBase)
    split
    · exact good_ok hL1
    · split
      · exact good_ok hL1
      · rename_i id hid
        split
        · rename_i e hX
          exact good_error (getOrCreateInfo_error hX)
        · rename_i w i c hX
          have hB := buildFunction_good w id c FD ctx (getOrCreateInfo_preBuild hL1 hX)
          split
          · rename_i e hY
            exact good_pass hB hY
          · rename_i u hY
            have hu := hB.2 u hY
            split
            · exact good_error (by decide)
            · split
              · split
                · exact good_error (by decide)
                · exact good_ok (logged_modifyInfo hu _ _ (fun _ => rfl))
              · exact good_ok hu
  · exact good_ok hL
  · exact good_ok hL
  · exact good_error (by decide)
  · exact good_ok hL
  · exact good_error (by decide)

theorem parseTemplateInfo_readsOnly (v : ASTVisitor) (T : TemplateDecl)
    (spec : Option SpecializationArgs) (params : Option (List TemplateParmDecl)) :
    ReadsOnly v (v.parseTemplateInfo T spec params) := by
  unfold ASTVisitor.parseTemplateInfo
  split
  · split
    · rename_i e hX
      exact readsOnly_pass (parseTemplateArgs_readsOnly _ _ _) hX
    · rename_i t w hX
      have hw := readsOnly_state (parseTemplateArgs_readsOnly _ _ _) hX
      subst hw
      split
      · exact parseTemplateParams_readsOnly _ _ _
      · exact readsOnly_ok _ _
  · exact parseTemplateParams_readsOnly _ _ _

theorem parseTemplateHead_quiet (v : ASTVisitor) (I : SymbolID) (access : AccessKind)
    (TD : Option TemplateDecl) (spec : Option SpecializationArgs)
    (params : Option (List TemplateParmDecl)) :
    QuietStep v (v.parseTemplateHead I access TD spec params) := by
  unfold ASTVisitor.parseTemplateHead
  split
  · exact quietStep_modify (quiet_refl v) _ _ (fun _ => rfl) (fun _ => rfl)
  · split
    · rename_i e hX
      exact quietStep_pass (parseTemplateInfo_readsOnly _ _ _ _) hX
    · rename_i t w hX
      have hw := readsOnly_state (parseTemplateInfo_readsOnly _ _ _ _) hX
      subst hw
      exact quietStep_modify (quiet_refl _) _ _ (fun _ => rfl) (fun _ => rfl)

theorem parseFunctionTemplateHead_quiet (v : ASTVisitor) (I : SymbolID) (D : FunctionDecl)
    (FTD : Option TemplateDecl) :
    QuietStep v (v.parseFunctionTemplateHead I D FTD) := by
  unfold ASTVisitor.parseFunctionTemplateHead
  split
  · split
    · rename_i e hX
      exact quietStep_pass (parseTemplateParams_readsOnly _ _ _) hX
    · rename_i t w hX
      have hw := readsOnly_state (parseTemplateParams_readsOnly _ _ _) hX
      subst hw
      exact quietStep_modify (quiet_refl _) _ _ (fun _ => rfl) (fun _ => rfl)
  · split
    · split
      · rename_i e hX
        exact quietStep_pass (parseTemplateArgs_readsOnly _ _ _) hX
      · rename_i t w hX
        have hw := readsOnly_state (parseTemplateArgs_readsOnly _ _ _) hX
        subst hw
        exact quietStep_modify (quiet_refl _) _ _ (fun _ => rfl) (fun _ => rfl)
    · split
      · split
        · rename_i e hX
          exact quietStep_pass (parseTemplateArgs_readsOnly _ _ _) hX
        · rename_i t w hX
          have hw := readsOnly_state (parseTemplateArgs_readsOnly _ _ _) hX
          subst hw
          exact quietStep_modify (quiet_refl _) _ _ (fun _ => rfl) (fun _ => rfl)
      · exact quietStep_modify (quiet_refl _) _ _ (fun _ => rfl) (fun _ => rfl)

theorem traverseNamespace_good (v : ASTVisitor) (D : NamespaceDecl) (ctx : DeclContext)
    (traverseMembers : ASTVisitor → Except Fault (Bool × ASTVisitor))
    (hM : ∀ u, Logged u → GoodB (traverseMembers u)) (hL : Logged v) :
    GoodB (v.traverseNamespace D ctx traverseMembers) := by
  unfold ASTVisitor.traverseNamespace
  simp only []
  have hL1 := logged_quiet hL (quiet_shouldExtract v D.toDeclBase)
  split
  · exact goodB_ok hL1
  · split
    · exact goodB_ok hL1
    · split
      · exact goodB_ok hL1
      · rename_i id hid
        split
        · rename_i e hX
          exact goodB_error (getOrCreateInfo_error hX)
        · rename_i w i c hX
          have hB := buildNamespace_good w id c D ctx (getOrCreateInfo_preBuild hL1 hX)
          split
          · rename_i e hY
            exact goodB_of_good hB hY
          · rename_i u hY
            exact hM u (hB.2 u hY)

theorem traverseEnum_good (v : ASTVisitor) (D : EnumDecl) (ctx : DeclContext)
    (hL : Logged v) : GoodB (v.traverseEnum D ctx) := by
  unfold ASTVisitor.traverseEnum
  simp only []
  have hL1 := logged_quiet hL (quiet_shouldExtract v D.toDeclBase)
  split
  · exact goodB_ok hL1
  · split
    · exact goodB_ok hL1
    · rename_i id hid
      split
      · rename_i e hX
        exact goodB_error (getOrCreateInfo_error hX)
      · rename_i w i c hX
        have hB := buildEnum_good _ id c D ctx (preBuild_quiet (getOrCreateInfo_preBuild hL1 hX)
          (quiet_modifyInfo w id (fun i => { i with Access := D.getAccessUnsafe })
            (fun _ => rfl) (fun _ => rfl)))
        split
        · rename_i e hY
          exact goodB_of_good hB hY
        · rename_i u hY
          exact goodB_ok (hB.2 u hY)

theorem traverseField_good (v : ASTVisitor) (D : FieldDecl) (ctx : DeclContext)
    (hL : Logged v) : GoodB (v.traverseField D ctx) := by
  unfold ASTVisitor.traverseField
  simp only []
  have hL1 := logged_quiet hL (quiet_shouldExtract v D.toDeclBase)
  split
  · exact goodB_ok hL1
  · split
    · exact goodB_ok hL1
    · rename_i id hid
      split
      · rename_i e hX
        exact goodB_error (getOrCreateInfo_error hX)
      · rename_i w i c hX
        have hB := buildField_good _ id c D ctx (preBuild_quiet (getOrCreateInfo_preBuild hL1 hX)
          (quiet_modifyInfo w id (fun i => { i with Access := D.getAccessUnsafe })
            (fun _ => rfl) (fun _ => rfl)))
        split
        · rename_i e hY
          exact goodB_of_good hB hY
        · rename_i u hY
          exact goodB_ok (hB.2 u hY)

theorem traverseFriend_good (v : ASTVisitor) (D : FriendDecl) (hL : Logged v) :
    GoodB (v.traverseFriend D) := by
  unfold ASTVisitor.traverseFriend
  have hB := buildFriend_good v D hL
  split
  · rename_i e hY
    exact goodB_of_good hB hY
  · rename_i u hY
    exact goodB_ok (hB.2 u hY)

theorem traverseRecord_good (v : ASTVisitor) (D : CXXRecordDecl) (CTD : Option TemplateDecl)
    (ctx : DeclContext) (traverseMembers : ASTVisitor → Except Fault (Bool × ASTVisitor))
    (hM : ∀ u, Logged u → GoodB (traverseMembers u)) (hL : Logged v) :
    GoodB (v.traverseRecord D CTD ctx traverseMembers) := by
  unfold ASTVisitor.traverseRecord
  simp only []
  have hL1 := logged_quiet hL (quiet_shouldExtract v D.toDeclBase)
  split
  · exact goodB_ok hL1
  · split
    · exact goodB_ok hL1
    · rename_i id hid
      split
      · rename_i e hX
        exact goodB_error (getOrCreateInfo_error hX)
      · rename_i w i c hX
        have pre := getOrCreateInfo_preBuild hL1 hX
        have hQ := parseTemplateHead_quiet w id D.getAccessUnsafe CTD D.specialization
          D.partialParameters
        split
        · rename_i e hZ
          exact goodB_error (hQ.1 e hZ)
        · rename_i x hZ
          have hB := buildRecord_good x id c D ctx (preBuild_quiet pre (hQ.2 x hZ))
          split
          · rename_i e hY
            exact goodB_of_good hB hY
          · rename_i u hY
            exact hM u (hB.2 u hY)

theorem traverseVar_good (v : ASTVisitor) (D : VarDecl) (VTD : Option TemplateDecl)
    (ctx : DeclContext) (hL : Logged v) : GoodB (v.traverseVar D VTD ctx) := by
  unfold ASTVisitor.traverseVar
  simp only []
  have hL1 := logged_quiet hL (quiet_shouldExtract v D.toDeclBase)
  split
  · exact goodB_ok hL1
  · split
    · exact goodB_ok hL1
    · rename_i id hid
      split
      · rename_i e hX
        exact goodB_error (getOrCreateInfo_error hX)
      · rename_i w i c hX
        have pre := getOrCreateInfo_preBuild hL1 hX
        have hQ := parseTemplateHead_quiet w id D.getAccessUnsafe VTD D.specialization
          D.partialParameters
        split
        · rename_i e hZ
          exact goodB_error (hQ.1 e hZ)
        · rename_i x hZ
          have hB := buildVariable_good x id c D ctx (preBuild_quiet pre (hQ.2 x hZ))
          split
          · rename_i e hY
            exact goodB_of_good hB hY
          · rename_i u hY
            exact goodB_ok (hB.2 u hY)

theorem traverseFunction_good (v : ASTVisitor) (D : FunctionDecl)
    (FTD : Option TemplateDecl) (ctx : DeclContext) (hL : Logged v) :
    GoodB (v.traverseFunction D FTD ctx) := by
  unfold ASTVisitor.traverseFunction
  simp only []
  have hL1 := logged_quiet hL (quiet_shouldExtract v D.toDeclBase)
  split
  · exact goodB_ok hL1
  · split
    · exact goodB_ok hL1
    · rename_i id hid
      split
      · rename_i e hX
        exact goodB_error (getOrCreateInfo_error hX)
      · rename_i w i c hX
        have pre := getOrCreateInfo_preBuild hL1 hX
        have hQ := parseFunctionTemplateHead_quiet w id D FTD
        split
        · rename_i e hZ
          exact goodB_error (hQ.1 e hZ)
        · rename_i x hZ
          have hB := buildFunction_good x id c D ctx (preBuild_quiet pre (hQ.2 x hZ))
          split
          · rename_i e hY
            exact goodB_of_good hB hY
          · rename_i u hY
            exact goodB_ok (hB.2 u hY)

theorem traverseTypedef_good (v : ASTVisitor) (D : TypedefNameDecl)
    (ATD : Option TemplateDecl) (ctx : DeclContext) (hL : Logged v) :
    GoodB (v.traverseTypedef D ATD ctx) := by
  unfold ASTVisitor.traverseTypedef
  simp only []
  have hL1 := logged_quiet hL (quiet_shouldExtract v D.toDeclBase)
  split
  · exact goodB_ok hL1
  · split
    · exact goodB_ok hL1
    · rename_i id hid
      split
      · rename_i e hX
        exact goodB_error (getOrCreateInfo_error hX)
      · rename_i w i c hX
        have pre := getOrCreateInfo_preBuild hL1 hX
        have hU : Quiet w (if D.isTypeAliasDecl = true then
            w.modifyInfo id (fun i => { i with IsUsing := true }) else w) := by
          split
          · exact quiet_modifyInfo _ _ _ (fun _ => rfl) (fun _ => rfl)
          · exact quiet_refl w
        have hQ := parseTemplateHead_quiet (if D.isTypeAliasDecl = true then
            w.modifyInfo id (fun i => { i with IsUsing := true }) else w)
          id D.getAccessUnsafe ATD none none
        split
        · rename_i e hZ
          exact goodB_error (hQ.1 e hZ)
        · rename_i x hZ
          have hB := buildTypedef_good x id c D ctx (preBuild_quiet (preBuild_quiet pre hU) (hQ.2 x hZ))
          split
          · rename_i e hY
            exact goodB_of_good hB hY
          · rename_i u hY
            exact goodB_ok (hB.2 u hY)

theorem traverseGood_decl (n : Nat) (ih : TraverseGood n) :
    ∀ (v : ASTVisitor) D TD, 2 * Decl.size D + 1 ≤ n + 1 →
      Logged v → GoodB (v.traverseDecl D TD) := by
  obtain ⟨ihD, ihC⟩ := ih
  intro v D TD hle hL
  cases D with
  | TranslationUnit decls =>
    rw [ASTVisitor.traverseDecl]
    simp only [Decl.size] at hle
    exact goodB_dropResult (ihC v decls (by omega) hL)
  | Namespace D ctx decls =>
    rw [ASTVisitor.traverseDecl.eq_def]
    simp only []
    simp only [Decl.size] at hle
    split
    · exact goodB_ok hL
    · split
      · exact goodB_dropResult (traverseNamespace_good v D ctx _
          (fun u hu => ihC u decls (by omega) hu) hL)
      · exact goodB_dropResult (ihC v decls (by omega) hL)
  | Enum D ctx =>
    rw [ASTVisitor.traverseDecl.eq_def]
    simp only []
    split
    · exact goodB_ok hL
    · split
      · exact goodB_dropResult (traverseEnum_good v D ctx hL)
      · exact goodB_ok hL
  | Field D ctx =>
    rw [ASTVisitor.traverseDecl.eq_def]
    simp only []
    split
    · exact goodB_ok hL
    · split
      · exact goodB_dropResult (traverseField_good v D ctx hL)
      · exact goodB_ok hL
  | Friend D =>
    rw [ASTVisitor.traverseDecl.eq_def]
    simp only []
    split
    · exact goodB_ok hL
    · split
      · exact goodB_dropResult (traverseFriend_good v D hL)
      · exact goodB_ok hL
  | ClassScopeFunctionSpecialization base MD =>
    rw [ASTVisitor.traverseDecl.eq_def]
    simp only []
    simp only [Decl.size] at hle
    split
    · exact goodB_ok hL
    · split
      · have hL1 := logged_quiet hL (quiet_shouldExtract v base)
        split
        · exact goodB_ok hL1
        · exact goodB_dropResult (ihD _ MD none (by omega) hL1)
      · exact goodB_ok hL
  | CXXRecord D ctx decls =>
    rw [ASTVisitor.traverseDecl]
    simp only [Decl.size] at hle
    split
    · exact goodB_ok hL
    · exact goodB_dropResult (traverseRecord_good v D _ ctx _
        (fun u hu => ihC u decls (by omega) hu) hL)
  | Var D ctx =>
    rw [ASTVisitor.traverseDecl]
    split
    · exact goodB_ok hL
    · exact goodB_dropResult (traverseVar_good v D _ ctx hL)
  | Function D ctx =>
    rw [ASTVisitor.traverseDecl]
    split
    · exact goodB_ok hL
    · exact goodB_dropResult (traverseFunction_good v D _ ctx hL)
  | TypedefName D ctx =>
    rw [ASTVisitor.traverseDecl]
    split
    · exact goodB_ok hL
    · exact goodB_dropResult (traverseTypedef_good v D _ ctx hL)
  | RedeclarableTemplate base T templated =>
    rw [ASTVisitor.traverseDecl]
    simp only [Decl.size] at hle
    split
    · exact goodB_ok hL
    · exact goodB_dropResult (ihD v templated (some T) (by omega) hL)
  | Other base decls =>
    cases decls with
    | none =>
      rw [ASTVisitor.traverseDecl]
      split <;> exact goodB_ok hL
    | some decls =>
      rw [ASTVisitor.traverseDecl]
      simp only [Decl.size] at hle
      split
      · exact goodB_ok hL
      · exact goodB_dropResult (ihC v decls (by omega) hL)

theorem traverseGood_context (n : Nat) (ih : TraverseGood n) :
    ∀ (v : ASTVisitor) decls, 2 * Decl.listSize decls ≤ n + 1 →
      Logged v → GoodB (v.traverseContext decls) := by
  obtain ⟨ihD, ihC⟩ := ih
  intro v decls hle hL
  cases decls with
  | nil => rw [ASTVisitor.traverseContext]; exact goodB_ok hL
  | cons C rest =>
    rw [ASTVisitor.traverseContext]
    simp only [Decl.listSize] at hle
    have hB := ihD v C none (by omega) hL
    split
    · rename_i e hX
      exact goodB_error (hB.1 e hX)
    · rename_i r w hX
      have hw := hB.2 r w hX
      split
      · exact goodB_ok hw
      · exact ihC w rest (by omega) hw

/-- The traversal keeps the bookkeeping invariant and never ends with the
fault of the chain assertion, whatever the input. -/
theorem traverseGood_all : ∀ n, TraverseGood n := by
  intro n
  induction n with
  | zero =>
    refine ⟨?_, ?_⟩
    · intro v D TD h; omega
    · intro v decls h hL
      cases decls with
      | nil => rw [ASTVisitor.traverseContext]; exact goodB_ok hL
      | cons C rest => simp only [Decl.listSize] at h; omega
  | succ n ih => exact ⟨traverseGood_decl n ih, traverseGood_context n ih⟩

theorem traverseDecl_good (v : ASTVisitor) (D : Decl) (TD : Option TemplateDecl)
    (hL : Logged v) : GoodB (v.traverseDecl D TD) :=
  (traverseGood_all _).1 v D TD (Nat.le_refl _) hL

theorem logged_init (config : ConfigImpl) : Logged (ASTVisitor.init config) := by
  refine ⟨List.nodup_nil, ?_, ?_⟩
  · intro x hx; cases hx
  · intro x hx; cases hx

/-! ## The build steps and the first build -/

theorem fill_seven_ne_zero : SymbolID.fill 7 ≠ SymbolID.zero := by decide

/-- The walk of `exampleUnit` by a fresh visitor returns; it stores the
enumeration and the global namespace, and logs one first build, that of the
enumeration. -/
theorem exampleUnit_walk :
    ∃ b w, (ASTVisitor.init {}).traverseDecl exampleUnit none = Except.ok (b, w) ∧
      w.firstBuilds = [SymbolID.fill 7] ∧
      w.info_.map (fun i => (i.id, i.Kind)) =
        [(SymbolID.fill 7, InfoKind.Enum), (SymbolID.zero, InfoKind.Namespace)] := by
  simp [exampleUnit, exampleEnum, ASTVisitor.init, ASTVisitor.traverseDecl,
    ASTVisitor.traverseContext, ASTVisitor.dropResult, ASTVisitor.traverseEnum,
    ASTVisitor.shouldExtract, ASTVisitor.inExtractedFile, ASTVisitor.getOrCreateInfo,
    ASTVisitor.findInfo, InfoSet.find, InfoSet.emplace, InfoSet.update, Info.create,
    ASTVisitor.clearImplicit, ASTVisitor.currentMode, ASTVisitor.modifyInfo,
    ASTVisitor.buildEnum, ASTVisitor.buildWith, ASTVisitor.logFirstBuild,
    ASTVisitor.firstBuildEnum, ASTVisitor.getParentNamespaces,
    ASTVisitor.getParentNamespacesLoop, ASTVisitor.emplaceChild, ASTVisitor.augmentEnum,
    ASTVisitor.parseRawComment, ASTVisitor.addSourceLocation, ASTVisitor.parseEnumerators,
    fill_seven_ne_zero]

/-- C10, counterexample: a fresh visitor walks a translation unit that holds
one enumeration. The walk returns, and the store then holds the entity of the
global namespace, which `getParentNamespaces` created in its
`TranslationUnit` case without a build step: the first-build step ran zero
times for it, not exactly once. -/
theorem first_build_skips_global_namespace :
    ∃ b w, (ASTVisitor.init {}).traverseDecl exampleUnit none = Except.ok (b, w) ∧
      ∃ e ∈ w.info_, e.id = SymbolID.zero ∧ e.Kind = InfoKind.Namespace ∧
        w.firstBuilds.count e.id = 0 := by
  obtain ⟨b, w, hw, hfb, hst⟩ := exampleUnit_walk
  refine ⟨b, w, hw, ?_⟩
  have hm : (SymbolID.zero, InfoKind.Namespace) ∈ w.info_.map (fun i => (i.id, i.Kind)) := by
    rw [hst]; simp
  obtain ⟨e, he, hek⟩ := List.mem_map.1 hm
  simp only [Prod.mk.injEq] at hek
  refine ⟨e, he, hek.1, hek.2, ?_⟩
  rw [hfb, hek.1]
  decide

/-- C10 (amended): each of the eight per-kind build steps, called with
`created = false`, returns and leaves the name, the type members and the
parent-namespace chain of every stored entity as they were. A walk by a
fresh visitor never ends with the failure of the assertion at entry to
`getParentNamespaces` that the chain is still empty (nor with a reference to
an entity that is not stored), and when it returns
the first-build step has run at most once for each identity, and exactly
once for every stored entity other than the global namespace
(`SymbolID::zero`), which `getParentNamespaces` creates without a build
step. -/
theorem build_steps_frame_and_first_build_once (config : ConfigImpl) (D : Decl) :
    (∀ (v : ASTVisitor) (I : SymbolID) (ctx : DeclContext),
      (∀ N, KeepsFirstBuilt v (v.buildNamespace I false N ctx)) ∧
      (∀ R, KeepsFirstBuilt v (v.buildRecord I false R ctx)) ∧
      (∀ E, KeepsFirstBuilt v (v.buildEnum I false E ctx)) ∧
      (∀ T, KeepsFirstBuilt v (v.buildTypedef I false T ctx)) ∧
      (∀ V, KeepsFirstBuilt v (v.buildVariable I false V ctx)) ∧
      (∀ F, KeepsFirstBuilt v (v.buildField I false F ctx)) ∧
      (∀ F, KeepsFirstBuilt v (v.buildFunction I false F ctx)) ∧
      (∀ S, KeepsFirstBuilt v (v.buildSpecialization I false S ctx))) ∧
    (ASTVisitor.init config).traverseDecl D none ≠ Except.error Fault.namespaceNotEmpty ∧
    (ASTVisitor.init config).traverseDecl D none ≠ Except.error Fault.danglingReference ∧
    ∀ b w, (ASTVisitor.init config).traverseDecl D none = Except.ok (b, w) →
      (∀ id, w.firstBuilds.count id ≤ 1) ∧
      (∀ e ∈ w.info_, e.id ≠ SymbolID.zero → w.firstBuilds.count e.id = 1) := by
  have hG := traverseDecl_good (ASTVisitor.init config) D none (logged_init config)
  refine ⟨?_, fun h => absurd (hG.1 _ h) (by decide), fun h => absurd (hG.1 _ h) (by decide),
    ?_⟩
  · intro v I ctx
    refine ⟨?_, ?_, ?_, ?_, ?_, ?_, ?_, ?_⟩
    · intro N
      rw [ASTVisitor.buildNamespace, buildWith_false]
      exact keepsFirstBuilt_modifyInfo v I _ (fun _ => rfl) (fun _ => rfl)
    · intro R
      rw [ASTVisitor.buildRecord, buildWith_false]
      exact keepsFirstBuilt_modifyInfo v I _ (fun i => (augmentRecord_keeps v R i).1)
        (fun i => (augmentRecord_keeps v R i).2)
    · intro E
      rw [ASTVisitor.buildEnum, buildWith_false]
      exact keepsFirstBuilt_modifyInfo v I _ (fun i => (augmentEnum_keeps v E i).1)
        (fun i => (augmentEnum_keeps v E i).2)
    · intro T
      rw [ASTVisitor.buildTypedef, buildWith_false]
      exact keepsFirstBuilt_modifyInfo v I _ (fun i => (augmentTypedef_keeps v T i).1)
        (fun i => (augmentTypedef_keeps v T i).2)
    · intro V
      rw [ASTVisitor.buildVariable, buildWith_false]
      exact keepsFirstBuilt_modifyInfo v I _ (fun i => (augmentVariable_keeps v V i).1)
        (fun i => (augmentVariable_keeps v V i).2)
    · intro F
      rw [ASTVisitor.buildField, buildWith_false]
      exact keepsFirstBuilt_modifyInfo v I _ (fun i => (augmentField_keeps v F i).1)
        (fun i => (augmentField_keeps v F i).2)
    · intro F
      rw [ASTVisitor.buildFunction, buildWith_false]
      exact keepsFirstBuilt_modifyInfo v I _ (fun i => (augmentFunction_keeps v F i).1)
        (fun i => (augmentFunction_keeps v F i).2)
    · intro S
      rw [ASTVisitor.buildSpecialization, buildWith_false]
      exact keepsFirstBuilt_modifyInfo v I _ (fun _ => rfl) (fun _ => rfl)
  · intro b w hw
    obtain ⟨hnd, -, hall⟩ := hG.2 b w hw
    refine ⟨fun id => List.nodup_iff_count_le_one.1 hnd id, ?_⟩
    intro e he hne
    rcases hall e.id (List.mem_map_of_mem Info.id he) with h | h
    · exact List.count_eq_one_of_mem hnd h
    · exact absurd h hne

/-- Witness for C10: the walk of a translation unit that holds one
enumeration returns, with one first build logged, that of the enumeration. -/
theorem build_steps_frame_and_first_build_once_witness :
    ∃ b w, (ASTVisitor.init {}).traverseDecl exampleUnit none = Except.ok (b, w) ∧
      w.firstBuilds = [SymbolID.fill 7] ∧
      (∀ id, w.firstBuilds.count id ≤ 1) ∧
      (∀ e ∈ w.info_, e.id ≠ SymbolID.zero → w.firstBuilds.count e.id = 1) :=
  let ⟨b, w, hw, hfb, _⟩ := exampleUnit_walk
  ⟨b, w, hw, hfb, (build_steps_frame_and_first_build_once {} exampleUnit).2.2.2 b w hw⟩


/-! ## The extraction mode is scoped -/

theorem extractionScope_mode {α : Type} {v w : ASTVisitor} {m : ExtractMode}
    {body : ASTVisitor → Except Fault (α × ASTVisitor)} {r : α}
    (h : v.extractionScope m body = Except.ok (r, w)) : w.mode = v.mode := by
  unfold ASTVisitor.extractionScope at h
  split at h
  · simp only [Except.ok.injEq, Prod.mk.injEq] at h
    rw [← h.2]
  · cases h

theorem buildTypedefUnderlying_mode {v w : ASTVisitor} {D : Decl} {id : SymbolID}
    {info : Option Info} (h : v.buildTypedefUnderlying D id info = Except.ok w) :
    w.mode = v.mode := by
  unfold ASTVisitor.buildTypedefUnderlying at h
  split at h
  · split at h
    · cases h
    · rename_i TI u hX
      have hu := readsOnly_state (buildTypeInfo_readsOnly _ _ _) hX
      subst hu
      split at h
      · split at h
        · simp only [Except.ok.injEq] at h
          rw [← h]
          rfl
        · simp only [Except.ok.injEq] at h
          rw [← h]
      · simp only [Except.ok.injEq] at h
        rw [← h]
  · simp only [Except.ok.injEq] at h
    rw [← h]

theorem getOrBuildInfo_mode {v w : ASTVisitor} {D : Decl} {r : Option Info}
    (h : v.getOrBuildInfo D = Except.ok (r, w)) : w.mode = v.mode := by
  unfold ASTVisitor.getOrBuildInfo at h
  simp only [] at h
  split at h
  · simp only [Except.ok.injEq, Prod.mk.injEq] at h
    rw [← h.2]
  · split at h
    · simp only [Except.ok.injEq, Prod.mk.injEq] at h
      rw [← h.2]
    · split at h
      · cases h
      · rename_i u hX
        have hu := buildTypedefUnderlying_mode hX
        split at h
        · simp only [Except.ok.injEq, Prod.mk.injEq] at h
          rw [← h.2]
          exact hu
        · rw [extractionScope_mode h]
          exact hu

/-- The walk `traverseDecl` leaves in a visitor that returns from
`getOrBuildInfo` ran in `Normal` mode, and `exampleDependencyVisitor` is back
in direct dependency mode. -/
theorem exampleDependencyVisitor_getOrBuildInfo :
    ∃ r w, exampleDependencyVisitor.getOrBuildInfo
        (Decl.Enum exampleEnum DeclContext.TranslationUnit) = Except.ok (r, w) ∧
      w.firstBuilds = [SymbolID.fill 7] := by
  simp [exampleDependencyVisitor, exampleEnum, ASTVisitor.getOrBuildInfo,
    ASTVisitor.extractSymbolIDDecl, Decl.base?, ASTVisitor.extractSymbolID,
    ASTVisitor.buildTypedefUnderlying, Decl.asTypedefName, ASTVisitor.extractionScope,
    ASTVisitor.traverseDecl,
    ASTVisitor.traverseContext, ASTVisitor.dropResult, ASTVisitor.traverseEnum,
    ASTVisitor.shouldExtract, ASTVisitor.inExtractedFile, ASTVisitor.getOrCreateInfo,
    ASTVisitor.findInfo, InfoSet.find, InfoSet.emplace, InfoSet.update, Info.create,
    ASTVisitor.clearImplicit, ASTVisitor.currentMode, ASTVisitor.modifyInfo,
    ASTVisitor.buildEnum, ASTVisitor.buildWith, ASTVisitor.logFirstBuild,
    ASTVisitor.firstBuildEnum, ASTVisitor.getParentNamespaces,
    ASTVisitor.getParentNamespacesLoop, ASTVisitor.emplaceChild, ASTVisitor.augmentEnum,
    ASTVisitor.parseRawComment, ASTVisitor.addSourceLocation, ASTVisitor.parseEnumerators,
    fill_seven_ne_zero]
  exact ⟨_, _, ⟨rfl, rfl⟩, rfl⟩

theorem exampleFunctionType_descriptor :
    ∃ r, ASTVisitor.buildTypeInfo {} exampleFunctionType ExtractMode.DirectDependency =
      Except.ok (r, {}) := by
  simp [exampleFunctionType, ASTVisitor.buildTypeInfo, ASTVisitor.buildTypeInfoLoop,
    ASTVisitor.buildTypeInfoTerminal, ASTVisitor.buildTypeInfoList,
    ASTVisitor.extractionScope, QualType.withFastQualifiers,
    assignInner, TypeInfo.assignInner, TypeInfo.isTerminal, TypeInfo.setIsPackExpansion,
    convertToQualifierKind]

/-- C11: whatever the type, the requested mode and the mode that is current
before the call, when `buildTypeInfo(type, m)` returns the current extraction
mode is the mode before the call (nested `buildTypeInfo` calls included: the
statement is about every type); the same holds for every return of
`getOrBuildInfo`. -/
theorem extraction_mode_restored (v : ASTVisitor) :
    (∀ qt m r w, v.buildTypeInfo qt m = Except.ok (r, w) →
      w.currentMode = v.currentMode) ∧
    (∀ D r w, v.getOrBuildInfo D = Except.ok (r, w) → w.currentMode = v.currentMode) := by
  refine ⟨?_, ?_⟩
  · intro qt m r w h
    rw [readsOnly_state (buildTypeInfo_readsOnly v qt m) h]
  · intro D r w h
    exact getOrBuildInfo_mode h

/-- Witness for C11: a visitor in `Normal` mode builds the descriptor of
`void (int)` in direct dependency mode, with a nested call for the parameter
in indirect dependency mode, and is in `Normal` mode after it; a visitor in
direct dependency mode extracts an enumeration on demand, which the walk does
in `Normal` mode, and is in direct dependency mode after it. -/
theorem extraction_mode_restored_witness :
    (∃ r w, ASTVisitor.buildTypeInfo {} exampleFunctionType ExtractMode.DirectDependency =
        Except.ok (r, w) ∧ w.currentMode = ExtractMode.Normal) ∧
    (∃ r w, exampleDependencyVisitor.getOrBuildInfo
        (Decl.Enum exampleEnum DeclContext.TranslationUnit) = Except.ok (r, w) ∧
      w.currentMode = ExtractMode.DirectDependency) :=
  ⟨exampleFunctionType_descriptor.elim fun r h =>
    ⟨r, {}, h, (extraction_mode_restored {}).1 _ _ r {} h⟩,
   exampleDependencyVisitor_getOrBuildInfo.elim fun r hr => hr.elim fun w h =>
    ⟨r, w, h.1, (extraction_mode_restored exampleDependencyVisitor).2 _ r w h.1⟩⟩

/-! ## Identity assignment -/

/-- C12: `extractSymbolID(D, id)` returns `false` exactly when the front-end
generates no USR for `D` with the type of every parameter replaced by its
signature parameter type (the decay of the parameters of a function), and
then `id` is as it was; otherwise it returns `true` and `id` is made of the
twenty bytes (160 bits) of the digest of that USR, so that two declarations
with the same USR after the decay get the same identity, whatever `id` held
before. -/
theorem extractSymbolID_hashes_the_usr (fe : UsrFrontEnd) (D : UsrDecl) (id : SymbolID) :
    ((ASTVisitor.extractSymbolIDInto fe D id).1 = false ↔
      fe.generateUSRForDecl
        { parameters := D.parameters.map (List.map fe.getSignatureParameterType),
          rest := D.rest } = none) ∧
    ((ASTVisitor.extractSymbolIDInto fe D id).1 = false →
      (ASTVisitor.extractSymbolIDInto fe D id).2.1 = id) ∧
    (∀ usr, fe.generateUSRForDecl
        { parameters := D.parameters.map (List.map fe.getSignatureParameterType),
          rest := D.rest } = some usr →
      (ASTVisitor.extractSymbolIDInto fe D id).1 = true ∧
      (ASTVisitor.extractSymbolIDInto fe D id).2.1.data = (fe.SHA1_hash usr).1 ∧
      (ASTVisitor.extractSymbolIDInto fe D id).2.1.data.length * 8 = 160) ∧
    (∀ (D' : UsrDecl) (id' : SymbolID) usr,
      fe.generateUSRForDecl
        { parameters := D.parameters.map (List.map fe.getSignatureParameterType),
          rest := D.rest } = some usr →
      fe.generateUSRForDecl
        { parameters := D'.parameters.map (List.map fe.getSignatureParameterType),
          rest := D'.rest } = some usr →
      (ASTVisitor.extractSymbolIDInto fe D id).2.1 =
        (ASTVisitor.extractSymbolIDInto fe D' id').2.1) := by
  have hval : ∀ (E : UsrDecl) (i : SymbolID),
      ASTVisitor.extractSymbolIDInto fe E i =
        match fe.generateUSRForDecl
          { parameters := E.parameters.map (List.map fe.getSignatureParameterType),
            rest := E.rest } with
        | none => (false, i,
            { parameters := E.parameters.map (List.map fe.getSignatureParameterType),
              rest := E.rest })
        | some usr => (true, ⟨(fe.SHA1_hash usr).1, (fe.SHA1_hash usr).2⟩,
            { parameters := E.parameters.map (List.map fe.getSignatureParameterType),
              rest := E.rest }) := by
    intro E i
    cases E with
    | mk ps rest => cases ps <;> rfl
  refine ⟨?_, ?_, ?_, ?_⟩
  · rw [hval]
    cases fe.generateUSRForDecl
      { parameters := D.parameters.map (List.map fe.getSignatureParameterType),
        rest := D.rest } <;> simp
  · rw [hval]
    cases fe.generateUSRForDecl
      { parameters := D.parameters.map (List.map fe.getSignatureParameterType),
        rest := D.rest } <;> simp
  · intro usr h
    rw [hval, h]
    refine ⟨rfl, rfl, ?_⟩
    show (fe.SHA1_hash usr).1.length * 8 = 160
    rw [(fe.SHA1_hash usr).2]
  · intro D' id' usr h h'
    rw [hval, hval, h, h']

/-- Witness for C12, with `exampleDecayFrontEnd`: a declaration without text
gets no identity and `id` keeps its value; the USR of `void f(const int)`
read without the decay is `f#const int`, and `extractSymbolID` gives it the
digest of `f#int`, the USR after the decay, which is the identity of
`void f(int)`. -/
theorem extractSymbolID_hashes_the_usr_witness :
    (ASTVisitor.extractSymbolIDInto exampleDecayFrontEnd {} (SymbolID.fill 3)).1 = false ∧
    (ASTVisitor.extractSymbolIDInto exampleDecayFrontEnd {} (SymbolID.fill 3)).2.1 =
      SymbolID.fill 3 ∧
    exampleDecayFrontEnd.generateUSRForDecl exampleConstParameterFunction =
      some "f#const int" ∧
    ((ASTVisitor.extractSymbolIDInto exampleDecayFrontEnd exampleConstParameterFunction
        (SymbolID.fill 3)).1 = true ∧
      (ASTVisitor.extractSymbolIDInto exampleDecayFrontEnd exampleConstParameterFunction
        (SymbolID.fill 3)).2.1.data = (exampleDecayFrontEnd.SHA1_hash "f#int").1 ∧
      (ASTVisitor.extractSymbolIDInto exampleDecayFrontEnd exampleConstParameterFunction
        (SymbolID.fill 3)).2.1.data.length * 8 = 160) ∧
    (ASTVisitor.extractSymbolIDInto exampleDecayFrontEnd exampleConstParameterFunction
        (SymbolID.fill 3)).2.1 =
      (ASTVisitor.extractSymbolIDInto exampleDecayFrontEnd exampleParameterFunction
        SymbolID.zero).2.1 :=
  ⟨((extractSymbolID_hashes_the_usr exampleDecayFrontEnd {} (SymbolID.fill 3)).1).2 rfl,
   (extractSymbolID_hashes_the_usr exampleDecayFrontEnd {} (SymbolID.fill 3)).2.1
     (((extractSymbolID_hashes_the_usr exampleDecayFrontEnd {} (SymbolID.fill 3)).1).2 rfl),
   by decide,
   (extractSymbolID_hashes_the_usr exampleDecayFrontEnd exampleConstParameterFunction
      (SymbolID.fill 3)).2.2.1 "f#int" (by decide),
   (extractSymbolID_hashes_the_usr exampleDecayFrontEnd exampleConstParameterFunction
      (SymbolID.fill 3)).2.2.2 exampleParameterFunction SymbolID.zero "f#int"
      (by decide) (by decide)⟩

/-! ## Identity failure does not stop the walk -/

theorem dropResult_true {r : Except Fault (Bool × ASTVisitor)} {b : Bool} {w : ASTVisitor}
    (h : ASTVisitor.dropResult r = Except.ok (b, w)) : b = true := by
  unfold ASTVisitor.dropResult at h
  split at h
  · cases h
  · simp only [Except.ok.injEq, Prod.mk.injEq] at h
    exact h.1.symm

theorem traverseDecl_true {v w : ASTVisitor} {D : Decl} {TD : Option TemplateDecl} {b : Bool}
    (h : v.traverseDecl D TD = Except.ok (b, w)) : b = true := by
  have key : ∀ r : Except Fault (Bool × ASTVisitor),
      ASTVisitor.dropResult r = Except.ok (b, w) → b = true := fun r hr => dropResult_true hr
  have key2 : ∀ u : ASTVisitor,
      (Except.ok (true, u) : Except Fault (Bool × ASTVisitor)) = Except.ok (b, w) →
        b = true := by
    intro u hu
    simp only [Except.ok.injEq, Prod.mk.injEq] at hu
    exact hu.1.symm
  cases D with
  | Other base decls =>
    cases decls <;>
    · rw [ASTVisitor.traverseDecl] at h
      split at h
      · exact key2 _ h
      · first
        | exact key _ h
        | exact key2 _ h
  | TranslationUnit decls =>
    rw [ASTVisitor.traverseDecl] at h
    exact key _ h
  | Namespace D ctx decls =>
    rw [ASTVisitor.traverseDecl.eq_def] at h
    simp only [] at h
    split at h
    · exact key2 _ h
    · split at h <;> exact key _ h
  | Enum D ctx =>
    rw [ASTVisitor.traverseDecl.eq_def] at h
    simp only [] at h
    split at h
    · exact key2 _ h
    · split at h
      · exact key _ h
      · exact key2 _ h
  | Field D ctx =>
    rw [ASTVisitor.traverseDecl.eq_def] at h
    simp only [] at h
    split at h
    · exact key2 _ h
    · split at h
      · exact key _ h
      · exact key2 _ h
  | Friend D =>
    rw [ASTVisitor.traverseDecl.eq_def] at h
    simp only [] at h
    split at h
    · exact key2 _ h
    · split at h
      · exact key _ h
      · exact key2 _ h
  | ClassScopeFunctionSpecialization base MD =>
    rw [ASTVisitor.traverseDecl.eq_def] at h
    simp only [] at h
    split at h
    · exact key2 _ h
    · split at h
      · split at h
        · exact key2 _ h
        · exact key _ h
      · exact key2 _ h
  | CXXRecord D ctx decls =>
    rw [ASTVisitor.traverseDecl] at h
    split at h
    · exact key2 _ h
    · exact key _ h
  | Var D ctx =>
    rw [ASTVisitor.traverseDecl] at h
    split at h
    · exact key2 _ h
    · exact key _ h
  | Function D ctx =>
    rw [ASTVisitor.traverseDecl] at h
    split at h
    · exact key2 _ h
    · exact key _ h
  | TypedefName D ctx =>
    rw [ASTVisitor.traverseDecl] at h
    split at h
    · exact key2 _ h
    · exact key _ h
  | RedeclarableTemplate base T templated =>
    rw [ASTVisitor.traverseDecl] at h
    split at h
    · exact key2 _ h
    · exact key _ h

theorem traverseContext_true : ∀ (decls : List Decl) (v w : ASTVisitor) (b : Bool),
    v.traverseContext decls = Except.ok (b, w) → b = true
  | [], v, w, b, h => by
    rw [ASTVisitor.traverseContext] at h
    simp only [Except.ok.injEq, Prod.mk.injEq] at h
    exact h.1.symm
  | C :: rest, v, w, b, h => by
    rw [ASTVisitor.traverseContext] at h
    split at h
    · cases h
    · rename_i r u hX
      have hr := traverseDecl_true hX
      subst hr
      simp only [Bool.not_true, Bool.false_eq_true, if_false] at h
      exact traverseContext_true rest u w b h

theorem shouldExtract_info (v : ASTVisitor) (D : DeclBase) :
    (v.shouldExtract D).2.info_ = v.info_ := by
  unfold ASTVisitor.shouldExtract ASTVisitor.inExtractedFile
  simp only []
  repeat' split
  all_goals rfl

theorem traverseNamespace_no_identity (v : ASTVisitor) (D : NamespaceDecl)
    (ctx : DeclContext) (members : ASTVisitor → Except Fault (Bool × ASTVisitor))
    (h : D.usrHash = none) :
    ∃ b, v.traverseNamespace D ctx members = Except.ok (b, (v.shouldExtract D.toDeclBase).2) := by
  unfold ASTVisitor.traverseNamespace
  simp only [h]
  repeat' split
  all_goals exact ⟨_, rfl⟩

theorem traverseEnum_no_identity (v : ASTVisitor) (D : EnumDecl) (ctx : DeclContext)
    (h : D.usrHash = none) :
    ∃ b, v.traverseEnum D ctx = Except.ok (b, (v.shouldExtract D.toDeclBase).2) := by
  unfold ASTVisitor.traverseEnum
  simp only [h]
  split <;> exact ⟨_, rfl⟩

theorem traverseField_no_identity (v : ASTVisitor) (D : FieldDecl) (ctx : DeclContext)
    (h : D.usrHash = none) :
    ∃ b, v.traverseField D ctx = Except.ok (b, (v.shouldExtract D.toDeclBase).2) := by
  unfold ASTVisitor.traverseField
  simp only [h]
  split <;> exact ⟨_, rfl⟩

theorem traverseRecord_no_identity (v : ASTVisitor) (D : CXXRecordDecl)
    (CTD : Option TemplateDecl) (ctx : DeclContext)
    (members : ASTVisitor → Except Fault (Bool × ASTVisitor)) (h : D.usrHash = none) :
    ∃ b, v.traverseRecord D CTD ctx members =
      Except.ok (b, (v.shouldExtract D.toDeclBase).2) := by
  unfold ASTVisitor.traverseRecord
  simp only [h]
  split <;> exact ⟨_, rfl⟩

theorem traverseVar_no_identity (v : ASTVisitor) (D : VarDecl) (VTD : Option TemplateDecl)
    (ctx : DeclContext) (h : D.usrHash = none) :
    ∃ b, v.traverseVar D VTD ctx = Except.ok (b, (v.shouldExtract D.toDeclBase).2) := by
  unfold ASTVisitor.traverseVar
  simp only [h]
  split <;> exact ⟨_, rfl⟩

theorem traverseFunction_no_identity (v : ASTVisitor) (D : FunctionDecl)
    (FTD : Option TemplateDecl) (ctx : DeclContext) (h : D.usrHash = none) :
    ∃ b, v.traverseFunction D FTD ctx = Except.ok (b, (v.shouldExtract D.toDeclBase).2) := by
  unfold ASTVisitor.traverseFunction
  simp only [h]
  split <;> exact ⟨_, rfl⟩

theorem traverseTypedef_no_identity (v : ASTVisitor) (D : TypedefNameDecl)
    (ATD : Option TemplateDecl) (ctx : DeclContext) (h : D.usrHash = none) :
    ∃ b, v.traverseTypedef D ATD ctx = Except.ok (b, (v.shouldExtract D.toDeclBase).2) := by
  unfold ASTVisitor.traverseTypedef
  simp only [h]
  split <;> exact ⟨_, rfl⟩

theorem traverseFriend_no_identity (v : ASTVisitor) (D : FriendDecl) (FD : FunctionDecl)
    (ctx : DeclContext) (ht : D.target = FriendTarget.Function FD ctx)
    (h : FD.usrHash = none) :
    v.traverseFriend D = Except.ok (true, (v.shouldExtract FD.toDeclBase).2) := by
  unfold ASTVisitor.traverseFriend ASTVisitor.buildFriend
  simp only [ht, h, ite_self]

theorem dropResult_of_ok {r : Except Fault (Bool × ASTVisitor)} {w : ASTVisitor}
    (h : ∃ b, r = Except.ok (b, w)) : ASTVisitor.dropResult r = Except.ok (true, w) := by
  obtain ⟨b, rfl⟩ := h
  rfl

theorem traverseDecl_identityFails : ∀ (D : Decl) (TD : Option TemplateDecl) (v : ASTVisitor),
    D.identityFails TD = true →
      ∃ w, v.traverseDecl D TD = Except.ok (true, w) ∧ w.info_ = v.info_
  | Decl.TranslationUnit decls, TD, v, h => by simp [Decl.identityFails] at h
  | Decl.Namespace D ctx decls, TD, v, h => by
    simp only [Decl.identityFails, Bool.and_eq_true, Option.isNone_iff_eq_none] at h
    rw [ASTVisitor.traverseDecl.eq_def]
    simp only [h.1]
    split
    · exact ⟨v, rfl, rfl⟩
    · exact ⟨_, dropResult_of_ok (traverseNamespace_no_identity v D ctx _ h.2),
        shouldExtract_info v _⟩
  | Decl.Enum D ctx, TD, v, h => by
    simp only [Decl.identityFails, Option.isNone_iff_eq_none] at h
    rw [ASTVisitor.traverseDecl.eq_def]
    simp only []
    split
    · exact ⟨v, rfl, rfl⟩
    · split
      · exact ⟨_, dropResult_of_ok (traverseEnum_no_identity v D ctx h),
          shouldExtract_info v _⟩
      · exact ⟨v, rfl, rfl⟩
  | Decl.Field D ctx, TD, v, h => by
    simp only [Decl.identityFails, Option.isNone_iff_eq_none] at h
    rw [ASTVisitor.traverseDecl.eq_def]
    simp only []
    split
    · exact ⟨v, rfl, rfl⟩
    · split
      · exact ⟨_, dropResult_of_ok (traverseField_no_identity v D ctx h),
          shouldExtract_info v _⟩
      · exact ⟨v, rfl, rfl⟩
  | Decl.Friend D, TD, v, h => by
    simp only [Decl.identityFails] at h
    rw [ASTVisitor.traverseDecl.eq_def]
    simp only []
    split
    · exact ⟨v, rfl, rfl⟩
    · split
      · split at h
        · rename_i FD ctx ht
          simp only [Option.isNone_iff_eq_none] at h
          rw [traverseFriend_no_identity v D FD ctx ht h]
          exact ⟨_, rfl, shouldExtract_info v _⟩
        · cases h
      · exact ⟨v, rfl, rfl⟩
  | Decl.ClassScopeFunctionSpecialization base MD, TD, v, h => by
    simp only [Decl.identityFails, Bool.and_eq_true, Option.isNone_iff_eq_none] at h
    rw [ASTVisitor.traverseDecl.eq_def]
    simp only [h.1]
    split
    · exact ⟨v, rfl, rfl⟩
    · split
      · exact ⟨_, rfl, shouldExtract_info v _⟩
      · obtain ⟨w, hw, hi⟩ := traverseDecl_identityFails MD none (v.shouldExtract base).2 h.2
        rw [hw]
        exact ⟨w, rfl, hi.trans (shouldExtract_info v _)⟩
  | Decl.CXXRecord D ctx decls, TD, v, h => by
    simp only [Decl.identityFails, Option.isNone_iff_eq_none] at h
    rw [ASTVisitor.traverseDecl]
    split
    · exact ⟨v, rfl, rfl⟩
    · exact ⟨_, dropResult_of_ok (traverseRecord_no_identity v D _ ctx _ h),
        shouldExtract_info v _⟩
  | Decl.Var D ctx, TD, v, h => by
    simp only [Decl.identityFails, Option.isNone_iff_eq_none] at h
    rw [ASTVisitor.traverseDecl]
    split
    · exact ⟨v, rfl, rfl⟩
    · exact ⟨_, dropResult_of_ok (traverseVar_no_identity v D _ ctx h),
        shouldExtract_info v _⟩
  | Decl.Function D ctx, TD, v, h => by
    simp only [Decl.identityFails, Option.isNone_iff_eq_none] at h
    rw [ASTVisitor.traverseDecl]
    split
    · exact ⟨v, rfl, rfl⟩
    · exact ⟨_, dropResult_of_ok (traverseFunction_no_identity v D _ ctx h),
        shouldExtract_info v _⟩
  | Decl.TypedefName D ctx, TD, v, h => by
    simp only [Decl.identityFails, Option.isNone_iff_eq_none] at h
    rw [ASTVisitor.traverseDecl]
    split
    · exact ⟨v, rfl, rfl⟩
    · exact ⟨_, dropResult_of_ok (traverseTypedef_no_identity v D _ ctx h),
        shouldExtract_info v _⟩
  | Decl.RedeclarableTemplate base T templated, TD, v, h => by
    simp only [Decl.identityFails] at h
    rw [ASTVisitor.traverseDecl]
    split
    · exact ⟨v, rfl, rfl⟩
    · obtain ⟨w, hw, hi⟩ := traverseDecl_identityFails templated (some T) v h
      rw [hw]
      exact ⟨w, rfl, hi⟩
  | Decl.Other base decls, TD, v, h => by simp [Decl.identityFails] at h

/-- The walk of the translation unit that holds `exampleUnnamedEnum` and
then `exampleEnum`. -/
theorem exampleSiblings_walk :
    ∃ w, (ASTVisitor.init {}).traverseContext
        [Decl.Enum exampleUnnamedEnum DeclContext.TranslationUnit,
         Decl.Enum exampleEnum DeclContext.TranslationUnit] = Except.ok (true, w) ∧
      w.info_.map (fun i => (i.id, i.Kind)) =
        [(SymbolID.fill 7, InfoKind.Enum), (SymbolID.zero, InfoKind.Namespace)] := by
  simp [exampleUnnamedEnum, exampleEnum, ASTVisitor.init, ASTVisitor.traverseDecl,
    ASTVisitor.traverseContext, ASTVisitor.dropResult, ASTVisitor.traverseEnum,
    ASTVisitor.shouldExtract, ASTVisitor.inExtractedFile, ASTVisitor.getOrCreateInfo,
    ASTVisitor.findInfo, InfoSet.find, InfoSet.emplace, InfoSet.update, Info.create,
    ASTVisitor.clearImplicit, ASTVisitor.currentMode, ASTVisitor.modifyInfo,
    ASTVisitor.buildEnum, ASTVisitor.buildWith, ASTVisitor.logFirstBuild,
    ASTVisitor.firstBuildEnum, ASTVisitor.getParentNamespaces,
    ASTVisitor.getParentNamespacesLoop, ASTVisitor.emplaceChild, ASTVisitor.augmentEnum,
    ASTVisitor.parseRawComment, ASTVisitor.addSourceLocation, ASTVisitor.parseEnumerators,
    fill_seven_ne_zero]

/-- C13: `traverseDecl` returns `true` whenever it returns, and so does
`traverseContext`, which therefore never stops early; when identity
assignment fails for a declaration, the call for it returns with the store as
it was (no entity is created), and `traverseContext` goes on with the later
siblings from the state that call left. -/
theorem identity_failure_does_not_stop_the_walk :
    (∀ (v w : ASTVisitor) D TD b, v.traverseDecl D TD = Except.ok (b, w) → b = true) ∧
    (∀ (v w : ASTVisitor) decls b, v.traverseContext decls = Except.ok (b, w) → b = true) ∧
    (∀ (v : ASTVisitor) D rest, Decl.identityFails none D = true →
      ∃ w, v.traverseDecl D none = Except.ok (true, w) ∧ w.info_ = v.info_ ∧
        v.traverseContext (D :: rest) = w.traverseContext rest) := by
  refine ⟨fun v w D TD b h => traverseDecl_true h,
    fun v w decls b h => traverseContext_true decls v w b h, ?_⟩
  intro v D rest h
  obtain ⟨w, hw, hi⟩ := traverseDecl_identityFails D none v h
  refine ⟨w, hw, hi, ?_⟩
  rw [ASTVisitor.traverseContext, hw]
  simp

/-- Witness for C13: a translation unit holds an enumeration without USR
and then `exampleEnum`; the walk of its members returns `true`, and the
entity of `exampleEnum` is stored, with the global namespace and nothing
else. -/
theorem identity_failure_does_not_stop_the_walk_witness :
    Decl.identityFails none (Decl.Enum exampleUnnamedEnum DeclContext.TranslationUnit) = true ∧
    (∃ w u, (ASTVisitor.init {}).traverseDecl
        (Decl.Enum exampleUnnamedEnum DeclContext.TranslationUnit) none = Except.ok (true, w) ∧
      w.info_ = [] ∧
      w.traverseContext [Decl.Enum exampleEnum DeclContext.TranslationUnit] =
        Except.ok (true, u) ∧
      u.info_.map (fun i => (i.id, i.Kind)) =
        [(SymbolID.fill 7, InfoKind.Enum), (SymbolID.zero, InfoKind.Namespace)]) :=
  ⟨rfl,
    (identity_failure_does_not_stop_the_walk.2.2 (ASTVisitor.init {})
      (Decl.Enum exampleUnnamedEnum DeclContext.TranslationUnit)
      [Decl.Enum exampleEnum DeclContext.TranslationUnit] rfl).elim fun w hw =>
    exampleSiblings_walk.elim fun u hu =>
      ⟨w, u, hw.1, hw.2.1, hw.2.2 ▸ hu.1, hu.2⟩⟩

/-! ## Extraction on demand and the policy for referenced declarations -/

/-- C14: when the policy for referenced declarations is `Never`,
`getOrBuildInfo(D)` returns with the state it started from, whatever the
extraction mode and the declaration, and its result is the entity stored
under the identity `extractSymbolID(D)`, or null when there is none. -/
theorem getOrBuildInfo_never_is_a_lookup (v : ASTVisitor) (D : Decl)
    (h : v.config_.extract.referencedDeclarations = Policy.Never) :
    v.getOrBuildInfo D = Except.ok (v.findInfo (ASTVisitor.extractSymbolIDDecl D), v) := by
  unfold ASTVisitor.getOrBuildInfo
  simp [h]

/-- Witness for C14: `exampleNeverVisitor`, in direct dependency mode, is
asked for `exampleEnum`, which is stored, and for an enumeration that is
not. -/
theorem getOrBuildInfo_never_is_a_lookup_witness :
    exampleNeverVisitor.config_.extract.referencedDeclarations = Policy.Never ∧
    exampleNeverVisitor.getOrBuildInfo (Decl.Enum exampleEnum DeclContext.TranslationUnit) =
      Except.ok (some { id := SymbolID.fill 7, Kind := InfoKind.Enum, Name := "E" },
        exampleNeverVisitor) ∧
    exampleNeverVisitor.getOrBuildInfo
        (Decl.Enum { usrHash := some (SymbolID.fill 8) } DeclContext.TranslationUnit) =
      Except.ok (none, exampleNeverVisitor) :=
  ⟨rfl,
   (getOrBuildInfo_never_is_a_lookup exampleNeverVisitor
      (Decl.Enum exampleEnum DeclContext.TranslationUnit) rfl).trans
      (by simp [exampleNeverVisitor, exampleEnum, ASTVisitor.extractSymbolIDDecl, Decl.base?,
            ASTVisitor.extractSymbolID, ASTVisitor.findInfo, InfoSet.find]),
   (getOrBuildInfo_never_is_a_lookup exampleNeverVisitor
      (Decl.Enum { usrHash := some (SymbolID.fill 8) } DeclContext.TranslationUnit) rfl).trans
      (by simp [exampleNeverVisitor, ASTVisitor.extractSymbolIDDecl, Decl.base?,
            ASTVisitor.extractSymbolID, ASTVisitor.findInfo, InfoSet.find]
          decide)⟩


/-! ## The policies for anonymous namespaces and inaccessible members -/

theorem fill_eq_fill_iff (a b : Fin 256) : SymbolID.fill a = SymbolID.fill b ↔ a = b := by
  constructor
  · intro h
    have h2 := congrArg SymbolID.data h
    simp only [SymbolID.fill] at h2
    have h3 := congrArg (fun l => l.head?) h2
    simpa using h3
  · intro h; rw [h]

/-- C15, at the failing input: the policy for anonymous namespaces is
`Never` and the translation unit is
`namespace { struct S { void g(); }; } void S::g() { }`. The walk skips the
namespace, then visits the definition of `S::g`: it creates an entity for
`g`, and the construction of its parent chain creates one for `S` and one
for the anonymous namespace. -/
theorem anonymous_namespace_extracted_under_never :
    ∃ b w, (ASTVisitor.init { extract := { anonymousNamespaces := Policy.Never } }).traverseDecl
        exampleAnonymousUnit none = Except.ok (b, w) ∧
      w.info_.map (fun i => (i.id, i.Kind, i.isAnonymous)) =
        [(SymbolID.fill 3, InfoKind.Function, false), (SymbolID.fill 2, InfoKind.Record, false),
         (SymbolID.fill 1, InfoKind.Namespace, true),
         (SymbolID.zero, InfoKind.Namespace, false)] := by
  simp [exampleAnonymousUnit, exampleAnonymousNamespace, exampleHiddenRecord,
    exampleHiddenContext, exampleHiddenFunction,
    ASTVisitor.init, ASTVisitor.traverseDecl,
    ASTVisitor.traverseContext, ASTVisitor.dropResult, ASTVisitor.traverseNamespace,
    ASTVisitor.traverseFunction, ASTVisitor.parseFunctionTemplateHead,
    ASTVisitor.shouldExtract, ASTVisitor.inExtractedFile, ASTVisitor.getOrCreateInfo,
    ASTVisitor.findInfo, InfoSet.find, InfoSet.emplace, InfoSet.update, Info.create,
    ASTVisitor.clearImplicit, ASTVisitor.currentMode, ASTVisitor.modifyInfo,
    ASTVisitor.buildFunction, ASTVisitor.buildRecord, ASTVisitor.buildNamespace,
    ASTVisitor.buildWith, ASTVisitor.logFirstBuild,
    ASTVisitor.firstBuildFunction, ASTVisitor.firstBuildRecord, ASTVisitor.firstBuildNamespace,
    ASTVisitor.buildParams, ASTVisitor.buildBases, ASTVisitor.augmentFunction,
    ASTVisitor.augmentRecord,
    ASTVisitor.getParentNamespaces, ASTVisitor.extractSymbolID,
    ASTVisitor.getParentNamespacesLoop, ASTVisitor.emplaceChild,
    ASTVisitor.parseRawComment, ASTVisitor.addSourceLocation,
    ASTVisitor.buildTypeInfo, ASTVisitor.buildTypeInfoLoop,
    ASTVisitor.buildTypeInfoTerminal, ASTVisitor.extractionScope,
    assignInner, TypeInfo.assignInner, TypeInfo.isTerminal, TypeInfo.setIsPackExpansion,
    convertToQualifierKind,
    SymbolID.zero, fill_eq_fill_iff]

/-- C16, at the failing input: the policy for inaccessible members is
`Never` and the translation unit is `class C { int x; };`. The walk creates
an entity for the private field `x`. -/
theorem private_member_extracted_under_never :
    ∃ b w, (ASTVisitor.init { extract := { inaccessibleMembers := Policy.Never } }).traverseDecl
        examplePrivateUnit none = Except.ok (b, w) ∧
      w.info_.map (fun i => (i.id, i.Kind, i.Access)) =
        [(SymbolID.fill 2, InfoKind.Record, AccessKind.None),
         (SymbolID.zero, InfoKind.Namespace, AccessKind.None),
         (SymbolID.fill 3, InfoKind.Field, AccessKind.Private)] := by
  simp [examplePrivateUnit, examplePrivateRecord, examplePrivateField,
    ASTVisitor.init, ASTVisitor.traverseDecl,
    ASTVisitor.traverseContext, ASTVisitor.dropResult, ASTVisitor.traverseRecord,
    ASTVisitor.traverseField, ASTVisitor.parseTemplateHead,
    ASTVisitor.shouldExtract, ASTVisitor.inExtractedFile, ASTVisitor.getOrCreateInfo,
    ASTVisitor.findInfo, InfoSet.find, InfoSet.emplace, InfoSet.update, Info.create,
    ASTVisitor.clearImplicit, ASTVisitor.currentMode, ASTVisitor.modifyInfo,
    ASTVisitor.buildField, ASTVisitor.buildRecord,
    ASTVisitor.buildWith, ASTVisitor.logFirstBuild,
    ASTVisitor.firstBuildField, ASTVisitor.firstBuildRecord,
    ASTVisitor.buildBases, ASTVisitor.augmentField, ASTVisitor.augmentRecord,
    ASTVisitor.getParentNamespaces, ASTVisitor.extractSymbolID,
    ASTVisitor.getParentNamespacesLoop, ASTVisitor.emplaceChild,
    ASTVisitor.parseRawComment, ASTVisitor.addSourceLocation,
    ASTVisitor.buildTypeInfo, ASTVisitor.buildTypeInfoLoop,
    ASTVisitor.buildTypeInfoTerminal, ASTVisitor.extractionScope,
    assignInner, TypeInfo.assignInner, TypeInfo.isTerminal, TypeInfo.setIsPackExpansion,
    convertToQualifierKind,
    SymbolID.zero, fill_eq_fill_iff]

/-- C18, at the failing input: the translation unit is
`template<class T> struct A { void f(); }; template<> void A<int>::f() { }`.
The walk stores the member `f` of the primary template, and the
Specialization entity of `A<int>` gains one pair for the specialized member,
whose `Primary` component is null. -/
theorem specialized_member_pair_has_null_primary :
    ∃ b w, (ASTVisitor.init {}).traverseDecl exampleSpecializationUnit none =
        Except.ok (b, w) ∧
      w.info_.map (fun i => (i.id, i.Kind, i.SpecializedMembers)) =
        [(SymbolID.fill 2, InfoKind.Record, []),
         (SymbolID.zero, InfoKind.Namespace, []),
         (SymbolID.fill 4, InfoKind.Function, []),
         (SymbolID.fill 5, InfoKind.Function, []),
         (SymbolID.fill 6, InfoKind.Specialization,
           [{ Primary := none, Specialized := some (SymbolID.fill 5) }])] := by
  simp [exampleSpecializationUnit, exampleTemplatedRecord, examplePrimaryMember,
    exampleInstantiation, exampleSpecializedMember, exampleTemplateName,
    ASTVisitor.init, ASTVisitor.traverseDecl,
    ASTVisitor.traverseContext, ASTVisitor.dropResult, ASTVisitor.traverseRecord,
    ASTVisitor.traverseFunction, ASTVisitor.parseTemplateHead, ASTVisitor.parseTemplateInfo,
    ASTVisitor.parseFunctionTemplateHead, ASTVisitor.parseTemplateParams,
    ASTVisitor.parseTemplateArgs, ASTVisitor.buildTemplateParams,
    ASTVisitor.buildTemplateParam, ASTVisitor.buildTemplateArgs, ASTVisitor.buildTemplateArg,
    ASTVisitor.findInfoDecl,
    ASTVisitor.shouldExtract, ASTVisitor.inExtractedFile, ASTVisitor.getOrCreateInfo,
    ASTVisitor.findInfo, InfoSet.find, InfoSet.emplace, InfoSet.update, Info.create,
    ASTVisitor.clearImplicit, ASTVisitor.currentMode, ASTVisitor.modifyInfo,
    ASTVisitor.buildFunction, ASTVisitor.buildRecord, ASTVisitor.buildSpecialization,
    ASTVisitor.buildWith, ASTVisitor.logFirstBuild,
    ASTVisitor.firstBuildFunction, ASTVisitor.firstBuildRecord,
    ASTVisitor.firstBuildSpecialization,
    ASTVisitor.buildParams, ASTVisitor.buildBases, ASTVisitor.augmentFunction,
    ASTVisitor.augmentRecord,
    ASTVisitor.getParentNamespaces, ASTVisitor.extractSymbolID,
    ASTVisitor.getParentNamespacesLoop, ASTVisitor.emplaceChild,
    ASTVisitor.emplaceSpecializedMember,
    ASTVisitor.parseRawComment, ASTVisitor.addSourceLocation,
    ASTVisitor.buildTypeInfo, ASTVisitor.buildTypeInfoLoop,
    ASTVisitor.buildTypeInfoTerminal, ASTVisitor.extractionScope,
    assignInner, TypeInfo.assignInner, TypeInfo.isTerminal, TypeInfo.setIsPackExpansion,
    convertToQualifierKind,
    SymbolID.zero, fill_eq_fill_iff]

/-! ## The order of the parent chain -/

theorem InfoSet.find_update_same (s : InfoSet) (I : SymbolID) (f : Info → Info)
    (hid : ∀ i, (f i).id = i.id) :
    InfoSet.find (InfoSet.update s I f) I = (InfoSet.find s I).map f := by
  induction s with
  | nil => rfl
  | cons a s ih =>
    unfold InfoSet.update
    split
    · rename_i ha
      have ha2 : ((f a).id == I) = true := by rw [hid]; exact ha
      simp only [InfoSet.find, List.find?_cons, ha, ha2, Option.map_some']
    · rename_i ha
      have ha2 : (a.id == I) = false := by simpa using ha
      simp only [InfoSet.find, List.find?_cons, ha2] at ih ⊢
      exact ih

theorem InfoSet.find_update_ne (s : InfoSet) (I id : SymbolID) (f : Info → Info)
    (hid : ∀ i, (f i).id = i.id) (hne : id ≠ I) :
    InfoSet.find (InfoSet.update s I f) id = InfoSet.find s id := by
  induction s with
  | nil => rfl
  | cons a s ih =>
    unfold InfoSet.update
    split
    · rename_i ha
      have ha1 : a.id = I := by simpa using ha
      have ha2 : (a.id == id) = false := by
        simp only [beq_eq_false_iff_ne, ne_eq]
        intro h
        exact hne (h.symm.trans ha1)
      have ha3 : ((f a).id == id) = false := by rw [hid]; exact ha2
      simp only [InfoSet.find, List.find?_cons, ha2, ha3]
    · simp only [InfoSet.find, List.find?_cons] at ih ⊢
      split
      · rfl
      · exact ih

theorem mem_ids_iff (v : ASTVisitor) (id : SymbolID) : id ∈ v.ids ↔ v.findInfo id ≠ none := by
  constructor
  · intro h hn
    obtain ⟨j, hj, hje⟩ := List.mem_map.1 h
    exact (InfoSet.find_none_iff _ _).1 hn j hj hje
  · intro h
    cases hf : v.findInfo id with
    | none => exact absurd hf h
    | some e =>
      have := InfoSet.find_some_mem hf
      exact this.2 ▸ List.mem_map_of_mem Info.id this.1

theorem findInfo_id_of_mem {v : ASTVisitor} {id : SymbolID} (h : id ∈ v.ids) :
    (v.findInfo id).map Info.id = some id := by
  cases hf : v.findInfo id with
  | none => exact absurd hf ((mem_ids_iff v id).1 h)
  | some e =>
    have := InfoSet.find_some_mem hf
    simp only [Option.map_some', this.2]

theorem chainOf_modifyInfo_keep (v : ASTVisitor) (K id : SymbolID) (f : Info → Info)
    (hid : ∀ i, (f i).id = i.id) (hns : ∀ i, (f i).Namespace = i.Namespace) :
    (v.modifyInfo K f).chainOf id = v.chainOf id :=
  InfoSet.find_update_map Info.Namespace v.info_ K id f hid hns

theorem chainOf_modifyInfo_ne (v : ASTVisitor) (K id : SymbolID) (f : Info → Info)
    (hid : ∀ i, (f i).id = i.id) (hne : id ≠ K) :
    (v.modifyInfo K f).chainOf id = v.chainOf id := by
  unfold ASTVisitor.chainOf ASTVisitor.findInfo ASTVisitor.modifyInfo
  simp only [InfoSet.find_update_ne v.info_ K id f hid hne]

theorem chainOf_modifyInfo_same (v : ASTVisitor) (I : SymbolID) (f : Info → Info)
    (hid : ∀ i, (f i).id = i.id) :
    (v.modifyInfo I f).chainOf I = (v.findInfo I).map (fun i => (f i).Namespace) := by
  unfold ASTVisitor.chainOf ASTVisitor.findInfo ASTVisitor.modifyInfo
  show Option.map Info.Namespace (InfoSet.find (InfoSet.update v.info_ I f) I) = _
  rw [InfoSet.find_update_same v.info_ I f hid]
  cases InfoSet.find v.info_ I <;> rfl

theorem chainOf_modifyInfo_append (v : ASTVisitor) (I : SymbolID) (x : InfoPtr) :
    (v.modifyInfo I (fun i => { i with Namespace := i.Namespace ++ [x] })).chainOf I =
      (v.chainOf I).map (fun ns => ns ++ [x]) := by
  have h := chainOf_modifyInfo_same v I
    (fun i => { i with Namespace := i.Namespace ++ [x] }) (fun _ => rfl)
  rw [h]
  unfold ASTVisitor.chainOf
  cases v.findInfo I <;> rfl

theorem chainOf_of_chains (v : ASTVisitor) (id : SymbolID) :
    v.chainOf id = (v.chains.find? (fun k => k.1 == id)).map Prod.snd := by
  unfold ASTVisitor.chainOf ASTVisitor.findInfo ASTVisitor.chains InfoSet.find
  rw [List.find?_map]
  simp only [Option.map_map]
  rfl

theorem chainOf_quiet {v w : ASTVisitor} (h : Quiet v w) (id : SymbolID) :
    w.chainOf id = v.chainOf id := by
  rw [chainOf_of_chains, chainOf_of_chains, h.1]

theorem keepsChains_refl (v : ASTVisitor) (except : SymbolID → Prop) :
    KeepsChains v v except :=
  ⟨fun _ h => h, fun _ _ _ => rfl⟩

theorem keepsChains_of_quiet {v w : ASTVisitor} (h : Quiet v w) (except : SymbolID → Prop) :
    KeepsChains v w except :=
  ⟨fun id hid => by rw [quiet_ids h]; exact hid, fun id _ _ => chainOf_quiet h id⟩

theorem keepsChains_trans {u v w : ASTVisitor} {except : SymbolID → Prop}
    (h1 : KeepsChains u v except) (h2 : KeepsChains v w except) : KeepsChains u w except :=
  ⟨fun id hid => h2.1 id (h1.1 id hid),
   fun id hid hx => (h2.2 id (h1.1 id hid) hx).trans (h1.2 id hid hx)⟩

theorem keepsChains_weaken {v w : ASTVisitor} {p q : SymbolID → Prop}
    (h : KeepsChains v w p) (hpq : ∀ id, id ∈ v.ids → p id → q id) : KeepsChains v w q :=
  ⟨h.1, fun id hid hx => h.2 id hid (fun hp => hx (hpq id hid hp))⟩

theorem keepsChains_modifyInfo (v : ASTVisitor) (K : SymbolID) (f : Info → Info)
    (hid : ∀ i, (f i).id = i.id) : KeepsChains v (v.modifyInfo K f) (fun id => id = K) :=
  ⟨fun id h => by rw [ASTVisitor.ids_modifyInfo v K f hid]; exact h,
   fun id _ hne => chainOf_modifyInfo_ne v K id f hid hne⟩

/-- What `getOrCreateInfo` does to the identities and the parent lists. -/
theorem getOrCreateInfo_chains {v w : ASTVisitor} {K : InfoKind} {P : SymbolID} {e : Info}
    {c : Bool} (h : v.getOrCreateInfo K P = Except.ok (w, e, c)) :
    KeepsChains v w (fun _ => False) ∧ P ∈ w.ids ∧ (c = true → P ∉ v.ids) := by
  rcases ASTVisitor.getOrCreateInfo_cases v K P with ⟨h0, h1⟩ | ⟨i, h0, _, h1⟩ | ⟨i, _, _, h1⟩
  · rw [h1] at h
    simp only [Except.ok.injEq, Prod.mk.injEq] at h
    obtain ⟨hw, -, hc⟩ := h
    subst hw; subst hc
    have habs : P ∉ v.ids := fun hm => (mem_ids_iff v P).1 hm h0
    have hids : ASTVisitor.ids
        { v with info_ := v.info_ ++ [ASTVisitor.clearImplicit v.mode (Info.create K P)] } =
        v.ids ++ [P] := by
      simp [ASTVisitor.ids, ASTVisitor.clearImplicit, Info.create]
    refine ⟨⟨?_, ?_⟩, ?_, fun _ => habs⟩
    · intro id hid
      rw [hids]
      exact List.mem_append_left _ hid
    · intro id hid _
      have hne : v.findInfo id ≠ none := (mem_ids_iff v id).1 hid
      unfold ASTVisitor.chainOf ASTVisitor.findInfo InfoSet.find
      simp only [List.find?_append]
      cases hf : List.find? (fun i => i.id == id) v.info_ with
      | none => exact absurd hf hne
      | some e => rfl
    · rw [hids]; simp
  · rw [h1] at h
    simp only [Except.ok.injEq, Prod.mk.injEq] at h
    obtain ⟨hw, -, hc⟩ := h
    subst hw; subst hc
    have hq : Quiet v
        { v with info_ := InfoSet.update v.info_ P (ASTVisitor.clearImplicit v.mode) } :=
      quiet_modifyInfo v P _ (fun _ => rfl) (fun _ => rfl)
    refine ⟨keepsChains_of_quiet hq _, ?_, fun hc => by cases hc⟩
    rw [quiet_ids hq]
    exact (mem_ids_iff v P).2 (by rw [h0]; exact Option.some_ne_none i)
  · rw [h1] at h; cases h

theorem keepsChains_of_info {v w : ASTVisitor} (h : w.info_ = v.info_)
    (except : SymbolID → Prop) : KeepsChains v w except := by
  refine ⟨fun id hid => ?_, fun id _ _ => ?_⟩
  · unfold ASTVisitor.ids
    rw [h]
    exact hid
  · unfold ASTVisitor.chainOf ASTVisitor.findInfo
    rw [h]

theorem mem_ids_of_chainOf {v : ASTVisitor} {I : SymbolID} {ns : List InfoPtr}
    (h : v.chainOf I = some ns) : I ∈ v.ids := by
  refine (mem_ids_iff v I).2 ?_
  intro hn
  unfold ASTVisitor.chainOf at h
  rw [hn] at h
  cases h

/-- One turn of the loop of `getParentNamespaces` for a parent `P` that is
not transparent: `v1` is the state after `getOrCreateInfo`, `v2` after the
build step of the parent; the child is linked to the parent, the parent is
appended to the list of `I`, and the rest of the loop leads to `w`. -/
theorem chain_step (v v1 v2 w : ASTVisitor) (I P : SymbolID) (c : Bool)
    (link : Info → Info) (tail : List InfoPtr)
    (hG : KeepsChains v v1 (fun _ => False) ∧ P ∈ v1.ids ∧ (c = true → P ∉ v.ids))
    (hB : KeepsChains v1 v2 (fun id => c = true ∧ id = P))
    (hlink : ∀ i, (link i).id = i.id ∧ (link i).Namespace = i.Namespace)
    (hL : KeepsChains
        ((v2.modifyInfo P link).modifyInfo I (fun i =>
          { i with Namespace :=
              i.Namespace ++ [((v2.modifyInfo P link).findInfo P).map Info.id] })) w
        (fun id => id = I) ∧
      ∀ ns,
        ((v2.modifyInfo P link).modifyInfo I (fun i =>
          { i with Namespace :=
              i.Namespace ++ [((v2.modifyInfo P link).findInfo P).map Info.id] })).chainOf I =
          some ns →
        w.chainOf I = some (ns ++ tail)) :
    KeepsChains v w (fun id => id = I) ∧
    ∀ ns, v.chainOf I = some ns → w.chainOf I = some (ns ++ some P :: tail) := by
  have hq3 : Quiet v2 (v2.modifyInfo P link) :=
    quiet_modifyInfo v2 P link (fun i => (hlink i).1) (fun i => (hlink i).2)
  have h34 := keepsChains_modifyInfo (v2.modifyInfo P link) I
    (fun i => { i with Namespace :=
      i.Namespace ++ [((v2.modifyInfo P link).findInfo P).map Info.id] }) (fun _ => rfl)
  have hnotP : ∀ id, id ∈ v.ids → ¬ (c = true ∧ id = P) := by
    intro id hid hc
    exact hG.2.2 hc.1 (hc.2 ▸ hid)
  have hP3 : P ∈ (v2.modifyInfo P link).ids := by
    rw [quiet_ids hq3]
    exact hB.1 P hG.2.1
  have mem2 : ∀ id, id ∈ v.ids → id ∈ v2.ids := fun id hid => hB.1 id (hG.1.1 id hid)
  have mem3 : ∀ id, id ∈ v.ids → id ∈ (v2.modifyInfo P link).ids := by
    intro id hid
    rw [quiet_ids hq3]
    exact mem2 id hid
  have ch2 : ∀ id, id ∈ v.ids → v2.chainOf id = v.chainOf id := by
    intro id hid
    rw [hB.2 id (hG.1.1 id hid) (hnotP id hid)]
    exact hG.1.2 id hid (fun hf => hf)
  have ch3 : ∀ id, id ∈ v.ids → (v2.modifyInfo P link).chainOf id = v.chainOf id := by
    intro id hid
    rw [chainOf_quiet hq3 id]
    exact ch2 id hid
  refine ⟨⟨?_, ?_⟩, ?_⟩
  · intro id hid
    exact hL.1.1 id (h34.1 id (mem3 id hid))
  · intro id hid hne
    rw [hL.1.2 id (h34.1 id (mem3 id hid)) hne, h34.2 id (mem3 id hid) hne]
    exact ch3 id hid
  · intro ns hns
    have hI := mem_ids_of_chainOf hns
    have h4 := chainOf_modifyInfo_append (v2.modifyInfo P link) I
      (((v2.modifyInfo P link).findInfo P).map Info.id)
    have h5 : ((v2.modifyInfo P link).modifyInfo I (fun i =>
        { i with Namespace :=
            i.Namespace ++ [((v2.modifyInfo P link).findInfo P).map Info.id] })).chainOf I =
        some (ns ++ [((v2.modifyInfo P link).findInfo P).map Info.id]) := by
      rw [h4, ch3 I hI, hns]
      rfl
    rw [hL.2 _ h5, findInfo_id_of_mem hP3, List.append_assoc]
    rfl

theorem buildWith_chain (v w : ASTVisitor) (I : SymbolID) (created : Bool)
    (augment : Info → Info) (firstBuild getParents : ASTVisitor → Except Fault ASTVisitor)
    (hid : ∀ i, (augment i).id = i.id) (hns : ∀ i, (augment i).Namespace = i.Namespace)
    (hfb : ∀ u, QuietStep u (firstBuild u))
    (hgp : ∀ u x, getParents u = Except.ok x → KeepsChains u x (fun id => id = I))
    (h : v.buildWith I created augment firstBuild getParents = Except.ok w) :
    KeepsChains v w (fun id => created = true ∧ id = I) := by
  have hq : Quiet v (v.modifyInfo I augment) := quiet_modifyInfo v I augment hid hns
  cases created with
  | false =>
    rw [buildWith_false] at h
    simp only [Except.ok.injEq] at h
    subst h
    exact keepsChains_of_quiet hq _
  | true =>
    unfold ASTVisitor.buildWith at h
    simp only [Bool.not_true, Bool.false_eq_true, if_false] at h
    split at h
    · cases h
    · rename_i u hX
      have h1 : KeepsChains v (v.modifyInfo I augment) (fun id => true = true ∧ id = I) :=
        keepsChains_of_quiet hq _
      have h2 : KeepsChains (v.modifyInfo I augment)
          ((v.modifyInfo I augment).logFirstBuild I) (fun id => true = true ∧ id = I) :=
        keepsChains_of_info rfl _
      have h3 : KeepsChains ((v.modifyInfo I augment).logFirstBuild I) u
          (fun id => true = true ∧ id = I) :=
        keepsChains_of_quiet ((hfb _).2 u hX) _
      have h4 : KeepsChains u w (fun id => true = true ∧ id = I) :=
        keepsChains_weaken (hgp u w h) (fun id _ hp => ⟨rfl, hp⟩)
      exact keepsChains_trans (keepsChains_trans (keepsChains_trans h1 h2) h3) h4

theorem parentsChain_loop (n : Nat) (ih : ParentsChain n) :
    ∀ (v w : ASTVisitor) I child ctx, 4 * DeclContext.size ctx + 1 ≤ n + 1 →
      v.getParentNamespacesLoop I child ctx = Except.ok w →
      KeepsChains v w (fun id => id = I) ∧
      ∀ ns, v.chainOf I = some ns → w.chainOf I = some (ns ++ DeclContext.parentIds ctx) := by
  obtain ⟨ihS, ihN, ihR, ihG, ihL⟩ := ih
  intro v w I child ctx hle h
  cases ctx with
  | TranslationUnit =>
    rw [ASTVisitor.getParentNamespacesLoop] at h
    simp only [] at h
    split at h
    · cases h
    · rename_i v1 i c hX
      simp only [Except.ok.injEq] at h
      subst h
      refine chain_step v v1 v1 _ I SymbolID.zero c _ [] (getOrCreateInfo_chains hX)
        (keepsChains_refl v1 _) (fun i => emplaceChild_keeps _ _ i) ⟨keepsChains_refl _ _, ?_⟩
      intro ns hns
      rw [hns, List.append_nil]
  | Namespace D p =>
    rw [ASTVisitor.getParentNamespacesLoop] at h
    simp only [DeclContext.size] at hle
    simp only [] at h
    split at h
    · cases h
    · rename_i v1 i c hX
      split at h
      · cases h
      · rename_i v2 hY
        exact chain_step v v1 v2 w I _ c _ _ (getOrCreateInfo_chains hX)
          (ihN v1 v2 _ c D p (by omega) hY) (fun i => emplaceChild_keeps _ _ i)
          (ihL _ w I _ p (by omega) h)
  | ClassTemplateSpecialization D p =>
    rw [ASTVisitor.getParentNamespacesLoop] at h
    simp only [DeclContext.size] at hle
    simp only [] at h
    split at h
    · split at h
      · cases h
      · rename_i v1 i c hX
        split at h
        · cases h
        · rename_i v2 hY
          exact chain_step v v1 v2 w I _ c _ _ (getOrCreateInfo_chains hX)
            (ihS v1 v2 _ c D p (by omega) hY) (fun i => emplaceSpecializedMember_keeps _ i)
            (ihL _ w I _ p (by omega) h)
    · split at h
      · cases h
      · rename_i v1 i c hX
        split at h
        · cases h
        · rename_i v2 hY
          exact chain_step v v1 v2 w I _ c _ _ (getOrCreateInfo_chains hX)
            (ihR v1 v2 _ c D p (by omega) hY) (fun i => emplaceChild_keeps _ _ i)
            (ihL _ w I _ p (by omega) h)
  | ClassTemplatePartialSpecialization D p =>
    rw [ASTVisitor.getParentNamespacesLoop] at h
    simp only [DeclContext.size] at hle
    simp only [] at h
    split at h
    · cases h
    · split at h
      · cases h
      · rename_i v1 i c hX
        split at h
        · cases h
        · rename_i v2 hY
          exact chain_step v v1 v2 w I _ c _ _ (getOrCreateInfo_chains hX)
            (ihR v1 v2 _ c D p (by omega) hY) (fun i => emplaceChild_keeps _ _ i)
            (ihL _ w I _ p (by omega) h)
  | CXXRecord D p =>
    rw [ASTVisitor.getParentNamespacesLoop] at h
    simp only [DeclContext.size] at hle
    simp only [] at h
    split at h
    · cases h
    · rename_i v1 i c hX
      split at h
      · cases h
      · rename_i v2 hY
        exact chain_step v v1 v2 w I _ c _ _ (getOrCreateInfo_chains hX)
          (ihR v1 v2 _ c D p (by omega) hY) (fun i => emplaceChild_keeps _ _ i)
          (ihL _ w I _ p (by omega) h)
  | Other p =>
    rw [ASTVisitor.getParentNamespacesLoop] at h
    simp only [DeclContext.size] at hle
    exact ihL v w I child p (by omega) h

theorem parentsChain_getParentNamespaces (n : Nat) (ih : ParentsChain n) :
    ∀ (v w : ASTVisitor) I ctx, 4 * DeclContext.size ctx + 2 ≤ n + 1 →
      v.getParentNamespaces I ctx = Except.ok w →
      KeepsChains v w (fun id => id = I) ∧
      w.chainOf I = some (DeclContext.parentIds ctx) := by
  intro v w I ctx hle h
  rw [ASTVisitor.getParentNamespaces] at h
  split at h
  · cases h
  · rename_i i hi
    split at h
    · cases h
    · rename_i hemp
      have hns : i.Namespace = [] := by
        cases hn : i.Namespace with
        | nil => rfl
        | cons a l => simp [hn] at hemp
      have hL := ih.2.2.2.2 v w I I ctx (by omega) h
      refine ⟨hL.1, ?_⟩
      have hc : v.chainOf I = some [] := by
        unfold ASTVisitor.chainOf
        rw [hi]
        simp only [Option.map_some', hns]
      simpa using hL.2 [] hc

theorem parentsChain_buildSpecialization (n : Nat) (ih : ParentsChain n) :
    ∀ (v w : ASTVisitor) P created D ctx, 4 * DeclContext.size ctx + 3 ≤ n + 1 →
      v.buildSpecialization P created D ctx = Except.ok w →
      KeepsChains v w (fun id => created = true ∧ id = P) := by
  intro v w P created D ctx hle h
  rw [ASTVisitor.buildSpecialization] at h
  exact buildWith_chain v w P created _ _ _ (fun _ => rfl) (fun _ => rfl)
    (firstBuildSpecialization_quiet P D)
    (fun u x hx => (ih.2.2.2.1 u x P ctx (by omega) hx).1) h

theorem parentsChain_buildNamespace (n : Nat) (ih : ParentsChain n) :
    ∀ (v w : ASTVisitor) P created D ctx, 4 * DeclContext.size ctx + 3 ≤ n + 1 →
      v.buildNamespace P created D ctx = Except.ok w →
      KeepsChains v w (fun id => created = true ∧ id = P) := by
  intro v w P created D ctx hle h
  rw [ASTVisitor.buildNamespace] at h
  exact buildWith_chain v w P created _ _ _ (fun _ => rfl) (fun _ => rfl)
    (firstBuildNamespace_quiet P D)
    (fun u x hx => (ih.2.2.2.1 u x P ctx (by omega) hx).1) h

theorem parentsChain_buildRecord (n : Nat) (ih : ParentsChain n) :
    ∀ (v w : ASTVisitor) P created D ctx, 4 * DeclContext.size ctx + 3 ≤ n + 1 →
      v.buildRecord P created D ctx = Except.ok w →
      KeepsChains v w (fun id => created = true ∧ id = P) := by
  intro v w P created D ctx hle h
  rw [ASTVisitor.buildRecord] at h
  exact buildWith_chain v w P created _ _ _ (fun i => (augmentRecord_keeps v D i).1)
    (fun i => namespace_of_firstBuilt (augmentRecord_keeps v D i).2)
    (firstBuildRecord_quiet P D)
    (fun u x hx => (ih.2.2.2.1 u x P ctx (by omega) hx).1) h

/-- What the build steps of the parents and `getParentNamespaces` do to the
parent lists, whatever the input. -/
theorem parentsChain_all : ∀ n, ParentsChain n := by
  intro n
  induction n with
  | zero =>
    refine ⟨?_, ?_, ?_, ?_, ?_⟩
    · intro v w P created D ctx h; omega
    · intro v w P created D ctx h; omega
    · intro v w P created D ctx h; omega
    · intro v w I ctx h; omega
    · intro v w I child ctx h; omega
  | succ n ih =>
    exact ⟨parentsChain_buildSpecialization n ih, parentsChain_buildNamespace n ih,
      parentsChain_buildRecord n ih, parentsChain_getParentNamespaces n ih,
      parentsChain_loop n ih⟩

theorem parentIds_ends_with_zero : ∀ ctx : DeclContext,
    ∃ l, DeclContext.parentIds ctx = l ++ [some SymbolID.zero]
  | DeclContext.TranslationUnit => ⟨[], rfl⟩
  | DeclContext.Namespace D p => by
    obtain ⟨l, hl⟩ := parentIds_ends_with_zero p
    exact ⟨some (ASTVisitor.extractSymbolID D.toDeclBase) :: l, by
      rw [DeclContext.parentIds, hl]; rfl⟩
  | DeclContext.ClassTemplateSpecialization D p => by
    obtain ⟨l, hl⟩ := parentIds_ends_with_zero p
    exact ⟨some (ASTVisitor.extractSymbolID D.toDeclBase) :: l, by
      rw [DeclContext.parentIds, hl]; rfl⟩
  | DeclContext.ClassTemplatePartialSpecialization D p => by
    obtain ⟨l, hl⟩ := parentIds_ends_with_zero p
    exact ⟨some (ASTVisitor.extractSymbolID D.toDeclBase) :: l, by
      rw [DeclContext.parentIds, hl]; rfl⟩
  | DeclContext.CXXRecord D p => by
    obtain ⟨l, hl⟩ := parentIds_ends_with_zero p
    exact ⟨some (ASTVisitor.extractSymbolID D.toDeclBase) :: l, by
      rw [DeclContext.parentIds, hl]; rfl⟩
  | DeclContext.Other p => by
    obtain ⟨l, hl⟩ := parentIds_ends_with_zero p
    exact ⟨l, by simp only [DeclContext.parentIds, hl]⟩

/-- The walk of `namespace N { enum E { }; }` by a fresh visitor: the
parent list of `E`. -/
theorem exampleNestedUnit_walk :
    ∃ b w, (ASTVisitor.init {}).traverseDecl exampleNestedUnit none = Except.ok (b, w) ∧
      w.chainOf (SymbolID.fill 7) = some [some (SymbolID.fill 1), some SymbolID.zero] := by
  simp [exampleNestedUnit, exampleNamespace, exampleEnum, ASTVisitor.chainOf,
    ASTVisitor.init, ASTVisitor.traverseDecl,
    ASTVisitor.traverseContext, ASTVisitor.dropResult, ASTVisitor.traverseNamespace,
    ASTVisitor.traverseEnum,
    ASTVisitor.shouldExtract, ASTVisitor.inExtractedFile, ASTVisitor.getOrCreateInfo,
    ASTVisitor.findInfo, InfoSet.find, InfoSet.emplace, InfoSet.update, Info.create,
    ASTVisitor.clearImplicit, ASTVisitor.currentMode, ASTVisitor.modifyInfo,
    ASTVisitor.buildEnum, ASTVisitor.buildNamespace,
    ASTVisitor.buildWith, ASTVisitor.logFirstBuild,
    ASTVisitor.firstBuildEnum, ASTVisitor.firstBuildNamespace, ASTVisitor.augmentEnum,
    ASTVisitor.parseEnumerators,
    ASTVisitor.getParentNamespaces, ASTVisitor.extractSymbolID,
    ASTVisitor.getParentNamespacesLoop, ASTVisitor.emplaceChild,
    ASTVisitor.parseRawComment, ASTVisitor.addSourceLocation,
    SymbolID.zero, fill_eq_fill_iff]

/-- C17, counterexample: in the walk of `namespace N { enum E { }; }` the
parent list of `E` is `N`, then the global namespace: its first element is
the immediately enclosing namespace and its last element the root, not the
other way round. -/
theorem parent_list_is_not_outermost_first :
    ∃ b w, (ASTVisitor.init {}).traverseDecl exampleNestedUnit none = Except.ok (b, w) ∧
      ∃ ns, w.chainOf (SymbolID.fill 7) = some ns ∧
        ns.head? = some (some (SymbolID.fill 1)) ∧
        ns.head? ≠ some (some SymbolID.zero) ∧
        ns.getLast? = some (some SymbolID.zero) := by
  obtain ⟨b, w, hw, hc⟩ := exampleNestedUnit_walk
  refine ⟨b, w, hw, _, hc, rfl, ?_, rfl⟩
  decide

/-- The call of `getParentNamespaces` for the entity of `exampleEnum` just
created, in the namespace `N`. -/
theorem exampleCreatedVisitor_parents :
    ∃ w, exampleCreatedVisitor.getParentNamespaces (SymbolID.fill 7)
        (DeclContext.Namespace exampleNamespace DeclContext.TranslationUnit) = Except.ok w := by
  simp [exampleCreatedVisitor, exampleNamespace,
    ASTVisitor.getOrCreateInfo,
    ASTVisitor.findInfo, InfoSet.find, InfoSet.emplace, InfoSet.update, Info.create,
    ASTVisitor.clearImplicit, ASTVisitor.currentMode, ASTVisitor.modifyInfo,
    ASTVisitor.buildNamespace,
    ASTVisitor.buildWith, ASTVisitor.logFirstBuild,
    ASTVisitor.firstBuildNamespace,
    ASTVisitor.getParentNamespaces, ASTVisitor.extractSymbolID,
    ASTVisitor.getParentNamespacesLoop, ASTVisitor.emplaceChild,
    SymbolID.zero, fill_eq_fill_iff]

/-- C17 (amended): the parent list that `getParentNamespaces` builds for an
entity lists the non-transparent enclosing contexts innermost first: the
immediately enclosing context is the first element, each context is followed
by the one that encloses it, and the root namespace is the last element. -/
theorem getParentNamespaces_lists_innermost_first (v w : ASTVisitor) (I : SymbolID)
    (ctx : DeclContext) (h : v.getParentNamespaces I ctx = Except.ok w) :
    w.chainOf I = some (DeclContext.parentIds ctx) ∧
    (DeclContext.parentIds ctx).getLast? = some (some SymbolID.zero) := by
  refine ⟨((parentsChain_all _).2.2.2.1 v w I ctx (Nat.le_refl _) h).2, ?_⟩
  obtain ⟨l, hl⟩ := parentIds_ends_with_zero ctx
  rw [hl]
  simp

/-- Witness for C17: for the enumeration `E` of
`namespace N { enum E { }; }` the list is `N`, then the global namespace. -/
theorem getParentNamespaces_lists_innermost_first_witness :
    ∃ w, exampleCreatedVisitor.getParentNamespaces (SymbolID.fill 7)
        (DeclContext.Namespace exampleNamespace DeclContext.TranslationUnit) = Except.ok w ∧
      w.chainOf (SymbolID.fill 7) = some [some (SymbolID.fill 1), some SymbolID.zero] :=
  exampleCreatedVisitor_parents.elim fun w hw =>
    ⟨w, hw, (getParentNamespaces_lists_innermost_first exampleCreatedVisitor w
      (SymbolID.fill 7) _ hw).1⟩

/-! ## The kind of a stored entity -/

theorem getOrCreateInfo_kind {v w : ASTVisitor} {K : InfoKind} {P : SymbolID} {e : Info}
    {c : Bool} (h : v.getOrCreateInfo K P = Except.ok (w, e, c)) :
    (w.findInfo P).map Info.Kind = some K := by
  rcases ASTVisitor.getOrCreateInfo_cases v K P with ⟨h0, h1⟩ | ⟨i, h0, hk, h1⟩ | ⟨i, _, _, h1⟩
  · rw [h1] at h
    simp only [Except.ok.injEq, Prod.mk.injEq] at h
    obtain ⟨hw, -, -⟩ := h
    subst hw
    have h0' : List.find? (fun i => i.id == P) v.info_ = none := h0
    simp [ASTVisitor.findInfo, InfoSet.find, List.find?_append, h0', ASTVisitor.clearImplicit,
      Info.create]
  · rw [h1] at h
    simp only [Except.ok.injEq, Prod.mk.injEq] at h
    obtain ⟨hw, -, -⟩ := h
    subst hw
    have := InfoSet.find_update_map Info.Kind v.info_ P P (ASTVisitor.clearImplicit v.mode)
      (fun _ => rfl) (fun _ => rfl)
    unfold ASTVisitor.findInfo at h0 ⊢
    rw [this, h0]
    simp only [Option.map_some', hk]
  · rw [h1] at h; cases h

theorem emplaceChild_Kind (hs : Bool) (C : Option Info) (i : Info) :
    (ASTVisitor.emplaceChild hs C i).Kind = i.Kind := by
  unfold ASTVisitor.emplaceChild
  simp only []
  repeat' split
  all_goals rfl

theorem terminalId_of_isTerminal (I : TypeInfo) (h : I.isTerminal = true) :
    I.terminalId = I.id := by
  cases I <;> first | rfl | simp [TypeInfo.isTerminal] at h

theorem terminalId_setIsPackExpansion (b : Bool) (t : TypeInfo) :
    (t.setIsPackExpansion b).terminalId = t.terminalId := by
  cases t with
  | LValueReference k p => cases p <;> rfl
  | RValueReference k p => cases p <;> rfl
  | Pointer k q p => cases p <;> rfl
  | MemberPointer k q c p => cases p <;> rfl
  | Array k b p => cases p <;> rfl
  | Function k r ps q rq e => cases r <;> rfl
  | Builtin k q n => rfl
  | Tag k q p n i => rfl
  | Specialization k q p n i a => rfl

theorem terminalId_assignInner : ∀ (t I : TypeInfo), t.chainOpen = true →
    (t.assignInner (some I)).terminalId = I.terminalId
  | .LValueReference _ none, I, _ => by simp [TypeInfo.assignInner, TypeInfo.terminalId]
  | .LValueReference _ (some p), I, h => by
    simp only [TypeInfo.assignInner, TypeInfo.chainOpen, TypeInfo.terminalId] at h ⊢
    exact terminalId_assignInner p I h
  | .RValueReference _ none, I, _ => by simp [TypeInfo.assignInner, TypeInfo.terminalId]
  | .RValueReference _ (some p), I, h => by
    simp only [TypeInfo.assignInner, TypeInfo.chainOpen, TypeInfo.terminalId] at h ⊢
    exact terminalId_assignInner p I h
  | .Pointer _ _ none, I, _ => by simp [TypeInfo.assignInner, TypeInfo.terminalId]
  | .Pointer _ _ (some p), I, h => by
    simp only [TypeInfo.assignInner, TypeInfo.chainOpen, TypeInfo.terminalId] at h ⊢
    exact terminalId_assignInner p I h
  | .MemberPointer _ _ _ none, I, _ => by simp [TypeInfo.assignInner, TypeInfo.terminalId]
  | .MemberPointer _ _ _ (some p), I, h => by
    simp only [TypeInfo.assignInner, TypeInfo.chainOpen, TypeInfo.terminalId] at h ⊢
    exact terminalId_assignInner p I h
  | .Array _ _ none, I, _ => by simp [TypeInfo.assignInner, TypeInfo.terminalId]
  | .Array _ _ (some p), I, h => by
    simp only [TypeInfo.assignInner, TypeInfo.chainOpen, TypeInfo.terminalId] at h ⊢
    exact terminalId_assignInner p I h
  | .Function _ none _ _ _ _, I, _ => by simp [TypeInfo.assignInner, TypeInfo.terminalId]
  | .Function _ (some p) _ _ _ _, I, h => by
    simp only [TypeInfo.assignInner, TypeInfo.chainOpen, TypeInfo.terminalId] at h ⊢
    exact terminalId_assignInner p I h
  | .Builtin _ _ _, _, h => by simp [TypeInfo.chainOpen] at h
  | .Tag _ _ _ _ _, _, h => by simp [TypeInfo.chainOpen] at h
  | .Specialization _ _ _ _ _ _, _, h => by simp [TypeInfo.chainOpen] at h

theorem id_setParentType (x : Option TypeInfo) (t : TypeInfo) :
    (t.setParentType x).id = t.id := by
  cases t <;> rfl

theorem id_setTemplateArgs (a : List (Option TArg)) (t : TypeInfo) :
    (t.setTemplateArgs a).id = t.id := by
  cases t <;> rfl

theorem id_makeTypeInfo (T : TypeInfoTy) (II : Option String) (quals : Nat) :
    (ASTVisitor.makeTypeInfo T II quals).id = none := by
  cases T <;> rfl

/-- Linking a terminal node at the end of an open chain and flagging the
root: the terminal of the result is the node linked. -/
theorem terminalId_of_link (result : Option TypeInfo) (I : TypeInfo) (b : Bool)
    (h : chainOpenOpt result = true) (hI : I.isTerminal = true) :
    ∃ t, (assignInner (some I) result).map (TypeInfo.setIsPackExpansion b) = some t ∧
      t.terminalId = I.id := by
  cases result with
  | none =>
    refine ⟨I.setIsPackExpansion b, rfl, ?_⟩
    rw [terminalId_setIsPackExpansion]
    exact terminalId_of_isTerminal I hI
  | some r =>
    refine ⟨(r.assignInner (some I)).setIsPackExpansion b, rfl, ?_⟩
    rw [terminalId_setIsPackExpansion, terminalId_assignInner r I h]
    exact terminalId_of_isTerminal I hI

theorem buildTypeInfoTerminal_terminalId (v v' : ASTVisitor) (m : ExtractMode)
    (result : Option TypeInfo) (NNS : Option NestedNameSpecifier) (pack : Bool)
    (I : TypeInfo) (r : Option TypeInfo) (h : chainOpenOpt result = true)
    (hI : I.isTerminal = true)
    (hr : v.buildTypeInfoTerminal m result NNS pack I = Except.ok (r, v')) :
    ∃ t, r = some t ∧ t.terminalId = I.id := by
  rw [ASTVisitor.buildTypeInfoTerminal.eq_def] at hr
  simp only [hI, Bool.not_true, Bool.false_eq_true, if_false] at hr
  split at hr
  · simp only [Except.ok.injEq, Prod.mk.injEq] at hr
    obtain ⟨t, ht, hc⟩ := terminalId_of_link result I pack h hI
    exact ⟨t, by rw [← hr.1, ht], hc⟩
  · split at hr
    · split at hr
      · cases hr
      · rename_i P v1 _
        simp only [Except.ok.injEq, Prod.mk.injEq] at hr
        obtain ⟨t, ht, hc⟩ := terminalId_of_link result (I.setParentType P) pack h
          (by rw [isTerminal_setParentType]; exact hI)
        exact ⟨t, by rw [← hr.1, ht], by rw [hc, id_setParentType]⟩
    · simp only [Except.ok.injEq, Prod.mk.injEq] at hr
      obtain ⟨t, ht, hc⟩ := terminalId_of_link result I pack h hI
      exact ⟨t, by rw [← hr.1, ht], hc⟩

theorem stored_none (v : ASTVisitor) : v.Stored none := by
  intro i h; cases h

/-- The identity `makeTypeInfo(N, quals)` gives a node is null or the
identity of an entity the store holds. -/
theorem stored_makeTypeInfoDecl (v : ASTVisitor) (T : TypeInfoTy) (N : NamedDecl)
    (quals : Nat) : v.Stored (v.makeTypeInfoDecl T N quals).id := by
  have hfind : v.Stored (v.findInfoDecl N none) := by
    unfold ASTVisitor.findInfoDecl
    split
    · exact stored_none v
    · split
      · rename_i id _ e he
        intro i hi
        simp only [Option.some.injEq] at hi
        subst hi
        exact ⟨e, by rw [(InfoSet.find_some_mem he).2]; exact he, rfl⟩
      · exact stored_none v
  unfold ASTVisitor.makeTypeInfoDecl
  simp only []
  split
  · split
    · cases T
      · simpa [ASTVisitor.makeTypeInfo, TypeInfo.setId, TypeInfo.id] using stored_none v
      · simpa [ASTVisitor.makeTypeInfo, TypeInfo.setId, TypeInfo.id] using hfind
      · simpa [ASTVisitor.makeTypeInfo, TypeInfo.setId, TypeInfo.id] using hfind
    · rw [id_makeTypeInfo]; exact stored_none v
  · rw [id_makeTypeInfo]; exact stored_none v

theorem buildTypeInfoList_readsOnly (v : ASTVisitor) (PTs : List QualType) :
    ReadsOnly v (v.buildTypeInfoList PTs) :=
  (buildersReadOnly_all _).2.2.2.2.1 v PTs (Nat.le_refl _)

/-- Every result of the loop, started on an empty or open chain: the
identity of its terminal node is null or that of an entity the store held
at the call. -/
theorem buildTypeInfoLoop_stored (n : Nat) :
    ∀ (v v' : ASTVisitor) (m : ExtractMode) (result : Option TypeInfo)
      (NNS : Option NestedNameSpecifier) (pack : Bool) (qt : QualType) (r : Option TypeInfo),
      4 * (QualType.size qt + NestedNameSpecifier.optSize NNS) + 1 ≤ n →
      chainOpenOpt result = true →
      v.buildTypeInfoLoop m result NNS pack qt = Except.ok (r, v') →
      ∃ t, r = some t ∧ v.Stored t.terminalId := by
  have fin : ∀ (v v' : ASTVisitor) m result NNS pack I r, chainOpenOpt result = true →
      I.isTerminal = true → v.Stored I.id →
      v.buildTypeInfoTerminal m result NNS pack I = Except.ok (r, v') →
      ∃ t, r = some t ∧ v.Stored t.terminalId := by
    intro v v' m result NNS pack I r ho hI hs hr
    obtain ⟨t, ht, hid⟩ := buildTypeInfoTerminal_terminalId _ _ _ _ _ _ _ _ ho hI hr
    exact ⟨t, ht, by rw [hid]; exact hs⟩
  induction n with
  | zero => intro v v' m result NNS pack qt r h; omega
  | succ n ih =>
    intro v v' m result NNS pack qt r hle ho hr
    cases qt with
    | null => rw [ASTVisitor.buildTypeInfoLoop] at hr; cases hr
    | mk quals type =>
      cases type with
      | Paren T | MacroQualified T | Attributed T | Decayed T | Adjusted T | Using T
      | SubstTemplateTypeParm T | PackExpansion T =>
        rw [ASTVisitor.buildTypeInfoLoop] at hr
        refine ih _ _ _ _ _ _ _ _ ?_ ho hr
        simp only [QualType.size, ClangType.size, size_withFastQualifiers] at hle ⊢
        omega
      | Pointer T | LValueReference T | RValueReference T | IncompleteArray T =>
        rw [ASTVisitor.buildTypeInfoLoop] at hr
        refine ih _ _ _ _ _ _ _ _ ?_ ?_ hr
        · simp only [QualType.size, ClangType.size] at hle ⊢
          omega
        · exact chainOpenOpt_assignInner _ _ ho rfl
      | ConstantArray E S T =>
        rw [ASTVisitor.buildTypeInfoLoop] at hr
        refine ih _ _ _ _ _ _ _ _ ?_ ?_ hr
        · simp only [QualType.size, ClangType.size] at hle ⊢
          omega
        · exact chainOpenOpt_assignInner _ _ ho rfl
      | DependentSizedArray E T =>
        rw [ASTVisitor.buildTypeInfoLoop] at hr
        refine ih _ _ _ _ _ _ _ _ ?_ ?_ hr
        · simp only [QualType.size, ClangType.size] at hle ⊢
          omega
        · exact chainOpenOpt_assignInner _ _ ho rfl
      | MemberPointer C T =>
        rw [ASTVisitor.buildTypeInfoLoop] at hr
        simp only [QualType.size, ClangType.size] at hle
        split at hr
        · cases hr
        · rename_i parent v1 hX
          have hv := readsOnly_state (buildTypeInfo_readsOnly _ _ _) hX
          subst hv
          refine ih _ _ _ _ _ _ _ _ (by omega) ?_ hr
          exact chainOpenOpt_assignInner _ _ ho rfl
      | FunctionProto PTs rq mq es RT =>
        rw [ASTVisitor.buildTypeInfoLoop] at hr
        simp only [QualType.size, ClangType.size] at hle
        split at hr
        · cases hr
        · rename_i ps v1 hX
          have hv := readsOnly_state (buildTypeInfoList_readsOnly _ _) hX
          subst hv
          refine ih _ _ _ _ _ _ _ _ (by omega) ?_ hr
          exact chainOpenOpt_assignInner _ _ ho rfl
      | Auto D name =>
        rw [ASTVisitor.buildTypeInfoLoop] at hr
        simp only [QualType.size, ClangType.size] at hle
        split at hr
        · exact ih _ _ _ _ _ _ _ _ (by omega) ho hr
        · refine fin _ _ _ _ _ _ _ _ ho (by rfl) ?_ hr
          exact stored_none v
      | DeducedTemplateSpecialization D TD =>
        rw [ASTVisitor.buildTypeInfoLoop] at hr
        simp only [QualType.size, ClangType.size] at hle
        split at hr
        · exact ih _ _ _ _ _ _ _ _ (by omega) ho hr
        · exact fin _ _ _ _ _ _ _ _ ho
            (isTerminal_makeTypeInfoDecl _ _ _ _) (stored_makeTypeInfoDecl _ _ _ _) hr
      | Elaborated Q T =>
        rw [ASTVisitor.buildTypeInfoLoop] at hr
        simp only [QualType.size, ClangType.size] at hle
        split at hr
        · cases hr
        · refine ih _ _ _ _ _ _ _ _ ?_ ho hr
          simp only [size_withFastQualifiers]
          omega
      | DependentTemplateSpecialization II targs Q =>
        rw [ASTVisitor.buildTypeInfoLoop] at hr
        split at hr
        · cases hr
        · rename_i as v1 hX
          have hv := readsOnly_state (buildTemplateArgs_readsOnly _ _ _) hX
          subst hv
          simp only [] at hr
          split at hr
          · cases hr
          · refine fin _ _ _ _ _ _ _ _ ho ?_ ?_ hr
            · rw [isTerminal_setTemplateArgs]; exact isTerminal_makeTypeInfo _ _ _
            · rw [id_setTemplateArgs, id_makeTypeInfo]; exact stored_none _
      | DependentName II Q =>
        rw [ASTVisitor.buildTypeInfoLoop] at hr
        split at hr
        · cases hr
        · refine fin _ _ _ _ _ _ _ _ ho (isTerminal_makeTypeInfo _ _ _) ?_ hr
          rw [id_makeTypeInfo]; exact stored_none _
      | TemplateSpecialization nn TD al cd targs =>
        rw [ASTVisitor.buildTypeInfoLoop.eq_def] at hr
        simp only [] at hr
        split at hr
        · cases hr
        · split at hr
          · cases hr
          · rename_i as v1 hX
            have hv := readsOnly_state (buildTemplateArgs_readsOnly _ _ _) hX
            subst hv
            refine fin _ _ _ _ _ _ _ _ ho ?_ ?_ hr
            · rw [isTerminal_setTemplateArgs]; exact isTerminal_makeTypeInfoDecl _ _ _ _
            · rw [id_setTemplateArgs]; exact stored_makeTypeInfoDecl _ _ _ _
      | Record RD targs =>
        cases targs with
        | none =>
          rw [ASTVisitor.buildTypeInfoLoop] at hr
          exact fin _ _ _ _ _ _ _ _ ho
            (isTerminal_makeTypeInfoDecl _ _ _ _) (stored_makeTypeInfoDecl _ _ _ _) hr
        | some targs =>
          rw [ASTVisitor.buildTypeInfoLoop] at hr
          split at hr
          · cases hr
          · rename_i as v1 hX
            have hv := readsOnly_state (buildTemplateArgs_readsOnly _ _ _) hX
            subst hv
            refine fin _ _ _ _ _ _ _ _ ho ?_ ?_ hr
            · rw [isTerminal_setTemplateArgs]; exact isTerminal_makeTypeInfoDecl _ _ _ _
            · rw [id_setTemplateArgs]; exact stored_makeTypeInfoDecl _ _ _ _
      | InjectedClassName D | Enum D | Typedef D =>
        rw [ASTVisitor.buildTypeInfoLoop] at hr
        exact fin _ _ _ _ _ _ _ _ ho
          (isTerminal_makeTypeInfoDecl _ _ _ _) (stored_makeTypeInfoDecl _ _ _ _) hr
      | TemplateTypeParm D =>
        rw [ASTVisitor.buildTypeInfoLoop.eq_def] at hr
        simp only [] at hr
        refine fin _ _ _ _ _ _ _ _ ho (by rfl) ?_ hr
        exact stored_none v
      | SubstTemplateTypeParmPack II =>
        rw [ASTVisitor.buildTypeInfoLoop] at hr
        refine fin _ _ _ _ _ _ _ _ ho (isTerminal_makeTypeInfo _ _ _) ?_ hr
        rw [id_makeTypeInfo]; exact stored_none _
      | VariableArray elem name =>
        rw [ASTVisitor.buildTypeInfoLoop] at hr
        refine fin _ _ _ _ _ _ _ _ ho (by rfl) ?_ hr
        exact stored_none v
      | FunctionNoProto ret name =>
        rw [ASTVisitor.buildTypeInfoLoop] at hr
        refine fin _ _ _ _ _ _ _ _ ho (by rfl) ?_ hr
        exact stored_none v
      | Other name =>
        rw [ASTVisitor.buildTypeInfoLoop] at hr
        refine fin _ _ _ _ _ _ _ _ ho (by rfl) ?_ hr
        exact stored_none v

/-- The descriptor of the type `E` by a visitor whose store is empty. -/
theorem exampleEnumType_fresh :
    (ASTVisitor.init {}).buildTypeInfo exampleEnumType ExtractMode.DirectDependency =
      Except.ok (some (TypeInfo.Tag false ⟨false, false⟩ none "E" none),
        ASTVisitor.init {}) := by
  simp [ASTVisitor.buildTypeInfo, ASTVisitor.buildTypeInfoLoop,
    ASTVisitor.buildTypeInfoTerminal, ASTVisitor.extractionScope, exampleEnumType,
    exampleEnumName, ASTVisitor.makeTypeInfoDecl, ASTVisitor.makeTypeInfo,
    ASTVisitor.findInfoDecl, ASTVisitor.findInfo, InfoSet.find, ASTVisitor.init,
    TypeInfo.isTerminal, TypeInfo.setId, TypeInfo.id, assignInner,
    TypeInfo.setIsPackExpansion, convertToQualifierKind]

/-- The descriptor of the type `E` by a visitor whose store holds the
entity of `E`. -/
theorem exampleEnumType_created :
    exampleCreatedVisitor.buildTypeInfo exampleEnumType ExtractMode.DirectDependency =
      Except.ok (some (TypeInfo.Tag false ⟨false, false⟩ none "E" (some (SymbolID.fill 7))),
        exampleCreatedVisitor) := by
  simp [ASTVisitor.buildTypeInfo, ASTVisitor.buildTypeInfoLoop,
    ASTVisitor.buildTypeInfoTerminal, ASTVisitor.extractionScope, exampleEnumType,
    exampleEnumName, ASTVisitor.makeTypeInfoDecl, ASTVisitor.makeTypeInfo,
    ASTVisitor.findInfoDecl, ASTVisitor.findInfo, InfoSet.find, exampleCreatedVisitor,
    Info.create,
    TypeInfo.isTerminal, TypeInfo.setId, TypeInfo.id, assignInner,
    TypeInfo.setIsPackExpansion, convertToQualifierKind]

/-- C20, at the failing input: a visitor whose configuration extracts
referenced declarations always, with an empty store, builds the descriptor
of the enumeration type `E` (the type of a function parameter, say) under a
mode `m`; the declaration of `E` has an identity and the store holds no
entity for it. After the call the visitor is as it was: the store is still
empty, and the terminal node carries no identity. -/
theorem referenced_declaration_is_not_extracted (m : ExtractMode) :
    exampleAlwaysVisitor.config_.extract.referencedDeclarations = Policy.Always ∧
    exampleAlwaysVisitor.info_ = [] ∧
    exampleEnumName.usrHash = some (SymbolID.fill 7) ∧
    exampleAlwaysVisitor.buildTypeInfo exampleEnumType m =
      Except.ok (some (TypeInfo.Tag false ⟨false, false⟩ none "E" none),
        exampleAlwaysVisitor) ∧
    (TypeInfo.Tag false ⟨false, false⟩ none "E" none).terminalId = none := by
  refine ⟨rfl, rfl, rfl, ?_, rfl⟩
  simp [ASTVisitor.buildTypeInfo, ASTVisitor.buildTypeInfoLoop,
    ASTVisitor.buildTypeInfoTerminal, ASTVisitor.extractionScope, exampleEnumType,
    exampleEnumName, ASTVisitor.makeTypeInfoDecl, ASTVisitor.makeTypeInfo,
    ASTVisitor.findInfoDecl, ASTVisitor.findInfo, InfoSet.find, exampleAlwaysVisitor,
    ASTVisitor.init, TypeInfo.isTerminal, TypeInfo.setId, TypeInfo.id, assignInner,
    TypeInfo.setIsPackExpansion, convertToQualifierKind]

/-- The lookup that `makeTypeInfo` is left with: when `buildTypeInfo(type, m)`
returns, the visitor is in the state of the call, and the terminal node of
the descriptor carries an identity only if the store already held an entity
under that identity at the call; otherwise its identity is null. -/
theorem buildTypeInfo_only_looks_up (v w : ASTVisitor) (qt : QualType) (m : ExtractMode)
    (r : Option TypeInfo) (h : v.buildTypeInfo qt m = Except.ok (r, w)) :
    w = v ∧ ∃ t, r = some t ∧
      ∀ i, t.terminalId = some i → ∃ e, v.findInfo i = some e ∧ e.id = i := by
  refine ⟨readsOnly_state (buildTypeInfo_readsOnly v qt m) h, ?_⟩
  rw [ASTVisitor.buildTypeInfo] at h
  unfold ASTVisitor.extractionScope at h
  split at h
  · rename_i r1 v1 hX
    simp only [Except.ok.injEq, Prod.mk.injEq] at h
    obtain ⟨t, ht, hs⟩ := buildTypeInfoLoop_stored _ _ _ _ none _ _ _ _ (Nat.le_refl _) rfl hX
    exact ⟨t, by rw [← h.1, ht], hs⟩
  · cases h

/-- An instance of the lookup: a visitor whose store holds the entity of `E`
builds the descriptor of the type `E`; its state is unchanged and the
terminal node carries the identity of that entity. -/
theorem buildTypeInfo_only_looks_up_witness :
    exampleCreatedVisitor.buildTypeInfo exampleEnumType ExtractMode.DirectDependency =
      Except.ok (some (TypeInfo.Tag false ⟨false, false⟩ none "E" (some (SymbolID.fill 7))),
        exampleCreatedVisitor) ∧
    (exampleCreatedVisitor = exampleCreatedVisitor ∧
      ∃ t, some (TypeInfo.Tag false ⟨false, false⟩ none "E" (some (SymbolID.fill 7))) = some t ∧
        ∀ i, t.terminalId = some i →
          ∃ e, exampleCreatedVisitor.findInfo i = some e ∧ e.id = i) :=
  ⟨exampleEnumType_created,
    buildTypeInfo_only_looks_up _ _ _ _ _ exampleEnumType_created⟩


/-! ## The test for extraction -/

theorem inExtractedFile_mode (v : ASTVisitor) (D : DeclBase) :
    (v.inExtractedFile D).2.mode = v.mode := by
  unfold ASTVisitor.inExtractedFile
  simp only []
  repeat' split
  all_goals rfl

/-- C28: `shouldExtract(D)` returns true if and only if `inExtractedFile(D)`
returns true (`D` lies in an extracted file) or the mode current at entry is
not `Normal`; when `D` lies in an extracted file the mode after the call is
`Normal`, and when it does not the mode is the one at entry. -/
theorem shouldExtract_result_and_mode (v : ASTVisitor) (D : DeclBase) :
    ((v.shouldExtract D).1 = true ↔
      (v.inExtractedFile D).1 = true ∨ v.currentMode ≠ ExtractMode.Normal) ∧
    ((v.inExtractedFile D).1 = true →
      (v.shouldExtract D).2.currentMode = ExtractMode.Normal) ∧
    ((v.inExtractedFile D).1 = false →
      (v.shouldExtract D).2.currentMode = v.currentMode) := by
  have hm := inExtractedFile_mode v D
  unfold ASTVisitor.shouldExtract ASTVisitor.currentMode
  simp only []
  cases h : (v.inExtractedFile D).1
  · refine ⟨?_, ?_, ?_⟩
    · simp [hm]
    · intro h'; cases h'
    · intro _; simp [hm]
  · refine ⟨?_, ?_, ?_⟩
    · simp
    · intro _; simp
    · intro h'; cases h'

/-! ## Identities -/

theorem toByte_val (b : Fin 256) : SymbolID.toByte (b.val : Int) = b := by
  apply Fin.ext
  simp only [SymbolID.toByte]
  have : ((b.val : Int) % 256) = (b.val : Int) := Int.emod_eq_of_lt (by omega) (by omega)
  rw [this]
  simp

theorem symbolID_eq_iff (a b : SymbolID) : a = b ↔ a.data = b.data := by
  constructor
  · intro h; rw [h]
  · intro h
    cases a; cases b
    simp only [SymbolID.mk.injEq]
    exact h

/-- C23: `SymbolID::invalid` has twenty bytes zero and `SymbolID::global`
twenty bytes `0xFF`; `size()` is 20; two identities compare equal if and
only if their bytes are equal; the conversion to `bool` gives false for
`invalid` only, so true for `global`; and an identity constructed from a
buffer of twenty bytes has these bytes. -/
theorem symbolID_constants_and_comparison (a b s : SymbolID) (bytes : List (Fin 256))
    (h : bytes.length = 20) :
    SymbolID.invalid.data = List.replicate 20 0 ∧
    SymbolID.global.data = List.replicate 20 255 ∧
    s.size = 20 ∧ s.data.length = 20 ∧
    (SymbolID.eq a b = true ↔ a.data = b.data) ∧
    (s.toBool = false ↔ s = SymbolID.invalid) ∧
    SymbolID.invalid.toBool = false ∧
    SymbolID.global.toBool = true ∧
    (SymbolID.ofBuffer (bytes.map (fun x => (x.val : Int)))
      (by rw [List.length_map, h])).data = bytes := by
  refine ⟨rfl, rfl, rfl, s.size_eq, ?_, ?_, ?_, ?_, ?_⟩
  · simp [SymbolID.eq]
  · simp [SymbolID.toBool, SymbolID.eq, symbolID_eq_iff]
  · simp [SymbolID.toBool, SymbolID.eq]
  · decide
  · simp only [SymbolID.ofBuffer]
    rw [List.take_of_length_le (by rw [List.length_map, h]), List.map_map]
    have : (SymbolID.toByte ∘ fun x : Fin 256 => (x.val : Int)) = id := by
      funext x; exact toByte_val x
    rw [this, List.map_id]

/-- Witness for C23: the identities `invalid` and `global`, and the buffer of
twenty bytes `0xFF`. -/
theorem symbolID_constants_and_comparison_witness :
    (SymbolID.eq SymbolID.invalid SymbolID.global = true ↔
      SymbolID.invalid.data = SymbolID.global.data) ∧
    (SymbolID.ofBuffer ((List.replicate 20 (255 : Fin 256)).map (fun x => (x.val : Int)))
      (by decide)).data = List.replicate 20 255 :=
  ⟨(symbolID_constants_and_comparison SymbolID.invalid SymbolID.global (SymbolID.fill 7)
      (List.replicate 20 255) (by decide)).2.2.2.2.1,
   (symbolID_constants_and_comparison SymbolID.invalid SymbolID.global (SymbolID.fill 7)
      (List.replicate 20 255) (by decide)).2.2.2.2.2.2.2.2⟩

/-! ## The identity of a declaration without USR -/

/-- The turn of the loop of `getParentNamespaces` for the translation unit
stores a namespace entity under `SymbolID::zero`. -/
theorem translationUnit_turn_stores_root (v w : ASTVisitor) (I child : SymbolID)
    (h : v.getParentNamespacesLoop I child DeclContext.TranslationUnit = Except.ok w) :
    ∃ e, w.findInfo SymbolID.zero = some e ∧ e.Kind = InfoKind.Namespace := by
  rw [ASTVisitor.getParentNamespacesLoop] at h
  simp only [] at h
  split at h
  · cases h
  · rename_i v1 i c hX
    simp only [Except.ok.injEq] at h
    subst h
    have hk := getOrCreateInfo_kind hX
    have h1 := InfoSet.find_update_map Info.Kind v1.info_ SymbolID.zero SymbolID.zero
      (ASTVisitor.emplaceChild true (v1.findInfo child))
      (fun i => (emplaceChild_keeps _ _ i).1) (fun i => emplaceChild_Kind _ _ i)
    have h2 := InfoSet.find_update_map Info.Kind
      (v1.modifyInfo SymbolID.zero (ASTVisitor.emplaceChild true (v1.findInfo child))).info_
      I SymbolID.zero
      (fun i => { i with Namespace := i.Namespace ++
        [((v1.modifyInfo SymbolID.zero
          (ASTVisitor.emplaceChild true (v1.findInfo child))).findInfo SymbolID.zero).map
            Info.id] })
      (fun _ => rfl) (fun _ => rfl)
    have h3 : (ASTVisitor.findInfo
        ((v1.modifyInfo SymbolID.zero
          (ASTVisitor.emplaceChild true (v1.findInfo child))).modifyInfo I
          (fun i => { i with Namespace := i.Namespace ++
            [((v1.modifyInfo SymbolID.zero
              (ASTVisitor.emplaceChild true (v1.findInfo child))).findInfo SymbolID.zero).map
                Info.id] })) SymbolID.zero).map Info.Kind = some InfoKind.Namespace :=
      h2.trans (h1.trans hk)
    cases hf : ASTVisitor.findInfo
        ((v1.modifyInfo SymbolID.zero
          (ASTVisitor.emplaceChild true (v1.findInfo child))).modifyInfo I
          (fun i => { i with Namespace := i.Namespace ++
            [((v1.modifyInfo SymbolID.zero
              (ASTVisitor.emplaceChild true (v1.findInfo child))).findInfo SymbolID.zero).map
                Info.id] })) SymbolID.zero with
    | none => rw [hf] at h3; cases h3
    | some e =>
      rw [hf] at h3
      simp only [Option.map_some', Option.some.injEq] at h3
      exact ⟨e, rfl, h3⟩

/-- C30: for a declaration whose identity assignment fails, the one-argument
`extractSymbolID` returns `SymbolID::zero`, the identity under which the turn
of `getParentNamespaces` for the translation unit stores the root namespace;
so under the policy `Never`, `getOrBuildInfo` on such a declaration returns
what the store holds under `SymbolID::zero`: the root namespace entity when
it is stored. -/
theorem failed_identity_is_the_root_identity (fe : UsrFrontEnd) (U : UsrDecl)
    (v : ASTVisitor) (D : Decl) (root : Info)
    (hU : (ASTVisitor.extractSymbolIDInto fe U SymbolID.zero).1 = false)
    (hD : ∀ base, D.base? = some base → base.usrHash = none)
    (hN : v.config_.extract.referencedDeclarations = Policy.Never)
    (hroot : v.findInfo SymbolID.zero = some root) :
    ASTVisitor.extractSymbolIDOf fe U = SymbolID.zero ∧
    ASTVisitor.extractSymbolIDDecl D = SymbolID.zero ∧
    (∀ (u w : ASTVisitor) (I child : SymbolID),
      u.getParentNamespacesLoop I child DeclContext.TranslationUnit = Except.ok w →
      ∃ e, w.findInfo SymbolID.zero = some e ∧ e.Kind = InfoKind.Namespace) ∧
    v.getOrBuildInfo D = Except.ok (some root, v) := by
  have hid : ASTVisitor.extractSymbolIDDecl D = SymbolID.zero := by
    unfold ASTVisitor.extractSymbolIDDecl
    cases hb : D.base? with
    | none => rfl
    | some base =>
      simp only [ASTVisitor.extractSymbolID, hD base hb]
  refine ⟨?_, hid, fun u w I child h => translationUnit_turn_stores_root u w I child h, ?_⟩
  · unfold ASTVisitor.extractSymbolIDOf
    unfold ASTVisitor.extractSymbolIDInto at hU ⊢
    simp only [] at hU ⊢
    split at hU
    · rename_i hg
      simp only [hg]
    · cases hU
  · unfold ASTVisitor.getOrBuildInfo
    simp only [hN, hid, hroot, beq_self_eq_true, if_true]

/-- Witness for C30: a front-end that generates no USR for an empty
declaration, an enumeration without USR, and a visitor that holds the root
namespace. -/
theorem failed_identity_is_the_root_identity_witness :
    ASTVisitor.extractSymbolIDOf exampleFrontEnd {} = SymbolID.zero ∧
    exampleRootVisitor.getOrBuildInfo
        (Decl.Enum exampleUnnamedEnum DeclContext.TranslationUnit) =
      Except.ok (some (Info.create InfoKind.Namespace SymbolID.zero), exampleRootVisitor) :=
  ⟨(failed_identity_is_the_root_identity exampleFrontEnd {} exampleRootVisitor
      (Decl.Enum exampleUnnamedEnum DeclContext.TranslationUnit)
      (Info.create InfoKind.Namespace SymbolID.zero) rfl
      (by intro base hb; cases hb; rfl) rfl rfl).1,
   (failed_identity_is_the_root_identity exampleFrontEnd {} exampleRootVisitor
      (Decl.Enum exampleUnnamedEnum DeclContext.TranslationUnit)
      (Info.create InfoKind.Namespace SymbolID.zero) rfl
      (by intro base hb; cases hb; rfl) rfl rfl).2.2.2⟩

/-! ## Non-type template arguments -/

/-- C22, counterexample: for the integral argument `3`, which is not
value-dependent, `buildTemplateArg` records the spelling and no value. -/
theorem nontype_argument_has_no_value :
    (ASTVisitor.init {}).buildTemplateArg exampleIntegralArgument =
      Except.ok (some (TArg.NonTypeTArg false { Written := "3", Value := none }),
        ASTVisitor.init {}) := by
  rw [exampleIntegralArgument, ASTVisitor.buildTemplateArg]
  rfl

/-- C22 (amended): for every non-type template argument (null pointer,
declaration, integral or expression), `buildTemplateArg` returns a non-type
argument whose pack-expansion flag is that of the argument and whose written
spelling is the printed form of the expansion pattern when the argument is a
pack expansion and of the argument itself otherwise; no value is evaluated,
and the state of the visitor is unchanged. -/
theorem buildTemplateArg_nontype_records_spelling_only (v : ASTVisitor)
    (isPackExpansion : Bool) (written patternWritten : String) :
    v.buildTemplateArg (TemplateArgument.NonType isPackExpansion written patternWritten) =
      Except.ok (some (TArg.NonTypeTArg isPackExpansion
        { Written := if isPackExpansion then patternWritten else written, Value := none }),
        v) := by
  rw [ASTVisitor.buildTemplateArg]

/-! ## Placeholder types -/

/-- C26, at the failing input: for the type `const auto` deduced as `int`,
`buildTypeInfo` returns the descriptor of `int` without the qualifier, not
the descriptor of `const int`. -/
theorem placeholder_qualifiers_are_dropped :
    (ASTVisitor.init {}).buildTypeInfo exampleConstAuto ExtractMode.Normal =
      Except.ok (some (TypeInfo.Builtin false ⟨false, false⟩ "int"), ASTVisitor.init {}) ∧
    (ASTVisitor.init {}).buildTypeInfo exampleConstInt ExtractMode.Normal =
      Except.ok (some (TypeInfo.Builtin false ⟨true, false⟩ "int"), ASTVisitor.init {}) := by
  constructor
  · simp [exampleConstAuto, ASTVisitor.buildTypeInfo, ASTVisitor.buildTypeInfoLoop,
      ASTVisitor.buildTypeInfoTerminal, ASTVisitor.extractionScope, QualType.isNull,
      TypeInfo.isTerminal, assignInner, TypeInfo.setIsPackExpansion, convertToQualifierKind,
      ASTVisitor.init]
  · simp [exampleConstInt, ASTVisitor.buildTypeInfo, ASTVisitor.buildTypeInfoLoop,
      ASTVisitor.buildTypeInfoTerminal, ASTVisitor.extractionScope, QualType.isNull,
      TypeInfo.isTerminal, assignInner, TypeInfo.setIsPackExpansion, convertToQualifierKind,
      ASTVisitor.init]
    decide

/-! ## One wrapper node for each structural layer -/

theorem wrappers_of_isTerminal (I : TypeInfo) (h : I.isTerminal = true) : I.wrappers = [] := by
  cases I <;> first | rfl | simp [TypeInfo.isTerminal] at h

theorem wrappers_setIsPackExpansion (b : Bool) (t : TypeInfo) :
    (t.setIsPackExpansion b).wrappers = t.wrappers := by
  cases t with
  | LValueReference k p => cases p <;> rfl
  | RValueReference k p => cases p <;> rfl
  | Pointer k q p => cases p <;> rfl
  | MemberPointer k q c p => cases p <;> rfl
  | Array k b p => cases p <;> rfl
  | Function k r ps q rq e => cases r <;> rfl
  | Builtin k q n => rfl
  | Tag k q p n i => rfl
  | Specialization k q p n i a => rfl

theorem wrappers_assignInner : ∀ (t I : TypeInfo), t.chainOpen = true →
    (t.assignInner (some I)).wrappers = t.wrappers ++ I.wrappers
  | .LValueReference _ none, I, _ => by simp [TypeInfo.assignInner, TypeInfo.wrappers]
  | .LValueReference _ (some p), I, h => by
    simp only [TypeInfo.assignInner, TypeInfo.chainOpen, TypeInfo.wrappers,
      List.cons_append, List.cons.injEq, true_and] at h ⊢
    exact wrappers_assignInner p I h
  | .RValueReference _ none, I, _ => by simp [TypeInfo.assignInner, TypeInfo.wrappers]
  | .RValueReference _ (some p), I, h => by
    simp only [TypeInfo.assignInner, TypeInfo.chainOpen, TypeInfo.wrappers,
      List.cons_append, List.cons.injEq, true_and] at h ⊢
    exact wrappers_assignInner p I h
  | .Pointer _ _ none, I, _ => by simp [TypeInfo.assignInner, TypeInfo.wrappers]
  | .Pointer _ _ (some p), I, h => by
    simp only [TypeInfo.assignInner, TypeInfo.chainOpen, TypeInfo.wrappers,
      List.cons_append, List.cons.injEq, true_and] at h ⊢
    exact wrappers_assignInner p I h
  | .MemberPointer _ _ _ none, I, _ => by simp [TypeInfo.assignInner, TypeInfo.wrappers]
  | .MemberPointer _ _ _ (some p), I, h => by
    simp only [TypeInfo.assignInner, TypeInfo.chainOpen, TypeInfo.wrappers,
      List.cons_append, List.cons.injEq, true_and] at h ⊢
    exact wrappers_assignInner p I h
  | .Array _ _ none, I, _ => by simp [TypeInfo.assignInner, TypeInfo.wrappers]
  | .Array _ _ (some p), I, h => by
    simp only [TypeInfo.assignInner, TypeInfo.chainOpen, TypeInfo.wrappers,
      List.cons_append, List.cons.injEq, true_and] at h ⊢
    exact wrappers_assignInner p I h
  | .Function _ none _ _ _ _, I, _ => by simp [TypeInfo.assignInner, TypeInfo.wrappers]
  | .Function _ (some p) _ _ _ _, I, h => by
    simp only [TypeInfo.assignInner, TypeInfo.chainOpen, TypeInfo.wrappers,
      List.cons_append, List.cons.injEq, true_and] at h ⊢
    exact wrappers_assignInner p I h
  | .Builtin _ _ _, _, h => by simp [TypeInfo.chainOpen] at h
  | .Tag _ _ _ _ _, _, h => by simp [TypeInfo.chainOpen] at h
  | .Specialization _ _ _ _ _ _, _, h => by simp [TypeInfo.chainOpen] at h

theorem wrappersOpt_assignInner (result : Option TypeInfo) (I : TypeInfo)
    (h : chainOpenOpt result = true) :
    wrappersOpt (assignInner (some I) result) = wrappersOpt result ++ I.wrappers := by
  cases result with
  | none => simp [assignInner, wrappersOpt]
  | some t => simpa [assignInner, wrappersOpt] using wrappers_assignInner t I h

/-- Linking a terminal node at the end of an open chain and flagging the
root adds no wrapper. -/
theorem wrappers_of_link (result : Option TypeInfo) (I : TypeInfo) (b : Bool)
    (h : chainOpenOpt result = true) (hI : I.isTerminal = true) :
    ∃ t, (assignInner (some I) result).map (TypeInfo.setIsPackExpansion b) = some t ∧
      t.wrappers = wrappersOpt result := by
  have hw := wrappersOpt_assignInner result I h
  rw [wrappers_of_isTerminal I hI, List.append_nil] at hw
  cases result with
  | none =>
    refine ⟨I.setIsPackExpansion b, rfl, ?_⟩
    rw [wrappers_setIsPackExpansion]
    exact hw
  | some r =>
    refine ⟨(r.assignInner (some I)).setIsPackExpansion b, rfl, ?_⟩
    rw [wrappers_setIsPackExpansion]
    exact hw

theorem buildTypeInfoTerminal_wrappers (v v' : ASTVisitor) (m : ExtractMode)
    (result : Option TypeInfo) (NNS : Option NestedNameSpecifier) (pack : Bool)
    (I : TypeInfo) (r : Option TypeInfo) (h : chainOpenOpt result = true)
    (hI : I.isTerminal = true)
    (hr : v.buildTypeInfoTerminal m result NNS pack I = Except.ok (r, v')) :
    ∃ t, r = some t ∧ t.wrappers = wrappersOpt result := by
  rw [ASTVisitor.buildTypeInfoTerminal.eq_def] at hr
  simp only [hI, Bool.not_true, Bool.false_eq_true, if_false] at hr
  split at hr
  · simp only [Except.ok.injEq, Prod.mk.injEq] at hr
    obtain ⟨t, ht, hc⟩ := wrappers_of_link result I pack h hI
    exact ⟨t, by rw [← hr.1, ht], hc⟩
  · split at hr
    · split at hr
      · cases hr
      · rename_i P v1 _
        simp only [Except.ok.injEq, Prod.mk.injEq] at hr
        obtain ⟨t, ht, hc⟩ := wrappers_of_link result (I.setParentType P) pack h
          (by rw [isTerminal_setParentType]; exact hI)
        exact ⟨t, by rw [← hr.1, ht], hc⟩
    · simp only [Except.ok.injEq, Prod.mk.injEq] at hr
      obtain ⟨t, ht, hc⟩ := wrappers_of_link result I pack h hI
      exact ⟨t, by rw [← hr.1, ht], hc⟩

theorem layers_withFastQualifiers (t : QualType) (q : Nat) :
    (t.withFastQualifiers q).layers = t.layers := by
  cases t <;> simp [QualType.withFastQualifiers, QualType.layers]

theorem layers_of_isNull (t : QualType) (h : t.isNull = true) : t.layers = [] := by
  cases t with
  | null => simp [QualType.layers]
  | mk q c => simp [QualType.isNull] at h

/-- Every result of the loop, started on an empty or open chain: the
wrapper nodes of the chain at the call, then one wrapper node for each
structural layer of the type, in order. -/
theorem buildTypeInfoLoop_wrappers (n : Nat) :
    ∀ (v v' : ASTVisitor) (m : ExtractMode) (result : Option TypeInfo)
      (NNS : Option NestedNameSpecifier) (pack : Bool) (qt : QualType) (r : Option TypeInfo),
      4 * (QualType.size qt + NestedNameSpecifier.optSize NNS) + 1 ≤ n →
      chainOpenOpt result = true →
      v.buildTypeInfoLoop m result NNS pack qt = Except.ok (r, v') →
      ∃ t, r = some t ∧ t.wrappers = wrappersOpt result ++ qt.layers := by
  have fin : ∀ (v v' : ASTVisitor) m result NNS pack I r (qt : QualType),
      chainOpenOpt result = true → I.isTerminal = true → qt.layers = [] →
      v.buildTypeInfoTerminal m result NNS pack I = Except.ok (r, v') →
      ∃ t, r = some t ∧ t.wrappers = wrappersOpt result ++ qt.layers := by
    intro v v' m result NNS pack I r qt ho hI hq hr
    obtain ⟨t, ht, hw⟩ := buildTypeInfoTerminal_wrappers _ _ _ _ _ _ _ _ ho hI hr
    exact ⟨t, ht, by rw [hw, hq, List.append_nil]⟩
  induction n with
  | zero => intro v v' m result NNS pack qt r h; omega
  | succ n ih =>
    intro v v' m result NNS pack qt r hle ho hr
    have sugar : ∀ (T : QualType) (quals : Nat) (c : ClangType) (p : Bool), c.layers = T.layers →
        T.size + 1 ≤ c.size →
        4 * (QualType.size (QualType.mk quals c) + NestedNameSpecifier.optSize NNS) + 1 ≤ n + 1 →
        v.buildTypeInfoLoop m result NNS p (T.withFastQualifiers quals) = Except.ok (r, v') →
        ∃ t, r = some t ∧ t.wrappers = wrappersOpt result ++ (QualType.mk quals c).layers := by
      intro T quals c p hc hs hle' hr'
      obtain ⟨t, ht, hw⟩ := ih _ _ _ _ _ _ _ _ (by
        simp only [QualType.size, size_withFastQualifiers] at hle' ⊢
        omega) ho hr'
      exact ⟨t, ht, by rw [hw, layers_withFastQualifiers, QualType.layers, hc]⟩
    have layer : ∀ (T : QualType) (quals : Nat) (c : ClangType) (I : TypeInfo) (k : WrapperKind)
        (u : ASTVisitor),
        c.layers = k :: T.layers → I.wrappers = [k] → I.chainOpen = true →
        T.size + 1 ≤ c.size →
        4 * (QualType.size (QualType.mk quals c) + NestedNameSpecifier.optSize NNS) + 1 ≤ n + 1 →
        u.buildTypeInfoLoop m (assignInner (some I) result) NNS pack T = Except.ok (r, v') →
        ∃ t, r = some t ∧ t.wrappers = wrappersOpt result ++ (QualType.mk quals c).layers := by
      intro T quals c I k u hc hI hIo hs hle' hr'
      obtain ⟨t, ht, hw⟩ := ih _ _ _ _ _ _ _ _ (by
        simp only [QualType.size] at hle' ⊢
        omega) (chainOpenOpt_assignInner _ _ ho hIo) hr'
      refine ⟨t, ht, ?_⟩
      rw [hw, wrappersOpt_assignInner _ _ ho, hI, QualType.layers, hc]
      simp
    cases qt with
    | null => rw [ASTVisitor.buildTypeInfoLoop] at hr; cases hr
    | mk quals type =>
      cases type with
      | Paren T | MacroQualified T | Attributed T | Decayed T | Adjusted T | Using T
      | SubstTemplateTypeParm T | PackExpansion T =>
        rw [ASTVisitor.buildTypeInfoLoop] at hr
        exact sugar T quals _ _ (by simp [ClangType.layers]) (by simp [ClangType.size]) hle hr
      | Pointer T =>
        rw [ASTVisitor.buildTypeInfoLoop] at hr
        refine layer T quals _ _ WrapperKind.Pointer _ (by simp [ClangType.layers]) ?_ ?_
          (by simp [ClangType.size]) hle hr <;> rfl
      | LValueReference T =>
        rw [ASTVisitor.buildTypeInfoLoop] at hr
        refine layer T quals _ _ WrapperKind.LValueReference _ (by simp [ClangType.layers]) ?_ ?_
          (by simp [ClangType.size]) hle hr <;> rfl
      | RValueReference T =>
        rw [ASTVisitor.buildTypeInfoLoop] at hr
        refine layer T quals _ _ WrapperKind.RValueReference _ (by simp [ClangType.layers]) ?_ ?_
          (by simp [ClangType.size]) hle hr <;> rfl
      | IncompleteArray T =>
        rw [ASTVisitor.buildTypeInfoLoop] at hr
        refine layer T quals _ _ WrapperKind.Array _ (by simp [ClangType.layers]) ?_ ?_
          (by simp [ClangType.size]) hle hr <;> rfl
      | ConstantArray E S T =>
        rw [ASTVisitor.buildTypeInfoLoop] at hr
        refine layer T quals _ _ WrapperKind.Array _ (by simp [ClangType.layers]) ?_ ?_
          (by simp [ClangType.size]) hle hr <;> rfl
      | DependentSizedArray E T =>
        rw [ASTVisitor.buildTypeInfoLoop] at hr
        refine layer T quals _ _ WrapperKind.Array _ (by simp [ClangType.layers]) ?_ ?_
          (by simp [ClangType.size]) hle hr <;> rfl
      | MemberPointer C T =>
        rw [ASTVisitor.buildTypeInfoLoop] at hr
        split at hr
        · cases hr
        · refine layer T quals _ _ WrapperKind.MemberPointer _ (by simp [ClangType.layers]) ?_ ?_
            (by simp [ClangType.size]) hle hr <;> rfl
      | FunctionProto PTs rq mq es RT =>
        rw [ASTVisitor.buildTypeInfoLoop] at hr
        split at hr
        · cases hr
        · refine layer RT quals _ _ WrapperKind.Function _ (by simp [ClangType.layers]) ?_ ?_
            (by simp only [ClangType.size]; omega) hle hr <;> rfl
      | Auto D name =>
        rw [ASTVisitor.buildTypeInfoLoop] at hr
        simp only [QualType.size, ClangType.size] at hle
        split at hr
        · obtain ⟨t, ht, hw⟩ := ih _ _ _ _ _ _ _ _ (by omega) ho hr
          exact ⟨t, ht, by rw [hw]; simp [QualType.layers, ClangType.layers]⟩
        · rename_i hnull
          refine fin _ _ _ _ _ _ _ _ _ ho (by rfl) ?_ hr
          simp only [QualType.layers, ClangType.layers]
          exact layers_of_isNull D (by simpa using hnull)
      | DeducedTemplateSpecialization D TD =>
        rw [ASTVisitor.buildTypeInfoLoop] at hr
        simp only [QualType.size, ClangType.size] at hle
        split at hr
        · obtain ⟨t, ht, hw⟩ := ih _ _ _ _ _ _ _ _ (by omega) ho hr
          exact ⟨t, ht, by rw [hw]; simp [QualType.layers, ClangType.layers]⟩
        · rename_i hnull
          refine fin _ _ _ _ _ _ _ _ _ ho (isTerminal_makeTypeInfoDecl _ _ _ _) ?_ hr
          simp only [QualType.layers, ClangType.layers]
          exact layers_of_isNull D (by simpa using hnull)
      | Elaborated Q T =>
        rw [ASTVisitor.buildTypeInfoLoop] at hr
        simp only [QualType.size, ClangType.size] at hle
        split at hr
        · cases hr
        · obtain ⟨t, ht, hw⟩ := ih _ _ _ _ _ _ _ _ (by
            simp only [size_withFastQualifiers]
            omega) ho hr
          exact ⟨t, ht, by
            rw [hw, layers_withFastQualifiers]; simp [QualType.layers, ClangType.layers]⟩
      | DependentTemplateSpecialization II targs Q =>
        rw [ASTVisitor.buildTypeInfoLoop] at hr
        split at hr
        · cases hr
        · simp only [] at hr
          split at hr
          · cases hr
          · refine fin _ _ _ _ _ _ _ _ _ ho ?_ (by simp [QualType.layers, ClangType.layers]) hr
            rw [isTerminal_setTemplateArgs]; exact isTerminal_makeTypeInfo _ _ _
      | DependentName II Q =>
        rw [ASTVisitor.buildTypeInfoLoop] at hr
        split at hr
        · cases hr
        · exact fin _ _ _ _ _ _ _ _ _ ho (isTerminal_makeTypeInfo _ _ _)
            (by simp [QualType.layers, ClangType.layers]) hr
      | TemplateSpecialization nn TD al cd targs =>
        rw [ASTVisitor.buildTypeInfoLoop.eq_def] at hr
        simp only [] at hr
        split at hr
        · cases hr
        · split at hr
          · cases hr
          · refine fin _ _ _ _ _ _ _ _ _ ho ?_ (by simp [QualType.layers, ClangType.layers]) hr
            rw [isTerminal_setTemplateArgs]; exact isTerminal_makeTypeInfoDecl _ _ _ _
      | Record RD targs =>
        cases targs with
        | none =>
          rw [ASTVisitor.buildTypeInfoLoop] at hr
          exact fin _ _ _ _ _ _ _ _ _ ho (isTerminal_makeTypeInfoDecl _ _ _ _)
            (by simp [QualType.layers, ClangType.layers]) hr
        | some targs =>
          rw [ASTVisitor.buildTypeInfoLoop] at hr
          split at hr
          · cases hr
          · refine fin _ _ _ _ _ _ _ _ _ ho ?_ (by simp [QualType.layers, ClangType.layers]) hr
            rw [isTerminal_setTemplateArgs]; exact isTerminal_makeTypeInfoDecl _ _ _ _
      | InjectedClassName D | Enum D | Typedef D =>
        rw [ASTVisitor.buildTypeInfoLoop] at hr
        exact fin _ _ _ _ _ _ _ _ _ ho (isTerminal_makeTypeInfoDecl _ _ _ _)
          (by simp [QualType.layers, ClangType.layers]) hr
      | TemplateTypeParm D =>
        rw [ASTVisitor.buildTypeInfoLoop.eq_def] at hr
        simp only [] at hr
        exact fin _ _ _ _ _ _ _ _ _ ho (by rfl) (by simp [QualType.layers, ClangType.layers]) hr
      | SubstTemplateTypeParmPack II =>
        rw [ASTVisitor.buildTypeInfoLoop] at hr
        exact fin _ _ _ _ _ _ _ _ _ ho (isTerminal_makeTypeInfo _ _ _)
          (by simp [QualType.layers, ClangType.layers]) hr
      | VariableArray elem name =>
        rw [ASTVisitor.buildTypeInfoLoop] at hr
        exact fin _ _ _ _ _ _ _ _ _ ho (by rfl) (by simp [QualType.layers, ClangType.layers]) hr
      | FunctionNoProto ret name =>
        rw [ASTVisitor.buildTypeInfoLoop] at hr
        exact fin _ _ _ _ _ _ _ _ _ ho (by rfl) (by simp [QualType.layers, ClangType.layers]) hr
      | Other name =>
        rw [ASTVisitor.buildTypeInfoLoop] at hr
        exact fin _ _ _ _ _ _ _ _ _ ho (by rfl) (by simp [QualType.layers, ClangType.layers]) hr

/-- The inner-type path of a closed chain: one node for each wrapper kind,
then the terminal node. -/
theorem innerPath_wrappers : ∀ (t : TypeInfo), t.chainClosed = true →
    ∃ ws T, t.innerPath = ws ++ [T] ∧ T.isTerminal = true ∧
      ws.map TypeInfo.wrapperKind? = t.wrappers.map some
  | .LValueReference k none, h => by simp [TypeInfo.chainClosed] at h
  | .LValueReference k (some p), h => by
    obtain ⟨ws, T, h1, h2, h3⟩ := innerPath_wrappers p (by simpa [TypeInfo.chainClosed] using h)
    exact ⟨.LValueReference k (some p) :: ws, T, by simp [TypeInfo.innerPath, h1], h2,
      by simp [TypeInfo.wrappers, TypeInfo.wrapperKind?, h3]⟩
  | .RValueReference k none, h => by simp [TypeInfo.chainClosed] at h
  | .RValueReference k (some p), h => by
    obtain ⟨ws, T, h1, h2, h3⟩ := innerPath_wrappers p (by simpa [TypeInfo.chainClosed] using h)
    exact ⟨.RValueReference k (some p) :: ws, T, by simp [TypeInfo.innerPath, h1], h2,
      by simp [TypeInfo.wrappers, TypeInfo.wrapperKind?, h3]⟩
  | .Pointer k q none, h => by simp [TypeInfo.chainClosed] at h
  | .Pointer k q (some p), h => by
    obtain ⟨ws, T, h1, h2, h3⟩ := innerPath_wrappers p (by simpa [TypeInfo.chainClosed] using h)
    exact ⟨.Pointer k q (some p) :: ws, T, by simp [TypeInfo.innerPath, h1], h2,
      by simp [TypeInfo.wrappers, TypeInfo.wrapperKind?, h3]⟩
  | .MemberPointer k q c none, h => by simp [TypeInfo.chainClosed] at h
  | .MemberPointer k q c (some p), h => by
    obtain ⟨ws, T, h1, h2, h3⟩ := innerPath_wrappers p (by simpa [TypeInfo.chainClosed] using h)
    exact ⟨.MemberPointer k q c (some p) :: ws, T, by simp [TypeInfo.innerPath, h1], h2,
      by simp [TypeInfo.wrappers, TypeInfo.wrapperKind?, h3]⟩
  | .Array k b none, h => by simp [TypeInfo.chainClosed] at h
  | .Array k b (some p), h => by
    obtain ⟨ws, T, h1, h2, h3⟩ := innerPath_wrappers p (by simpa [TypeInfo.chainClosed] using h)
    exact ⟨.Array k b (some p) :: ws, T, by simp [TypeInfo.innerPath, h1], h2,
      by simp [TypeInfo.wrappers, TypeInfo.wrapperKind?, h3]⟩
  | .Function k none ps q rq e, h => by simp [TypeInfo.chainClosed] at h
  | .Function k (some p) ps q rq e, h => by
    obtain ⟨ws, T, h1, h2, h3⟩ := innerPath_wrappers p (by simpa [TypeInfo.chainClosed] using h)
    exact ⟨.Function k (some p) ps q rq e :: ws, T, by simp [TypeInfo.innerPath, h1], h2,
      by simp [TypeInfo.wrappers, TypeInfo.wrapperKind?, h3]⟩
  | .Builtin k q n, _ => ⟨[], .Builtin k q n, by simp [TypeInfo.innerPath], rfl, rfl⟩
  | .Tag k q p n i, _ => ⟨[], .Tag k q p n i, by simp [TypeInfo.innerPath], rfl, rfl⟩
  | .Specialization k q p n i a, _ =>
    ⟨[], .Specialization k q p n i a, by simp [TypeInfo.innerPath], rfl, rfl⟩

theorem layers_wrapSugar (t : QualType) : ∀ ls : List (Sugar × Nat),
    (wrapSugar ls t).layers = t.layers
  | [] => rfl
  | (s, q) :: ls => by
    have ih := layers_wrapSugar t ls
    cases s <;> simpa [wrapSugar, Sugar.wrap, QualType.layers, ClangType.layers] using ih

theorem layers_of_isTerminalClass (q : Nat) (T : ClangType) (h : T.isTerminalClass = true) :
    (QualType.mk q T).layers = [] := by
  cases T <;> simp [ClangType.isTerminalClass] at h <;>
    simp [QualType.layers, ClangType.layers, layers_of_isNull, h]

/-- The wrapper nodes of the descriptor `buildTypeInfo` returns are those of
the structural layers of the type. -/
theorem buildTypeInfo_wrappers (v w : ASTVisitor) (qt : QualType) (m : ExtractMode)
    (r : Option TypeInfo) (h : v.buildTypeInfo qt m = Except.ok (r, w)) :
    ∃ t ws T, r = some t ∧ t.innerPath = ws ++ [T] ∧ T.isTerminal = true ∧
      ws.map TypeInfo.wrapperKind? = qt.layers.map some := by
  rw [ASTVisitor.buildTypeInfo] at h
  unfold ASTVisitor.extractionScope at h
  split at h
  · rename_i r1 v1 hl
    simp only [Except.ok.injEq, Prod.mk.injEq] at h
    obtain ⟨t, ht, hc⟩ := buildTypeInfoLoop_closed _ _ _ _ none _ _ _ _ (le_refl _) rfl hl
    obtain ⟨t', ht', hw⟩ := buildTypeInfoLoop_wrappers _ _ _ _ none _ _ _ _ (le_refl _) rfl hl
    rw [ht] at ht'
    simp only [Option.some.injEq] at ht'
    subst ht'
    obtain ⟨ws, T, h1, h2, h3⟩ := innerPath_wrappers t hc
    refine ⟨t, ws, T, by rw [← h.1, ht], h1, h2, ?_⟩
    rw [h3, hw]
    simp [wrappersOpt]
  · cases h

theorem layers_wrap (l : Layer) (q : Nat) (t : QualType) (h : l.hasCase = true) :
    (l.wrap q t).layers = l.kind :: t.layers := by
  cases l with
  | VariableArray n => simp [Layer.hasCase] at h
  | FunctionNoProto n => simp [Layer.hasCase] at h
  | _ => simp [Layer.wrap, Layer.kind, QualType.layers, ClangType.layers]

theorem layers_wrapLayers (t : QualType) :
    ∀ ls : List (List (Sugar × Nat) × Layer × Nat),
      (∀ l ∈ ls, l.2.1.hasCase = true) →
      (wrapLayers ls t).layers = ls.map (fun l => l.2.1.kind) ++ t.layers
  | [], _ => rfl
  | (sugar, l, q) :: ls, h => by
    have ih := layers_wrapLayers t ls (fun x hx => h x (List.mem_cons_of_mem _ hx))
    have hl : l.hasCase = true := h (sugar, l, q) (List.mem_cons_self _ _)
    simp [wrapLayers, layers_wrapSugar, layers_wrap _ _ _ hl, ih]

mutual
theorem layers_of_namesTerminal : ∀ t : QualType, t.namesTerminal = true → t.layers = []
  | .null, _ => by simp [QualType.layers]
  | .mk _ c, h => by
    simp only [QualType.namesTerminal] at h
    simp only [QualType.layers]
    exact layers_of_namesTerminalClass c h
theorem layers_of_namesTerminalClass : ∀ c : ClangType, c.namesTerminal = true → c.layers = []
  | .Paren t, h => by
    simp only [ClangType.namesTerminal] at h
    simp only [ClangType.layers]; exact layers_of_namesTerminal t h
  | .MacroQualified t, h => by
    simp only [ClangType.namesTerminal] at h
    simp only [ClangType.layers]; exact layers_of_namesTerminal t h
  | .Attributed t, h => by
    simp only [ClangType.namesTerminal] at h
    simp only [ClangType.layers]; exact layers_of_namesTerminal t h
  | .Decayed t, h => by
    simp only [ClangType.namesTerminal] at h
    simp only [ClangType.layers]; exact layers_of_namesTerminal t h
  | .Adjusted t, h => by
    simp only [ClangType.namesTerminal] at h
    simp only [ClangType.layers]; exact layers_of_namesTerminal t h
  | .Using t, h => by
    simp only [ClangType.namesTerminal] at h
    simp only [ClangType.layers]; exact layers_of_namesTerminal t h
  | .SubstTemplateTypeParm t, h => by
    simp only [ClangType.namesTerminal] at h
    simp only [ClangType.layers]; exact layers_of_namesTerminal t h
  | .Elaborated _ t, h => by
    simp only [ClangType.namesTerminal] at h
    simp only [ClangType.layers]; exact layers_of_namesTerminal t h
  | .Auto d _, h => by
    simp only [ClangType.namesTerminal] at h
    simp only [ClangType.layers]; exact layers_of_isNull d h
  | .DeducedTemplateSpecialization d _, h => by
    simp only [ClangType.namesTerminal] at h
    simp only [ClangType.layers]; exact layers_of_isNull d h
  | .DependentTemplateSpecialization _ _ _, _ => by simp [ClangType.layers]
  | .DependentName _ _, _ => by simp [ClangType.layers]
  | .TemplateSpecialization _ _ _ _ _, _ => by simp [ClangType.layers]
  | .Record _ _, _ => by simp [ClangType.layers]
  | .InjectedClassName _, _ => by simp [ClangType.layers]
  | .Enum _, _ => by simp [ClangType.layers]
  | .Typedef _, _ => by simp [ClangType.layers]
  | .TemplateTypeParm _, _ => by simp [ClangType.layers]
  | .SubstTemplateTypeParmPack _, _ => by simp [ClangType.layers]
  | .VariableArray _ _, _ => by simp [ClangType.layers]
  | .FunctionNoProto _ _, _ => by simp [ClangType.layers]
  | .Other _, _ => by simp [ClangType.layers]
  | .PackExpansion _, h => by simp [ClangType.namesTerminal] at h
  | .Pointer _, h => by simp [ClangType.namesTerminal] at h
  | .LValueReference _, h => by simp [ClangType.namesTerminal] at h
  | .RValueReference _, h => by simp [ClangType.namesTerminal] at h
  | .MemberPointer _ _, h => by simp [ClangType.namesTerminal] at h
  | .FunctionProto _ _ _ _ _, h => by simp [ClangType.namesTerminal] at h
  | .IncompleteArray _, h => by simp [ClangType.namesTerminal] at h
  | .ConstantArray _ _ _, h => by simp [ClangType.namesTerminal] at h
  | .DependentSizedArray _ _, h => by simp [ClangType.namesTerminal] at h
end

theorem exampleLayeredType_descriptor :
    (ASTVisitor.init {}).buildTypeInfo exampleLayeredType ExtractMode.Normal =
      Except.ok (some exampleLayeredTypeInfo, ASTVisitor.init {}) := by
  simp [exampleLayeredType, exampleLayeredTypeInfo, exampleMemberClassName,
    ASTVisitor.buildTypeInfo, ASTVisitor.buildTypeInfoLoop,
    ASTVisitor.buildTypeInfoTerminal, ASTVisitor.buildParentTypeInfo,
    ASTVisitor.extractionScope, QualType.withFastQualifiers,
    ASTVisitor.makeTypeInfoDecl, ASTVisitor.makeTypeInfo,
    ASTVisitor.findInfoDecl, ASTVisitor.findInfo, InfoSet.find, ASTVisitor.init,
    TypeInfo.isTerminal, TypeInfo.hasParentType, TypeInfo.setParentType, TypeInfo.ParentType,
    TypeInfo.setId, TypeInfo.id, assignInner, TypeInfo.assignInner,
    TypeInfo.setIsPackExpansion, convertToQualifierKind, buildExprInfoValue, buildExprInfo]
  decide

/-- C24, counterexample: the type `int (*)[n]` is made of two structural
layers, a pointer and a (variable-length) array, around `int`, and the type
`int (*)()` of a pointer and a function (without prototype) around `int`;
the descriptor `buildTypeInfo` returns for each has one wrapper node on its
inner-type path, a pointer, followed by a builtin terminal node that is
named by the spelling of the array or function type. -/
theorem unhandled_layer_has_no_wrapper :
    exampleVariableArrayPointer =
      wrapLayers [([], Layer.Pointer, 0), ([], Layer.VariableArray "int[n]", 0)]
        (QualType.mk 0 (ClangType.Other "int")) ∧
    [Layer.Pointer, Layer.VariableArray "int[n]"].map Layer.kind =
      [WrapperKind.Pointer, WrapperKind.Array] ∧
    (∃ d, (ASTVisitor.init {}).buildTypeInfo exampleVariableArrayPointer ExtractMode.Normal =
        Except.ok (some d, ASTVisitor.init {}) ∧
      d.innerPath = [d, TypeInfo.Builtin false ⟨false, false⟩ "int[n]"] ∧
      d.innerPath.map TypeInfo.wrapperKind? = [some WrapperKind.Pointer, none]) ∧
    exampleNoProtoPointer =
      wrapLayers [([], Layer.Pointer, 0), ([], Layer.FunctionNoProto "int ()", 0)]
        (QualType.mk 0 (ClangType.Other "int")) ∧
    [Layer.Pointer, Layer.FunctionNoProto "int ()"].map Layer.kind =
      [WrapperKind.Pointer, WrapperKind.Function] ∧
    (∃ d, (ASTVisitor.init {}).buildTypeInfo exampleNoProtoPointer ExtractMode.Normal =
        Except.ok (some d, ASTVisitor.init {}) ∧
      d.innerPath = [d, TypeInfo.Builtin false ⟨false, false⟩ "int ()"] ∧
      d.innerPath.map TypeInfo.wrapperKind? = [some WrapperKind.Pointer, none]) := by
  refine ⟨rfl, rfl, ⟨TypeInfo.Pointer false ⟨false, false⟩
      (some (TypeInfo.Builtin false ⟨false, false⟩ "int[n]")), ?_, rfl, rfl⟩,
    rfl, rfl, ⟨TypeInfo.Pointer false ⟨false, false⟩
      (some (TypeInfo.Builtin false ⟨false, false⟩ "int ()")), ?_, rfl, rfl⟩⟩
  · simp [exampleVariableArrayPointer, ASTVisitor.buildTypeInfo, ASTVisitor.buildTypeInfoLoop,
      ASTVisitor.buildTypeInfoTerminal, ASTVisitor.extractionScope, ASTVisitor.init,
      TypeInfo.isTerminal, assignInner, TypeInfo.assignInner, TypeInfo.setIsPackExpansion,
      convertToQualifierKind]
  · simp [exampleNoProtoPointer, ASTVisitor.buildTypeInfo, ASTVisitor.buildTypeInfoLoop,
      ASTVisitor.buildTypeInfoTerminal, ASTVisitor.extractionScope, ASTVisitor.init,
      TypeInfo.isTerminal, assignInner, TypeInfo.assignInner, TypeInfo.setIsPackExpansion,
      convertToQualifierKind]

/-- C24 (amended): the descriptor `buildTypeInfo` returns has, on the
inner-type path from its root, one wrapper node for each structural layer of
the type that is of a class the switch has a case for (pointer, lvalue and
rvalue reference, member pointer, array of incomplete, constant or dependent
size, function prototype), of the kinds of these layers and in their order,
outermost first, followed by the terminal node. In particular, for a type
made of `k` such layers, each under any number of layers of sugar, around a
terminal (a type of a terminal class under sugar and elaborated types), the
path has exactly `k` wrapper nodes, of the kinds of the layers and in their
order. -/
theorem buildTypeInfo_one_wrapper_per_cased_layer (v w : ASTVisitor) (m : ExtractMode)
    (qt : QualType) (r : Option TypeInfo)
    (h : v.buildTypeInfo qt m = Except.ok (r, w)) :
    ∃ d ws term, r = some d ∧ d.innerPath = ws ++ [term] ∧ term.isTerminal = true ∧
      ws.length = qt.layers.length ∧
      ws.map TypeInfo.wrapperKind? = qt.layers.map some ∧
      ∀ (ls : List (List (Sugar × Nat) × Layer × Nat)) (t : QualType),
        qt = wrapLayers ls t → t.namesTerminal = true →
        (∀ l ∈ ls, l.2.1.hasCase = true) →
        ws.length = ls.length ∧
        ws.map TypeInfo.wrapperKind? = ls.map (fun l => some l.2.1.kind) := by
  obtain ⟨d, ws, term, hd, hp, hterm, hk⟩ := buildTypeInfo_wrappers v w qt m r h
  have hlen : ws.length = qt.layers.length := by
    have := congrArg List.length hk
    simpa using this
  refine ⟨d, ws, term, hd, hp, hterm, hlen, hk, ?_⟩
  intro ls t hqt ht hls
  have hl : qt.layers = ls.map (fun l => l.2.1.kind) := by
    rw [hqt, layers_wrapLayers t ls hls, layers_of_namesTerminal t ht, List.append_nil]
  refine ⟨by rw [hlen, hl, List.length_map], ?_⟩
  rw [hk, hl, List.map_map]
  rfl

/-- Witness for C24: the type `N::A (*const (&))[3]` is made of three
layers, an lvalue reference, a parenthesized pointer and an array, around
the elaborated type `N::A`; its descriptor has three wrapper nodes, an lvalue
reference, a pointer and an array, in this order, followed by the tag node
`A`. -/
theorem buildTypeInfo_one_wrapper_per_cased_layer_witness :
    (ASTVisitor.init {}).buildTypeInfo exampleLayeredType ExtractMode.Normal =
      Except.ok (some exampleLayeredTypeInfo, ASTVisitor.init {}) ∧
    ∃ ws term, exampleLayeredTypeInfo.innerPath = ws ++ [term] ∧
      term = TypeInfo.Tag false ⟨false, false⟩ none "A" none ∧
      ws.length = 3 ∧
      ws.map TypeInfo.wrapperKind? =
        [some WrapperKind.LValueReference, some WrapperKind.Pointer,
          some WrapperKind.Array] := by
  refine ⟨exampleLayeredType_descriptor, ?_⟩
  obtain ⟨d, ws, term, hd, hp, -, -, -, hc⟩ :=
    buildTypeInfo_one_wrapper_per_cased_layer (ASTVisitor.init {}) (ASTVisitor.init {})
      ExtractMode.Normal exampleLayeredType (some exampleLayeredTypeInfo)
      exampleLayeredType_descriptor
  obtain ⟨hlen, hkinds⟩ := hc
    [([], Layer.LValueReference, 0), ([(Sugar.Paren, 0)], Layer.Pointer, 1),
      ([], Layer.ConstantArray none 3, 0)]
    (QualType.mk 0 (ClangType.Elaborated (some (NestedNameSpecifier.Other none))
      (QualType.mk 0 (ClangType.Record exampleMemberClassName none))))
    rfl rfl (by decide)
  simp only [Option.some.injEq] at hd
  subst hd
  refine ⟨ws, term, hp, ?_, hlen, hkinds⟩
  have hpath : exampleLayeredTypeInfo.innerPath =
      [exampleLayeredTypeInfo,
        TypeInfo.Pointer false ⟨true, false⟩ (some
          (TypeInfo.Array false { Value := some 3 } (some
            (TypeInfo.Tag false ⟨false, false⟩ none "A" none)))),
        TypeInfo.Array false { Value := some 3 } (some
          (TypeInfo.Tag false ⟨false, false⟩ none "A" none)),
        TypeInfo.Tag false ⟨false, false⟩ none "A" none] := rfl
  rw [hpath] at hp
  have := congrArg List.getLast? hp
  simpa using this.symm

/-! ## The pack-expansion flag -/

theorem hasPackExpansion_withFastQualifiers (t : QualType) (q : Nat) :
    (t.withFastQualifiers q).hasPackExpansion = t.hasPackExpansion := by
  cases t <;> simp [QualType.withFastQualifiers, QualType.hasPackExpansion]

theorem withoutPackExpansion_lor (c : ClangType) (a b : Nat) :
    c.withoutPackExpansion (a ||| b) = (c.withoutPackExpansion a).withFastQualifiers b := by
  cases c <;> simp only [ClangType.withoutPackExpansion, withFastQualifiers_twice] <;> rfl

theorem withoutPackExpansion_withFastQualifiers (t : QualType) (q : Nat) :
    (t.withFastQualifiers q).withoutPackExpansion =
      t.withoutPackExpansion.withFastQualifiers q := by
  cases t with
  | null => simp [QualType.withFastQualifiers, QualType.withoutPackExpansion]
  | mk a c =>
    simp only [QualType.withFastQualifiers, QualType.withoutPackExpansion]
    exact withoutPackExpansion_lor c a q

theorem isNull_withFastQualifiers (t : QualType) (q : Nat) :
    (t.withFastQualifiers q).isNull = t.isNull := by
  cases t <;> rfl

theorem withoutPackExpansion_of_isNull (t : QualType) (h : t.isNull = true) :
    t.withoutPackExpansion = QualType.null := by
  cases t with
  | null => simp [QualType.withoutPackExpansion]
  | mk q c => simp [QualType.isNull] at h

theorem hasPackExpansion_of_isNull (t : QualType) (h : t.isNull = true) :
    t.hasPackExpansion = false := by
  cases t with
  | null => simp [QualType.hasPackExpansion]
  | mk q c => simp [QualType.isNull] at h

theorem IsPackExpansion_setIsPackExpansion (b : Bool) (t : TypeInfo) :
    (t.setIsPackExpansion b).IsPackExpansion = b := by
  cases t <;> rfl

theorem setIsPackExpansion_twice (a b : Bool) (t : TypeInfo) :
    (t.setIsPackExpansion a).setIsPackExpansion b = t.setIsPackExpansion b := by
  cases t <;> rfl

/-- The end of `buildTypeInfo` for a pack flag `p` and for the flag false:
the results differ in the flag of the root only, which is `p`. -/
theorem buildTypeInfoTerminal_pack {v v' : ASTVisitor} {m : ExtractMode}
    {result : Option TypeInfo} {NNS : Option NestedNameSpecifier} {p : Bool}
    {I : TypeInfo} {r : Option TypeInfo}
    (hr : v.buildTypeInfoTerminal m result NNS p I = Except.ok (r, v')) :
    ∃ t, r = some t ∧ t.IsPackExpansion = p ∧
      v.buildTypeInfoTerminal m result NNS false I =
        Except.ok (some (t.setIsPackExpansion false), v') := by
  have link : ∀ J : TypeInfo, ∃ X, assignInner (some J) result = some X := by
    intro J
    cases result with
    | none => exact ⟨J, rfl⟩
    | some r0 => exact ⟨_, rfl⟩
  rw [ASTVisitor.buildTypeInfoTerminal.eq_def] at hr ⊢
  split at hr
  · cases hr
  · rename_i hI
    simp only [hI, if_false]
    split at hr
    · simp only [Except.ok.injEq, Prod.mk.injEq] at hr
      obtain ⟨X, hX⟩ := link I
      rw [hX] at hr ⊢
      refine ⟨X.setIsPackExpansion p, hr.1.symm, IsPackExpansion_setIsPackExpansion _ _, ?_⟩
      simp only [Option.map_some', setIsPackExpansion_twice, hr.2, Bool.false_eq_true,
        if_false]
    · split at hr
      · rename_i hH
        split at hr
        · cases hr
        · rename_i P v1 hP
          simp only [Except.ok.injEq, Prod.mk.injEq] at hr
          obtain ⟨X, hX⟩ := link (I.setParentType P)
          rw [hX] at hr
          refine ⟨X.setIsPackExpansion p, hr.1.symm, IsPackExpansion_setIsPackExpansion _ _, ?_⟩
          simp only [hH, hP, hX, Option.map_some', setIsPackExpansion_twice, hr.2,
            Bool.false_eq_true, if_false, if_true]
      · rename_i hH
        simp only [Except.ok.injEq, Prod.mk.injEq] at hr
        obtain ⟨X, hX⟩ := link I
        rw [hX] at hr ⊢
        refine ⟨X.setIsPackExpansion p, hr.1.symm, IsPackExpansion_setIsPackExpansion _ _, ?_⟩
        simp only [hH, Option.map_some', setIsPackExpansion_twice, hr.2, Bool.false_eq_true,
          if_false]

/-- Every result of the loop: the flag of the root is set if and only if
the loop was entered with the pack flag or a marker is met on the way to the
terminal, and the loop entered without the flag on the type without markers
gives the same descriptor but for the flag of the root. -/
theorem buildTypeInfoLoop_pack (n : Nat) :
    ∀ (v v' : ASTVisitor) (m : ExtractMode) (result : Option TypeInfo)
      (NNS : Option NestedNameSpecifier) (p : Bool) (qt : QualType) (r : Option TypeInfo),
      4 * (QualType.size qt + NestedNameSpecifier.optSize NNS) + 1 ≤ n →
      v.buildTypeInfoLoop m result NNS p qt = Except.ok (r, v') →
      ∃ t, r = some t ∧ t.IsPackExpansion = (p || qt.hasPackExpansion) ∧
        qt.withoutPackExpansion.isNull = false ∧
        v.buildTypeInfoLoop m result NNS false qt.withoutPackExpansion =
          Except.ok (some (t.setIsPackExpansion false), v') := by
  intro v v' m result NNS p qt r
  induction n generalizing v v' m result NNS p qt r with
  | zero => intro h; omega
  | succ n ih =>
    intro hle hr
    cases qt with
    | null => rw [ASTVisitor.buildTypeInfoLoop] at hr; cases hr
    | mk quals type =>
      cases type with
      | Paren T | MacroQualified T | Attributed T | Decayed T | Adjusted T | Using T
      | SubstTemplateTypeParm T =>
        rw [ASTVisitor.buildTypeInfoLoop] at hr
        obtain ⟨t, ht, hf, hn, h2⟩ := ih _ _ _ _ _ _ _ _ (by
          simp only [QualType.size, ClangType.size, size_withFastQualifiers] at hle ⊢
          omega) hr
        refine ⟨t, ht, ?_, ?_, ?_⟩
        · rw [hf, hasPackExpansion_withFastQualifiers]
          simp only [QualType.hasPackExpansion, ClangType.hasPackExpansion]
        · simp only [QualType.withoutPackExpansion, ClangType.withoutPackExpansion,
            QualType.isNull]
        · simp only [QualType.withoutPackExpansion, ClangType.withoutPackExpansion]
          rw [ASTVisitor.buildTypeInfoLoop, ← withoutPackExpansion_withFastQualifiers]
          exact h2
      | PackExpansion T =>
        rw [ASTVisitor.buildTypeInfoLoop] at hr
        obtain ⟨t, ht, hf, hn, h2⟩ := ih _ _ _ _ _ _ _ _ (by
          simp only [QualType.size, ClangType.size, size_withFastQualifiers] at hle ⊢
          omega) hr
        refine ⟨t, ht, ?_, ?_, ?_⟩
        · rw [hf]
          simp only [QualType.hasPackExpansion, ClangType.hasPackExpansion, Bool.true_or,
            Bool.or_true]
        · simp only [QualType.withoutPackExpansion, ClangType.withoutPackExpansion]
          rw [← withoutPackExpansion_withFastQualifiers]
          exact hn
        · simp only [QualType.withoutPackExpansion, ClangType.withoutPackExpansion]
          rw [← withoutPackExpansion_withFastQualifiers]
          exact h2
      | Pointer T | LValueReference T | RValueReference T | IncompleteArray T =>
        rw [ASTVisitor.buildTypeInfoLoop] at hr
        obtain ⟨t, ht, hf, hn, h2⟩ := ih _ _ _ _ _ _ _ _ (by
          simp only [QualType.size, ClangType.size] at hle ⊢
          omega) hr
        refine ⟨t, ht, ?_, ?_, ?_⟩
        · rw [hf]
          simp only [QualType.hasPackExpansion, ClangType.hasPackExpansion]
        · simp only [QualType.withoutPackExpansion, ClangType.withoutPackExpansion,
            QualType.isNull]
        · simp only [QualType.withoutPackExpansion, ClangType.withoutPackExpansion]
          rw [ASTVisitor.buildTypeInfoLoop]
          exact h2
      | ConstantArray E S T =>
        rw [ASTVisitor.buildTypeInfoLoop] at hr
        obtain ⟨t, ht, hf, hn, h2⟩ := ih _ _ _ _ _ _ _ _ (by
          simp only [QualType.size, ClangType.size] at hle ⊢
          omega) hr
        refine ⟨t, ht, ?_, ?_, ?_⟩
        · rw [hf]
          simp only [QualType.hasPackExpansion, ClangType.hasPackExpansion]
        · simp only [QualType.withoutPackExpansion, ClangType.withoutPackExpansion,
            QualType.isNull]
        · simp only [QualType.withoutPackExpansion, ClangType.withoutPackExpansion]
          rw [ASTVisitor.buildTypeInfoLoop]
          exact h2
      | DependentSizedArray E T =>
        rw [ASTVisitor.buildTypeInfoLoop] at hr
        obtain ⟨t, ht, hf, hn, h2⟩ := ih _ _ _ _ _ _ _ _ (by
          simp only [QualType.size, ClangType.size] at hle ⊢
          omega) hr
        refine ⟨t, ht, ?_, ?_, ?_⟩
        · rw [hf]
          simp only [QualType.hasPackExpansion, ClangType.hasPackExpansion]
        · simp only [QualType.withoutPackExpansion, ClangType.withoutPackExpansion,
            QualType.isNull]
        · simp only [QualType.withoutPackExpansion, ClangType.withoutPackExpansion]
          rw [ASTVisitor.buildTypeInfoLoop]
          exact h2
      | MemberPointer C T =>
        rw [ASTVisitor.buildTypeInfoLoop] at hr
        simp only [QualType.size, ClangType.size] at hle
        split at hr
        · cases hr
        · rename_i parent v1 hX
          obtain ⟨t, ht, hf, hn, h2⟩ := ih _ _ _ _ _ _ _ _ (by omega) hr
          refine ⟨t, ht, ?_, ?_, ?_⟩
          · rw [hf]
            simp only [QualType.hasPackExpansion, ClangType.hasPackExpansion]
          · simp only [QualType.withoutPackExpansion, ClangType.withoutPackExpansion,
              QualType.isNull]
          · simp only [QualType.withoutPackExpansion, ClangType.withoutPackExpansion]
            rw [ASTVisitor.buildTypeInfoLoop]
            simp only [hX]
            exact h2
      | FunctionProto PTs rq mq es RT =>
        rw [ASTVisitor.buildTypeInfoLoop] at hr
        simp only [QualType.size, ClangType.size] at hle
        split at hr
        · cases hr
        · rename_i ps v1 hX
          obtain ⟨t, ht, hf, hn, h2⟩ := ih _ _ _ _ _ _ _ _ (by omega) hr
          refine ⟨t, ht, ?_, ?_, ?_⟩
          · rw [hf]
            simp only [QualType.hasPackExpansion, ClangType.hasPackExpansion]
          · simp only [QualType.withoutPackExpansion, ClangType.withoutPackExpansion,
              QualType.isNull]
          · simp only [QualType.withoutPackExpansion, ClangType.withoutPackExpansion]
            rw [ASTVisitor.buildTypeInfoLoop]
            simp only [hX]
            exact h2
      | Auto D name =>
        rw [ASTVisitor.buildTypeInfoLoop] at hr
        simp only [QualType.size, ClangType.size] at hle
        split at hr
        · obtain ⟨t, ht, hf, hn, h2⟩ := ih _ _ _ _ _ _ _ _ (by omega) hr
          refine ⟨t, ht, ?_, ?_, ?_⟩
          · rw [hf]
            simp only [QualType.hasPackExpansion, ClangType.hasPackExpansion]
          · simp only [QualType.withoutPackExpansion, ClangType.withoutPackExpansion,
              QualType.isNull]
          · simp only [QualType.withoutPackExpansion, ClangType.withoutPackExpansion]
            rw [ASTVisitor.buildTypeInfoLoop]
            simp only [hn, Bool.not_false, if_true]
            exact h2
        · rename_i hnull
          have hD : D.isNull = true := by simpa using hnull
          obtain ⟨t, ht, hf, h2⟩ := buildTypeInfoTerminal_pack hr
          refine ⟨t, ht, ?_, ?_, ?_⟩
          · rw [hf]
            simp only [QualType.hasPackExpansion, ClangType.hasPackExpansion,
              hasPackExpansion_of_isNull D hD, Bool.or_false]
          · simp only [QualType.withoutPackExpansion, ClangType.withoutPackExpansion,
              QualType.isNull]
          · simp only [QualType.withoutPackExpansion, ClangType.withoutPackExpansion,
              withoutPackExpansion_of_isNull D hD]
            rw [ASTVisitor.buildTypeInfoLoop]
            simp only [QualType.isNull, Bool.not_true, Bool.false_eq_true, if_false]
            exact h2
      | DeducedTemplateSpecialization D TD =>
        rw [ASTVisitor.buildTypeInfoLoop] at hr
        simp only [QualType.size, ClangType.size] at hle
        split at hr
        · obtain ⟨t, ht, hf, hn, h2⟩ := ih _ _ _ _ _ _ _ _ (by omega) hr
          refine ⟨t, ht, ?_, ?_, ?_⟩
          · rw [hf]
            simp only [QualType.hasPackExpansion, ClangType.hasPackExpansion]
          · simp only [QualType.withoutPackExpansion, ClangType.withoutPackExpansion,
              QualType.isNull]
          · simp only [QualType.withoutPackExpansion, ClangType.withoutPackExpansion]
            rw [ASTVisitor.buildTypeInfoLoop]
            simp only [hn, Bool.not_false, if_true]
            exact h2
        · rename_i hnull
          have hD : D.isNull = true := by simpa using hnull
          obtain ⟨t, ht, hf, h2⟩ := buildTypeInfoTerminal_pack hr
          refine ⟨t, ht, ?_, ?_, ?_⟩
          · rw [hf]
            simp only [QualType.hasPackExpansion, ClangType.hasPackExpansion,
              hasPackExpansion_of_isNull D hD, Bool.or_false]
          · simp only [QualType.withoutPackExpansion, ClangType.withoutPackExpansion,
              QualType.isNull]
          · simp only [QualType.withoutPackExpansion, ClangType.withoutPackExpansion,
              withoutPackExpansion_of_isNull D hD]
            rw [ASTVisitor.buildTypeInfoLoop]
            simp only [QualType.isNull, Bool.not_true, Bool.false_eq_true, if_false]
            exact h2
      | Elaborated Q T =>
        rw [ASTVisitor.buildTypeInfoLoop] at hr
        simp only [QualType.size, ClangType.size] at hle
        split at hr
        · cases hr
        · rename_i hq
          obtain ⟨t, ht, hf, hn, h2⟩ := ih _ _ _ _ _ _ _ _ (by
            simp only [size_withFastQualifiers]
            omega) hr
          refine ⟨t, ht, ?_, ?_, ?_⟩
          · rw [hf, hasPackExpansion_withFastQualifiers]
            simp only [QualType.hasPackExpansion, ClangType.hasPackExpansion]
          · simp only [QualType.withoutPackExpansion, ClangType.withoutPackExpansion,
              QualType.isNull]
          · simp only [QualType.withoutPackExpansion, ClangType.withoutPackExpansion]
            rw [ASTVisitor.buildTypeInfoLoop]
            simp only [hq, if_false]
            rw [← withoutPackExpansion_withFastQualifiers]
            exact h2
      | DependentTemplateSpecialization II targs Q =>
        rw [ASTVisitor.buildTypeInfoLoop] at hr
        split at hr
        · cases hr
        · rename_i as v1 hX
          simp only [] at hr
          split at hr
          · cases hr
          · rename_i hq
            obtain ⟨t, ht, hf, h2⟩ := buildTypeInfoTerminal_pack hr
            refine ⟨t, ht, ?_, ?_, ?_⟩
            · rw [hf]
              simp only [QualType.hasPackExpansion, ClangType.hasPackExpansion, Bool.or_false]
            · simp only [QualType.withoutPackExpansion, ClangType.withoutPackExpansion,
                QualType.isNull]
            · simp only [QualType.withoutPackExpansion, ClangType.withoutPackExpansion]
              rw [ASTVisitor.buildTypeInfoLoop]
              simp only [hX, hq, if_false]
              exact h2
      | DependentName II Q =>
        rw [ASTVisitor.buildTypeInfoLoop] at hr
        split at hr
        · cases hr
        · rename_i hq
          obtain ⟨t, ht, hf, h2⟩ := buildTypeInfoTerminal_pack hr
          refine ⟨t, ht, ?_, ?_, ?_⟩
          · rw [hf]
            simp only [QualType.hasPackExpansion, ClangType.hasPackExpansion, Bool.or_false]
          · simp only [QualType.withoutPackExpansion, ClangType.withoutPackExpansion,
              QualType.isNull]
          · simp only [QualType.withoutPackExpansion, ClangType.withoutPackExpansion]
            rw [ASTVisitor.buildTypeInfoLoop]
            simp only [hq, if_false]
            exact h2
      | TemplateSpecialization nn TD al cd targs =>
        rw [ASTVisitor.buildTypeInfoLoop.eq_def] at hr
        simp only [] at hr
        split at hr
        · cases hr
        · rename_i hnn
          split at hr
          · cases hr
          · rename_i as v1 hX
            obtain ⟨t, ht, hf, h2⟩ := buildTypeInfoTerminal_pack hr
            refine ⟨t, ht, ?_, ?_, ?_⟩
            · rw [hf]
              simp only [QualType.hasPackExpansion, ClangType.hasPackExpansion, Bool.or_false]
            · simp only [QualType.withoutPackExpansion, ClangType.withoutPackExpansion,
                QualType.isNull]
            · simp only [QualType.withoutPackExpansion, ClangType.withoutPackExpansion]
              rw [ASTVisitor.buildTypeInfoLoop.eq_def]
              simp only [hnn, if_false, hX]
              exact h2
      | Record RD targs =>
        cases targs with
        | none =>
          rw [ASTVisitor.buildTypeInfoLoop] at hr
          obtain ⟨t, ht, hf, h2⟩ := buildTypeInfoTerminal_pack hr
          refine ⟨t, ht, ?_, ?_, ?_⟩
          · rw [hf]
            simp only [QualType.hasPackExpansion, ClangType.hasPackExpansion, Bool.or_false]
          · simp only [QualType.withoutPackExpansion, ClangType.withoutPackExpansion,
              QualType.isNull]
          · simp only [QualType.withoutPackExpansion, ClangType.withoutPackExpansion]
            rw [ASTVisitor.buildTypeInfoLoop]
            exact h2
        | some targs =>
          rw [ASTVisitor.buildTypeInfoLoop] at hr
          split at hr
          · cases hr
          · rename_i as v1 hX
            obtain ⟨t, ht, hf, h2⟩ := buildTypeInfoTerminal_pack hr
            refine ⟨t, ht, ?_, ?_, ?_⟩
            · rw [hf]
              simp only [QualType.hasPackExpansion, ClangType.hasPackExpansion, Bool.or_false]
            · simp only [QualType.withoutPackExpansion, ClangType.withoutPackExpansion,
                QualType.isNull]
            · simp only [QualType.withoutPackExpansion, ClangType.withoutPackExpansion]
              rw [ASTVisitor.buildTypeInfoLoop]
              simp only [hX]
              exact h2
      | InjectedClassName D | Enum D | Typedef D =>
        rw [ASTVisitor.buildTypeInfoLoop] at hr
        obtain ⟨t, ht, hf, h2⟩ := buildTypeInfoTerminal_pack hr
        refine ⟨t, ht, ?_, ?_, ?_⟩
        · rw [hf]
          simp only [QualType.hasPackExpansion, ClangType.hasPackExpansion, Bool.or_false]
        · simp only [QualType.withoutPackExpansion, ClangType.withoutPackExpansion,
            QualType.isNull]
        · simp only [QualType.withoutPackExpansion, ClangType.withoutPackExpansion]
          rw [ASTVisitor.buildTypeInfoLoop]
          exact h2
      | TemplateTypeParm D =>
        rw [ASTVisitor.buildTypeInfoLoop.eq_def] at hr
        simp only [] at hr
        obtain ⟨t, ht, hf, h2⟩ := buildTypeInfoTerminal_pack hr
        refine ⟨t, ht, ?_, ?_, ?_⟩
        · rw [hf]
          simp only [QualType.hasPackExpansion, ClangType.hasPackExpansion, Bool.or_false]
        · simp only [QualType.withoutPackExpansion, ClangType.withoutPackExpansion,
            QualType.isNull]
        · simp only [QualType.withoutPackExpansion, ClangType.withoutPackExpansion]
          rw [ASTVisitor.buildTypeInfoLoop.eq_def]
          simp only []
          exact h2
      | SubstTemplateTypeParmPack II =>
        rw [ASTVisitor.buildTypeInfoLoop] at hr
        obtain ⟨t, ht, hf, h2⟩ := buildTypeInfoTerminal_pack hr
        refine ⟨t, ht, ?_, ?_, ?_⟩
        · rw [hf]
          simp only [QualType.hasPackExpansion, ClangType.hasPackExpansion, Bool.or_false]
        · simp only [QualType.withoutPackExpansion, ClangType.withoutPackExpansion,
            QualType.isNull]
        · simp only [QualType.withoutPackExpansion, ClangType.withoutPackExpansion]
          rw [ASTVisitor.buildTypeInfoLoop]
          exact h2
      | VariableArray elem name =>
        rw [ASTVisitor.buildTypeInfoLoop] at hr
        obtain ⟨t, ht, hf, h2⟩ := buildTypeInfoTerminal_pack hr
        refine ⟨t, ht, ?_, ?_, ?_⟩
        · rw [hf]
          simp only [QualType.hasPackExpansion, ClangType.hasPackExpansion, Bool.or_false]
        · simp only [QualType.withoutPackExpansion, ClangType.withoutPackExpansion,
            QualType.isNull]
        · simp only [QualType.withoutPackExpansion, ClangType.withoutPackExpansion]
          rw [ASTVisitor.buildTypeInfoLoop]
          exact h2
      | FunctionNoProto ret name =>
        rw [ASTVisitor.buildTypeInfoLoop] at hr
        obtain ⟨t, ht, hf, h2⟩ := buildTypeInfoTerminal_pack hr
        refine ⟨t, ht, ?_, ?_, ?_⟩
        · rw [hf]
          simp only [QualType.hasPackExpansion, ClangType.hasPackExpansion, Bool.or_false]
        · simp only [QualType.withoutPackExpansion, ClangType.withoutPackExpansion,
            QualType.isNull]
        · simp only [QualType.withoutPackExpansion, ClangType.withoutPackExpansion]
          rw [ASTVisitor.buildTypeInfoLoop]
          exact h2
      | Other name =>
        rw [ASTVisitor.buildTypeInfoLoop] at hr
        obtain ⟨t, ht, hf, h2⟩ := buildTypeInfoTerminal_pack hr
        refine ⟨t, ht, ?_, ?_, ?_⟩
        · rw [hf]
          simp only [QualType.hasPackExpansion, ClangType.hasPackExpansion, Bool.or_false]
        · simp only [QualType.withoutPackExpansion, ClangType.withoutPackExpansion,
            QualType.isNull]
        · simp only [QualType.withoutPackExpansion, ClangType.withoutPackExpansion]
          rw [ASTVisitor.buildTypeInfoLoop]
          exact h2

theorem pathClear_of_isTerminal (I : TypeInfo) (h : I.isTerminal = true) :
    I.pathClear = !I.IsPackExpansion := by
  cases I <;> first | rfl | simp [TypeInfo.isTerminal] at h

theorem pathClear_setIsPackExpansion (t : TypeInfo) (h : t.pathClear = true) :
    (t.setIsPackExpansion false).pathClear = true := by
  cases t with
  | LValueReference k p =>
    cases p <;> simp_all [TypeInfo.pathClear, TypeInfo.setIsPackExpansion]
  | RValueReference k p =>
    cases p <;> simp_all [TypeInfo.pathClear, TypeInfo.setIsPackExpansion]
  | Pointer k q p => cases p <;> simp_all [TypeInfo.pathClear, TypeInfo.setIsPackExpansion]
  | MemberPointer k q c p =>
    cases p <;> simp_all [TypeInfo.pathClear, TypeInfo.setIsPackExpansion]
  | Array k b p => cases p <;> simp_all [TypeInfo.pathClear, TypeInfo.setIsPackExpansion]
  | Function k r ps q rq e =>
    cases r <;> simp_all [TypeInfo.pathClear, TypeInfo.setIsPackExpansion]
  | Builtin k q n => simp [TypeInfo.pathClear, TypeInfo.setIsPackExpansion]
  | Tag k q p n i => simp [TypeInfo.pathClear, TypeInfo.setIsPackExpansion]
  | Specialization k q p n i a => simp [TypeInfo.pathClear, TypeInfo.setIsPackExpansion]

theorem pathClear_assignInner : ∀ (t I : TypeInfo), t.chainOpen = true →
    t.pathClear = true → I.pathClear = true → (t.assignInner (some I)).pathClear = true
  | .LValueReference _ none, I, _, ht, hI => by
    simp_all [TypeInfo.assignInner, TypeInfo.pathClear]
  | .LValueReference _ (some p), I, h, ht, hI => by
    simp only [TypeInfo.assignInner, TypeInfo.chainOpen, TypeInfo.pathClear,
      Bool.and_eq_true] at h ht ⊢
    exact ⟨ht.1, pathClear_assignInner p I h ht.2 hI⟩
  | .RValueReference _ none, I, _, ht, hI => by
    simp_all [TypeInfo.assignInner, TypeInfo.pathClear]
  | .RValueReference _ (some p), I, h, ht, hI => by
    simp only [TypeInfo.assignInner, TypeInfo.chainOpen, TypeInfo.pathClear,
      Bool.and_eq_true] at h ht ⊢
    exact ⟨ht.1, pathClear_assignInner p I h ht.2 hI⟩
  | .Pointer _ _ none, I, _, ht, hI => by
    simp_all [TypeInfo.assignInner, TypeInfo.pathClear]
  | .Pointer _ _ (some p), I, h, ht, hI => by
    simp only [TypeInfo.assignInner, TypeInfo.chainOpen, TypeInfo.pathClear,
      Bool.and_eq_true] at h ht ⊢
    exact ⟨ht.1, pathClear_assignInner p I h ht.2 hI⟩
  | .MemberPointer _ _ _ none, I, _, ht, hI => by
    simp_all [TypeInfo.assignInner, TypeInfo.pathClear]
  | .MemberPointer _ _ _ (some p), I, h, ht, hI => by
    simp only [TypeInfo.assignInner, TypeInfo.chainOpen, TypeInfo.pathClear,
      Bool.and_eq_true] at h ht ⊢
    exact ⟨ht.1, pathClear_assignInner p I h ht.2 hI⟩
  | .Array _ _ none, I, _, ht, hI => by
    simp_all [TypeInfo.assignInner, TypeInfo.pathClear]
  | .Array _ _ (some p), I, h, ht, hI => by
    simp only [TypeInfo.assignInner, TypeInfo.chainOpen, TypeInfo.pathClear,
      Bool.and_eq_true] at h ht ⊢
    exact ⟨ht.1, pathClear_assignInner p I h ht.2 hI⟩
  | .Function _ none _ _ _ _, I, _, ht, hI => by
    simp_all [TypeInfo.assignInner, TypeInfo.pathClear]
  | .Function _ (some p) _ _ _ _, I, h, ht, hI => by
    simp only [TypeInfo.assignInner, TypeInfo.chainOpen, TypeInfo.pathClear,
      Bool.and_eq_true] at h ht ⊢
    exact ⟨ht.1, pathClear_assignInner p I h ht.2 hI⟩
  | .Builtin _ _ _, _, h, _, _ => by simp [TypeInfo.chainOpen] at h
  | .Tag _ _ _ _ _, _, h, _, _ => by simp [TypeInfo.chainOpen] at h
  | .Specialization _ _ _ _ _ _, _, h, _, _ => by simp [TypeInfo.chainOpen] at h

theorem pathClearOpt_assignInner (result : Option TypeInfo) (I : TypeInfo)
    (h : chainOpenOpt result = true) (hc : pathClearOpt result = true)
    (hI : I.pathClear = true) :
    pathClearOpt (assignInner (some I) result) = true := by
  cases result with
  | none => simpa [assignInner, pathClearOpt] using hI
  | some t => simpa [assignInner, pathClearOpt] using pathClear_assignInner t I h hc hI

theorem IsPackExpansion_setParentType (x : Option TypeInfo) (t : TypeInfo) :
    (t.setParentType x).IsPackExpansion = t.IsPackExpansion := by
  cases t <;> rfl

theorem IsPackExpansion_setTemplateArgs (a : List (Option TArg)) (t : TypeInfo) :
    (t.setTemplateArgs a).IsPackExpansion = t.IsPackExpansion := by
  cases t <;> rfl

theorem IsPackExpansion_setId (i : InfoPtr) (t : TypeInfo) :
    (t.setId i).IsPackExpansion = t.IsPackExpansion := by
  cases t <;> rfl

theorem IsPackExpansion_makeTypeInfo (T : TypeInfoTy) (II : Option String) (q : Nat) :
    (ASTVisitor.makeTypeInfo T II q).IsPackExpansion = false := by
  cases T <;> rfl

theorem IsPackExpansion_makeTypeInfoDecl (v : ASTVisitor) (T : TypeInfoTy) (N : NamedDecl)
    (q : Nat) : (v.makeTypeInfoDecl T N q).IsPackExpansion = false := by
  unfold ASTVisitor.makeTypeInfoDecl
  simp only []
  split
  · split
    · rw [IsPackExpansion_setId]; exact IsPackExpansion_makeTypeInfo _ _ _
    · exact IsPackExpansion_makeTypeInfo _ _ _
  · exact IsPackExpansion_makeTypeInfo _ _ _

/-- Linking a terminal node without flag at the end of a chain without
flags: but for the flag of the root, the result has no flag. -/
theorem clear_of_link (result : Option TypeInfo) (I : TypeInfo) (b : Bool)
    (h : chainOpenOpt result = true) (hc : pathClearOpt result = true)
    (hI : I.isTerminal = true) (hf : I.IsPackExpansion = false) :
    ∃ t, (assignInner (some I) result).map (TypeInfo.setIsPackExpansion b) = some t ∧
      (t.setIsPackExpansion false).pathClear = true := by
  have hIc : I.pathClear = true := by rw [pathClear_of_isTerminal I hI, hf]; rfl
  have hw := pathClearOpt_assignInner result I h hc hIc
  cases result with
  | none =>
    refine ⟨I.setIsPackExpansion b, rfl, ?_⟩
    rw [setIsPackExpansion_twice]
    exact pathClear_setIsPackExpansion _ hw
  | some r =>
    refine ⟨(r.assignInner (some I)).setIsPackExpansion b, rfl, ?_⟩
    rw [setIsPackExpansion_twice]
    exact pathClear_setIsPackExpansion _ hw

theorem buildTypeInfoTerminal_clear (v v' : ASTVisitor) (m : ExtractMode)
    (result : Option TypeInfo) (NNS : Option NestedNameSpecifier) (pack : Bool)
    (I : TypeInfo) (r : Option TypeInfo) (h : chainOpenOpt result = true)
    (hc : pathClearOpt result = true)
    (hI : I.isTerminal = true) (hf : I.IsPackExpansion = false)
    (hr : v.buildTypeInfoTerminal m result NNS pack I = Except.ok (r, v')) :
    ∃ t, r = some t ∧ (t.setIsPackExpansion false).pathClear = true := by
  rw [ASTVisitor.buildTypeInfoTerminal.eq_def] at hr
  simp only [hI, Bool.not_true, Bool.false_eq_true, if_false] at hr
  split at hr
  · simp only [Except.ok.injEq, Prod.mk.injEq] at hr
    obtain ⟨t, ht, hp⟩ := clear_of_link result I pack h hc hI hf
    exact ⟨t, by rw [← hr.1, ht], hp⟩
  · split at hr
    · split at hr
      · cases hr
      · rename_i P v1 _
        simp only [Except.ok.injEq, Prod.mk.injEq] at hr
        obtain ⟨t, ht, hp⟩ := clear_of_link result (I.setParentType P) pack h hc
          (by rw [isTerminal_setParentType]; exact hI)
          (by rw [IsPackExpansion_setParentType]; exact hf)
        exact ⟨t, by rw [← hr.1, ht], hp⟩
    · simp only [Except.ok.injEq, Prod.mk.injEq] at hr
      obtain ⟨t, ht, hp⟩ := clear_of_link result I pack h hc hI hf
      exact ⟨t, by rw [← hr.1, ht], hp⟩

/-- Every result of the loop, started on an empty chain or on an open chain
without flags: but for the flag of the root, no node of the inner-type path
has its flag set. -/
theorem buildTypeInfoLoop_clear (n : Nat) :
    ∀ (v v' : ASTVisitor) (m : ExtractMode) (result : Option TypeInfo)
      (NNS : Option NestedNameSpecifier) (pack : Bool) (qt : QualType) (r : Option TypeInfo),
      4 * (QualType.size qt + NestedNameSpecifier.optSize NNS) + 1 ≤ n →
      chainOpenOpt result = true → pathClearOpt result = true →
      v.buildTypeInfoLoop m result NNS pack qt = Except.ok (r, v') →
      ∃ t, r = some t ∧ (t.setIsPackExpansion false).pathClear = true := by
  have fin : ∀ (v v' : ASTVisitor) m result NNS pack I r, chainOpenOpt result = true →
      pathClearOpt result = true → I.isTerminal = true → I.IsPackExpansion = false →
      v.buildTypeInfoTerminal m result NNS pack I = Except.ok (r, v') →
      ∃ t, r = some t ∧ (t.setIsPackExpansion false).pathClear = true :=
    fun v v' m result NNS pack I r ho hc hI hf hr =>
      buildTypeInfoTerminal_clear v v' m result NNS pack I r ho hc hI hf hr
  induction n with
  | zero => intro v v' m result NNS pack qt r h; omega
  | succ n ih =>
    intro v v' m result NNS pack qt r hle ho hc hr
    cases qt with
    | null => rw [ASTVisitor.buildTypeInfoLoop] at hr; cases hr
    | mk quals type =>
      cases type with
      | Paren T | MacroQualified T | Attributed T | Decayed T | Adjusted T | Using T
      | SubstTemplateTypeParm T | PackExpansion T =>
        rw [ASTVisitor.buildTypeInfoLoop] at hr
        refine ih _ _ _ _ _ _ _ _ ?_ ho hc hr
        simp only [QualType.size, ClangType.size, size_withFastQualifiers] at hle ⊢
        omega
      | Pointer T | LValueReference T | RValueReference T | IncompleteArray T =>
        rw [ASTVisitor.buildTypeInfoLoop] at hr
        refine ih _ _ _ _ _ _ _ _ ?_ ?_ ?_ hr
        · simp only [QualType.size, ClangType.size] at hle ⊢
          omega
        · exact chainOpenOpt_assignInner _ _ ho rfl
        · exact pathClearOpt_assignInner _ _ ho hc rfl
      | ConstantArray E S T =>
        rw [ASTVisitor.buildTypeInfoLoop] at hr
        refine ih _ _ _ _ _ _ _ _ ?_ ?_ ?_ hr
        · simp only [QualType.size, ClangType.size] at hle ⊢
          omega
        · exact chainOpenOpt_assignInner _ _ ho rfl
        · exact pathClearOpt_assignInner _ _ ho hc rfl
      | DependentSizedArray E T =>
        rw [ASTVisitor.buildTypeInfoLoop] at hr
        refine ih _ _ _ _ _ _ _ _ ?_ ?_ ?_ hr
        · simp only [QualType.size, ClangType.size] at hle ⊢
          omega
        · exact chainOpenOpt_assignInner _ _ ho rfl
        · exact pathClearOpt_assignInner _ _ ho hc rfl
      | MemberPointer C T =>
        rw [ASTVisitor.buildTypeInfoLoop] at hr
        simp only [QualType.size, ClangType.size] at hle
        split at hr
        · cases hr
        · refine ih _ _ _ _ _ _ _ _ (by omega) ?_ ?_ hr
          · exact chainOpenOpt_assignInner _ _ ho rfl
          · exact pathClearOpt_assignInner _ _ ho hc rfl
      | FunctionProto PTs rq mq es RT =>
        rw [ASTVisitor.buildTypeInfoLoop] at hr
        simp only [QualType.size, ClangType.size] at hle
        split at hr
        · cases hr
        · refine ih _ _ _ _ _ _ _ _ (by omega) ?_ ?_ hr
          · exact chainOpenOpt_assignInner _ _ ho rfl
          · exact pathClearOpt_assignInner _ _ ho hc rfl
      | Auto D name =>
        rw [ASTVisitor.buildTypeInfoLoop] at hr
        simp only [QualType.size, ClangType.size] at hle
        split at hr
        · exact ih _ _ _ _ _ _ _ _ (by omega) ho hc hr
        · exact fin _ _ _ _ _ _ _ _ ho hc (by rfl) (by rfl) hr
      | DeducedTemplateSpecialization D TD =>
        rw [ASTVisitor.buildTypeInfoLoop] at hr
        simp only [QualType.size, ClangType.size] at hle
        split at hr
        · exact ih _ _ _ _ _ _ _ _ (by omega) ho hc hr
        · exact fin _ _ _ _ _ _ _ _ ho hc
            (isTerminal_makeTypeInfoDecl _ _ _ _) (IsPackExpansion_makeTypeInfoDecl _ _ _ _) hr
      | Elaborated Q T =>
        rw [ASTVisitor.buildTypeInfoLoop] at hr
        simp only [QualType.size, ClangType.size] at hle
        split at hr
        · cases hr
        · refine ih _ _ _ _ _ _ _ _ ?_ ho hc hr
          simp only [size_withFastQualifiers]
          omega
      | DependentTemplateSpecialization II targs Q =>
        rw [ASTVisitor.buildTypeInfoLoop] at hr
        split at hr
        · cases hr
        · simp only [] at hr
          split at hr
          · cases hr
          · refine fin _ _ _ _ _ _ _ _ ho hc ?_ ?_ hr
            · rw [isTerminal_setTemplateArgs]; exact isTerminal_makeTypeInfo _ _ _
            · rw [IsPackExpansion_setTemplateArgs]; exact IsPackExpansion_makeTypeInfo _ _ _
      | DependentName II Q =>
        rw [ASTVisitor.buildTypeInfoLoop] at hr
        split at hr
        · cases hr
        · exact fin _ _ _ _ _ _ _ _ ho hc (isTerminal_makeTypeInfo _ _ _)
            (IsPackExpansion_makeTypeInfo _ _ _) hr
      | TemplateSpecialization nn TD al cd targs =>
        rw [ASTVisitor.buildTypeInfoLoop.eq_def] at hr
        simp only [] at hr
        split at hr
        · cases hr
        · split at hr
          · cases hr
          · refine fin _ _ _ _ _ _ _ _ ho hc ?_ ?_ hr
            · rw [isTerminal_setTemplateArgs]; exact isTerminal_makeTypeInfoDecl _ _ _ _
            · rw [IsPackExpansion_setTemplateArgs]
              exact IsPackExpansion_makeTypeInfoDecl _ _ _ _
      | Record RD targs =>
        cases targs with
        | none =>
          rw [ASTVisitor.buildTypeInfoLoop] at hr
          exact fin _ _ _ _ _ _ _ _ ho hc
            (isTerminal_makeTypeInfoDecl _ _ _ _) (IsPackExpansion_makeTypeInfoDecl _ _ _ _) hr
        | some targs =>
          rw [ASTVisitor.buildTypeInfoLoop] at hr
          split at hr
          · cases hr
          · refine fin _ _ _ _ _ _ _ _ ho hc ?_ ?_ hr
            · rw [isTerminal_setTemplateArgs]; exact isTerminal_makeTypeInfoDecl _ _ _ _
            · rw [IsPackExpansion_setTemplateArgs]
              exact IsPackExpansion_makeTypeInfoDecl _ _ _ _
      | InjectedClassName D | Enum D | Typedef D =>
        rw [ASTVisitor.buildTypeInfoLoop] at hr
        exact fin _ _ _ _ _ _ _ _ ho hc
          (isTerminal_makeTypeInfoDecl _ _ _ _) (IsPackExpansion_makeTypeInfoDecl _ _ _ _) hr
      | TemplateTypeParm D =>
        rw [ASTVisitor.buildTypeInfoLoop.eq_def] at hr
        simp only [] at hr
        exact fin _ _ _ _ _ _ _ _ ho hc (by rfl) (by rfl) hr
      | SubstTemplateTypeParmPack II =>
        rw [ASTVisitor.buildTypeInfoLoop] at hr
        exact fin _ _ _ _ _ _ _ _ ho hc (isTerminal_makeTypeInfo _ _ _)
          (IsPackExpansion_makeTypeInfo _ _ _) hr
      | VariableArray elem name =>
        rw [ASTVisitor.buildTypeInfoLoop] at hr
        exact fin _ _ _ _ _ _ _ _ ho hc (by rfl) (by rfl) hr
      | FunctionNoProto ret name =>
        rw [ASTVisitor.buildTypeInfoLoop] at hr
        exact fin _ _ _ _ _ _ _ _ ho hc (by rfl) (by rfl) hr
      | Other name =>
        rw [ASTVisitor.buildTypeInfoLoop] at hr
        exact fin _ _ _ _ _ _ _ _ ho hc (by rfl) (by rfl) hr

theorem innerPath_ne_nil (t : TypeInfo) : t.innerPath ≠ [] := by
  cases t with
  | LValueReference k p => cases p <;> simp [TypeInfo.innerPath]
  | RValueReference k p => cases p <;> simp [TypeInfo.innerPath]
  | Pointer k q p => cases p <;> simp [TypeInfo.innerPath]
  | MemberPointer k q c p => cases p <;> simp [TypeInfo.innerPath]
  | Array k b p => cases p <;> simp [TypeInfo.innerPath]
  | Function k r ps q rq e => cases r <;> simp [TypeInfo.innerPath]
  | Builtin k q n => simp [TypeInfo.innerPath]
  | Tag k q p n i => simp [TypeInfo.innerPath]
  | Specialization k q p n i a => simp [TypeInfo.innerPath]

theorem pathClear_innerPath : ∀ (t : TypeInfo), t.pathClear = true →
    ∀ n ∈ t.innerPath, n.IsPackExpansion = false
  | .LValueReference k none, h, n, hn => by
    simp [TypeInfo.innerPath] at hn; subst hn
    simpa [TypeInfo.pathClear, TypeInfo.IsPackExpansion] using h
  | .LValueReference k (some p), h, n, hn => by
    simp only [TypeInfo.pathClear, Bool.and_eq_true] at h
    simp only [TypeInfo.innerPath, List.mem_cons] at hn
    rcases hn with rfl | hn
    · simpa [TypeInfo.IsPackExpansion] using h.1
    · exact pathClear_innerPath p h.2 n hn
  | .RValueReference k none, h, n, hn => by
    simp [TypeInfo.innerPath] at hn; subst hn
    simpa [TypeInfo.pathClear, TypeInfo.IsPackExpansion] using h
  | .RValueReference k (some p), h, n, hn => by
    simp only [TypeInfo.pathClear, Bool.and_eq_true] at h
    simp only [TypeInfo.innerPath, List.mem_cons] at hn
    rcases hn with rfl | hn
    · simpa [TypeInfo.IsPackExpansion] using h.1
    · exact pathClear_innerPath p h.2 n hn
  | .Pointer k q none, h, n, hn => by
    simp [TypeInfo.innerPath] at hn; subst hn
    simpa [TypeInfo.pathClear, TypeInfo.IsPackExpansion] using h
  | .Pointer k q (some p), h, n, hn => by
    simp only [TypeInfo.pathClear, Bool.and_eq_true] at h
    simp only [TypeInfo.innerPath, List.mem_cons] at hn
    rcases hn with rfl | hn
    · simpa [TypeInfo.IsPackExpansion] using h.1
    · exact pathClear_innerPath p h.2 n hn
  | .MemberPointer k q c none, h, n, hn => by
    simp [TypeInfo.innerPath] at hn; subst hn
    simpa [TypeInfo.pathClear, TypeInfo.IsPackExpansion] using h
  | .MemberPointer k q c (some p), h, n, hn => by
    simp only [TypeInfo.pathClear, Bool.and_eq_true] at h
    simp only [TypeInfo.innerPath, List.mem_cons] at hn
    rcases hn with rfl | hn
    · simpa [TypeInfo.IsPackExpansion] using h.1
    · exact pathClear_innerPath p h.2 n hn
  | .Array k b none, h, n, hn => by
    simp [TypeInfo.innerPath] at hn; subst hn
    simpa [TypeInfo.pathClear, TypeInfo.IsPackExpansion] using h
  | .Array k b (some p), h, n, hn => by
    simp only [TypeInfo.pathClear, Bool.and_eq_true] at h
    simp only [TypeInfo.innerPath, List.mem_cons] at hn
    rcases hn with rfl | hn
    · simpa [TypeInfo.IsPackExpansion] using h.1
    · exact pathClear_innerPath p h.2 n hn
  | .Function k none ps q rq e, h, n, hn => by
    simp [TypeInfo.innerPath] at hn; subst hn
    simpa [TypeInfo.pathClear, TypeInfo.IsPackExpansion] using h
  | .Function k (some p) ps q rq e, h, n, hn => by
    simp only [TypeInfo.pathClear, Bool.and_eq_true] at h
    simp only [TypeInfo.innerPath, List.mem_cons] at hn
    rcases hn with rfl | hn
    · simpa [TypeInfo.IsPackExpansion] using h.1
    · exact pathClear_innerPath p h.2 n hn
  | .Builtin k q nm, h, n, hn => by
    simp [TypeInfo.innerPath] at hn; subst hn
    simpa [TypeInfo.pathClear, TypeInfo.IsPackExpansion] using h
  | .Tag k q p nm i, h, n, hn => by
    simp [TypeInfo.innerPath] at hn; subst hn
    simpa [TypeInfo.pathClear, TypeInfo.IsPackExpansion] using h
  | .Specialization k q p nm i a, h, n, hn => by
    simp [TypeInfo.innerPath] at hn; subst hn
    simpa [TypeInfo.pathClear, TypeInfo.IsPackExpansion] using h

theorem innerPath_tail_setIsPackExpansion (b : Bool) (t : TypeInfo) :
    (t.setIsPackExpansion b).innerPath.tail = t.innerPath.tail := by
  cases t with
  | LValueReference k p => cases p <;> rfl
  | RValueReference k p => cases p <;> rfl
  | Pointer k q p => cases p <;> rfl
  | MemberPointer k q c p => cases p <;> rfl
  | Array k b p => cases p <;> rfl
  | Function k r ps q rq e => cases r <;> rfl
  | Builtin k q n => rfl
  | Tag k q p n i => rfl
  | Specialization k q p n i a => rfl

/-- What `buildTypeInfo` does with the pack-expansion markers of a type. -/
theorem buildTypeInfo_pack {v w : ASTVisitor} {qt : QualType} {m : ExtractMode}
    {r : Option TypeInfo} (h : v.buildTypeInfo qt m = Except.ok (r, w)) :
    ∃ t, r = some t ∧ t.IsPackExpansion = qt.hasPackExpansion ∧
      (∀ n ∈ t.innerPath.tail, n.IsPackExpansion = false) ∧
      v.buildTypeInfo qt.withoutPackExpansion m =
        Except.ok (some (t.setIsPackExpansion false), w) := by
  rw [ASTVisitor.buildTypeInfo] at h ⊢
  unfold ASTVisitor.extractionScope at h ⊢
  split at h
  · rename_i r1 v1 hl
    simp only [Except.ok.injEq, Prod.mk.injEq] at h
    obtain ⟨t, ht, hf, -, h2⟩ := buildTypeInfoLoop_pack _ _ _ _ _ _ _ _ _ (le_refl _) hl
    obtain ⟨t', ht', hc⟩ := buildTypeInfoLoop_clear _ _ _ _ none _ _ _ _ (le_refl _) rfl rfl hl
    rw [ht] at ht'
    simp only [Option.some.injEq] at ht'
    subst ht'
    refine ⟨t, by rw [← h.1, ht], by simpa using hf, ?_, ?_⟩
    · intro n hn
      rw [← innerPath_tail_setIsPackExpansion false t] at hn
      exact pathClear_innerPath _ hc n (List.mem_of_mem_tail hn)
    · simp only [h2, h.2]
  · cases h

/-- The descriptor of the type `Ts*...`. -/
theorem examplePointerPack_descriptor :
    (ASTVisitor.init {}).buildTypeInfo examplePointerPack ExtractMode.Normal =
      Except.ok (some (TypeInfo.Pointer true ⟨false, false⟩
        (some (TypeInfo.Builtin false ⟨false, false⟩ "Ts"))), ASTVisitor.init {}) := by
  simp [examplePointerPack, ASTVisitor.buildTypeInfo, ASTVisitor.buildTypeInfoLoop,
    ASTVisitor.buildTypeInfoTerminal, ASTVisitor.extractionScope, QualType.withFastQualifiers,
    assignInner, TypeInfo.assignInner, TypeInfo.isTerminal, TypeInfo.setIsPackExpansion,
    convertToQualifierKind, ASTVisitor.init]

/-- C25: when `buildTypeInfo` returns, the pack-expansion flag of the root
of the descriptor is true if a pack-expansion marker was stripped on the way
to the terminal and false otherwise; no other node of the inner-type path has
its flag set; and but for the flag of the root the descriptor is the one
`buildTypeInfo` returns for the type with the markers removed. -/
theorem buildTypeInfo_pack_flag_on_root (v w : ASTVisitor) (qt : QualType) (m : ExtractMode)
    (r : Option TypeInfo) (h : v.buildTypeInfo qt m = Except.ok (r, w)) :
    ∃ t, r = some t ∧ t.IsPackExpansion = qt.hasPackExpansion ∧
      (∀ n ∈ t.innerPath.tail, n.IsPackExpansion = false) ∧
      v.buildTypeInfo qt.withoutPackExpansion m =
        Except.ok (some (t.setIsPackExpansion false), w) :=
  buildTypeInfo_pack h

/-- Witness for C25: the descriptor of `Ts*...` is a pointer node with the
flag set, over a builtin node without the flag. -/
theorem buildTypeInfo_pack_flag_on_root_witness :
    (ASTVisitor.init {}).buildTypeInfo examplePointerPack ExtractMode.Normal =
      Except.ok (some (TypeInfo.Pointer true ⟨false, false⟩
        (some (TypeInfo.Builtin false ⟨false, false⟩ "Ts"))), ASTVisitor.init {}) ∧
    ∃ t, some (TypeInfo.Pointer true ⟨false, false⟩
        (some (TypeInfo.Builtin false ⟨false, false⟩ "Ts"))) = some t ∧
      t.IsPackExpansion = examplePointerPack.hasPackExpansion ∧
      (∀ n ∈ t.innerPath.tail, n.IsPackExpansion = false) ∧
      (ASTVisitor.init {}).buildTypeInfo examplePointerPack.withoutPackExpansion
          ExtractMode.Normal =
        Except.ok (some (t.setIsPackExpansion false), ASTVisitor.init {}) :=
  ⟨examplePointerPack_descriptor,
    buildTypeInfo_pack_flag_on_root _ _ _ _ _ examplePointerPack_descriptor⟩

/-! ## Type template arguments that are pack expansions -/

/-- The template argument `Ts...`. -/
theorem examplePackExpansion_argument :
    (ASTVisitor.init {}).buildTemplateArg (TemplateArgument.Type examplePackExpansion) =
      Except.ok (some (TArg.TypeTArg true (some (TypeInfo.Builtin false ⟨false, false⟩ "Ts"))),
        ASTVisitor.init {}) := by
  simp [examplePackExpansion, ASTVisitor.buildTemplateArg, ASTVisitor.buildTypeInfo,
    ASTVisitor.buildTypeInfoLoop,
    ASTVisitor.buildTypeInfoTerminal, ASTVisitor.extractionScope, QualType.withFastQualifiers,
    assignInner, TypeInfo.assignInner, TypeInfo.isTerminal, TypeInfo.setIsPackExpansion,
    convertToQualifierKind, ASTVisitor.init]

/-- C21, counterexample: for the type template argument `Ts...`,
`buildTemplateArg` returns an argument whose own flag is set and whose type
descriptor, built from the pattern `Ts`, has its pack-expansion flag
clear. -/
theorem pack_expansion_flag_is_on_the_argument :
    ∃ t, (ASTVisitor.init {}).buildTemplateArg (TemplateArgument.Type examplePackExpansion) =
        Except.ok (some (TArg.TypeTArg true (some t)), ASTVisitor.init {}) ∧
      t.IsPackExpansion = false :=
  ⟨_, examplePackExpansion_argument, rfl⟩

/-- C21 (amended): for every type template argument that is a pack
expansion, `buildTemplateArg` builds the type descriptor from the pattern of
the expansion, in indirect dependency mode, and sets the pack-expansion flag
of the template argument; the flag of the descriptor is that of the
descriptor of the pattern, set only if a marker is stripped inside the
pattern. -/
theorem buildTemplateArg_pack_expansion_marks_argument (v w : ASTVisitor) (quals : Nat)
    (pattern : QualType) (a : Option TArg)
    (h : v.buildTemplateArg (TemplateArgument.Type
      (QualType.mk quals (ClangType.PackExpansion pattern))) = Except.ok (a, w)) :
    ∃ t, v.buildTypeInfo pattern ExtractMode.IndirectDependency = Except.ok (some t, w) ∧
      a = some (TArg.TypeTArg true (some t)) ∧
      t.IsPackExpansion = pattern.hasPackExpansion := by
  rw [ASTVisitor.buildTemplateArg] at h
  split at h
  · cases h
  · rename_i r u hX
    simp only [Except.ok.injEq, Prod.mk.injEq] at h
    obtain ⟨t, ht, hf, -, -⟩ := buildTypeInfo_pack hX
    subst ht
    exact ⟨t, by rw [hX, h.2], h.1.symm, hf⟩

/-- Witness for C21: the template argument `Ts...`. -/
theorem buildTemplateArg_pack_expansion_marks_argument_witness :
    (ASTVisitor.init {}).buildTemplateArg (TemplateArgument.Type examplePackExpansion) =
      Except.ok (some (TArg.TypeTArg true (some (TypeInfo.Builtin false ⟨false, false⟩ "Ts"))),
        ASTVisitor.init {}) ∧
    ∃ t, (ASTVisitor.init {}).buildTypeInfo (QualType.mk 0 (ClangType.Other "Ts"))
        ExtractMode.IndirectDependency = Except.ok (some t, ASTVisitor.init {}) ∧
      some (TArg.TypeTArg true (some (TypeInfo.Builtin false ⟨false, false⟩ "Ts"))) =
        some (TArg.TypeTArg true (some t)) ∧
      t.IsPackExpansion = (QualType.mk 0 (ClangType.Other "Ts")).hasPackExpansion :=
  ⟨examplePackExpansion_argument,
    buildTemplateArg_pack_expansion_marks_argument _ _ 0 _ _ examplePackExpansion_argument⟩


/-! ## The member lists of the parents -/

theorem tidy_create (K : InfoKind) (id : SymbolID) : (Info.create K id).Tidy :=
  ⟨rfl, List.nodup_nil, List.nodup_nil⟩

theorem tidy_of_lists {i j : Info} (h : j.lists = i.lists) (hi : i.Tidy) : j.Tidy := by
  simp only [Info.lists, Prod.mk.injEq] at h
  obtain ⟨h1, h2, h3⟩ := h
  exact ⟨by rw [h3]; exact hi.1, by rw [h1]; exact hi.2.1, by rw [h2]; exact hi.2.2⟩

theorem steady_refl (v : ASTVisitor) : Steady v v :=
  ⟨fun h => h, fun _ e h => ⟨e, h, fun _ hx => hx, fun _ hx => hx⟩⟩

theorem steady_trans {u v w : ASTVisitor} (h1 : Steady u v) (h2 : Steady v w) :
    Steady u w := by
  refine ⟨fun h => h2.1 (h1.1 h), ?_⟩
  intro id e he
  obtain ⟨e1, he1, hm1, hs1⟩ := h1.2 id e he
  obtain ⟨e2, he2, hm2, hs2⟩ := h2.2 id e1 he1
  exact ⟨e2, he2, fun x hx => hm2 x (hm1 x hx), fun x hx => hs2 x (hs1 x hx)⟩

theorem steady_of_info {v w : ASTVisitor} (h : w.info_ = v.info_) : Steady v w := by
  refine ⟨?_, ?_⟩
  · intro hv i hi
    rw [h] at hi
    exact hv i hi
  · intro id e he
    refine ⟨e, ?_, fun _ hx => hx, fun _ hx => hx⟩
    unfold ASTVisitor.findInfo at he ⊢
    rw [h]
    exact he

/-- A write through `modifyInfo` is a steady step when it keeps the identity
and the tidiness of an entity and removes no member. -/
theorem steady_modifyInfo (v : ASTVisitor) (I : SymbolID) (f : Info → Info)
    (hid : ∀ i, (f i).id = i.id) (hT : ∀ i, i.Tidy → (f i).Tidy)
    (hM : ∀ i x, x ∈ i.Members → x ∈ (f i).Members)
    (hS : ∀ i x, x ∈ i.SpecializedMembers → x ∈ (f i).SpecializedMembers) :
    Steady v (v.modifyInfo I f) := by
  refine ⟨?_, ?_⟩
  · intro hv e he
    rcases InfoSet.mem_update he with h | ⟨e0, h0, -, rfl⟩
    · exact hv e h
    · exact hT e0 (hv e0 h0)
  · intro id e he
    by_cases hI : id = I
    · subst hI
      refine ⟨f e, ?_, hM e, hS e⟩
      unfold ASTVisitor.findInfo at he ⊢
      show InfoSet.find (InfoSet.update v.info_ id f) id = _
      rw [InfoSet.find_update_same v.info_ id f hid, he]
      rfl
    · refine ⟨e, ?_, fun _ hx => hx, fun _ hx => hx⟩
      unfold ASTVisitor.findInfo at he ⊢
      show InfoSet.find (InfoSet.update v.info_ I f) id = _
      rw [InfoSet.find_update_ne v.info_ I id f hid hI]
      exact he

/-- A write that leaves the member lists alone is a steady step. -/
theorem steady_calm (v : ASTVisitor) (I : SymbolID) (f : Info → Info)
    (hid : ∀ i, (f i).id = i.id) (hl : ∀ i, (f i).lists = i.lists) :
    Steady v (v.modifyInfo I f) := by
  refine steady_modifyInfo v I f hid (fun i hi => tidy_of_lists (hl i) hi) ?_ ?_
  · intro i x hx
    have := congrArg Prod.fst (hl i)
    simp only [Info.lists] at this
    rw [this]; exact hx
  · intro i x hx
    have := congrArg (fun p => p.2.1) (hl i)
    simp only [Info.lists] at this
    rw [this]; exact hx

theorem steady_step {v u : ASTVisitor} (h : Steady v u) (I : SymbolID) (f : Info → Info)
    (hid : ∀ i, (f i).id = i.id) (hl : ∀ i, (f i).lists = i.lists) :
    Steady v (u.modifyInfo I f) :=
  steady_trans h (steady_calm u I f hid hl)

theorem steadyStep_ok {v w : ASTVisitor} (h : Steady v w) : SteadyStep v (Except.ok w) := by
  intro u hu
  simp only [Except.ok.injEq] at hu
  subst hu
  exact h

theorem steadyStep_error (v : ASTVisitor) (e : Fault) : SteadyStep v (Except.error e) := by
  intro u hu; cases hu

theorem steadyStep_modify {v u : ASTVisitor} (h : Steady v u) (I : SymbolID) (f : Info → Info)
    (hid : ∀ i, (f i).id = i.id) (hl : ∀ i, (f i).lists = i.lists) :
    SteadyStep v (Except.ok (u.modifyInfo I f)) :=
  steadyStep_ok (steady_step h I f hid hl)

theorem steadyB_ok {v w : ASTVisitor} {b : Bool} (h : Steady v w) :
    SteadyB v (Except.ok (b, w)) := by
  intro b' u hu
  simp only [Except.ok.injEq, Prod.mk.injEq] at hu
  obtain ⟨-, hu⟩ := hu
  subst hu
  exact h

theorem steadyB_error (v : ASTVisitor) (e : Fault) : SteadyB v (Except.error e) := by
  intro b u hu; cases hu

theorem steadyB_dropResult {v : ASTVisitor} {r : Except Fault (Bool × ASTVisitor)}
    (h : SteadyB v r) : SteadyB v (ASTVisitor.dropResult r) := by
  unfold ASTVisitor.dropResult
  split
  · exact steadyB_error _ _
  · rename_i b w
    exact steadyB_ok (h b w rfl)

theorem steady_shouldExtract (v : ASTVisitor) (D : DeclBase) :
    Steady v (v.shouldExtract D).2 := by
  apply steady_of_info
  unfold ASTVisitor.shouldExtract ASTVisitor.inExtractedFile
  simp only []
  repeat' split
  all_goals rfl

theorem steady_getOrCreateInfo {v w : ASTVisitor} {K : InfoKind} {P : SymbolID} {e : Info}
    {c : Bool} (h : v.getOrCreateInfo K P = Except.ok (w, e, c)) : Steady v w := by
  rcases ASTVisitor.getOrCreateInfo_cases v K P with ⟨h0, h1⟩ | ⟨i, _, _, h1⟩ | ⟨i, _, _, h1⟩
  · rw [h1] at h
    simp only [Except.ok.injEq, Prod.mk.injEq] at h
    obtain ⟨hw, -, -⟩ := h
    subst hw
    refine ⟨?_, ?_⟩
    · intro hv i hi
      rcases List.mem_append.1 hi with hi | hi
      · exact hv i hi
      · simp only [List.mem_singleton] at hi
        subst hi
        exact tidy_of_lists rfl (tidy_create K P)
    · intro id x hx
      refine ⟨x, ?_, fun _ hy => hy, fun _ hy => hy⟩
      unfold ASTVisitor.findInfo InfoSet.find at hx ⊢
      simp only [List.find?_append, hx]
      rfl
  · rw [h1] at h
    simp only [Except.ok.injEq, Prod.mk.injEq] at h
    obtain ⟨hw, -, -⟩ := h
    subst hw
    exact steady_calm v P _ (fun _ => rfl) (fun _ => rfl)
  · rw [h1] at h; cases h

theorem emplaceChild_tidy (hs : Bool) (C : Option Info) (i : Info) (hi : i.Tidy) :
    (ASTVisitor.emplaceChild hs C i).Tidy := by
  have key : ∀ (j : Info) (c : InfoPtr), j.Tidy →
      (if j.Members.contains c then j else { j with Members := j.Members ++ [c] }).Tidy := by
    intro j c hj
    split
    · exact hj
    · rename_i hc
      refine ⟨hj.1, ?_, hj.2.2⟩
      show (j.Members ++ [c]).Nodup
      rw [List.nodup_append]
      refine ⟨hj.2.1, List.nodup_singleton _, ?_⟩
      intro a ha hb
      simp only [List.mem_singleton] at hb
      subst hb
      exact hc (by simpa using ha)
  unfold ASTVisitor.emplaceChild
  simp only []
  refine key _ _ ?_
  split
  · split
    · split
      · exact key _ _ hi
      · exact hi
    · exact hi
  · exact hi

theorem emplaceChild_Members (hs : Bool) (C : Option Info) (i : Info) :
    (∀ x ∈ i.Members, x ∈ (ASTVisitor.emplaceChild hs C i).Members) ∧
    C.map Info.id ∈ (ASTVisitor.emplaceChild hs C i).Members ∧
    (ASTVisitor.emplaceChild hs C i).SpecializedMembers = i.SpecializedMembers ∧
    (ASTVisitor.emplaceChild hs C i).Specializations = i.Specializations := by
  have key : ∀ (j : Info) (c : InfoPtr),
      (∀ x ∈ j.Members, x ∈
        (if j.Members.contains c then j else { j with Members := j.Members ++ [c] }).Members) ∧
      c ∈ (if j.Members.contains c then j else { j with Members := j.Members ++ [c] }).Members ∧
      (if j.Members.contains c then j
        else { j with Members := j.Members ++ [c] }).SpecializedMembers =
        j.SpecializedMembers ∧
      (if j.Members.contains c then j
        else { j with Members := j.Members ++ [c] }).Specializations = j.Specializations := by
    intro j c
    split
    · rename_i hc
      exact ⟨fun _ hx => hx, by simpa using hc, rfl, rfl⟩
    · exact ⟨fun x hx => List.mem_append_left _ hx, by simp, rfl, rfl⟩
  have inner : ∀ (j : Info),
      (∀ x ∈ i.Members, x ∈ j.Members) → j.SpecializedMembers = i.SpecializedMembers →
      j.Specializations = i.Specializations →
      (∀ x ∈ i.Members, x ∈
        (if j.Members.contains (C.map Info.id) then j
          else { j with Members := j.Members ++ [C.map Info.id] }).Members) ∧
      C.map Info.id ∈ (if j.Members.contains (C.map Info.id) then j
          else { j with Members := j.Members ++ [C.map Info.id] }).Members ∧
      (if j.Members.contains (C.map Info.id) then j
          else { j with Members := j.Members ++ [C.map Info.id] }).SpecializedMembers =
        i.SpecializedMembers ∧
      (if j.Members.contains (C.map Info.id) then j
          else { j with Members := j.Members ++ [C.map Info.id] }).Specializations =
        i.Specializations := by
    intro j h1 h2 h3
    obtain ⟨k1, k2, k3, k4⟩ := key j (C.map Info.id)
    exact ⟨fun x hx => k1 x (h1 x hx), k2, k3.trans h2, k4.trans h3⟩
  unfold ASTVisitor.emplaceChild
  simp only []
  refine inner _ ?_ ?_ ?_
  · intro x hx
    split
    · split
      · split
        · exact (key i _).1 x hx
        · exact hx
      · exact hx
    · exact hx
  · split
    · split
      · split
        · exact (key i _).2.2.1
        · rfl
      · rfl
    · rfl
  · split
    · split
      · split
        · exact (key i _).2.2.2
        · rfl
      · rfl
    · rfl

theorem emplaceSpecializedMember_tidy (C : SpecializedMember) (i : Info) (hi : i.Tidy) :
    (ASTVisitor.emplaceSpecializedMember C i).Tidy := by
  unfold ASTVisitor.emplaceSpecializedMember
  split
  · exact hi
  · rename_i hc
    refine ⟨hi.1, hi.2.1, ?_⟩
    show (i.SpecializedMembers ++ [C]).Nodup
    rw [List.nodup_append]
    refine ⟨hi.2.2, List.nodup_singleton _, ?_⟩
    intro a ha hb
    simp only [List.mem_singleton] at hb
    subst hb
    exact hc (by simpa using ha)

theorem emplaceSpecializedMember_Members (C : SpecializedMember) (i : Info) :
    (∀ x ∈ i.SpecializedMembers, x ∈ (ASTVisitor.emplaceSpecializedMember C i).SpecializedMembers) ∧
    C ∈ (ASTVisitor.emplaceSpecializedMember C i).SpecializedMembers ∧
    (ASTVisitor.emplaceSpecializedMember C i).Members = i.Members ∧
    (ASTVisitor.emplaceSpecializedMember C i).Specializations = i.Specializations := by
  unfold ASTVisitor.emplaceSpecializedMember
  split
  · rename_i hc
    exact ⟨fun _ hx => hx, by simpa using hc, rfl, rfl⟩
  · exact ⟨fun x hx => List.mem_append_left _ hx, by simp, rfl, rfl⟩

theorem steady_emplaceChild (v : ASTVisitor) (P : SymbolID) (hs : Bool) (C : Option Info) :
    Steady v (v.modifyInfo P (ASTVisitor.emplaceChild hs C)) :=
  steady_modifyInfo v P _ (fun i => (emplaceChild_keeps _ _ i).1)
    (fun i hi => emplaceChild_tidy hs C i hi)
    (fun i => (emplaceChild_Members hs C i).1)
    (fun i x hx => by rw [(emplaceChild_Members hs C i).2.2.1]; exact hx)

theorem steady_emplaceSpecializedMember (v : ASTVisitor) (P : SymbolID)
    (C : SpecializedMember) :
    Steady v (v.modifyInfo P (ASTVisitor.emplaceSpecializedMember C)) :=
  steady_modifyInfo v P _ (fun i => (emplaceSpecializedMember_keeps _ i).1)
    (fun i hi => emplaceSpecializedMember_tidy C i hi)
    (fun i x hx => by rw [(emplaceSpecializedMember_Members C i).2.2.1]; exact hx)
    (fun i => (emplaceSpecializedMember_Members C i).1)

theorem firstBuildSpecialization_steady (I : SymbolID) (D : CXXRecordDecl) (v : ASTVisitor) :
    SteadyStep v (ASTVisitor.firstBuildSpecialization I D v) := by
  unfold ASTVisitor.firstBuildSpecialization
  simp only []
  split
  · rename_i e hX
    exact steadyStep_error _ _
  · rename_i t w hX
    have hw := readsOnly_state (buildTemplateArgs_readsOnly _ _ _) hX
    subst hw
    exact steadyStep_ok (steady_calm _ _ _ (fun _ => rfl) (fun _ => rfl))

theorem firstBuildNamespace_steady (I : SymbolID) (D : NamespaceDecl) (v : ASTVisitor) :
    SteadyStep v (ASTVisitor.firstBuildNamespace I D v) := by
  unfold ASTVisitor.firstBuildNamespace
  refine steadyStep_ok (steady_calm _ _ _ ?_ ?_)
  · intro i
    try simp only []
    split <;> rfl
  · intro i
    try simp only []
    split <;> rfl

theorem firstBuildRecord_steady (I : SymbolID) (D : CXXRecordDecl) (v : ASTVisitor) :
    SteadyStep v (ASTVisitor.firstBuildRecord I D v) := by
  unfold ASTVisitor.firstBuildRecord
  simp only []
  have h1 : ∀ f : Info → Info, (∀ i, (f i).id = i.id) → (∀ i, (f i).lists = i.lists) →
      Steady v (v.modifyInfo I f) := fun f h h' => steady_calm v I f h h'
  have hq := h1 (fun i =>
    match D.getDestructorFinal with
    | some b =>
      { (match D.getTypedefNameForAnonDecl with
          | some TD => { i with IsTypeDef := true, Name := TD }
          | none => { i with Name := D.extractName }) with
        KeyKind := D.getTagKind, isFinal := D.hasFinalAttr, isFinalDestructor := b }
    | none =>
      { (match D.getTypedefNameForAnonDecl with
          | some TD => { i with IsTypeDef := true, Name := TD }
          | none => { i with Name := D.extractName }) with
        KeyKind := D.getTagKind, isFinal := D.hasFinalAttr })
    (by intro i; (try simp only []); repeat' split
        all_goals rfl)
    (by intro i; (try simp only []); repeat' split
        all_goals rfl)
  split
  · split
    · rename_i e hX
      exact steadyStep_error _ _
    · rename_i t w hX
      have hw := readsOnly_state (buildBases_readsOnly _ _) hX
      subst hw
      exact steadyStep_ok (steady_trans hq (steady_calm _ _ _ (fun _ => rfl) (fun _ => rfl)))
  · exact steadyStep_ok hq

theorem firstBuildEnum_steady (I : SymbolID) (D : EnumDecl) (v : ASTVisitor) :
    SteadyStep v (ASTVisitor.firstBuildEnum I D v) := by
  unfold ASTVisitor.firstBuildEnum
  simp only []
  have hq : Steady v (v.modifyInfo I
      (fun i => { i with Name := D.extractName, Scoped := D.isScoped })) :=
    steady_calm _ _ _ (fun _ => rfl) (fun _ => rfl)
  split
  · rename_i e hX
    split at hX
    · split at hX
      · rename_i e1 hY
        simp only [Except.error.injEq] at hX
        subst hX
        exact steadyStep_error _ _
      · cases hX
    · cases hX
  · rename_i w hX
    split at hX
    · split at hX
      · cases hX
      · rename_i t u hY
        have hu := readsOnly_state (buildTypeInfo_readsOnly _ _ _) hY
        subst hu
        simp only [Except.ok.injEq] at hX
        subst hX
        refine steadyStep_modify ?_ _ _ (fun _ => rfl) (fun _ => rfl)
        exact steady_step hq _ _ (fun _ => rfl) (fun _ => rfl)
    · simp only [Except.ok.injEq] at hX
      subst hX
      exact steadyStep_modify hq _ _ (fun _ => rfl) (fun _ => rfl)

theorem firstBuildTypedef_steady (I : SymbolID) (D : TypedefNameDecl) (v : ASTVisitor) :
    SteadyStep v (ASTVisitor.firstBuildTypedef I D v) := by
  unfold ASTVisitor.firstBuildTypedef
  simp only []
  have hq : Steady v (v.modifyInfo I (fun i => { i with Name := D.extractName })) :=
    steady_calm _ _ _ (fun _ => rfl) (fun _ => rfl)
  split
  · rename_i e hX
    exact steadyStep_error _ _
  · rename_i t w hX
    have hw := readsOnly_state (buildTypeInfo_readsOnly _ _ _) hX
    subst hw
    exact steadyStep_modify hq _ _ (fun _ => rfl) (fun _ => rfl)

theorem firstBuildVariable_steady (I : SymbolID) (D : VarDecl) (v : ASTVisitor) :
    SteadyStep v (ASTVisitor.firstBuildVariable I D v) := by
  unfold ASTVisitor.firstBuildVariable
  simp only []
  have hq : Steady v (v.modifyInfo I (fun i => { i with Name := D.extractName })) :=
    steady_calm _ _ _ (fun _ => rfl) (fun _ => rfl)
  split
  · rename_i e hX
    exact steadyStep_error _ _
  · rename_i t w hX
    have hw := readsOnly_state (buildTypeInfo_readsOnly _ _ _) hX
    subst hw
    exact steadyStep_modify hq _ _ (fun _ => rfl) (fun _ => rfl)

theorem firstBuildField_steady (I : SymbolID) (D : FieldDecl) (v : ASTVisitor) :
    SteadyStep v (ASTVisitor.firstBuildField I D v) := by
  unfold ASTVisitor.firstBuildField
  simp only []
  have hq : Steady v (v.modifyInfo I (fun i => { i with Name := D.extractName })) :=
    steady_calm _ _ _ (fun _ => rfl) (fun _ => rfl)
  split
  · rename_i e hX
    exact steadyStep_error _ _
  · rename_i t w hX
    have hw := readsOnly_state (buildTypeInfo_readsOnly _ _ _) hX
    subst hw
    refine steadyStep_modify hq _ _ ?_ ?_
    · intro i
      try simp only []
      split <;> rfl
    · intro i
      try simp only []
      split <;> rfl

theorem firstBuildFunction_steady (I : SymbolID) (D : FunctionDecl) (v : ASTVisitor) :
    SteadyStep v (ASTVisitor.firstBuildFunction I D v) := by
  unfold ASTVisitor.firstBuildFunction
  simp only []
  have hq : Steady v (v.modifyInfo I
      (fun i => { i with Name := D.extractName, Class := D.getFunctionClass })) :=
    steady_calm _ _ _ (fun _ => rfl) (fun _ => rfl)
  split
  · rename_i e hX
    exact steadyStep_error _ _
  · rename_i ps w hX
    have hw := readsOnly_state (buildParams_readsOnly _ _) hX
    subst hw
    split
    · rename_i e hY
      exact steadyStep_error _ _
    · rename_i t u hY
      have hu := readsOnly_state (buildTypeInfo_readsOnly _ _ _) hY
      subst hu
      refine steadyStep_modify ?_ _ _ (fun _ => rfl) (fun _ => rfl)
      exact steady_step hq _ _ (fun _ => rfl) (fun _ => rfl)

theorem parseTemplateHead_steady (v : ASTVisitor) (I : SymbolID) (access : AccessKind)
    (TD : Option TemplateDecl) (spec : Option SpecializationArgs)
    (params : Option (List TemplateParmDecl)) :
    SteadyStep v (v.parseTemplateHead I access TD spec params) := by
  unfold ASTVisitor.parseTemplateHead
  split
  · exact steadyStep_modify (steady_refl v) _ _ (fun _ => rfl) (fun _ => rfl)
  · split
    · rename_i e hX
      exact steadyStep_error _ _
    · rename_i t w hX
      have hw := readsOnly_state (parseTemplateInfo_readsOnly _ _ _ _) hX
      subst hw
      exact steadyStep_modify (steady_refl _) _ _ (fun _ => rfl) (fun _ => rfl)

theorem parseFunctionTemplateHead_steady (v : ASTVisitor) (I : SymbolID) (D : FunctionDecl)
    (FTD : Option TemplateDecl) :
    SteadyStep v (v.parseFunctionTemplateHead I D FTD) := by
  unfold ASTVisitor.parseFunctionTemplateHead
  split
  · split
    · rename_i e hX
      exact steadyStep_error _ _
    · rename_i t w hX
      have hw := readsOnly_state (parseTemplateParams_readsOnly _ _ _) hX
      subst hw
      exact steadyStep_modify (steady_refl _) _ _ (fun _ => rfl) (fun _ => rfl)
  · split
    · split
      · rename_i e hX
        exact steadyStep_error _ _
      · rename_i t w hX
        have hw := readsOnly_state (parseTemplateArgs_readsOnly _ _ _) hX
        subst hw
        exact steadyStep_modify (steady_refl _) _ _ (fun _ => rfl) (fun _ => rfl)
    · split
      · split
        · rename_i e hX
          exact steadyStep_error _ _
        · rename_i t w hX
          have hw := readsOnly_state (parseTemplateArgs_readsOnly _ _ _) hX
          subst hw
          exact steadyStep_modify (steady_refl _) _ _ (fun _ => rfl) (fun _ => rfl)
      · exact steadyStep_modify (steady_refl _) _ _ (fun _ => rfl) (fun _ => rfl)

theorem count_eq_one_of_nodup {α : Type} [BEq α] [LawfulBEq α] {a : α} :
    ∀ {l : List α}, l.Nodup → a ∈ l → l.count a = 1
  | [], _, h => by cases h
  | b :: l, hn, h => by
    rw [List.nodup_cons] at hn
    rw [List.count_cons]
    rcases List.mem_cons.1 h with rfl | h
    · have : List.count a l = 0 := List.count_eq_zero.2 hn.1
      simp [this]
    · have hne : (b == a) = false := by
        apply beq_false_of_ne
        rintro rfl
        exact hn.1 h
      simp [hne, count_eq_one_of_nodup hn.2 h]

theorem grows_ids {v w : ASTVisitor} (h : Grows v w) {id : SymbolID} (hid : id ∈ v.ids) :
    id ∈ w.ids := by
  cases hf : v.findInfo id with
  | none => exact absurd hf ((mem_ids_iff v id).1 hid)
  | some e =>
    obtain ⟨e', he', -, -⟩ := h id e hf
    exact (mem_ids_iff w id).2 (by rw [he']; exact Option.some_ne_none _)

theorem linked_of_mem {w : ASTVisitor} {P c : SymbolID} {e : Info} (hT : w.Tidy)
    (he : w.findInfo P = some e) (hm : some c ∈ e.Members) : Linked w (c, P, false) := by
  refine ⟨e, he, ?_⟩
  simp only [Bool.false_eq_true, if_false]
  exact count_eq_one_of_nodup (hT e (InfoSet.find_some_mem he).1).2.1 hm

theorem linked_of_mem_pair {w : ASTVisitor} {P c : SymbolID} {e : Info} (hT : w.Tidy)
    (he : w.findInfo P = some e)
    (hm : (⟨none, some c⟩ : SpecializedMember) ∈ e.SpecializedMembers) :
    Linked w (c, P, true) := by
  refine ⟨e, he, ?_⟩
  simp only [if_true]
  exact count_eq_one_of_nodup (hT e (InfoSet.find_some_mem he).1).2.2 hm

/-- A link stays when the member lists lose no element and stay tidy. -/
theorem linked_of_grows {v w : ASTVisitor} {l : SymbolID × SymbolID × Bool}
    (h : Linked v l) (hg : Grows v w) (hT : w.Tidy) : Linked w l := by
  obtain ⟨c, P, s⟩ := l
  obtain ⟨e, he, hc⟩ := h
  obtain ⟨e', he', hm, hs⟩ := hg P e he
  cases s with
  | false =>
    simp only [Bool.false_eq_true, if_false] at hc
    refine linked_of_mem hT he' (hm _ ?_)
    exact List.count_pos_iff.1 (by rw [hc]; exact Nat.one_pos)
  | true =>
    simp only [if_true] at hc
    refine linked_of_mem_pair hT he' (hs _ ?_)
    exact List.count_pos_iff.1 (by rw [hc]; exact Nat.one_pos)

theorem findInfo_modifyInfo_same (v : ASTVisitor) (I : SymbolID) (f : Info → Info)
    (hid : ∀ i, (f i).id = i.id) {e : Info} (he : v.findInfo I = some e) :
    (v.modifyInfo I f).findInfo I = some (f e) := by
  unfold ASTVisitor.findInfo at he ⊢
  show InfoSet.find (InfoSet.update v.info_ I f) I = _
  rw [InfoSet.find_update_same v.info_ I f hid, he]
  rfl

theorem findInfo_of_mem_ids {v : ASTVisitor} {id : SymbolID} (h : id ∈ v.ids) :
    ∃ e, v.findInfo id = some e ∧ e.id = id := by
  cases hf : v.findInfo id with
  | none => exact absurd hf ((mem_ids_iff v id).1 h)
  | some e => exact ⟨e, rfl, (InfoSet.find_some_mem hf).2⟩

/-- One turn of the loop of `getParentNamespaces` for a parent whose
`Members` holds the children: the link of the turn, then the links of the
turns that follow. -/
theorem link_step {v v2 w : ASTVisitor} {I P child : SymbolID} (g : Info → Info)
    {links : List (SymbolID × SymbolID × Bool)}
    (hgid : ∀ i, (g i).id = i.id) (hgl : ∀ i, (g i).lists = i.lists)
    (h12 : Steady v v2) (hP : P ∈ v2.ids)
    (hrest : Steady ((v2.modifyInfo P (ASTVisitor.emplaceChild true (v2.findInfo child))).modifyInfo
        I g) w ∧
      (((v2.modifyInfo P (ASTVisitor.emplaceChild true (v2.findInfo child))).modifyInfo
        I g).Tidy →
       P ∈ ((v2.modifyInfo P (ASTVisitor.emplaceChild true (v2.findInfo child))).modifyInfo
        I g).ids → ∀ l ∈ links, Linked w l)) :
    Steady v w ∧
      (v.Tidy → child ∈ v.ids → ∀ l ∈ (child, P, false) :: links, Linked w l) := by
  have s23 := steady_emplaceChild v2 P true (v2.findInfo child)
  have s34 := steady_calm (v2.modifyInfo P (ASTVisitor.emplaceChild true (v2.findInfo child)))
    I g hgid hgl
  have s3w := steady_trans s34 hrest.1
  have svw := steady_trans h12 (steady_trans s23 s3w)
  refine ⟨svw, ?_⟩
  intro hT hc l hl
  have hTw := svw.1 hT
  rcases List.mem_cons.1 hl with rfl | hl
  · obtain ⟨ce, hce, hcid⟩ := findInfo_of_mem_ids (grows_ids h12.2 hc)
    obtain ⟨e2, he2, -⟩ := findInfo_of_mem_ids hP
    have h3 := findInfo_modifyInfo_same v2 P (ASTVisitor.emplaceChild true (v2.findInfo child))
      (fun i => (emplaceChild_keeps _ _ i).1) he2
    obtain ⟨e', he', hm, -⟩ := s3w.2 P _ h3
    refine linked_of_mem hTw he' (hm _ ?_)
    have := (emplaceChild_Members true (v2.findInfo child) e2).2.1
    rw [hce] at this ⊢
    simpa [hcid] using this
  · refine hrest.2 (s34.1 (s23.1 (h12.1 hT))) ?_ l hl
    rw [ASTVisitor.ids_modifyInfo _ _ _ hgid,
      ASTVisitor.ids_modifyInfo _ _ _ (fun i => (emplaceChild_keeps _ _ i).1)]
    exact hP

/-- One turn of the loop of `getParentNamespaces` for the specialization
entity of an implicit instantiation. -/
theorem link_step_pair {v v2 w : ASTVisitor} {I P child : SymbolID} (g : Info → Info)
    {links : List (SymbolID × SymbolID × Bool)}
    (hgid : ∀ i, (g i).id = i.id) (hgl : ∀ i, (g i).lists = i.lists)
    (h12 : Steady v v2) (hP : P ∈ v2.ids)
    (hrest : Steady ((v2.modifyInfo P (ASTVisitor.emplaceSpecializedMember
        ⟨none, (v2.findInfo child).map Info.id⟩)).modifyInfo I g) w ∧
      (((v2.modifyInfo P (ASTVisitor.emplaceSpecializedMember
        ⟨none, (v2.findInfo child).map Info.id⟩)).modifyInfo I g).Tidy →
       P ∈ ((v2.modifyInfo P (ASTVisitor.emplaceSpecializedMember
        ⟨none, (v2.findInfo child).map Info.id⟩)).modifyInfo I g).ids →
       ∀ l ∈ links, Linked w l)) :
    Steady v w ∧
      (v.Tidy → child ∈ v.ids → ∀ l ∈ (child, P, true) :: links, Linked w l) := by
  have s23 := steady_emplaceSpecializedMember v2 P ⟨none, (v2.findInfo child).map Info.id⟩
  have s34 := steady_calm (v2.modifyInfo P (ASTVisitor.emplaceSpecializedMember
    ⟨none, (v2.findInfo child).map Info.id⟩)) I g hgid hgl
  have s3w := steady_trans s34 hrest.1
  have svw := steady_trans h12 (steady_trans s23 s3w)
  refine ⟨svw, ?_⟩
  intro hT hc l hl
  have hTw := svw.1 hT
  rcases List.mem_cons.1 hl with rfl | hl
  · obtain ⟨ce, hce, hcid⟩ := findInfo_of_mem_ids (grows_ids h12.2 hc)
    obtain ⟨e2, he2, -⟩ := findInfo_of_mem_ids hP
    have h3 := findInfo_modifyInfo_same v2 P (ASTVisitor.emplaceSpecializedMember
      ⟨none, (v2.findInfo child).map Info.id⟩)
      (fun i => (emplaceSpecializedMember_keeps _ i).1) he2
    obtain ⟨e', he', -, hs⟩ := s3w.2 P _ h3
    refine linked_of_mem_pair hTw he' (hs _ ?_)
    have := (emplaceSpecializedMember_Members
      ⟨none, (v2.findInfo child).map Info.id⟩ e2).2.1
    rw [hce] at this ⊢
    simpa [hcid] using this
  · refine hrest.2 (s34.1 (s23.1 (h12.1 hT))) ?_ l hl
    rw [ASTVisitor.ids_modifyInfo _ _ _ hgid,
      ASTVisitor.ids_modifyInfo _ _ _ (fun i => (emplaceSpecializedMember_keeps _ i).1)]
    exact hP

theorem buildWith_steady (v : ASTVisitor) (I : SymbolID) (created : Bool)
    (augment : Info → Info) (firstBuild getParents : ASTVisitor → Except Fault ASTVisitor)
    (hid : ∀ i, (augment i).id = i.id) (hl : ∀ i, (augment i).lists = i.lists)
    (hfb : ∀ u, SteadyStep u (firstBuild u)) (hgp : ∀ u, SteadyStep u (getParents u)) :
    SteadyStep v (v.buildWith I created augment firstBuild getParents) := by
  have hq := steady_calm v I augment hid hl
  intro w hw
  unfold ASTVisitor.buildWith at hw
  simp only [] at hw
  split at hw
  · simp only [Except.ok.injEq] at hw
    subst hw
    exact hq
  · split at hw
    · cases hw
    · rename_i u hX
      have h1 : Steady (v.modifyInfo I augment) ((v.modifyInfo I augment).logFirstBuild I) :=
        steady_of_info rfl
      exact steady_trans hq (steady_trans h1 (steady_trans (hfb _ u hX) (hgp u w hw)))

theorem parentsSteady_loop (n : Nat) (ih : ParentsSteady n) :
    ∀ (v w : ASTVisitor) I child ctx, 4 * DeclContext.size ctx + 1 ≤ n + 1 →
      v.getParentNamespacesLoop I child ctx = Except.ok w →
      Steady v w ∧ (v.Tidy → child ∈ v.ids → ∀ l ∈ ctx.parentLinks child, Linked w l) := by
  obtain ⟨ihS, ihN, ihR, ihG, ihL⟩ := ih
  intro v w I child ctx hle h
  cases ctx with
  | TranslationUnit =>
    rw [ASTVisitor.getParentNamespacesLoop] at h
    simp only [] at h
    split at h
    · cases h
    · rename_i v1 i c hX
      simp only [Except.ok.injEq] at h
      subst h
      exact link_step _ (by intro _; rfl) (by intro _; rfl) (steady_getOrCreateInfo hX)
        (getOrCreateInfo_chains hX).2.1
        ⟨steady_refl _, fun _ _ l hl => by cases hl⟩
  | Namespace D p =>
    rw [ASTVisitor.getParentNamespacesLoop] at h
    simp only [DeclContext.size] at hle
    simp only [] at h
    split at h
    · cases h
    · rename_i v1 i c hX
      split at h
      · cases h
      · rename_i v2 hY
        have h12 := ihN v1 _ c D p (by omega) v2 hY
        exact link_step _ (by intro _; rfl) (by intro _; rfl)
          (steady_trans (steady_getOrCreateInfo hX) h12)
          (grows_ids h12.2 (getOrCreateInfo_chains hX).2.1)
          (ihL _ w I _ p (by omega) h)
  | ClassTemplateSpecialization D p =>
    rw [ASTVisitor.getParentNamespacesLoop] at h
    simp only [DeclContext.size] at hle
    simp only [] at h
    split at h
    · rename_i himp
      split at h
      · cases h
      · rename_i v1 i c hX
        split at h
        · cases h
        · rename_i v2 hY
          have h12 := ihS v1 _ c D p (by omega) v2 hY
          simp only [DeclContext.parentLinks, himp]
          exact link_step_pair _ (by intro _; rfl) (by intro _; rfl)
            (steady_trans (steady_getOrCreateInfo hX) h12)
            (grows_ids h12.2 (getOrCreateInfo_chains hX).2.1)
            (ihL _ w I _ p (by omega) h)
    · rename_i himp
      split at h
      · cases h
      · rename_i v1 i c hX
        split at h
        · cases h
        · rename_i v2 hY
          have h12 := ihR v1 _ c D p (by omega) v2 hY
          simp only [DeclContext.parentLinks, himp]
          exact link_step _ (by intro _; rfl) (by intro _; rfl)
            (steady_trans (steady_getOrCreateInfo hX) h12)
            (grows_ids h12.2 (getOrCreateInfo_chains hX).2.1)
            (ihL _ w I _ p (by omega) h)
  | ClassTemplatePartialSpecialization D p =>
    rw [ASTVisitor.getParentNamespacesLoop] at h
    simp only [DeclContext.size] at hle
    simp only [] at h
    split at h
    · cases h
    · split at h
      · cases h
      · rename_i v1 i c hX
        split at h
        · cases h
        · rename_i v2 hY
          have h12 := ihR v1 _ c D p (by omega) v2 hY
          exact link_step _ (by intro _; rfl) (by intro _; rfl)
            (steady_trans (steady_getOrCreateInfo hX) h12)
            (grows_ids h12.2 (getOrCreateInfo_chains hX).2.1)
            (ihL _ w I _ p (by omega) h)
  | CXXRecord D p =>
    rw [ASTVisitor.getParentNamespacesLoop] at h
    simp only [DeclContext.size] at hle
    simp only [] at h
    split at h
    · cases h
    · rename_i v1 i c hX
      split at h
      · cases h
      · rename_i v2 hY
        have h12 := ihR v1 _ c D p (by omega) v2 hY
        exact link_step _ (by intro _; rfl) (by intro _; rfl)
          (steady_trans (steady_getOrCreateInfo hX) h12)
          (grows_ids h12.2 (getOrCreateInfo_chains hX).2.1)
          (ihL _ w I _ p (by omega) h)
  | Other p =>
    rw [ASTVisitor.getParentNamespacesLoop] at h
    simp only [DeclContext.size] at hle
    exact ihL v w I child p (by omega) h

theorem parentsSteady_getParentNamespaces (n : Nat) (ih : ParentsSteady n) :
    ∀ (v w : ASTVisitor) I ctx, 4 * DeclContext.size ctx + 2 ≤ n + 1 →
      v.getParentNamespaces I ctx = Except.ok w →
      Steady v w ∧ (v.Tidy → ∀ l ∈ ctx.parentLinks I, Linked w l) := by
  intro v w I ctx hle h
  rw [ASTVisitor.getParentNamespaces] at h
  split at h
  · cases h
  · rename_i i hi
    split at h
    · cases h
    · obtain ⟨h1, h2⟩ := ih.2.2.2.2 v w I I ctx (by omega) h
      exact ⟨h1, fun hT => h2 hT ((mem_ids_iff v I).2 (by rw [hi]; exact Option.some_ne_none _))⟩

theorem parentsSteady_buildSpecialization (n : Nat) (ih : ParentsSteady n) :
    ∀ (v : ASTVisitor) I created D ctx, 4 * DeclContext.size ctx + 3 ≤ n + 1 →
      SteadyStep v (v.buildSpecialization I created D ctx) := by
  intro v I created D ctx hle
  rw [ASTVisitor.buildSpecialization]
  exact buildWith_steady v I created _ _ _ (fun _ => rfl) (fun _ => rfl)
    (firstBuildSpecialization_steady I D)
    (fun u w hw => (ih.2.2.2.1 u w I ctx (by omega) hw).1)

theorem parentsSteady_buildNamespace (n : Nat) (ih : ParentsSteady n) :
    ∀ (v : ASTVisitor) I created D ctx, 4 * DeclContext.size ctx + 3 ≤ n + 1 →
      SteadyStep v (v.buildNamespace I created D ctx) := by
  intro v I created D ctx hle
  rw [ASTVisitor.buildNamespace]
  exact buildWith_steady v I created _ _ _ (fun _ => rfl) (fun _ => rfl)
    (firstBuildNamespace_steady I D)
    (fun u w hw => (ih.2.2.2.1 u w I ctx (by omega) hw).1)

theorem parentsSteady_buildRecord (n : Nat) (ih : ParentsSteady n) :
    ∀ (v : ASTVisitor) I created D ctx, 4 * DeclContext.size ctx + 3 ≤ n + 1 →
      SteadyStep v (v.buildRecord I created D ctx) := by
  intro v I created D ctx hle
  rw [ASTVisitor.buildRecord]
  exact buildWith_steady v I created _ _ _ (fun _ => rfl) (fun _ => rfl)
    (firstBuildRecord_steady I D)
    (fun u w hw => (ih.2.2.2.1 u w I ctx (by omega) hw).1)

/-- The build steps of the parents and `getParentNamespaces` keep the member
lists tidy and lose no member, and `getParentNamespaces` links every entity
of the chain in the next one outward. -/
theorem parentsSteady_all : ∀ n, ParentsSteady n := by
  intro n
  induction n with
  | zero =>
    refine ⟨?_, ?_, ?_, ?_, ?_⟩
    · intro v I created D ctx h; omega
    · intro v I created D ctx h; omega
    · intro v I created D ctx h; omega
    · intro v w I ctx h; omega
    · intro v w I child ctx h; omega
  | succ n ih =>
    exact ⟨parentsSteady_buildSpecialization n ih, parentsSteady_buildNamespace n ih,
      parentsSteady_buildRecord n ih, parentsSteady_getParentNamespaces n ih,
      parentsSteady_loop n ih⟩

theorem getParentNamespaces_steady (v : ASTVisitor) (I : SymbolID) (ctx : DeclContext) :
    SteadyStep v (v.getParentNamespaces I ctx) :=
  fun w hw => ((parentsSteady_all _).2.2.2.1 v w I ctx (Nat.le_refl _) hw).1

theorem buildNamespace_steady (v : ASTVisitor) (I : SymbolID) (created : Bool)
    (D : NamespaceDecl) (ctx : DeclContext) :
    SteadyStep v (v.buildNamespace I created D ctx) :=
  (parentsSteady_all _).2.1 v I created D ctx (Nat.le_refl _)

theorem buildRecord_steady (v : ASTVisitor) (I : SymbolID) (created : Bool)
    (D : CXXRecordDecl) (ctx : DeclContext) :
    SteadyStep v (v.buildRecord I created D ctx) :=
  (parentsSteady_all _).2.2.1 v I created D ctx (Nat.le_refl _)

/-! ### The traversal keeps the member lists tidy -/

theorem steadyStep_trans {v u : ASTVisitor} {r : Except Fault ASTVisitor}
    (h : Steady v u) (hr : SteadyStep u r) : SteadyStep v r :=
  fun w hw => steady_trans h (hr w hw)

theorem steadyB_trans {v u : ASTVisitor} {r : Except Fault (Bool × ASTVisitor)}
    (h : Steady v u) (hr : SteadyB u r) : SteadyB v r :=
  fun b w hw => steady_trans h (hr b w hw)

theorem augmentVariable_lists (v : ASTVisitor) (D : VarDecl) (i : Info) :
    (v.augmentVariable D i).lists = i.lists := by
  unfold ASTVisitor.augmentVariable
  simp only []
  split <;> rfl

theorem buildEnum_steady (v : ASTVisitor) (I : SymbolID) (created : Bool) (D : EnumDecl)
    (ctx : DeclContext) : SteadyStep v (v.buildEnum I created D ctx) := by
  unfold ASTVisitor.buildEnum
  exact buildWith_steady v I created _ _ _ (fun i => (augmentEnum_keeps v D i).1)
    (fun _ => rfl) (firstBuildEnum_steady I D) (fun u => getParentNamespaces_steady u I ctx)

theorem buildTypedef_steady (v : ASTVisitor) (I : SymbolID) (created : Bool)
    (D : TypedefNameDecl) (ctx : DeclContext) :
    SteadyStep v (v.buildTypedef I created D ctx) := by
  unfold ASTVisitor.buildTypedef
  exact buildWith_steady v I created _ _ _ (fun i => (augmentTypedef_keeps v D i).1)
    (fun _ => rfl) (firstBuildTypedef_steady I D) (fun u => getParentNamespaces_steady u I ctx)

theorem buildVariable_steady (v : ASTVisitor) (I : SymbolID) (created : Bool) (D : VarDecl)
    (ctx : DeclContext) : SteadyStep v (v.buildVariable I created D ctx) := by
  unfold ASTVisitor.buildVariable
  exact buildWith_steady v I created _ _ _ (fun i => (augmentVariable_keeps v D i).1)
    (augmentVariable_lists v D) (firstBuildVariable_steady I D)
    (fun u => getParentNamespaces_steady u I ctx)

theorem buildField_steady (v : ASTVisitor) (I : SymbolID) (created : Bool) (D : FieldDecl)
    (ctx : DeclContext) : SteadyStep v (v.buildField I created D ctx) := by
  unfold ASTVisitor.buildField
  exact buildWith_steady v I created _ _ _ (fun i => (augmentField_keeps v D i).1)
    (fun _ => rfl) (firstBuildField_steady I D) (fun u => getParentNamespaces_steady u I ctx)

theorem buildFunction_steady (v : ASTVisitor) (I : SymbolID) (created : Bool)
    (D : FunctionDecl) (ctx : DeclContext) :
    SteadyStep v (v.buildFunction I created D ctx) := by
  unfold ASTVisitor.buildFunction
  exact buildWith_steady v I created _ _ _ (fun i => (augmentFunction_keeps v D i).1)
    (fun _ => rfl) (firstBuildFunction_steady I D) (fun u => getParentNamespaces_steady u I ctx)

theorem buildFriend_steady (v : ASTVisitor) (D : FriendDecl) :
    SteadyStep v (v.buildFriend D) := by
  unfold ASTVisitor.buildFriend
  split
  · rename_i FD ctx htarget
    simp only []
    have s1 := steady_shouldExtract v FD.toDeclBase
    split
    · exact steadyStep_ok s1
    · split
      · exact steadyStep_ok s1
      · rename_i id hid
        split
        · exact steadyStep_error _ _
        · rename_i w i c hX
          have s2 := steady_trans s1 (steady_getOrCreateInfo hX)
          split
          · exact steadyStep_error _ _
          · rename_i u hY
            have s3 := steady_trans s2 (buildFunction_steady w id c FD ctx u hY)
            split
            · exact steadyStep_error _ _
            · split
              · split
                · exact steadyStep_error _ _
                · exact steadyStep_modify s3 _ _ (fun _ => rfl) (fun _ => rfl)
              · exact steadyStep_ok s3
  · exact steadyStep_ok (steady_refl v)
  · exact steadyStep_ok (steady_refl v)
  · exact steadyStep_error _ _
  · exact steadyStep_ok (steady_refl v)
  · exact steadyStep_error _ _

theorem traverseNamespace_steady (v : ASTVisitor) (D : NamespaceDecl) (ctx : DeclContext)
    (traverseMembers : ASTVisitor → Except Fault (Bool × ASTVisitor))
    (hM : ∀ u, SteadyB u (traverseMembers u)) :
    SteadyB v (v.traverseNamespace D ctx traverseMembers) := by
  unfold ASTVisitor.traverseNamespace
  simp only []
  have s1 := steady_shouldExtract v D.toDeclBase
  split
  · exact steadyB_ok s1
  · split
    · exact steadyB_ok s1
    · split
      · exact steadyB_ok s1
      · rename_i id hid
        split
        · exact steadyB_error _ _
        · rename_i w i c hX
          have s2 := steady_trans s1 (steady_getOrCreateInfo hX)
          split
          · exact steadyB_error _ _
          · rename_i u hY
            exact steadyB_trans (steady_trans s2 (buildNamespace_steady w id c D ctx u hY))
              (hM u)

theorem traverseEnum_steady (v : ASTVisitor) (D : EnumDecl) (ctx : DeclContext) :
    SteadyB v (v.traverseEnum D ctx) := by
  unfold ASTVisitor.traverseEnum
  simp only []
  have s1 := steady_shouldExtract v D.toDeclBase
  split
  · exact steadyB_ok s1
  · split
    · exact steadyB_ok s1
    · rename_i id hid
      split
      · exact steadyB_error _ _
      · rename_i w i c hX
        have s2 := steady_step (steady_trans s1 (steady_getOrCreateInfo hX)) id
          (fun i => { i with Access := D.getAccessUnsafe }) (fun _ => rfl) (fun _ => rfl)
        split
        · exact steadyB_error _ _
        · rename_i u hY
          exact steadyB_ok (steady_trans s2 (buildEnum_steady _ id c D ctx u hY))

theorem traverseField_steady (v : ASTVisitor) (D : FieldDecl) (ctx : DeclContext) :
    SteadyB v (v.traverseField D ctx) := by
  unfold ASTVisitor.traverseField
  simp only []
  have s1 := steady_shouldExtract v D.toDeclBase
  split
  · exact steadyB_ok s1
  · split
    · exact steadyB_ok s1
    · rename_i id hid
      split
      · exact steadyB_error _ _
      · rename_i w i c hX
        have s2 := steady_step (steady_trans s1 (steady_getOrCreateInfo hX)) id
          (fun i => { i with Access := D.getAccessUnsafe }) (fun _ => rfl) (fun _ => rfl)
        split
        · exact steadyB_error _ _
        · rename_i u hY
          exact steadyB_ok (steady_trans s2 (buildField_steady _ id c D ctx u hY))

theorem traverseFriend_steady (v : ASTVisitor) (D : FriendDecl) :
    SteadyB v (v.traverseFriend D) := by
  unfold ASTVisitor.traverseFriend
  split
  · exact steadyB_error _ _
  · rename_i u hY
    exact steadyB_ok (buildFriend_steady v D u hY)

theorem traverseRecord_steady (v : ASTVisitor) (D : CXXRecordDecl) (CTD : Option TemplateDecl)
    (ctx : DeclContext) (traverseMembers : ASTVisitor → Except Fault (Bool × ASTVisitor))
    (hM : ∀ u, SteadyB u (traverseMembers u)) :
    SteadyB v (v.traverseRecord D CTD ctx traverseMembers) := by
  unfold ASTVisitor.traverseRecord
  simp only []
  have s1 := steady_shouldExtract v D.toDeclBase
  split
  · exact steadyB_ok s1
  · split
    · exact steadyB_ok s1
    · rename_i id hid
      split
      · exact steadyB_error _ _
      · rename_i w i c hX
        have s2 := steady_trans s1 (steady_getOrCreateInfo hX)
        split
        · exact steadyB_error _ _
        · rename_i x hZ
          have s3 := steady_trans s2 (parseTemplateHead_steady w id D.getAccessUnsafe CTD
            D.specialization D.partialParameters x hZ)
          split
          · exact steadyB_error _ _
          · rename_i u hY
            exact steadyB_trans (steady_trans s3 (buildRecord_steady x id c D ctx u hY)) (hM u)

theorem traverseVar_steady (v : ASTVisitor) (D : VarDecl) (VTD : Option TemplateDecl)
    (ctx : DeclContext) : SteadyB v (v.traverseVar D VTD ctx) := by
  unfold ASTVisitor.traverseVar
  simp only []
  have s1 := steady_shouldExtract v D.toDeclBase
  split
  · exact steadyB_ok s1
  · split
    · exact steadyB_ok s1
    · rename_i id hid
      split
      · exact steadyB_error _ _
      · rename_i w i c hX
        have s2 := steady_trans s1 (steady_getOrCreateInfo hX)
        split
        · exact steadyB_error _ _
        · rename_i x hZ
          have s3 := steady_trans s2 (parseTemplateHead_steady w id D.getAccessUnsafe VTD
            D.specialization D.partialParameters x hZ)
          split
          · exact steadyB_error _ _
          · rename_i u hY
            exact steadyB_ok (steady_trans s3 (buildVariable_steady x id c D ctx u hY))

theorem traverseFunction_steady (v : ASTVisitor) (D : FunctionDecl)
    (FTD : Option TemplateDecl) (ctx : DeclContext) :
    SteadyB v (v.traverseFunction D FTD ctx) := by
  unfold ASTVisitor.traverseFunction
  simp only []
  have s1 := steady_shouldExtract v D.toDeclBase
  split
  · exact steadyB_ok s1
  · split
    · exact steadyB_ok s1
    · rename_i id hid
      split
      · exact steadyB_error _ _
      · rename_i w i c hX
        have s2 := steady_trans s1 (steady_getOrCreateInfo hX)
        split
        · exact steadyB_error _ _
        · rename_i x hZ
          have s3 := steady_trans s2 (parseFunctionTemplateHead_steady w id D FTD x hZ)
          split
          · exact steadyB_error _ _
          · rename_i u hY
            exact steadyB_ok (steady_trans s3 (buildFunction_steady x id c D ctx u hY))

theorem traverseTypedef_steady (v : ASTVisitor) (D : TypedefNameDecl)
    (ATD : Option TemplateDecl) (ctx : DeclContext) :
    SteadyB v (v.traverseTypedef D ATD ctx) := by
  unfold ASTVisitor.traverseTypedef
  simp only []
  have s1 := steady_shouldExtract v D.toDeclBase
  split
  · exact steadyB_ok s1
  · split
    · exact steadyB_ok s1
    · rename_i id hid
      split
      · exact steadyB_error _ _
      · rename_i w i c hX
        have s2 := steady_trans s1 (steady_getOrCreateInfo hX)
        have hU : Steady w (if D.isTypeAliasDecl = true then
            w.modifyInfo id (fun i => { i with IsUsing := true }) else w) := by
          split
          · exact steady_calm _ _ _ (fun _ => rfl) (fun _ => rfl)
          · exact steady_refl w
        split
        · exact steadyB_error _ _
        · rename_i x hZ
          have s3 := steady_trans (steady_trans s2 hU)
            (parseTemplateHead_steady _ id D.getAccessUnsafe ATD none none x hZ)
          split
          · exact steadyB_error _ _
          · rename_i u hY
            exact steadyB_ok (steady_trans s3 (buildTypedef_steady x id c D ctx u hY))

theorem traverseSteady_decl (n : Nat) (ih : TraverseSteady n) :
    ∀ (v : ASTVisitor) D TD, 2 * Decl.size D + 1 ≤ n + 1 →
      SteadyB v (v.traverseDecl D TD) := by
  obtain ⟨ihD, ihC⟩ := ih
  intro v D TD hle
  have hv : ∀ b, SteadyB v (Except.ok (b, v)) := fun b => steadyB_ok (steady_refl v)
  cases D with
  | TranslationUnit decls =>
    rw [ASTVisitor.traverseDecl]
    simp only [Decl.size] at hle
    exact steadyB_dropResult (ihC v decls (by omega))
  | Namespace D ctx decls =>
    rw [ASTVisitor.traverseDecl.eq_def]
    simp only []
    simp only [Decl.size] at hle
    split
    · exact hv _
    · split
      · exact steadyB_dropResult (traverseNamespace_steady v D ctx _
          (fun u => ihC u decls (by omega)))
      · exact steadyB_dropResult (ihC v decls (by omega))
  | Enum D ctx =>
    rw [ASTVisitor.traverseDecl.eq_def]
    simp only []
    split
    · exact hv _
    · split
      · exact steadyB_dropResult (traverseEnum_steady v D ctx)
      · exact hv _
  | Field D ctx =>
    rw [ASTVisitor.traverseDecl.eq_def]
    simp only []
    split
    · exact hv _
    · split
      · exact steadyB_dropResult (traverseField_steady v D ctx)
      · exact hv _
  | Friend D =>
    rw [ASTVisitor.traverseDecl.eq_def]
    simp only []
    split
    · exact hv _
    · split
      · exact steadyB_dropResult (traverseFriend_steady v D)
      · exact hv _
  | ClassScopeFunctionSpecialization base MD =>
    rw [ASTVisitor.traverseDecl.eq_def]
    simp only []
    simp only [Decl.size] at hle
    split
    · exact hv _
    · split
      · have s1 := steady_shouldExtract v base
        split
        · exact steadyB_ok s1
        · exact steadyB_dropResult (steadyB_trans s1 (ihD _ MD none (by omega)))
      · exact hv _
  | CXXRecord D ctx decls =>
    rw [ASTVisitor.traverseDecl]
    simp only [Decl.size] at hle
    split
    · exact hv _
    · exact steadyB_dropResult (traverseRecord_steady v D _ ctx _
        (fun u => ihC u decls (by omega)))
  | Var D ctx =>
    rw [ASTVisitor.traverseDecl]
    split
    · exact hv _
    · exact steadyB_dropResult (traverseVar_steady v D _ ctx)
  | Function D ctx =>
    rw [ASTVisitor.traverseDecl]
    split
    · exact hv _
    · exact steadyB_dropResult (traverseFunction_steady v D _ ctx)
  | TypedefName D ctx =>
    rw [ASTVisitor.traverseDecl]
    split
    · exact hv _
    · exact steadyB_dropResult (traverseTypedef_steady v D _ ctx)
  | RedeclarableTemplate base T templated =>
    rw [ASTVisitor.traverseDecl]
    simp only [Decl.size] at hle
    split
    · exact hv _
    · exact steadyB_dropResult (ihD v templated (some T) (by omega))
  | Other base decls =>
    cases decls with
    | none =>
      rw [ASTVisitor.traverseDecl]
      split <;> exact hv _
    | some decls =>
      rw [ASTVisitor.traverseDecl]
      simp only [Decl.size] at hle
      split
      · exact hv _
      · exact steadyB_dropResult (ihC v decls (by omega))

theorem traverseSteady_context (n : Nat) (ih : TraverseSteady n) :
    ∀ (v : ASTVisitor) decls, 2 * Decl.listSize decls ≤ n + 1 →
      SteadyB v (v.traverseContext decls) := by
  obtain ⟨ihD, ihC⟩ := ih
  intro v decls hle
  cases decls with
  | nil => rw [ASTVisitor.traverseContext]; exact steadyB_ok (steady_refl v)
  | cons C rest =>
    rw [ASTVisitor.traverseContext]
    simp only [Decl.listSize] at hle
    have hB := ihD v C none (by omega)
    split
    · exact steadyB_error _ _
    · rename_i r w hX
      have hw := hB r w hX
      split
      · exact steadyB_ok hw
      · exact steadyB_trans hw (ihC w rest (by omega))

/-- The traversal keeps the member lists tidy and loses no member, whatever
the input. -/
theorem traverseSteady_all : ∀ n, TraverseSteady n := by
  intro n
  induction n with
  | zero =>
    refine ⟨?_, ?_⟩
    · intro v D TD h; omega
    · intro v decls h
      cases decls with
      | nil => rw [ASTVisitor.traverseContext]; exact steadyB_ok (steady_refl v)
      | cons C rest => simp only [Decl.listSize] at h; omega
  | succ n ih => exact ⟨traverseSteady_decl n ih, traverseSteady_context n ih⟩

theorem traverseDecl_steady (v : ASTVisitor) (D : Decl) (TD : Option TemplateDecl) :
    SteadyB v (v.traverseDecl D TD) :=
  (traverseSteady_all _).1 v D TD (Nat.le_refl _)

theorem tidy_init (config : ConfigImpl) : (ASTVisitor.init config).Tidy := by
  intro i hi; cases hi

theorem parentLinks_parents : ∀ (ctx : DeclContext) (c : SymbolID),
    (ctx.parentLinks c).map (fun l => some l.2.1) = DeclContext.parentIds ctx
  | DeclContext.TranslationUnit, c => rfl
  | DeclContext.Namespace D p, c => by
    simp [DeclContext.parentLinks, DeclContext.parentIds, parentLinks_parents p]
  | DeclContext.ClassTemplateSpecialization D p, c => by
    simp [DeclContext.parentLinks, DeclContext.parentIds, parentLinks_parents p]
  | DeclContext.ClassTemplatePartialSpecialization D p, c => by
    simp [DeclContext.parentLinks, DeclContext.parentIds, parentLinks_parents p]
  | DeclContext.CXXRecord D p, c => by
    simp [DeclContext.parentLinks, DeclContext.parentIds, parentLinks_parents p]
  | DeclContext.Other p, c => by
    simp [DeclContext.parentLinks, DeclContext.parentIds, parentLinks_parents p]

/-- The children of the links are the entity, then the parents but the
last. -/
theorem parentLinks_children : ∀ (ctx : DeclContext) (c : SymbolID),
    (ctx.parentLinks c).map (fun l => l.1) =
      c :: ((ctx.parentLinks c).map (fun l => l.2.1)).dropLast
  | DeclContext.TranslationUnit, c => rfl
  | DeclContext.Namespace D p, c => by
    have ih := parentLinks_children p (ASTVisitor.extractSymbolID D.toDeclBase)
    have hne : p.parentLinks (ASTVisitor.extractSymbolID D.toDeclBase) ≠ [] := by
      intro h; rw [h] at ih; cases ih
    simp only [DeclContext.parentLinks, List.map_cons, ih, List.cons.injEq, true_and]
    rw [List.dropLast_cons_of_ne_nil (by simpa using hne)]
  | DeclContext.ClassTemplateSpecialization D p, c => by
    have ih := parentLinks_children p (ASTVisitor.extractSymbolID D.toDeclBase)
    have hne : p.parentLinks (ASTVisitor.extractSymbolID D.toDeclBase) ≠ [] := by
      intro h; rw [h] at ih; cases ih
    simp only [DeclContext.parentLinks, List.map_cons, ih, List.cons.injEq, true_and]
    rw [List.dropLast_cons_of_ne_nil (by simpa using hne)]
  | DeclContext.ClassTemplatePartialSpecialization D p, c => by
    have ih := parentLinks_children p (ASTVisitor.extractSymbolID D.toDeclBase)
    have hne : p.parentLinks (ASTVisitor.extractSymbolID D.toDeclBase) ≠ [] := by
      intro h; rw [h] at ih; cases ih
    simp only [DeclContext.parentLinks, List.map_cons, ih, List.cons.injEq, true_and]
    rw [List.dropLast_cons_of_ne_nil (by simpa using hne)]
  | DeclContext.CXXRecord D p, c => by
    have ih := parentLinks_children p (ASTVisitor.extractSymbolID D.toDeclBase)
    have hne : p.parentLinks (ASTVisitor.extractSymbolID D.toDeclBase) ≠ [] := by
      intro h; rw [h] at ih; cases ih
    simp only [DeclContext.parentLinks, List.map_cons, ih, List.cons.injEq, true_and]
    rw [List.dropLast_cons_of_ne_nil (by simpa using hne)]
  | DeclContext.Other p, c => by
    simpa [DeclContext.parentLinks] using parentLinks_children p c

theorem exampleCreatedVisitor_tidy : exampleCreatedVisitor.Tidy := by
  intro i hi
  simp only [exampleCreatedVisitor, List.mem_singleton] at hi
  subst hi
  exact tidy_create _ _

/-- C27: started in a state whose member lists hold no element twice,
`getParentNamespaces` appends one parent entry for each enclosing context
that is a translation unit, a namespace, a record or a class template
(partial) specialization, innermost first, and none for a transparent
context; when it returns, the entity and each ancestor but the last appear
exactly once in the member list of the next entry (`Members`, or the pairs
of the specialization entity of an implicit instantiation), and this is
still so after any later call of `getParentNamespaces`, which makes its own
links. -/
theorem getParentNamespaces_links_the_chain (v w : ASTVisitor) (I : SymbolID)
    (ctx : DeclContext) (hT : v.Tidy) (h : v.getParentNamespaces I ctx = Except.ok w) :
    w.chainOf I = some ((ctx.parentLinks I).map (fun l => some l.2.1)) ∧
    (ctx.parentLinks I).map (fun l => l.1) =
      I :: ((ctx.parentLinks I).map (fun l => l.2.1)).dropLast ∧
    w.Tidy ∧ (∀ l ∈ ctx.parentLinks I, Linked w l) ∧
    ∀ (J : SymbolID) (ctx' : DeclContext) (w' : ASTVisitor),
      w.getParentNamespaces J ctx' = Except.ok w' →
      w'.Tidy ∧ (∀ l ∈ ctx.parentLinks I, Linked w' l) ∧
        ∀ l ∈ ctx'.parentLinks J, Linked w' l := by
  obtain ⟨hs, hl⟩ := (parentsSteady_all _).2.2.2.1 v w I ctx (Nat.le_refl _) h
  have hTw := hs.1 hT
  refine ⟨?_, parentLinks_children ctx I, hTw, hl hT, ?_⟩
  · rw [parentLinks_parents]
    exact ((parentsChain_all _).2.2.2.1 v w I ctx (Nat.le_refl _) h).2
  · intro J ctx' w' h'
    obtain ⟨hs', hl'⟩ := (parentsSteady_all _).2.2.2.1 w w' J ctx' (Nat.le_refl _) h'
    have hTw' := hs'.1 hTw
    exact ⟨hTw', fun l hm => linked_of_grows (hl hT l hm) hs'.2 hTw', hl' hTw⟩

/-- Witness for C27: for the enumeration `E` of
`namespace N { enum E { }; }`, `E` is linked in `N` and `N` in the global
namespace. -/
theorem getParentNamespaces_links_the_chain_witness :
    ∃ w, exampleCreatedVisitor.getParentNamespaces (SymbolID.fill 7)
        (DeclContext.Namespace exampleNamespace DeclContext.TranslationUnit) = Except.ok w ∧
      Linked w (SymbolID.fill 7, SymbolID.fill 1, false) ∧
      Linked w (SymbolID.fill 1, SymbolID.zero, false) :=
  exampleCreatedVisitor_parents.elim fun w hw =>
    ⟨w, hw,
      (getParentNamespaces_links_the_chain exampleCreatedVisitor w (SymbolID.fill 7) _
        exampleCreatedVisitor_tidy hw).2.2.2.1 _ (List.mem_cons_self _ _),
      (getParentNamespaces_links_the_chain exampleCreatedVisitor w (SymbolID.fill 7) _
        exampleCreatedVisitor_tidy hw).2.2.2.1 _
        (List.mem_cons_of_mem _ (List.mem_cons_self _ _))⟩

/-! ## The `Specializations` list of a parent -/

theorem emplaceChild_Members_eq (hs : Bool) (C : Option Info) (I : Info) :
    (ASTVisitor.emplaceChild hs C I).Members =
      if I.Members.contains (C.map Info.id) then I.Members
      else I.Members ++ [C.map Info.id] := by
  unfold ASTVisitor.emplaceChild
  simp only []
  by_cases hc : I.Members.contains (C.map Info.id) = true
  · simp only [hc, if_true]
    cases hs <;> cases C <;> simp_all
  · have hc' : C.map Info.id ∉ I.Members := by simpa using hc
    simp only [hc, if_false]
    cases hs
    · simp [hc']
    · cases C with
      | none =>
        have hn : (none : InfoPtr) ∉ I.Members := by simpa using hc'
        simp [hn]
      | some child =>
        have hn : some child.id ∉ I.Members := by simpa using hc'
        by_cases hk : child.Kind = InfoKind.Specialization
        · simp [hk, hn]
        · simp [hk, hn]

/-- C29: for every parent and child, a child of kind Specialization
included, `emplaceChild` leaves the `Specializations` list of the parent as
it is and appends the child to `Members` unless it is there already, once;
and in every walk of a fresh visitor the `Specializations` list of every
stored entity is empty and no `Members` list holds an element twice. -/
theorem emplaceChild_never_fills_specializations (hs : Bool) (C : Option Info) (I : Info)
    (config : ConfigImpl) (D : Decl) (TD : Option TemplateDecl) (b : Bool) (w : ASTVisitor)
    (h : (ASTVisitor.init config).traverseDecl D TD = Except.ok (b, w)) :
    (ASTVisitor.emplaceChild hs C I).Specializations = I.Specializations ∧
    (ASTVisitor.emplaceChild hs C I).Members =
      (if I.Members.contains (C.map Info.id) then I.Members
       else I.Members ++ [C.map Info.id]) ∧
    (I.Members.Nodup → (ASTVisitor.emplaceChild hs C I).Members.count (C.map Info.id) = 1) ∧
    ∀ e ∈ w.info_, e.Specializations = [] ∧ e.Members.Nodup := by
  refine ⟨(emplaceChild_Members hs C I).2.2.2, emplaceChild_Members_eq hs C I, ?_, ?_⟩
  · intro hn
    rw [emplaceChild_Members_eq]
    split
    · rename_i hc
      exact count_eq_one_of_nodup hn (by simpa using hc)
    · rename_i hc
      refine count_eq_one_of_nodup ?_ (by simp)
      rw [List.nodup_append]
      refine ⟨hn, List.nodup_singleton _, ?_⟩
      intro a ha hb
      simp only [List.mem_singleton] at hb
      subst hb
      exact hc (by simpa using ha)
  · intro e he
    have ht := ((traverseDecl_steady _ D TD) b w h).1 (tidy_init config) e he
    exact ⟨ht.1, ht.2.1⟩

/-- Witness for C29: a namespace without members that is given a child of
kind Specialization, and the walk of a translation unit with one
enumeration. -/
theorem emplaceChild_never_fills_specializations_witness :
    ∃ b w, (ASTVisitor.init {}).traverseDecl exampleUnit none = Except.ok (b, w) ∧
      (ASTVisitor.emplaceChild true (some (Info.create InfoKind.Specialization (SymbolID.fill 6)))
        (Info.create InfoKind.Namespace SymbolID.zero)).Specializations = [] ∧
      (ASTVisitor.emplaceChild true (some (Info.create InfoKind.Specialization (SymbolID.fill 6)))
        (Info.create InfoKind.Namespace SymbolID.zero)).Members = [some (SymbolID.fill 6)] ∧
      ∀ e ∈ w.info_, e.Specializations = [] ∧ e.Members.Nodup :=
  exampleUnit_walk.elim fun b hb => hb.elim fun w hw =>
    ⟨b, w, hw.1,
      (emplaceChild_never_fills_specializations true
        (some (Info.create InfoKind.Specialization (SymbolID.fill 6)))
        (Info.create InfoKind.Namespace SymbolID.zero) {} exampleUnit none b w hw.1).1,
      (emplaceChild_never_fills_specializations true
        (some (Info.create InfoKind.Specialization (SymbolID.fill 6)))
        (Info.create InfoKind.Namespace SymbolID.zero) {} exampleUnit none b w hw.1).2.1,
      (emplaceChild_never_fills_specializations true
        (some (Info.create InfoKind.Specialization (SymbolID.fill 6)))
        (Info.create InfoKind.Namespace SymbolID.zero) {} exampleUnit none b w hw.1).2.2.2⟩

end Mrdox
